import Mathlib

/-!
# iwnet HTTP server core: request parser and session driver

A shallow embedding of `src/http/http_server.c`.

* Bytes are natural numbers `0..255`.  The C code reads the buffer through a
  signed `char`; the only places where the sign matters are the classifier
  (`c < 0 ? HS_ETC : _ctype[c]`, here: bytes `>= 128` are `HS_ETC`) and the
  comparisons of `MATCH`, which can never succeed for a byte `>= 128`.
* C integers are `Int`.  `int16_t` fields are wrapped with `toInt16` where the
  code increments them, and the `int offset` parameter of `_stream_jump` is
  wrapped with `toInt32`.  Offsets into the read buffer are bounded by
  `request_buf_max_size` and are not wrapped.
* Bit flags (`stream.flags`, `client.flags`) are records of booleans, one per
  bit.
* Every function takes the state it reads and returns the state it leaves.
-/

namespace Iwnet

set_option maxRecDepth 100000

/-! ## Enumerations -/

/-- The `enum token_e` of the source. -/
inductive token_e where
  | HS_TOK_NONE | HS_TOK_METHOD | HS_TOK_TARGET | HS_TOK_VERSION
  | HS_TOK_HEADER_KEY | HS_TOK_HEADER_VAL | HS_TOK_CHUNK_BODY | HS_TOK_BODY
  | HS_TOK_BODY_STREAM | HS_TOK_REQ_END | HS_TOK_EOF | HS_TOK_ERROR
deriving DecidableEq, Repr

/-- The `enum char_type_e` of the source (without the length marker). -/
inductive char_type_e where
  | HS_SPC | HS_NL | HS_CR | HS_COLN | HS_TAB | HS_SCOLN
  | HS_DIGIT | HS_HEX | HS_ALPHA | HS_TCHAR | HS_VCHAR | HS_ETC
deriving DecidableEq, Repr

/-- The `enum meta_state_e` of the source. -/
inductive meta_state_e where
  | M_WFK | M_ANY | M_MTE | M_MCL | M_CLV | M_MCK | M_SML | M_CHK | M_BIG | M_ZER | M_CSZ
  | M_CBD | M_LST | M_STR | M_SEN | M_BDY | M_END | M_ERR
deriving DecidableEq, Repr

/-- The `enum state_e` of the source (without the length marker). -/
inductive state_e where
  | ST | MT | MS | TR | TS | VN | RR | RN | HK | HS | HV | HR | HE
  | ER | HN | BD | CS | CB | CE | CR | CN | CD | C1 | C2 | BR
deriving DecidableEq, Repr

open token_e char_type_e meta_state_e state_e

/-- Numeric value of a character class (its position in the enum). -/
def char_type_e.toNat : char_type_e → Nat
  | HS_SPC => 0 | HS_NL => 1 | HS_CR => 2 | HS_COLN => 3 | HS_TAB => 4 | HS_SCOLN => 5
  | HS_DIGIT => 6 | HS_HEX => 7 | HS_ALPHA => 8 | HS_TCHAR => 9 | HS_VCHAR => 10 | HS_ETC => 11

/-- Numeric value of a meta state (its position in the enum). -/
def meta_state_e.toNat : meta_state_e → Nat
  | M_WFK => 0 | M_ANY => 1 | M_MTE => 2 | M_MCL => 3 | M_CLV => 4 | M_MCK => 5
  | M_SML => 6 | M_CHK => 7 | M_BIG => 8 | M_ZER => 9 | M_CSZ => 10 | M_CBD => 11
  | M_LST => 12 | M_STR => 13 | M_SEN => 14 | M_BDY => 15 | M_END => 16 | M_ERR => 17

/-- Numeric value of a character state (its position in the enum). -/
def state_e.toNat : state_e → Nat
  | ST => 0 | MT => 1 | MS => 2 | TR => 3 | TS => 4 | VN => 5 | RR => 6 | RN => 7
  | HK => 8 | HS => 9 | HV => 10 | HR => 11 | HE => 12 | ER => 13 | HN => 14 | BD => 15
  | CS => 16 | CB => 17 | CE => 18 | CR => 19 | CN => 20 | CD => 21 | C1 => 22 | C2 => 23
  | BR => 24

/-- `HS_CHAR_TYPE_LEN`. -/
def HS_CHAR_TYPE_LEN : Nat := 12
/-- `HS_META_TYPE_LEN`. -/
def HS_META_TYPE_LEN : Nat := 6

/-! Meta events.  The source aliases several names to the same column. -/

def HS_META_NOT_CONTENT_LEN : Nat := 0
def HS_META_NOT_TRANSFER_ENC : Nat := 1
def HS_META_END_KEY : Nat := 2
def HS_META_END_VALUE : Nat := 3
def HS_META_END_HEADERS : Nat := 4
def HS_META_LARGE_BODY : Nat := 5
def HS_META_NOT_CHUNKED : Nat := 0
def HS_META_NON_ZERO : Nat := 0
def HS_META_END_CHK_SIZE : Nat := 1
def HS_META_END_CHUNK : Nat := 2
def HS_META_NEXT : Nat := 0

/-! ## Tables -/

/-- The table `_transitions`: 24 rows (ST .. C2) of 12 character classes. -/
def _transitions : List state_e := [
  /- ST -/ BR, BR, BR, BR, BR, BR, BR, MT, MT, MT, BR, BR,
  /- MT -/ MS, BR, BR, BR, BR, BR, MT, MT, MT, MT, BR, BR,
  /- MS -/ BR, BR, BR, BR, BR, BR, TR, TR, TR, TR, TR, BR,
  /- TR -/ TS, BR, BR, TR, BR, TR, TR, TR, TR, TR, TR, BR,
  /- TS -/ BR, BR, BR, BR, BR, BR, VN, VN, VN, VN, VN, BR,
  /- VN -/ BR, BR, RR, BR, BR, BR, VN, VN, VN, VN, VN, BR,
  /- RR -/ BR, RN, BR, BR, BR, BR, BR, BR, BR, BR, BR, BR,
  /- RN -/ BR, BR, BR, BR, BR, BR, HK, HK, HK, HK, BR, BR,
  /- HK -/ BR, BR, BR, HS, BR, BR, HK, HK, HK, HK, BR, BR,
  /- HS -/ HS, HS, HS, HV, HS, HV, HV, HV, HV, HV, HV, BR,
  /- HV -/ HV, BR, HR, HV, HV, HV, HV, HV, HV, HV, HV, BR,
  /- HR -/ BR, HE, BR, BR, BR, BR, BR, BR, BR, BR, BR, BR,
  /- HE -/ BR, BR, ER, BR, BR, BR, HK, HK, HK, HK, BR, BR,
  /- ER -/ BR, HN, BR, BR, BR, BR, BR, BR, BR, BR, BR, BR,
  /- HN -/ BD, BD, BD, BD, BD, BD, BD, BD, BD, BD, BD, BD,
  /- BD -/ BD, BD, BD, BD, BD, BD, BD, BD, BD, BD, BD, BD,
  /- CS -/ BR, BR, CR, BR, BR, CE, CS, CS, BR, BR, BR, BR,
  /- CB -/ CB, CB, CB, CB, CB, CB, CB, CB, CB, CB, CB, CB,
  /- CE -/ BR, BR, CR, CE, CE, CE, CE, CE, CE, CE, CE, BR,
  /- CR -/ BR, CN, BR, BR, BR, BR, BR, BR, BR, BR, BR, BR,
  /- CN -/ CB, CB, CB, CB, CB, CB, CB, CB, CB, CB, CB, CB,
  /- CD -/ BR, BR, C1, BR, BR, BR, BR, BR, BR, BR, BR, BR,
  /- C1 -/ BR, C2, BR, BR, BR, BR, BR, BR, BR, BR, BR, BR,
  /- C2 -/ BR, BR, BR, BR, BR, BR, CS, CS, BR, BR, BR, BR]

/-- The table `_meta_transitions`: 17 rows (M_WFK .. M_END) of 6 events. -/
def _meta_transitions : List meta_state_e := [
  /- WFK -/ M_WFK, M_WFK, M_WFK, M_ANY, M_END, M_ERR,
  /- ANY -/ M_MTE, M_MCL, M_WFK, M_ERR, M_END, M_ERR,
  /- MTE -/ M_MTE, M_WFK, M_MCK, M_ERR, M_ERR, M_ERR,
  /- MCL -/ M_WFK, M_MCL, M_CLV, M_ERR, M_ERR, M_ERR,
  /- CLV -/ M_ERR, M_ERR, M_ERR, M_SML, M_ERR, M_ERR,
  /- MCK -/ M_WFK, M_ERR, M_ERR, M_CHK, M_ERR, M_ERR,
  /- SML -/ M_SML, M_SML, M_SML, M_SML, M_BDY, M_BIG,
  /- CHK -/ M_CHK, M_CHK, M_CHK, M_CHK, M_ZER, M_ERR,
  /- BIG -/ M_BIG, M_BIG, M_BIG, M_BIG, M_STR, M_ERR,
  /- ZER -/ M_CSZ, M_LST, M_ERR, M_ERR, M_ERR, M_ERR,
  /- CSZ -/ M_CSZ, M_CBD, M_ERR, M_ERR, M_ERR, M_ERR,
  /- CBD -/ M_CBD, M_CBD, M_ZER, M_ERR, M_ERR, M_ERR,
  /- LST -/ M_LST, M_END, M_END, M_ERR, M_ERR, M_ERR,
  /- STR -/ M_SEN, M_ERR, M_ERR, M_ERR, M_ERR, M_ERR,
  /- SEN -/ M_END, M_ERR, M_ERR, M_ERR, M_ERR, M_ERR,
  /- BDY -/ M_END, M_ERR, M_ERR, M_ERR, M_ERR, M_ERR,
  /- END -/ M_WFK, M_ERR, M_ERR, M_ERR, M_ERR, M_ERR]

/-- The table `_ctype`: the class of each of the 128 ASCII bytes. -/
def _ctype : List char_type_e := [
  HS_ETC,   HS_ETC,   HS_ETC,   HS_ETC,   HS_ETC,   HS_ETC,   HS_ETC,
  HS_ETC,   HS_ETC,   HS_TAB,   HS_NL,    HS_ETC,   HS_ETC,   HS_CR,
  HS_ETC,   HS_ETC,   HS_ETC,   HS_ETC,   HS_ETC,   HS_ETC,   HS_ETC,
  HS_ETC,   HS_ETC,   HS_ETC,   HS_ETC,   HS_ETC,   HS_ETC,   HS_ETC,
  HS_ETC,   HS_ETC,   HS_ETC,   HS_ETC,   HS_SPC,   HS_TCHAR, HS_VCHAR,
  HS_TCHAR, HS_TCHAR, HS_TCHAR, HS_TCHAR, HS_TCHAR, HS_VCHAR, HS_VCHAR,
  HS_TCHAR, HS_TCHAR, HS_TCHAR, HS_TCHAR, HS_TCHAR, HS_VCHAR, HS_DIGIT,
  HS_DIGIT, HS_DIGIT, HS_DIGIT, HS_DIGIT, HS_DIGIT, HS_DIGIT, HS_DIGIT,
  HS_DIGIT, HS_DIGIT, HS_COLN,  HS_SCOLN, HS_VCHAR, HS_VCHAR, HS_VCHAR,
  HS_VCHAR, HS_VCHAR, HS_HEX,   HS_HEX,   HS_HEX,   HS_HEX,   HS_HEX,
  HS_HEX,   HS_ALPHA, HS_ALPHA, HS_ALPHA, HS_ALPHA, HS_ALPHA, HS_ALPHA,
  HS_ALPHA, HS_ALPHA, HS_ALPHA, HS_ALPHA, HS_ALPHA, HS_ALPHA, HS_ALPHA,
  HS_ALPHA, HS_ALPHA, HS_ALPHA, HS_ALPHA, HS_ALPHA, HS_ALPHA, HS_ALPHA,
  HS_VCHAR, HS_VCHAR, HS_VCHAR, HS_TCHAR, HS_TCHAR, HS_TCHAR, HS_HEX,
  HS_HEX,   HS_HEX,   HS_HEX,   HS_HEX,   HS_HEX,   HS_ALPHA, HS_ALPHA,
  HS_ALPHA, HS_ALPHA, HS_ALPHA, HS_ALPHA, HS_ALPHA, HS_ALPHA, HS_ALPHA,
  HS_ALPHA, HS_ALPHA, HS_ALPHA, HS_ALPHA, HS_ALPHA, HS_ALPHA, HS_ALPHA,
  HS_ALPHA, HS_ALPHA, HS_ALPHA, HS_ALPHA, HS_VCHAR, HS_TCHAR, HS_VCHAR,
  HS_TCHAR, HS_ETC]

/-- The table `_token_start_states`: the token that begins on entering a state
(24 entries, ST .. C2; a read past the table is modelled as no token). -/
def _token_start_states : state_e → token_e
  | MT => HS_TOK_METHOD
  | TR => HS_TOK_TARGET
  | VN => HS_TOK_VERSION
  | HK => HS_TOK_HEADER_KEY
  | HV => HS_TOK_HEADER_VAL
  | BD => HS_TOK_BODY
  | CB => HS_TOK_CHUNK_BODY
  | _ => HS_TOK_NONE

/-- Class of a byte: `c < 0 ? HS_ETC : _ctype[c]` for a signed `char`. -/
def ctype_of (c : Nat) : char_type_e := _ctype.getD c HS_ETC

/-- The lookup `_transitions[state * HS_CHAR_TYPE_LEN + type]`; a read past the
24 rows of the table (state `BR`) is modelled as `BR`. -/
def transitions_at (s : state_e) (t : char_type_e) : state_e :=
  _transitions.getD (s.toNat * HS_CHAR_TYPE_LEN + t.toNat) BR

/-- The lookup `_meta_transitions[meta * HS_META_TYPE_LEN + event]`; a read
past the 17 rows of the table (state `M_ERR`) is modelled as `M_ERR`. -/
def meta_transitions_at (m : meta_state_e) (event : Nat) : meta_state_e :=
  _meta_transitions.getD (m.toNat * HS_META_TYPE_LEN + event) M_ERR

/-! ## Machine integers -/

/-- Conversion to `int16_t` (two's complement wrap). -/
def toInt16 (x : Int) : Int := (x + 32768) % 65536 - 32768

/-- Conversion to `int` (32 bit, two's complement wrap). -/
def toInt32 (x : Int) : Int := (x + 2147483648) % 4294967296 - 2147483648

/-- ASCII bytes of a string literal. -/
def str (s : String) : List Nat := s.data.map Char.toNat

/-! ## Data model -/

/-- The `struct token` of the source. -/
structure token where
  index : Int := 0
  len : Int := 0
  type : token_e := HS_TOK_NONE
deriving DecidableEq, Repr

/-- The `struct tokens_buf` of the source.  `buf = none` is the null pointer;
otherwise the list holds the entries written so far. -/
structure tokens_buf where
  buf : Option (List token) := none
  capacity : Int := 0
  size : Int := 0
deriving DecidableEq, Repr

/-- The `struct stream` of the source.  `buf = none` is the null pointer;
otherwise the list is the memory the pointer refers to, byte 0 first (a byte
that was never written reads as 0).  `consumed` is the bit `HS_SF_CONSUMED`
of `flags`. -/
structure stream where
  buf : Option (List Nat) := none
  token : token := {}
  bytes_total : Int := 0
  capacity : Int := 0
  length : Int := 0
  index : Int := 0
  anchor : Int := 0
  consumed : Bool := false
deriving DecidableEq, Repr

/-- The `struct parser` of the source. -/
structure parser where
  content_length : Int := 0
  body_consumed : Int := 0
  match_index : Int := 0
  header_count : Int := 0
  state : state_e := ST
  meta : meta_state_e := M_WFK
deriving DecidableEq, Repr

/-- The `struct header` of the source: one node of the response header list. -/
structure header where
  name : List Nat
  value : List Nat
deriving DecidableEq, Repr

/-- The `struct response` of the source.  `headers` is the linked list, first
node first; `pool` tells whether the pool pointer is set; `body` is the memory
the body pointer refers to (`none` for the null pointer); `body_free` is the
deleter (`none` for the null pointer, otherwise an identifier of the
function). -/
structure response where
  headers : List header := []
  pool : Bool := false
  body : Option (List Nat) := none
  body_free : Option Nat := none
  body_len : Int := 0
  code : Int := 0
deriving DecidableEq, Repr

/-- Modelled from the spec: the fields of `struct iwn_http_server_spec`,
declared in `http_server.h`, which is not among the sources, that
`http_server.c` reads or writes.  The names are those used by `http_server.c`.
`request_handler` and `poller` tell whether the pointer is set; `listen`,
`certs_data` and `private_key` are the text the pointer refers to (`none` for
the null pointer). -/
structure iwn_http_server_spec where
  request_buf_size : Int := 1024
  request_buf_max_size : Int := 8388608
  request_timeout_sec : Int := 20
  request_timeout_keepalive_sec : Int := 120
  request_token_max_len : Int := 8192
  request_max_header_count : Int := 127
  response_buf_size : Int := 1024
  http_socket_queue_size : Int := 64
  request_handler : Bool := true
  poller : Bool := true
  listen : Option (List Nat) := some (str "localhost")
  port : Int := 8080
  certs_data : Option (List Nat) := none
  certs_data_len : Int := 0
  private_key : Option (List Nat) := none
  private_key_len : Int := 0
deriving DecidableEq, Repr

/-- The `struct server` of the source, as far as the session driver reads it:
the configuration and the cached second `stime`. -/
structure server where
  spec : iwn_http_server_spec := {}
  stime : Int := 0
deriving DecidableEq, Repr

/-- The session flags of `client.flags`, one boolean per bit. -/
structure client_flags where
  HTTP_KEEP_ALIVE : Bool := false
  HTTP_STREAMED : Bool := false
  HTTP_END_SESSION : Bool := false
  HTTP_AUTOMATIC : Bool := false
  HTTP_CHUNKED_RESPONSE : Bool := false
deriving DecidableEq, Repr

/-- `HTTP_SESSION_INIT`. -/
def HTTP_SESSION_INIT : Nat := 0
/-- `HTTP_SESSION_READ`. -/
def HTTP_SESSION_READ : Nat := 1
/-- `HTTP_SESSION_WRITE`. -/
def HTTP_SESSION_WRITE : Nat := 2
/-- `HTTP_SESSION_NOP`. -/
def HTTP_SESSION_NOP : Nat := 3

/-- Result of one call of the byte-stream adapter: a byte count (`n > 0` bytes
transferred, `0` for a closed peer) or `-1` with an `errno`. -/
inductive io_result where
  | bytes (bs : List Nat)
  | closed
  | fail (errno : Int)
deriving DecidableEq, Repr

/-- `EAGAIN`. -/
def EAGAIN : Int := 11
/-- `EPIPE`. -/
def EPIPE : Int := 32

/-- Modelled from the spec: the byte-stream adapter (`poller_adapter.h` is not
among the sources).  It exposes `read(buf,len) -> ssize` and
`write(buf,len) -> ssize`; a negative result with `EAGAIN` means retry on the
next readiness, zero from read means the peer closed, `EPIPE` from write means
the connection is terminated.  The peer is a script: `input` lists what the
successive reads will find, `output` what the successive writes will accept
(a count of bytes, or a failure with its `errno`); `sent` collects the bytes
handed to the socket; `errno` is the C `errno`; `timeout` is the last timeout
given to the poller for the connection. -/
structure iwn_poller_adapter where
  input : List io_result := []
  output : List (Int ⊕ Int) := []
  sent : List Nat := []
  errno : Int := 0
  timeout : Option Int := none
deriving DecidableEq, Repr

/-- The `struct client` of the source.  `chunk_cb` is `none` for the null
pointer, otherwise an identifier of the callback; `freed` logs the bodies
handed to a `body_free` deleter. -/
structure client where
  chunk_cb : Option Nat := none
  pa : iwn_poller_adapter := {}
  server : server := {}
  tokens : tokens_buf := {}
  stream : stream := {}
  parser : parser := {}
  response : response := {}
  state : Nat := HTTP_SESSION_INIT
  flags : client_flags := {}
  freed : List (List Nat) := []
deriving DecidableEq, Repr

/-! ## Read stream -/

/-- The byte `buf[i]` of a buffer. -/
def buf_at (buf : Option (List Nat)) (i : Int) : Nat :=
  (buf.getD []).getD i.toNat 0

/-- `_stream_next`: clears `CONSUMED`; `none` when the cursor is at the end of
the valid bytes, otherwise the byte under the cursor. -/
def _stream_next (s : stream) : Option Nat × stream :=
  let s := { s with consumed := false }
  if s.index ≥ s.length then (none, s) else (some (buf_at s.buf s.index), s)

/-- `_stream_consume`. -/
def _stream_consume (s : stream) : stream :=
  if s.consumed then s
  else
    let nlen := s.token.len + 1
    { s with
      consumed := true
      index := s.index + 1
      token := { s.token with len := if s.token.type ≠ HS_TOK_NONE then nlen else 0 } }

/-- The `memcpy(dst, src, n)` of `_stream_shift` inside one buffer. -/
def buf_copy (buf : List Nat) (dst src n : Int) : List Nat :=
  let piece := (buf.drop src.toNat).take n.toNat
  buf.take dst.toNat ++ piece ++ buf.drop (dst.toNat + piece.length)

/-- `_stream_shift`. -/
def _stream_shift (s : stream) : stream :=
  if s.token.index = s.anchor then s
  else
    let buf := if s.token.len > 0
      then s.buf.map (fun b => buf_copy b s.anchor s.token.index (s.length - s.token.index))
      else s.buf
    { s with
      buf := buf
      token := { s.token with index := s.anchor }
      index := s.anchor + s.token.len
      length := s.anchor + s.token.len }

/-- `_stream_anchor`. -/
def _stream_anchor (s : stream) : stream := { s with anchor := s.index }

/-- `_stream_begin_token`. -/
def _stream_begin_token (s : stream) (token_type : token_e) : stream :=
  { s with token := { s.token with type := token_type, index := s.index } }

/-- `_stream_emit`: returns the current token and zeroes it in the stream. -/
def _stream_emit (s : stream) : token × stream := (s.token, { s with token := {} })

/-- `_stream_can_contain`. -/
def _stream_can_contain (cl : client) (size : Int) : Bool :=
  decide (cl.server.spec.request_buf_max_size - cl.stream.index + 1 ≥ size)

/-- `_stream_jump`; the parameter `offset` is a C `int`. -/
def _stream_jump (s : stream) (offset : Int) : Bool × stream :=
  let offset := toInt32 offset
  let s := { s with consumed := true }
  if s.index + offset > s.length then (false, s)
  else
    let nlen := s.token.len + offset
    (true, { s with token := { s.token with len := if s.token.type ≠ HS_TOK_NONE then nlen else 0 } })

/-- `_stream_jumpall`. -/
def _stream_jumpall (s : stream) : Int × stream :=
  let s := { s with consumed := true }
  let offset := s.length - s.index
  (offset, { s with
    index := s.index + offset
    token := { s.token with
      len := if s.token.type ≠ HS_TOK_NONE then s.token.len + offset else 0 } })

/-! ## Parser -/

/-- `_meta_trigger`. -/
def _meta_trigger (p : parser) (event : Nat) : parser :=
  { p with meta := meta_transitions_at p.meta event }

/-- `_meta_emit_token`. -/
def _meta_emit_token (p : parser) : token × parser :=
  match p.meta with
  | M_SEN => ({ type := HS_TOK_CHUNK_BODY }, _meta_trigger p HS_META_NEXT)
  | M_END => ({ type := HS_TOK_REQ_END }, {})
  | _ => ({}, p)

/-- The macro `MATCH(str__, meta__)` of `_transition`, applied to the byte `c`
with the local `m` and the parser; returns the new `m` and the parser. -/
def MATCH (str__ : List Nat) (meta__ : Nat) (c : Nat) (mp : Nat × parser) : Nat × parser :=
  let in_bounds := decide (mp.2.match_index < (str__.length : Int))
  let m := if in_bounds then str__.getD mp.2.match_index.toNat 0 else mp.1
  let low := if 65 ≤ c ∧ c ≤ 90 then c + 32 else c
  if low ≠ m then (m, _meta_trigger mp.2 meta__) else (m, mp.2)

/-- First part of `_transition`: the anchor on leaving `HN` and the block
`if (from != to) ...`.  Returns the token emitted so far and the client. -/
def _transition_enter (cl : client) (frm to_ : state_e) : token × client :=
  let cl := if frm = HN then { cl with stream := _stream_anchor cl.stream } else cl
  if frm ≠ to_ then
    let type := _token_start_states to_
    let cl := if type ≠ HS_TOK_NONE
      then { cl with stream := _stream_begin_token cl.stream type } else cl
    let cl := if frm = CS
      then { cl with parser := _meta_trigger cl.parser HS_META_END_CHK_SIZE } else cl
    let r : token × client :=
      if to_ = HK then
        let cl := { cl with parser :=
          { cl.parser with header_count := toInt16 (cl.parser.header_count + 1) } }
        if cl.parser.header_count > cl.server.spec.request_max_header_count
        then ({ type := HS_TOK_ERROR }, cl) else ({}, cl)
      else if to_ = HS then
        let cl := { cl with parser := _meta_trigger cl.parser HS_META_END_KEY }
        let e := _stream_emit cl.stream
        (e.1, { cl with stream := e.2 })
      else ({}, cl)
    (r.1, { r.2 with parser := { r.2.parser with match_index := 0 } })
  else ({}, cl)

/-- The cases `CB` and `BD` of the switch of `_transition`. -/
def _transition_body (emitted : token) (cl : client) (to_ : state_e) : token × client :=
  let cl := if cl.parser.meta = M_STR
    then { cl with stream := _stream_begin_token cl.stream HS_TOK_CHUNK_BODY } else cl
  let body_left := cl.parser.content_length - cl.parser.body_consumed
  let j := _stream_jump cl.stream body_left
  if j.1 then
    let e := _stream_emit j.2
    let p := _meta_trigger cl.parser HS_META_NEXT
    let p := if to_ = CB then { p with state := CD } else p
    (e.1, { cl with stream := e.2, parser := { p with content_length := 0, body_consumed := 0 } })
  else
    let ja := _stream_jumpall j.2
    let cl := { cl with
      stream := ja.2
      parser := { cl.parser with body_consumed := cl.parser.body_consumed + ja.1 } }
    if cl.parser.meta = M_STR then
      let e := _stream_emit cl.stream
      (e.1, { cl with stream := _stream_shift e.2 })
    else (emitted, cl)

/-- The chunk-size accumulation of case `CS` of `_transition`. -/
def chunk_size_digit (content_length : Int) (c : Nat) : Int :=
  if 65 ≤ c ∧ c ≤ 70 then content_length * 16 + ((c : Int) - 55)
  else if 97 ≤ c ∧ c ≤ 102 then content_length * 16 + ((c : Int) - 87)
  else if 48 ≤ c ∧ c ≤ 57 then content_length * 16 + ((c : Int) - 48)
  else content_length

/-- The case `HK` of the switch of `_transition`: both header names are
matched against the byte, then `match_index` is incremented. -/
def _transition_hk (p : parser) (c : Nat) : parser :=
  let mp := MATCH (str "transfer-encoding") HS_META_NOT_TRANSFER_ENC c (0, p)
  let mp := MATCH (str "content-length") HS_META_NOT_CONTENT_LEN c mp
  { mp.2 with match_index := toInt16 (mp.2.match_index + 1) }

/-- The case `HV` of the switch of `_transition`. -/
def _transition_hv (p : parser) (c : Nat) : parser :=
  if p.meta = M_MCK then
    let mp := MATCH (str "chunked") HS_META_NOT_CHUNKED c (0, p)
    { mp.2 with match_index := toInt16 (mp.2.match_index + 1) }
  else if p.meta = M_CLV then
    { p with content_length := p.content_length * 10 + ((c : Int) - 48) }
  else p

/-- Second part of `_transition`: the `switch (to)`. -/
def _transition_switch (emitted : token) (cl : client) (c : Nat) (to_ : state_e) :
    token × client :=
  match to_ with
  | MS | TS =>
    let e := _stream_emit cl.stream
    (e.1, { cl with stream := e.2 })
  | RR | HR =>
    let cl := { cl with parser := _meta_trigger cl.parser HS_META_END_VALUE }
    let e := _stream_emit cl.stream
    (e.1, { cl with stream := e.2 })
  | HK => (emitted, { cl with parser := _transition_hk cl.parser c })
  | HV => (emitted, { cl with parser := _transition_hv cl.parser c })
  | HN =>
    let cl := if cl.parser.meta = M_SML ∧ ¬ _stream_can_contain cl cl.parser.content_length
      then { cl with parser := _meta_trigger cl.parser HS_META_LARGE_BODY } else cl
    let emitted : token := if cl.parser.meta = M_BIG ∨ cl.parser.meta = M_CHK
      then { emitted with type := HS_TOK_BODY_STREAM } else emitted
    let cl := { cl with parser := _meta_trigger cl.parser HS_META_END_HEADERS }
    let cl := if cl.parser.content_length = 0 ∧ cl.parser.meta = M_BDY
      then { cl with parser := { cl.parser with meta := M_END } } else cl
    let emitted : token := if cl.parser.meta = M_END
      then { emitted with type := HS_TOK_BODY } else emitted
    (emitted, cl)
  | CS =>
    let cl := if c ≠ 48
      then { cl with parser := _meta_trigger cl.parser HS_META_NON_ZERO } else cl
    (emitted, { cl with parser :=
      { cl.parser with content_length := chunk_size_digit cl.parser.content_length c } })
  | CB | BD => _transition_body emitted cl to_
  | C2 => (emitted, { cl with parser := _meta_trigger cl.parser HS_META_END_CHUNK })
  | BR => ({ emitted with type := HS_TOK_ERROR }, cl)
  | _ => (emitted, cl)

/-- `_transition`: the byte `c` takes the character FSM from `frm` to `to_`. -/
def _transition (cl : client) (c : Nat) (frm to_ : state_e) : token × client :=
  let r := _transition_enter cl frm to_
  _transition_switch r.1 r.2 c to_

/-- One turn of the `while (_stream_next(stream, &c))` loop of `_token_parse`
for the byte `c`: the emitted token and the client after `_stream_consume`. -/
def token_parse_step (cl : client) (c : Nat) : token × client :=
  let type := ctype_of c
  let to_ := transitions_at cl.parser.state type
  let to_ := if cl.parser.meta = M_ZER ∧ cl.parser.state = HN ∧ to_ = BD then CS else to_
  let frm := cl.parser.state
  let cl := { cl with parser := { cl.parser with state := to_ } }
  let r := _transition cl c frm to_
  (r.1, { r.2 with stream := _stream_consume r.2.stream })

/-- The `while` loop of `_token_parse`, with a bound on the number of turns.
`none`: the bound was reached; `some (some t, _)`: the loop returned the token
`t`; `some (none, _)`: the loop ended because the stream has no further byte. -/
def token_parse_loop : Nat → client → Option (Option token × client)
  | 0, _ => none
  | fuel + 1, cl =>
    match _stream_next cl.stream with
    | (none, s) => some (none, { cl with stream := s })
    | (some c, s) =>
      let r := token_parse_step { cl with stream := s } c
      if r.1.type ≠ HS_TOK_NONE then some (some r.1, r.2)
      else token_parse_loop fuel r.2

/-- The code of `_token_parse` after its loop. -/
def token_parse_finish (cl : client) : token × client :=
  let cl := if cl.parser.state = CB then { cl with stream := _stream_shift cl.stream } else cl
  let e := _meta_emit_token cl.parser
  let cl := { cl with parser := e.2 }
  let ct := cl.stream.token
  let token : token :=
    if ct.type ≠ HS_TOK_CHUNK_BODY ∧ ct.type ≠ HS_TOK_BODY
        ∧ ct.len > cl.server.spec.request_token_max_len
    then { e.1 with type := HS_TOK_ERROR } else e.1
  (token, cl)

/-- `_token_parse`.  Every turn of the loop that does not return either moves
the cursor forward or follows a successful `_stream_jump`, so twice the number
of unread bytes plus two bounds the turns of a terminating run; `none` is
returned when that bound is reached. -/
def _token_parse (cl : client) : Option (token × client) :=
  let e := _meta_emit_token cl.parser
  let cl := { cl with parser := e.2 }
  if e.1.type ≠ HS_TOK_NONE then some (e.1, cl)
  else
    match token_parse_loop (2 * (cl.stream.length - cl.stream.index).toNat + 2) cl with
    | none => none
    | some (some emitted, cl) => some (emitted, cl)
    | some (none, cl) => some (token_parse_finish cl)

/-- The tokens returned by `n` successive calls of `_token_parse`, in order,
and the client they leave; `none` if one of the calls does not return. -/
def token_parse_n : Nat → client → Option (List token × client)
  | 0, cl => some ([], cl)
  | n + 1, cl =>
    match _token_parse cl with
    | none => none
    | some (t, cl1) =>
      match token_parse_n n cl1 with
      | none => none
      | some (ts, cl2) => some (t :: ts, cl2)

/-- A client right after `_client_init` (zeroed parser, `HTTP_AUTOMATIC`, an
empty token array of capacity 32) whose read buffer holds the bytes `req`. -/
def client_holding (srv : server) (req : List Nat) : client :=
  { server := srv
    flags := { HTTP_AUTOMATIC := true }
    tokens := { buf := some [], capacity := 32, size := 0 }
    state := HTTP_SESSION_READ
    stream := { buf := some req, length := req.length, capacity := req.length,
                bytes_total := req.length } }

/-- The bytes `buf[index .. index + len)` a token refers to. -/
def token_bytes (buf : Option (List Nat)) (t : token) : List Nat :=
  ((buf.getD []).drop t.index.toNat).take t.len.toNat

/-! ## Configurations used by the proofs -/

/-- The client `cl0` with parser `p`, cursor `n`, current token `tok` and
`CONSUMED` bit `b`. -/
def at_ (cl0 : client) (p : parser) (n : Nat) (tok : token) (b : Bool) : client :=
  { cl0 with
    parser := p
    stream := { cl0.stream with index := (n : Int), token := tok, consumed := b } }

/-- The byte `c` takes the character FSM from `frm` to `to_`. -/
def accepts (frm to_ : state_e) (c : Nat) : Prop := transitions_at frm (ctype_of c) = to_

instance (frm to_ : state_e) (c : Nat) : Decidable (accepts frm to_ c) := by
  unfold accepts; infer_instance

/-- The parser at a token boundary of the request head: character state,
meta state and header count; every other field is zero. -/
def pst (st : state_e) (m : meta_state_e) (hc : Int) : parser :=
  { state := st, meta := m, header_count := hc }

/-- A nonempty run of bytes whose first byte takes the FSM from `S0` to `S`
and whose further bytes keep it in `S`. -/
def token_ok (S0 S : state_e) : List Nat → Prop
  | [] => False
  | c :: cs => accepts S0 S c ∧ ∀ d ∈ cs, accepts S S d

instance (S0 S : state_e) (l : List Nat) : Decidable (token_ok S0 S l) := by
  cases l <;> unfold token_ok <;> infer_instance

/-- The meta state after the name `key` of a header line and its colon have
been read, starting from `M_ANY`, the meta state in which every header line of
a request with no earlier Content-Length or Transfer-Encoding header begins:
`M_CLV` when the meta FSM took the name for Content-Length, `M_MCK` when it
took it for Transfer-Encoding. -/
def header_class (key : List Nat) : meta_state_e :=
  meta_transitions_at (key.foldl _transition_hk { meta := M_ANY }).meta HS_META_END_KEY

/-- A header line `name: value` CRLF of a request: the name, a colon, one
space, the value, CR and LF. -/
def header_line (h : List Nat × List Nat) : List Nat := h.1 ++ 58 :: 32 :: (h.2 ++ [13, 10])

/-- The header lines of a request, one after the other. -/
def header_block : List (List Nat × List Nat) → List Nat
  | [] => []
  | h :: hs => header_line h ++ header_block hs

/-- The request `METHOD SP TARGET SP VERSION CRLF`, the header lines and the
blank line CRLF. -/
def request_bytes (m t v : List Nat) (hs : List (List Nat × List Nat)) : List Nat :=
  m ++ 32 :: (t ++ 32 :: (v ++ 13 :: 10 :: (header_block hs ++ [13, 10])))

/-- The HEADER_KEY and HEADER_VAL tokens of the header lines `hs` when the
first line starts at offset `off` of the buffer. -/
def header_tokens : Nat → List (List Nat × List Nat) → List token
  | _, [] => []
  | off, h :: hs =>
    { index := off, len := h.1.length, type := HS_TOK_HEADER_KEY }
      :: { index := off + h.1.length + 2, len := h.2.length, type := HS_TOK_HEADER_VAL }
      :: header_tokens (off + (header_line h).length) hs

/-- The tokens of the request `request_bytes m t v hs` without a body. -/
def request_tokens (m t v : List Nat) (hs : List (List Nat × List Nat)) : List token :=
  { index := 0, len := m.length, type := HS_TOK_METHOD }
    :: { index := m.length + 1, len := t.length, type := HS_TOK_TARGET }
    :: { index := m.length + 1 + t.length + 1, len := v.length, type := HS_TOK_VERSION }
    :: (header_tokens (m.length + 1 + t.length + 1 + v.length + 2) hs
        ++ [{ type := HS_TOK_BODY }, { type := HS_TOK_REQ_END }])

/-- A header line the character FSM accepts and the meta FSM takes neither
for Content-Length nor for Transfer-Encoding. -/
def header_ok (h : List Nat × List Nat) : Prop :=
  token_ok RN HK h.1 ∧ header_class h.1 ≠ M_CLV ∧ header_class h.1 ≠ M_MCK ∧ token_ok HS HV h.2

instance (h : List Nat × List Nat) : Decidable (header_ok h) := by
  unfold header_ok; infer_instance

/-- The names and values of the header lines, in request order. -/
def header_fields : List (List Nat × List Nat) → List (List Nat)
  | [] => []
  | h :: hs => h.1 :: h.2 :: header_fields hs

/-- A server whose configuration allows one header per request
(`request_max_header_count = 1`, every other field at its default). -/
def one_header_server : server := { spec := { request_max_header_count := 1 } }

/-- The request `GET / HTTP/1.1` with the two header lines `A: b` and `B: d`. -/
def two_header_request : List Nat :=
  request_bytes (str "GET") (str "/") (str "HTTP/1.1") [(str "A", str "b"), (str "B", str "d")]

/-- The `struct iwn_http_val` of the API: `buf` is the memory the pointer
refers to (`none` for the null pointer), `len` the length of the view. -/
structure iwn_http_val where
  buf : Option (List Nat) := none
  len : Int := 0
deriving DecidableEq, Repr

/-- The bytes a view covers: the first `len` bytes at its pointer. -/
def iwn_http_val.bytes (v : iwn_http_val) : List Nat := (v.buf.getD []).take v.len.toNat

/-- The pointer `&client->stream.buf[i]`. -/
def stream_ptr (s : stream) (i : Int) : Option (List Nat) := s.buf.map (fun b => b.drop i.toNat)

/-- The array element `client->tokens.buf[i]`; an element that was never
written reads as the zero token. -/
def tokens_at (t : tokens_buf) (i : Int) : token := (t.buf.getD []).getD i.toNat {}

/-- `_token_get_string`: the first token of the given type. -/
def _token_get_string (cl : client) (token_type : token_e) : iwn_http_val :=
  match cl.tokens.buf with
  | none => {}
  | some _ =>
    match (List.range cl.tokens.size.toNat).find? (fun i => (tokens_at cl.tokens i).type = token_type) with
    | none => {}
    | some i => { buf := stream_ptr cl.stream (tokens_at cl.tokens i).index,
                  len := (tokens_at cl.tokens i).len }

/-- `iwn_http_request_target`. -/
def iwn_http_request_target (cl : client) : iwn_http_val := _token_get_string cl HS_TOK_TARGET

/-- `iwn_http_request_method`. -/
def iwn_http_request_method (cl : client) : iwn_http_val := _token_get_string cl HS_TOK_METHOD

/-- `iwn_http_request_body`. -/
def iwn_http_request_body (cl : client) : iwn_http_val := _token_get_string cl HS_TOK_BODY

/-- `iwn_http_request_chunk_get`: the view of the last token of the array. -/
def iwn_http_request_chunk_get (cl : client) : iwn_http_val :=
  { buf := stream_ptr cl.stream (tokens_at cl.tokens (cl.tokens.size - 1)).index,
    len := (tokens_at cl.tokens (cl.tokens.size - 1)).len }

/-- `iwn_http_connection_set_automatic`. -/
def iwn_http_connection_set_automatic (cl : client) : client :=
  { cl with flags := { cl.flags with HTTP_AUTOMATIC := true, HTTP_KEEP_ALIVE := false } }

/-- `iwn_http_connection_set_keep_alive`. -/
def iwn_http_connection_set_keep_alive (cl : client) (keep_alive : Bool) : client :=
  { cl with flags := { cl.flags with HTTP_AUTOMATIC := false, HTTP_KEEP_ALIVE := keep_alive } }

/-- `iwn_http_request_header_get`: `header_name` is the C string without its
terminator.  The loop looks for the first HEADER_KEY token whose length is
`strlen(header_name)` and returns the view of the token that follows it. -/
def iwn_http_request_header_get (cl : client) (header_name : List Nat) : iwn_http_val :=
  let len : Int := header_name.length
  match (List.range cl.tokens.size.toNat).find? (fun i =>
      (tokens_at cl.tokens i).type = HS_TOK_HEADER_KEY ∧ (tokens_at cl.tokens i).len = len) with
  | none => {}
  | some i =>
    { buf := stream_ptr cl.stream (tokens_at cl.tokens ((i : Int) + 1)).index,
      len := (tokens_at cl.tokens ((i : Int) + 1)).len }

/-- The C `tolower` on one byte (C locale). -/
def tolower (c : Nat) : Nat := if 65 ≤ c ∧ c ≤ 90 then c + 32 else c

/-- The test `strcasecmp(a, b) == 0` on C strings. -/
def strcasecmp_eq (a b : List Nat) : Bool := a.map tolower == b.map tolower

/-- The test `strncasecmp(a, b, n) == 0` when `b` is a string literal of `n` bytes and
`a` is a view into the buffer: the first `n` bytes at `a` are compared. -/
def strncasecmp_eq (a b : List Nat) (n : Nat) : Bool :=
  (a.take n).map tolower == (b.take n).map tolower

/-- The C `strlen`: the number of bytes before the first zero byte. -/
def strlen (s : List Nat) : Int := (s.takeWhile (fun c => c ≠ 0)).length

/-- `iwn_http_response_code_get`. -/
def iwn_http_response_code_get (cl : client) : Int := cl.response.code

/-- `iwn_http_response_code_set`: `none` stands for `IW_ERROR_INVALID_ARGS`. -/
def iwn_http_response_code_set (cl : client) (code : Int) : Option client :=
  if code < 0 ∨ code > 599 then none
  else
    let code := if code = 0 then 200 else code
    some { cl with response := { cl.response with code := code } }

/-- `iwn_http_response_header_get`. -/
def iwn_http_response_header_get (cl : client) (header_name : List Nat) : iwn_http_val :=
  match cl.response.headers.find? (fun h => strcasecmp_eq h.name header_name) with
  | some h => { buf := some h.value, len := strlen h.value }
  | none => {}

/-- `iwn_http_response_header_set` (allocation never fails): the value of the
first header with that name ignoring case is replaced, otherwise a header with
the lowercased name is put in front of the list. -/
def iwn_http_response_header_set (cl : client) (header_name header_value : List Nat) : client :=
  let r := cl.response
  let headers :=
    match r.headers.findIdx? (fun h => strcasecmp_eq h.name header_name) with
    | none => { name := header_name.map tolower, value := header_value } :: r.headers
    | some i => r.headers.modify (fun h => { h with value := header_value }) i
  { cl with response := { r with pool := true, headers := headers } }

/-- `iwn_http_response_body_clear`. -/
def iwn_http_response_body_clear (cl : client) : client :=
  match cl.response.body with
  | none => cl
  | some b =>
    match cl.response.body_free with
    | some _ =>
      { cl with freed := cl.freed ++ [b]
                response := { cl.response with body := none, body_free := none } }
    | none => { cl with response := { cl.response with body := none } }

/-- `iwn_http_response_body_set`. -/
def iwn_http_response_body_set (cl : client) (body : Option (List Nat)) (body_len : Int)
    (body_free : Option Nat) : client :=
  match body with
  | none => cl
  | some b =>
    if body_len = 0 then cl
    else
      let body_len := if body_len < 0 then strlen b else body_len
      let cl := iwn_http_response_body_clear cl
      { cl with response :=
        { cl.response with body := some b, body_len := body_len, body_free := body_free } }

/-- `_client_autodetect_keep_alive`. -/
def _client_autodetect_keep_alive (cl : client) : client :=
  let val := _token_get_string cl HS_TOK_VERSION
  match val.buf with
  | none => cl
  | some b =>
    let version : Int := if b.getD (val.len - 1).toNat 0 = 49 then 1 else 0
    let val := iwn_http_request_header_get cl (str "connection")
    if (val.len = 5 ∧ strncasecmp_eq (val.buf.getD []) (str "close") 5) ∨ (val.len = 0 ∧ version = 0)
    then { cl with flags := { cl.flags with HTTP_KEEP_ALIVE := false } }
    else { cl with flags := { cl.flags with HTTP_KEEP_ALIVE := true } }

/-- The table `_status_text`: 600 entries, the empty string except at the codes listed;
a read outside the table is modelled as the empty string. -/
def _status_text (code : Int) : List Nat :=
  match code.toNat with
  | 100 => str "Continue"
  | 101 => str "Switching Protocols"
  | 200 => str "OK"
  | 201 => str "Created"
  | 202 => str "Accepted"
  | 203 => str "Non-Authoritative Information"
  | 204 => str "No Content"
  | 205 => str "Reset Content"
  | 206 => str "Partial Content"
  | 300 => str "Multiple Choices"
  | 301 => str "Moved Permanently"
  | 302 => str "Found"
  | 303 => str "See Other"
  | 304 => str "Not Modified"
  | 305 => str "Use Proxy"
  | 307 => str "Temporary Redirect"
  | 400 => str "Bad Request"
  | 401 => str "Unauthorized"
  | 402 => str "Payment Required"
  | 403 => str "Forbidden"
  | 404 => str "Not Found"
  | 405 => str "Method Not Allowed"
  | 406 => str "Not Acceptable"
  | 407 => str "Proxy Authentication Required"
  | 408 => str "Request Timeout"
  | 409 => str "Conflict"
  | 410 => str "Gone"
  | 411 => str "Length Required"
  | 413 => str "Payload Too Large"
  | 500 => str "Internal Server Error"
  | 501 => str "Not Implemented"
  | 502 => str "Bad Gateway"
  | 503 => str "Service Unavailable"
  | 504 => str "Gateway Timeout"
  | _ => []

/-- Decimal digits of a natural number, most significant first (`fuel` bounds
the number of digits). -/
def digits_dec : Nat → Nat → List Nat → List Nat
  | 0, _, acc => acc
  | fuel + 1, n, acc =>
    if n < 10 then (48 + n) :: acc else digits_dec fuel (n / 10) ((48 + n % 10) :: acc)

/-- The `printf` conversion `%d` of a C `int`. -/
def fmt_d (x : Int) : List Nat :=
  if x < 0 then 45 :: digits_dec (x.natAbs + 1) x.natAbs [] else digits_dec (x.toNat + 1) x.toNat []

/-- One uppercase hexadecimal digit. -/
def hex_digit (n : Nat) : Nat := if n < 10 then 48 + n else 55 + n

/-- Uppercase hexadecimal digits of a natural number, most significant first. -/
def digits_hex : Nat → Nat → List Nat → List Nat
  | 0, _, acc => acc
  | fuel + 1, n, acc =>
    if n < 16 then hex_digit n :: acc else digits_hex fuel (n / 16) (hex_digit (n % 16) :: acc)

/-- The `printf` conversion `%X` of an unsigned value. -/
def fmt_X (x : Int) : List Nat := digits_hex (x.toNat + 1) x.toNat []

/-- Modelled from the spec: what the C library gives `_server_time` and the
serializer: `now` is the value `time()` returns, `date_text t` the rendering
`%a, %d %b %Y %T GMT` of the second `t` by `strftime`, and `dbuf` the text
that the uninitialised stack buffer `dbuf` of
`_client_response_headers_write_http` holds on entry. -/
structure env where
  now : Int
  date_text : Int → List Nat
  dbuf : List Nat

/-- `_server_time`: the buffer is filled only when the cached second differs
from the current one. -/
def _server_time (srv : server) (e : env) (out_buf : List Nat) : server × List Nat :=
  if srv.stime ≠ e.now then ({ srv with stime := e.now }, e.date_text e.now) else (srv, out_buf)

/-- `_stream_free_buffer`. -/
def _stream_free_buffer (cl : client) : client := { cl with stream := {} }

/-- `_tokens_free_buffer`. -/
def _tokens_free_buffer (cl : client) : client := { cl with tokens := {} }

/-- `_response_data_reset`: the pool is destroyed, a body is released (its
deleter, if one is set, is called and cleared), the header list is emptied and
the code set to 200; nothing else of the response is touched. -/
def _response_data_reset (cl : client) : client :=
  let r := cl.response
  let freed := match r.body, r.body_free with
    | some b, some _ => cl.freed ++ [b]
    | _, _ => cl.freed
  { cl with
    freed := freed
    response :=
      { headers := []
        pool := false
        body := none
        body_free := if r.body.isSome then none else r.body_free
        body_len := r.body_len
        code := 200 } }

/-- `_client_reset`. -/
def _client_reset (cl : client) : client :=
  _tokens_free_buffer (_stream_free_buffer { cl with state := HTTP_SESSION_INIT })

/-- `iwn_poller_set_timeout` on the connection, done only for a positive
number of seconds. -/
def set_timeout (cl : client) (sec : Int) : client :=
  if sec > 0 then { cl with pa := { cl.pa with timeout := some sec } } else cl

/-- `_client_init` (allocation never fails). -/
def _client_init (cl : client) : client :=
  let cl := { cl with flags := { HTTP_AUTOMATIC := true } }
  let cl := _tokens_free_buffer (_stream_free_buffer cl)
  let cl := { cl with
    parser := {}
    chunk_cb := none
    tokens := { buf := some [], capacity := 32, size := 0 } }
  set_timeout cl cl.server.spec.request_timeout_sec

/-- The call `pa->write(pa, buf, len)` on the bytes `data`: the count returned
(or -1) and the adapter afterwards.  With an empty script the socket takes
every byte. -/
def pa_write (pa : iwn_poller_adapter) (data : List Nat) : Int × iwn_poller_adapter :=
  match pa.output with
  | [] => (data.length, { pa with sent := pa.sent ++ data })
  | Sum.inl n :: rest =>
    let k := min n.toNat data.length
    (k, { pa with output := rest, sent := pa.sent ++ data.take k })
  | Sum.inr e :: rest => (-1, { pa with output := rest, errno := e })

/-- The bytes `buf[from .. to)` of a buffer. -/
def buf_slice (buf : Option (List Nat)) (frm to_ : Int) : List Nat :=
  ((buf.getD []).drop frm.toNat).take (to_ - frm).toNat

/-- `_client_write_bytes`: the result and the client. -/
def _client_write_bytes (cl : client) : Bool × client :=
  let s := cl.stream
  let w := pa_write cl.pa (buf_slice s.buf s.bytes_total s.length)
  let s := if w.1 > 0 then { s with bytes_total := s.bytes_total + w.1 } else s
  (decide (w.2.errno ≠ EPIPE), { cl with pa := w.2, stream := s })

/-- The callbacks of the application: the request handler of the server
configuration and the chunk callbacks, by identifier.  Each one is given as
the state the callback leaves the client in. -/
structure callbacks where
  request_handler : client → client
  chunk_cb : Nat → client → client

/-- `_client_write` (`iwn_poller_arm_events` never fails). -/
def _client_write (cb : callbacks) (cl : client) : client :=
  let w := _client_write_bytes cl
  let cl := w.2
  if ¬ w.1 then { cl with flags := { cl.flags with HTTP_END_SESSION := true } }
  else if cl.stream.bytes_total ≠ cl.stream.length then
    { cl with state := HTTP_SESSION_WRITE }
  else if cl.flags.HTTP_CHUNKED_RESPONSE then
    let cl := _stream_free_buffer { cl with state := HTTP_SESSION_WRITE }
    let cl := set_timeout cl cl.server.spec.request_timeout_sec
    match cl.chunk_cb with
    | some id => cb.chunk_cb id cl
    | none => cl
  else if cl.flags.HTTP_KEEP_ALIVE then
    _client_reset (set_timeout cl cl.server.spec.request_timeout_keepalive_sec)
  else { cl with flags := { cl.flags with HTTP_END_SESSION := true } }

/-- `_client_response_headers_write`: the text appended to the output. -/
def _client_response_headers_write (cl : client) : List Nat :=
  (cl.response.headers.map (fun h => h.name ++ str ": " ++ h.value ++ str "\r\n")).flatten
    ++ (if ¬ cl.flags.HTTP_CHUNKED_RESPONSE
        then str "content-length: " ++ fmt_d (toInt32 cl.response.body_len) ++ str "\r\n" else [])
    ++ str "\r\n"

/-- `_client_response_headers_write_http`: the client and the text appended. -/
def _client_response_headers_write_http (e : env) (cl : client) : client × List Nat :=
  let cl := if cl.flags.HTTP_AUTOMATIC then _client_autodetect_keep_alive cl else cl
  let cl := if cl.flags.HTTP_KEEP_ALIVE
    then iwn_http_response_header_set cl (str "connection") (str "keep-alive")
    else iwn_http_response_header_set cl (str "connection") (str "close")
  let cl := if cl.response.code = 0
    then { cl with response := { cl.response with code := 200 } } else cl
  let t := _server_time cl.server e e.dbuf
  let cl := { cl with server := t.1 }
  (cl, str "HTTP/1.1 " ++ fmt_d cl.response.code ++ str " " ++ _status_text cl.response.code
        ++ str "\r\nDate: " ++ t.2 ++ str "\r\n" ++ _client_response_headers_write cl)

/-- `_client_response_write`: the text `xstr` becomes the stream buffer and is
written. -/
def _client_response_write (cb : callbacks) (cl : client) (xstr : List Nat) : client :=
  let cl := _stream_free_buffer cl
  let cl := { cl with
    stream := { cl.stream with
      length := xstr.length
      capacity := max cl.server.spec.response_buf_size (xstr.length + 1)
      buf := some xstr
      bytes_total := 0 }
    state := HTTP_SESSION_WRITE }
  _client_write cb (_response_data_reset cl)

/-- `iwn_http_response_end` (allocation never fails). -/
def iwn_http_response_end (cb : callbacks) (e : env) (cl : client) : client :=
  let h := _client_response_headers_write_http e cl
  let cl := h.1
  let xstr := match cl.response.body with
    | some b => h.2 ++ b.take cl.response.body_len.toNat
    | none => h.2
  _client_response_write cb cl xstr

/-- `iwn_http_response_write_simple`; `none` when the status code is refused. -/
def iwn_http_response_write_simple (cb : callbacks) (e : env) (cl : client) (status_code : Int)
    (content_type : Option (List Nat)) (body : Option (List Nat)) (body_len : Int)
    (body_free : Option Nat) : Option client :=
  match iwn_http_response_code_set cl status_code with
  | none => none
  | some cl =>
    let content_type := content_type.getD (str "text/plain")
    let cl := iwn_http_response_header_set cl (str "content-type") content_type
    let cl := iwn_http_response_body_set cl body body_len body_free
    some (iwn_http_response_end cb e cl)

/-- `_client_response_error`; when the response cannot be set up the client is
left as it is. -/
def _client_response_error (cb : callbacks) (e : env) (cl : client) (code : Int)
    (response : List Nat) : client :=
  (iwn_http_response_write_simple cb e cl code (some (str "text/plain")) (some response) (-1)
    none).getD cl

/-- The call `pa->read(pa, buf, len)` with room for `len` bytes: the count
returned (or -1), the bytes stored and the adapter afterwards.  A read with no
room returns 0; with an empty script nothing has arrived (`EAGAIN`). -/
def pa_read (pa : iwn_poller_adapter) (len : Int) : Int × List Nat × iwn_poller_adapter :=
  if len ≤ 0 then (0, [], pa)
  else
    match pa.input with
    | [] => (-1, [], { pa with errno := EAGAIN })
    | io_result.bytes bs :: rest =>
      if bs.length ≤ len.toNat then (bs.length, bs, { pa with input := rest })
      else (len, bs.take len.toNat,
            { pa with input := io_result.bytes (bs.drop len.toNat) :: rest })
    | io_result.closed :: rest => (0, [], { pa with input := rest })
    | io_result.fail e :: rest => (-1, [], { pa with input := rest, errno := e })

/-- The bytes `data` stored at `buf + off`; bytes of the buffer never written
before are zero (`calloc`). -/
def buf_store (buf : List Nat) (off : Int) (data : List Nat) : List Nat :=
  (buf ++ List.replicate (off.toNat - buf.length) 0).take off.toNat ++ data
    ++ buf.drop (off.toNat + data.length)

/-- The `do ... while (bytes > 0)` loop of `_client_read_bytes`, with a bound
on its turns: the last value of `bytes` and the client; `none` when the bound
is reached. -/
def client_read_bytes_loop : Nat → client → Option (Int × client)
  | 0, _ => none
  | fuel + 1, cl =>
    let s := cl.stream
    let r := pa_read cl.pa (s.capacity - s.length)
    let bytes := r.1
    let s := if bytes > 0
      then { s with buf := s.buf.map (fun b => buf_store b s.length r.2.1),
                    length := s.length + bytes, bytes_total := s.bytes_total + bytes }
      else s
    let cl := { cl with pa := r.2.2, stream := s }
    if s.length = s.capacity then
      if s.capacity ≠ cl.server.spec.request_buf_max_size then
        let ncap := if s.capacity * 2 > cl.server.spec.request_buf_max_size
          then cl.server.spec.request_buf_max_size else s.capacity * 2
        let cl := { cl with stream := { s with capacity := ncap } }
        if bytes > 0 then client_read_bytes_loop fuel cl else some (bytes, cl)
      else some (bytes, cl)
    else if bytes > 0 then client_read_bytes_loop fuel cl else some (bytes, cl)

/-- The number of bytes the script of the adapter still holds. -/
def input_size (pa : iwn_poller_adapter) : Nat :=
  (pa.input.map (fun r => match r with | io_result.bytes bs => bs.length + 1 | _ => 1)).sum

/-- `_client_read_bytes` (allocation never fails); every turn of its loop
that is followed by another one has taken bytes from the adapter, so the
number of turns is bounded by what the adapter holds. -/
def _client_read_bytes (cl : client) : Option (Bool × client) :=
  let s := cl.stream
  if s.index < s.length then some (true, cl)
  else
    let cl := match s.buf with
      | none => { cl with stream :=
          { s with length := 0, buf := some [], capacity := cl.server.spec.request_buf_size } }
      | some _ => cl
    match client_read_bytes_loop (input_size cl.pa + 2) cl with
    | none => none
    | some (bytes, cl) => some (decide (bytes ≠ 0), cl)

/-- The array write `client->tokens.buf[client->tokens.size++] = token`, after
the array was doubled if it was full. -/
def tokens_push (t : tokens_buf) (tok : token) : tokens_buf :=
  let t := if t.size = t.capacity then { t with capacity := t.capacity * 2 } else t
  { t with buf := t.buf.map (fun b => b.take t.size.toNat ++ [tok]), size := t.size + 1 }

/-- The body of the `do ... while` loop of `_client_read` after `_token_parse`
returned `token`. -/
def client_read_token (cb : callbacks) (e : env) (cl : client) (tok : token) : client :=
  let cl := if tok.type ≠ HS_TOK_NONE then { cl with tokens := tokens_push cl.tokens tok } else cl
  match tok.type with
  | HS_TOK_ERROR => _client_response_error cb e cl 400 (str "Bad request")
  | HS_TOK_BODY => cb.request_handler { cl with state := HTTP_SESSION_NOP }
  | HS_TOK_BODY_STREAM =>
    cb.request_handler
      { cl with flags := { cl.flags with HTTP_STREAMED := true }, state := HTTP_SESSION_NOP }
  | HS_TOK_CHUNK_BODY =>
    let cl := { cl with state := HTTP_SESSION_NOP }
    match cl.chunk_cb with
    | some id => cb.chunk_cb id cl
    | none => cl
  | _ => cl

/-- The `do ... while` loop of `_client_read`, with a bound on its turns;
`none` when the bound is reached or `_token_parse` does not return. -/
def client_read_loop (cb : callbacks) (e : env) : Nat → client → Option client
  | 0, _ => none
  | fuel + 1, cl =>
    match _token_parse cl with
    | none => none
    | some (tok, cl) =>
      let cl := client_read_token cb e cl tok
      if tok.type ≠ HS_TOK_NONE ∧ cl.state = HTTP_SESSION_READ
      then client_read_loop cb e fuel cl else some cl

/-- `_client_read`, with a bound `fuel` on the turns of its loop. -/
def _client_read (cb : callbacks) (e : env) (fuel : Nat) (cl : client) : Option client :=
  let cl := { cl with state := HTTP_SESSION_READ }
  let cl := set_timeout cl cl.server.spec.request_timeout_sec
  match _client_read_bytes cl with
  | none => none
  | some (false, cl) => some { cl with flags := { cl.flags with HTTP_END_SESSION := true } }
  | some (true, cl) => client_read_loop cb e fuel cl

/-- `iwn_http_request_chunk_next`: `chunk_cb` is the identifier of the callback. -/
def iwn_http_request_chunk_next (cb : callbacks) (e : env) (fuel : Nat) (cl : client)
    (chunk_cb : Option Nat) : Option client :=
  _client_read cb e fuel { cl with chunk_cb := chunk_cb }

/-- `_client_on_poller_adapter_event`: the value returned and the client. -/
def _client_on_poller_adapter_event (cb : callbacks) (e : env) (fuel : Nat) (cl : client) :
    Option (Int × client) :=
  let r : Option client :=
    if cl.state = HTTP_SESSION_INIT then
      _client_read cb e fuel { _client_init cl with state := HTTP_SESSION_READ }
    else if cl.state = HTTP_SESSION_READ then _client_read cb e fuel cl
    else if cl.state = HTTP_SESSION_WRITE then some (_client_write cb cl)
    else some cl
  r.map (fun cl => (if cl.flags.HTTP_END_SESSION then -1 else 0, cl))

/-- The callbacks of an application that does nothing. -/
def no_callbacks : callbacks := { request_handler := fun cl => cl, chunk_cb := fun _ cl => cl }

/-- A client right after `_client_accept`, before its first event: zeroed
by `iwpool_calloc`, with its server and its adapter. -/
def client_accepted (srv : server) (pa : iwn_poller_adapter) : client :=
  { server := srv, pa := pa }

/-- `iwn_http_request_target_is`. -/
def iwn_http_request_target_is (cl : client) (target : List Nat) (target_len : Int) : Bool :=
  let val := iwn_http_request_target cl
  let target_len := if target_len < 0 then strlen target else target_len
  decide (val.len = target_len
    ∧ (val.buf.getD []).take target_len.toNat = target.take target_len.toNat)

/-- The `_request_handler` of `tests/server1.c`; `large` is what its branch
for the target `/large` does (it pulls the chunks of a streamed body). -/
def server1_request_handler (e : env) (large : client → client) (cl : client) : client :=
  if iwn_http_request_target_is cl (str "/empty") (-1) then
    iwn_http_response_end no_callbacks e cl
  else if iwn_http_request_target_is cl (str "/echo") (-1) then
    let val := iwn_http_request_body cl
    let cl := iwn_http_response_header_set cl (str "content-type") (str "text/plain")
    let cl := iwn_http_response_body_set cl val.buf val.len none
    iwn_http_response_end no_callbacks e cl
  else if iwn_http_request_target_is cl (str "/host") (-1) then
    let val := iwn_http_request_header_get cl (str "Host")
    let cl := iwn_http_response_body_set cl val.buf val.len none
    iwn_http_response_end no_callbacks e cl
  else if iwn_http_request_target_is cl (str "/large") (-1) then large cl
  else
    let cl := iwn_http_response_header_set cl (str "content-type") (str "text/plain")
    let cl := iwn_http_response_body_set cl (some (str "Hello!")) (-1) none
    iwn_http_response_end no_callbacks e cl

/-- The date text of the examples: second 1 and second 2 of 1 January 1970. -/
def example_date_text (t : Int) : List Nat :=
  if t = 1 then str "Thu, 01 Jan 1970 00:00:01 GMT" else str "Thu, 01 Jan 1970 00:00:02 GMT"

/-- An environment for the examples: the clock reads second 1. -/
def example_env : env := { now := 1, date_text := example_date_text, dbuf := [] }

/-- The environment of the examples one second later. -/
def example_env_later : env := { now := 2, date_text := example_date_text, dbuf := [] }

/-- The callbacks of `tests/server1.c` without its `/large` branch. -/
def server1_callbacks : callbacks :=
  { request_handler := server1_request_handler example_env (fun cl => cl)
    chunk_cb := fun _ cl => cl }

/-- A chunked upload: the request of scenario 3 of the specification. -/
def chunked_request : List Nat :=
  str "POST /large HTTP/1.1\r\nHost: x\r\ntransfer-encoding: chunked\r\n\r\n5\r\nhello\r\n6\r\n world\r\n0\r\n\r\n"

/-- A request for `/host` with a header `From` before the header `Host`. -/
def host_request : List Nat := str "GET /host HTTP/1.1\r\nFrom: a\r\nHost: x\r\n\r\n"

/-- The request of scenario 2 of the specification: an echo POST with a body of 5 bytes. -/
def echo_request : List Nat :=
  str "POST /echo HTTP/1.1\r\nHost: x\r\ncontent-length: 5\r\n\r\nhello"

/-- The request of scenario 1 of the specification. -/
def empty_request : List Nat := str "GET /empty HTTP/1.1\r\nHost: x\r\n\r\n"

/-- A request with the header `Connection: close` after a header `User-Agent`. -/
def close_request : List Nat :=
  str "GET /empty HTTP/1.1\r\nUser-Agent: curl\r\nConnection: close\r\n\r\n"

/-- An HTTP/1.0 request with the header `Connection: foo`. -/
def http10_request : List Nat := str "GET /empty HTTP/1.0\r\nConnection: foo\r\n\r\n"

/-- The malformed request of scenario 5 of the specification. -/
def malformed_request : List Nat := str "GE!T / HTTP/1.1\r\n\r\n"

/-- One readiness event on a connection: `_client_on_poller_adapter_event`
with 64 turns allowed to the loop of `_client_read`, keeping the client. -/
def on_event (cb : callbacks) (e : env) (cl : client) : Option client :=
  (_client_on_poller_adapter_event cb e 64 cl).map (fun r => r.2)

/-- The text `iwn_http_response_end` hands to `_client_response_write`: the
status line and headers followed by the body, if one is set. -/
def response_end_text (e : env) (cl : client) : List Nat :=
  let h := _client_response_headers_write_http e cl
  match h.1.response.body with
  | some b => h.2 ++ b.take h.1.response.body_len.toNat
  | none => h.2

/-- The test of `_client_autodetect_keep_alive` on the value `v` found for the
header `connection`: it has 5 bytes and they are `close` ignoring case. -/
def says_close (v : iwn_http_val) : Prop :=
  v.len = 5 ∧ strncasecmp_eq (v.buf.getD []) (str "close") 5 = true

instance (v : iwn_http_val) : Decidable (says_close v) := by
  unfold says_close; infer_instance

/-- The client on which `_client_response_error` calls `iwn_http_response_end`
for an ERROR token: the token is stored, the code is 400, the content type
`text/plain` and the body `Bad request`. -/
def error_response_client (cl : client) (tok : token) : client :=
  iwn_http_response_body_set
    (iwn_http_response_header_set
      { cl with tokens := tokens_push cl.tokens tok, response := { cl.response with code := 400 } }
      (str "content-type") (str "text/plain"))
    (some (str "Bad request")) (-1) none

/-- The client in the state in which the request handler of an application
that does nothing is left after the first event of a connection on which the
bytes `req` arrive in one piece; the zero client if the event does not
return. -/
def client_at_handler (req : List Nat) : client :=
  (on_event no_callbacks example_env
    (client_accepted {} { input := [io_result.bytes req] })).getD {}

/-- The callbacks of an application whose request handler sets no status,
header or body and calls `iwn_http_response_end`. -/
def end_callbacks (e : env) : callbacks :=
  { request_handler := iwn_http_response_end no_callbacks e, chunk_cb := fun _ cl => cl }

/-- The request `GET <target> HTTP/1.1` whose only header is `Host: <value>`. -/
def host_only_request (t v : List Nat) : List Nat :=
  request_bytes (str "GET") t (str "HTTP/1.1") [(str "Host", v)]

/-- The client on which the request handler is called for the request
`host_only_request t v` held by a freshly initialised client: the six tokens
METHOD, TARGET, VERSION, HEADER_KEY, HEADER_VAL and BODY are stored, the cursor
is behind the blank line and the state is NOP. -/
def host_only_at_handler (srv : server) (t v : List Nat) : client :=
  { at_ (client_holding srv (host_only_request t v)) (pst HN M_END 1)
      (t.length + v.length + 25) {} true with
    tokens :=
      { buf := some
          [{ index := 0, len := 3, type := HS_TOK_METHOD },
           { index := 4, len := t.length, type := HS_TOK_TARGET },
           { index := (t.length : Int) + 5, len := 8, type := HS_TOK_VERSION },
           { index := (t.length : Int) + 15, len := 4, type := HS_TOK_HEADER_KEY },
           { index := (t.length : Int) + 21, len := v.length, type := HS_TOK_HEADER_VAL },
           { type := HS_TOK_BODY }]
        capacity := 32
        size := 6 }
    state := HTTP_SESSION_NOP }

/-- The token types that the loop of `_client_read` only stores: no token, or
a token of the request line or of a header line. -/
def plain_token (t : token_e) : Prop :=
  t = HS_TOK_NONE ∨ t = HS_TOK_METHOD ∨ t = HS_TOK_TARGET ∨ t = HS_TOK_VERSION
    ∨ t = HS_TOK_HEADER_KEY ∨ t = HS_TOK_HEADER_VAL

/-- The condition under which `_token_parse`, called with the cursor at the
end of the valid bytes, returns no token and leaves the parser as it is: the
meta FSM has no token to emit, the state is not `CB`, and the current token
passes the length check. -/
def rest_ok (spec : iwn_http_server_spec) (p : parser) (tok : token) : Prop :=
  p.meta ≠ M_SEN ∧ p.meta ≠ M_END ∧ p.state ≠ CB
    ∧ (tok.type = HS_TOK_CHUNK_BODY ∨ tok.type = HS_TOK_BODY
        ∨ tok.len ≤ spec.request_token_max_len)

/-- A run of the byte loop of `_token_parse` over the bytes `seg`, from the
parser `p`, the cursor `n` and the current token `tok`, that does not depend
on the buffer: each byte is one turn of the loop whose outcome is the same
for every client with the configuration `spec`; the turns emit the tokens
`ts`, all of them plain, and the run ends with the parser `p2` and the current
token `tok2`.  Before every byte and at the end `rest_ok` holds, so the run
may be cut by the end of the buffer anywhere. -/
inductive head_run (spec : iwn_http_server_spec) :
    parser → Nat → token → List Nat → List token → parser → token → Prop
  | nil (p : parser) (n : Nat) (tok : token) :
      rest_ok spec p tok → head_run spec p n tok [] [] p tok
  | cons (p : parser) (n : Nat) (tok : token) (c : Nat) (t : token) (p1 : parser)
      (tok1 : token) (cs : List Nat) (ts ts1 : List token) (p2 : parser) (tok2 : token) :
      rest_ok spec p tok →
      (∀ cl0 : client, cl0.server.spec = spec →
        token_parse_step (at_ cl0 p n tok false) c = (t, at_ cl0 p1 (n + 1) tok1 true)) →
      plain_token t.type →
      head_run spec p1 (n + 1) tok1 cs ts p2 tok2 →
      ts1 = (if t.type = HS_TOK_NONE then ts else t :: ts) →
      head_run spec p n tok (c :: cs) ts1 p2 tok2

/-- The parser at a token boundary of the request head: character state,
meta state, header count and content length; the other fields are zero. -/
def psl (st : state_e) (m : meta_state_e) (hc : Int) (N : Int) : parser :=
  { state := st, meta := m, header_count := hc, content_length := N }

/-- The meta states in which the meta FSM has no token to emit. -/
def meta_quiet (m : meta_state_e) : Prop := m ≠ M_SEN ∧ m ≠ M_END

instance (m : meta_state_e) : Decidable (meta_quiet m) := by
  unfold meta_quiet; infer_instance

/-- The decimal value accumulated by `_transition` over the bytes of a
Content-Length value: `content_length * 10 + (c - '0')` for every byte. -/
def decimal_value (w : List Nat) : Int := w.foldl (fun a c => a * 10 + ((c : Int) - 48)) 0

/-- A header line that the character FSM accepts, with the name and the value
no longer than `request_token_max_len`; when the line is read in the meta state
`M_ANY` its name is taken neither for Content-Length nor for
Transfer-Encoding. -/
def line_ok (spec : iwn_http_server_spec) (m : meta_state_e) (h : List Nat × List Nat) : Prop :=
  token_ok RN HK h.1 ∧ token_ok HS HV h.2
    ∧ (h.1.length : Int) ≤ spec.request_token_max_len
    ∧ (h.2.length : Int) ≤ spec.request_token_max_len
    ∧ (m = M_ANY → header_class h.1 = M_WFK)

instance (spec : iwn_http_server_spec) (m : meta_state_e) (h : List Nat × List Nat) :
    Decidable (line_ok spec m h) := by
  unfold line_ok; infer_instance

/-- The client `cl0` with the anchor of its stream at `a`. -/
def anch (cl0 : client) (a : Nat) : client :=
  { cl0 with stream := { cl0.stream with anchor := (a : Int) } }

/-- The read of `_client_read_bytes` that finds the bytes `d`: they are stored
at `buf + length`, and `length` and `bytes_total` advance by their number. -/
def stream_feed (s : stream) (d : List Nat) : stream :=
  { s with
    buf := s.buf.map (fun b => buf_store b s.length d)
    length := s.length + d.length
    bytes_total := s.bytes_total + d.length }

/-- The client at the loop of `_client_read` in a call that found the bytes
`d` to read: the state is READ and the bytes are in the buffer. -/
def client_feed (cl : client) (d : List Nat) : client :=
  { cl with state := HTTP_SESSION_READ, stream := stream_feed cl.stream d }

/-- A client that is still reading its request: the state is READ and the
token array holds plain tokens only. -/
def still_reading (T0 : tokens_buf) (cl : client) : Prop :=
  cl.state = HTTP_SESSION_READ
    ∧ ∃ ta : List token, cl.tokens = ta.foldl tokens_push T0 ∧ ∀ t ∈ ta, plain_token t.type

/-- The tokens of the request line and of the header lines `hs` of the request
`request_bytes m t v hs`. -/
def head_tokens (m t v : List Nat) (hs : List (List Nat × List Nat)) : List token :=
  { index := 0, len := m.length, type := HS_TOK_METHOD }
    :: { index := m.length + 1, len := t.length, type := HS_TOK_TARGET }
    :: { index := m.length + 1 + t.length + 1, len := v.length, type := HS_TOK_VERSION }
    :: header_tokens (m.length + 1 + t.length + 1 + v.length + 2) hs

/-- A header value of 8193 bytes `a`: one byte more than the default
`request_token_max_len`. -/
def long_value : List Nat := List.replicate 8193 97

/-- The first piece of a request divided inside a long header value: the
request line, the name `Host` and the 8193 bytes of its value. -/
def split_first : List Nat := str "POST /echo HTTP/1.1\r\nHost: " ++ long_value

/-- The second piece: the end of the Host line, the header `content-length: 5`,
the blank line and the body `hello`. -/
def split_second : List Nat := str "\r\ncontent-length: 5\r\n\r\nhello"

/-- The pieces in which the request of the witness of C2 arrives. -/
def echo_pieces : List (List Nat) :=
  [str "POST /echo HT", str "TP/1.1\r\nHost: x\r\ncontent-le", str "ngth: 5\r\n\r\nhel", str "lo"]

/-- A client whose response already has the body `old` with the deleter 1. -/
def client_with_body : client :=
  { response := { body := some (str "old"), body_len := 3, body_free := some 1 } }

/-- The loop of `iwn_http_response_header_set` by recursion on the list: the
list with the value of the first header of that name (ignoring case) replaced,
`none` when no header has that name. -/
def header_replace (name value : List Nat) : List header → Option (List header)
  | [] => none
  | h :: t =>
    if strcasecmp_eq h.name name then some ({ h with value := value } :: t)
    else (header_replace name value t).map (fun r => h :: r)

/-- No two headers of the list have names that are equal ignoring case. -/
def headers_distinct (hs : List header) : Prop :=
  hs.Pairwise (fun a b => strcasecmp_eq a.name b.name = false)

instance (hs : List header) : Decidable (headers_distinct hs) := by
  unfold headers_distinct; infer_instance

/-- A client whose response has the headers `content-type: text/plain` and
`x-id: 1`. -/
def client_with_headers : client :=
  { response := { pool := true, headers := [{ name := str "content-type", value := str "text/plain" },
                                            { name := str "x-id", value := str "1" }] } }

/-- `_iteration_headers_assign`: the value returned, `*key`, `*val` and
`*iter` after the call. -/
def _iteration_headers_assign (cl : client) (key val : iwn_http_val) (iter : Int) :
    Bool × iwn_http_val × iwn_http_val × Int :=
  let token := tokens_at cl.tokens iter
  if (tokens_at cl.tokens iter).type = HS_TOK_BODY then (false, key, val, iter)
  else
    let key : iwn_http_val := { buf := stream_ptr cl.stream token.index, len := token.len }
    let iter := iter + 1
    let token := tokens_at cl.tokens iter
    let val : iwn_http_val := { buf := stream_ptr cl.stream token.index, len := token.len }
    (true, key, val, iter)

/-- `iwn_http_request_headers_iterate`: the value returned, `*key`, `*val` and
`*iter` after the call.  With `*iter == 0` the loop stops at the first
HEADER_KEY token among the first `tokens.size` entries, or leaves `*iter` at
`tokens.size`. -/
def iwn_http_request_headers_iterate (cl : client) (key val : iwn_http_val) (iter : Int) :
    Bool × iwn_http_val × iwn_http_val × Int :=
  if iter = 0 then
    match (List.range cl.tokens.size.toNat).find? (fun i =>
        (tokens_at cl.tokens i).type = HS_TOK_HEADER_KEY) with
    | some i => _iteration_headers_assign cl key val i
    | none => (false, key, val, if 0 < cl.tokens.size then cl.tokens.size else 0)
  else _iteration_headers_assign cl key val (iter + 1)

/-- Successive calls of `iwn_http_request_headers_iterate` by a handler, the
first with the iterator `iter`: for each call the value returned, the bytes of
`*key` and `*val`, and the iterator after the call. -/
def headers_iterate_calls (cl : client) : Nat → Int → List (Bool × List Nat × List Nat × Int)
  | 0, _ => []
  | n + 1, iter =>
    let r := iwn_http_request_headers_iterate cl {} {} iter
    (r.1, r.2.1.bytes, r.2.2.1.bytes, r.2.2.2) :: headers_iterate_calls cl n r.2.2.2

/-- A request head of 57 bytes on a server with the default configuration
(`request_buf_max_size = 8388608`): the first body byte has the offset 57, so
the buffer can hold at most `R = 8388551` body bytes.  The Content-Length is
`R + 1`. -/
def over_room_request : List Nat :=
  str "POST /echo HTTP/1.1\r\nHost: x\r\ncontent-length: 8388552\r\n\r\n"

/-- The same request head with the Content-Length `R + 3`. -/
def stream_room_request : List Nat :=
  str "POST /echo HTTP/1.1\r\nHost: x\r\ncontent-length: 8388554\r\n\r\n"

/-- The flag `server->https` that `iwn_http_server_create` computes: the
certificate and the private key are both given, with lengths other than 0. -/
def server_https (spec : iwn_http_server_spec) : Bool :=
  spec.certs_data.isSome && decide (spec.certs_data_len ≠ 0)
    && spec.private_key.isSome && decide (spec.private_key_len ≠ 0)

/-- Modelled from the spec: `iwpool_strndup` of the library `iowow`, a copy of
the first `len` bytes of a text. -/
def iwpool_strndup (s : Option (List Nat)) (len : Int) : Option (List Nat) :=
  s.map (fun b => b.take len.toNat)

/-- `iwn_http_server_create`: the configuration the server is created with
once the handler and the poller have been found present (allocation never
fails): the defaults of the numeric fields, the copies of the TLS material, the
default port and the default address. -/
def iwn_http_server_create (spec : iwn_http_server_spec) : iwn_http_server_spec :=
  let spec := if spec.http_socket_queue_size < 1
    then { spec with http_socket_queue_size := 64 } else spec
  let spec := if spec.request_buf_size < 1024 then { spec with request_buf_size := 1024 } else spec
  let spec := if spec.request_timeout_sec = 0
    then { spec with request_timeout_sec := 20 } else spec
  let spec := if spec.request_timeout_keepalive_sec = 0
    then { spec with request_timeout_keepalive_sec := 120 } else spec
  let spec := if spec.request_token_max_len < 8192
    then { spec with request_token_max_len := 8192 } else spec
  let spec := if spec.request_max_header_count < 1
    then { spec with request_max_header_count := 127 } else spec
  let spec := if spec.request_buf_max_size < 1024 * 1024
    then { spec with request_buf_max_size := 8 * 1024 * 1024 } else spec
  let spec := if spec.response_buf_size < 1 then { spec with response_buf_size := 1024 } else spec
  let https := server_https spec
  let spec := if https
    then { spec with
      certs_data := iwpool_strndup spec.certs_data spec.certs_data_len
      private_key := iwpool_strndup spec.private_key spec.private_key_len }
    else spec
  let spec := if spec.port = 0 then { spec with port := if https then 8443 else 8080 } else spec
  if spec.listen.isNone then { spec with listen := some (str "localhost") } else spec

/-- `iwn_http_server_create` with its validation: `none` stands for
`IW_ERROR_INVALID_ARGS`, returned when the handler or the poller is missing,
before any of the calls `getaddrinfo` and `socket`. -/
def iwn_http_server_create_rc (spec : iwn_http_server_spec) : Option iwn_http_server_spec :=
  if ¬ spec.request_handler then none
  else if ¬ spec.poller then none
  else some (iwn_http_server_create spec)

/-- A configuration whose initial buffer size, 2 MiB, is larger than its
maximal buffer size, 1 MiB. -/
def wide_spec : iwn_http_server_spec :=
  { request_buf_size := 2097152, request_buf_max_size := 1048576 }

/-- The bytes of a first read of 2 MiB. -/
def wide_input : List Nat := List.replicate 2097152 65

/-- The request `GET /empty HTTP/1.1` with the single header `Host` whose value
is 8193 bytes `a`, one byte more than the default `request_token_max_len`. -/
def long_value_request : List Nat :=
  request_bytes (str "GET") (str "/empty") (str "HTTP/1.1") [(str "Host", long_value)]

/-- The meta states of the request head: those the meta FSM can be in before
the blank line has been read. -/
def head_meta (m : meta_state_e) : Prop :=
  m = M_WFK ∨ m = M_ANY ∨ m = M_MTE ∨ m = M_MCL ∨ m = M_CLV ∨ m = M_MCK ∨ m = M_SML
    ∨ m = M_CHK ∨ m = M_BIG ∨ m = M_ERR

instance (m : meta_state_e) : Decidable (head_meta m) := by
  unfold head_meta; infer_instance

/-- The meta state after the name `key` of a header line and its colon, when
the line begins in the meta state `m`. -/
def key_meta (m : meta_state_e) (key : List Nat) : meta_state_e :=
  meta_transitions_at (key.foldl _transition_hk { meta := m }).meta HS_META_END_KEY

/-- The meta state after the value `w` of a header line and its CR, when the
value begins in the meta state `m`. -/
def value_meta (m : meta_state_e) (w : List Nat) : meta_state_e :=
  meta_transitions_at (w.foldl _transition_hv { meta := m }).meta HS_META_END_VALUE

/-- The content length after the value `w` of a header line, when the value
begins in the meta state `m` with the content length `N`. -/
def value_length (m : meta_state_e) (N : Int) (w : List Nat) : Int :=
  (w.foldl _transition_hv { meta := m, content_length := N }).content_length

/-- The meta state after the header line `h`, when the line begins in the meta
state `m`. -/
def line_meta (m : meta_state_e) (h : List Nat × List Nat) : meta_state_e :=
  value_meta (key_meta m h.1) h.2

/-- The content length after the header line `h`, when the line begins in the
meta state `m` with the content length `N`. -/
def line_length (m : meta_state_e) (N : Int) (h : List Nat × List Nat) : Int :=
  value_length (key_meta m h.1) N h.2

/-- The meta state and the content length after the header lines `hs`. -/
def block_state : meta_state_e → Int → List (List Nat × List Nat) → meta_state_e × Int
  | m, N, [] => (m, N)
  | m, N, h :: hs => block_state (line_meta m h) (line_length m N h) hs

/-- A header line `name: value` that the character FSM accepts, with the name
and the value no longer than `request_token_max_len`. -/
def line_valid (spec : iwn_http_server_spec) (h : List Nat × List Nat) : Prop :=
  token_ok RN HK h.1 ∧ token_ok HS HV h.2
    ∧ (h.1.length : Int) ≤ spec.request_token_max_len
    ∧ (h.2.length : Int) ≤ spec.request_token_max_len

instance (spec : iwn_http_server_spec) (h : List Nat × List Nat) :
    Decidable (line_valid spec h) := by
  unfold line_valid; infer_instance

/-- The token and the parser after the LF of the blank line, read at the
offset `n` by a parser `p` in state `ER`: the case `HN` of the switch of
`_transition` after the block `if (from != to)`. -/
def end_headers (spec : iwn_http_server_spec) (n : Nat) (p : parser) : token × parser :=
  let p1 : parser := { p with state := HN, match_index := 0 }
  let p2 : parser :=
    if p1.meta = M_SML ∧ ¬ (spec.request_buf_max_size - (n : Int) + 1 ≥ p1.content_length)
    then _meta_trigger p1 HS_META_LARGE_BODY else p1
  let em : token := if p2.meta = M_BIG ∨ p2.meta = M_CHK then { type := HS_TOK_BODY_STREAM } else {}
  let p3 := _meta_trigger p2 HS_META_END_HEADERS
  let p4 : parser :=
    if p3.content_length = 0 ∧ p3.meta = M_BDY then { p3 with meta := M_END } else p3
  let em : token := if p4.meta = M_END then { em with type := HS_TOK_BODY } else em
  (em, p4)

/-- A server whose configuration allows two headers per request
(`request_max_header_count = 2`, every other field at its default). -/
def two_header_server : server := { spec := { request_max_header_count := 2 } }

/-- A chunked upload whose header `Transfer-Encoding: chunked` comes after a
header `Content-Length: 5`. -/
def length_then_chunked_request : List Nat :=
  str "POST /large HTTP/1.1\r\nContent-Length: 5\r\nTransfer-Encoding: chunked\r\n\r\n5\r\nhello\r\n0\r\n\r\n"

/-- A request whose only header is named `Content`, a proper prefix of
`Content-Length`, followed by 5 bytes. -/
def prefix_name_request : List Nat := str "POST /echo HTTP/1.1\r\nContent: 5\r\n\r\nhello"

/-- A request whose only header is named `content-lengthing`, followed by 5
bytes. -/
def extended_name_request : List Nat :=
  str "POST /echo HTTP/1.1\r\ncontent-lengthing: 5\r\n\r\nhello"

/-- A request whose only header is `T: c`: the name is a proper prefix of
`Transfer-Encoding`, the value a proper prefix of `chunked`. -/
def prefix_chunked_request : List Nat := str "POST /echo HTTP/1.1\r\nT: c\r\n\r\n5\r\nhello"

/-- A header line with the letters of its name in lower case. -/
def line_lower (h : List Nat × List Nat) : List Nat × List Nat := (h.1.map tolower, h.2)

/-- The client with another read buffer. -/
def with_buf (cl : client) (b : Option (List Nat)) : client :=
  { cl with stream := { cl.stream with buf := b } }

/-- The states of the character FSM in which a body is read. -/
def body_state (s : state_e) : Prop :=
  s = BD ∨ s = CS ∨ s = CB ∨ s = CE ∨ s = state_e.CR ∨ s = CN ∨ s = CD ∨ s = C1 ∨ s = C2

instance (s : state_e) : Decidable (body_state s) := by
  unfold body_state; infer_instance

/-- The condition under which the parser no longer looks at the bytes before
the offset `a` of the buffer: the cursor is at `a` or behind it; in a body
state the anchor is at `a` or behind it; in state `CB` a token that has begun
starts at `a` or behind it; and the current token has a length, which is 0
when no token has begun. -/
def frame_inv (a : Nat) (cl : client) : Prop :=
  (a : Int) ≤ cl.stream.index
  ∧ (body_state cl.parser.state → (a : Int) ≤ cl.stream.anchor)
  ∧ (cl.parser.state = CB → cl.stream.token.type ≠ HS_TOK_NONE → (a : Int) ≤ cl.stream.token.index)
  ∧ 0 ≤ cl.stream.token.len
  ∧ (cl.stream.token.type = HS_TOK_NONE → cl.stream.token.len = 0)

/-- The state the character FSM passes to on a byte, with the override of
`_token_parse` for the first byte of a chunked body. -/
def next_state (p : parser) (c : Nat) : state_e :=
  if p.meta = M_ZER ∧ p.state = HN ∧ transitions_at p.state (ctype_of c) = BD then CS
  else transitions_at p.state (ctype_of c)

/-- The configuration with every field at its default and within its range,
except that no address to listen on is given. -/
def no_listen_spec : iwn_http_server_spec := { listen := none }

/-- A configuration with a zero port, the TLS material given, the queue size
0 and a negative timeout. -/
def tls_spec : iwn_http_server_spec :=
  { port := 0, certs_data := some (str "cert"), certs_data_len := 4,
    private_key := some (str "key"), private_key_len := 3,
    http_socket_queue_size := 0, request_timeout_sec := -1 }

/-- The text `iwn_http_response_chunk_write` hands to `_client_response_write`
and the client it hands it for: when `HTTP_CHUNKED_RESPONSE` is clear, the
header `transfer-encoding: chunked` is set and the status line and headers are
written; then comes the frame of the body that is set after the call of
`iwn_http_response_body_set`.  `%X` prints an `unsigned int`, the low 32 bits
of `body_len`. -/
def chunk_write_text (e : env) (cl : client) (body : Option (List Nat)) (body_len : Int)
    (body_free : Option Nat) (chunk_cb : Option Nat) : client × List Nat :=
  let h : client × List Nat :=
    if ¬ cl.flags.HTTP_CHUNKED_RESPONSE then
      _client_response_headers_write_http e
        (iwn_http_response_header_set cl (str "transfer-encoding") (str "chunked"))
    else (cl, [])
  let cl := iwn_http_response_body_set h.1 body body_len body_free
  let cl := { cl with chunk_cb := chunk_cb }
  (cl, h.2 ++ fmt_X (cl.response.body_len % 4294967296) ++ str "\r\n"
    ++ (cl.response.body.getD []).take cl.response.body_len.toNat ++ str "\r\n")

/-- `iwn_http_response_chunk_write` (allocation never fails). -/
def iwn_http_response_chunk_write (cb : callbacks) (e : env) (cl : client)
    (body : Option (List Nat)) (body_len : Int) (body_free : Option Nat)
    (chunk_cb : Option Nat) : client :=
  let r := chunk_write_text e cl body body_len body_free chunk_cb
  _client_response_write cb r.1 r.2

/-- The text `iwn_http_response_chunk_end` hands to `_client_response_write`. -/
def chunk_end_text (cl : client) : List Nat :=
  str "0\r\n" ++ _client_response_headers_write cl ++ str "\r\n"

/-- `iwn_http_response_chunk_end` (allocation never fails). -/
def iwn_http_response_chunk_end (cb : callbacks) (cl : client) : client :=
  _client_response_write cb cl (chunk_end_text cl)

/-- The client on which the request handler is called for the request
`empty_request`, after a first call of `iwn_http_response_chunk_write` with
the body `hello` and the chunk callback 1, made at second 1; the callback
would write the chunk ` world`. -/
def first_chunk_client : client :=
  iwn_http_response_chunk_write
    { request_handler := fun cl => cl
      chunk_cb := fun _ cl =>
        iwn_http_response_chunk_write no_callbacks example_env_later cl (some (str " world")) 6
          none none }
    example_env (client_at_handler empty_request) (some (str "hello")) 5 none (some 1)

/-- An environment in which the clock reads second 1 and the stack buffer of
the serializer holds the bytes `junk` on entry. -/
def junk_env : env := { now := 1, date_text := example_date_text, dbuf := str "junk" }

/-- The callbacks of an application that answers every request with an empty
response, in the environment `junk_env`. -/
def junk_callbacks : callbacks := end_callbacks junk_env

/-- The script of a peer that sends the request `empty_request` twice, the
second time after the first response. -/
def twice_input : List io_result :=
  [io_result.bytes empty_request, io_result.fail EAGAIN, io_result.bytes empty_request]

/-- The request `GET / HTTP/1.1` followed directly by the blank line. -/
def no_header_request : List Nat := str "GET / HTTP/1.1\r\n\r\n"

/-- The client `cl1` differs from `cl` at most in its read stream and its
parser. -/
def same_session (cl cl1 : client) : Prop :=
  cl1 = { cl with stream := cl1.stream, parser := cl1.parser }

/-- The states between the CR that ends a header value and the first byte
after the blank line: no token is in progress in them. -/
def gap_state (s : state_e) : Prop := s = HR ∨ s = HE ∨ s = ER ∨ s = HN

instance (s : state_e) : Decidable (gap_state s) := by
  unfold gap_state; infer_instance

/-- The condition the read stream satisfies between the operations of the
parser: `0 <= anchor <= index <= length <= capacity`; the current token has a
length that is not negative, 0 when no token is in progress, and does not
start behind the cursor; a token in progress does not start before the
anchor; no token is in progress in the states from the end of a header value
to the blank line; and in the states of a body the length of the current
token is at most the distance from the anchor to the cursor. -/
def stream_inv (cl : client) : Prop :=
  0 ≤ cl.stream.anchor
  ∧ cl.stream.anchor ≤ cl.stream.index
  ∧ cl.stream.index ≤ cl.stream.length
  ∧ cl.stream.length ≤ cl.stream.capacity
  ∧ 0 ≤ cl.stream.token.len
  ∧ (cl.stream.token.type = HS_TOK_NONE → cl.stream.token.len = 0)
  ∧ cl.stream.token.index ≤ cl.stream.index
  ∧ (cl.stream.token.type ≠ HS_TOK_NONE → cl.stream.anchor ≤ cl.stream.token.index)
  ∧ (gap_state cl.parser.state → cl.stream.token.type = HS_TOK_NONE)
  ∧ (body_state cl.parser.state → cl.stream.anchor + cl.stream.token.len ≤ cl.stream.index)

/-- Modelled from the spec: rotation of a 32-bit word to the left by `n` bits, as SHA-1 uses it. -/
def rotl32 (x n : Nat) : Nat := ((x <<< n) ||| (x >>> (32 - n))) % 4294967296

/-- Modelled from the spec: the `count` low bytes of `n`, most significant first. -/
def be_bytes (count n : Nat) : List Nat :=
  (List.range count).map (fun i => (n >>> (8 * (count - 1 - i))) % 256)

/-- Modelled from the spec: the number with the big-endian bytes `bs`. -/
def be_word (bs : List Nat) : Nat := bs.foldl (fun acc b => acc * 256 + b) 0

/-- Modelled from the spec: the SHA-1 padding: the byte `0x80`, zero bytes up to 56 modulo 64, and
the length of the message in bits as eight big-endian bytes. -/
def sha1_pad (msg : List Nat) : List Nat :=
  msg ++ [128] ++ List.replicate ((119 - msg.length % 64) % 64) 0 ++ be_bytes 8 (8 * msg.length)

/-- Modelled from the spec: the first `n` blocks of 64 bytes of a padded message. -/
def sha1_blocks : Nat → List Nat → List (List Nat)
  | 0, _ => []
  | n + 1, l => l.take 64 :: sha1_blocks n (l.drop 64)

/-- Modelled from the spec: the eighty words of the SHA-1 message schedule of one block. -/
def sha1_schedule (block : List Nat) : List Nat :=
  (List.range 64).foldl
    (fun w _ =>
      let t := w.length
      w ++ [rotl32 (w.getD (t - 3) 0 ^^^ w.getD (t - 8) 0 ^^^ w.getD (t - 14) 0 ^^^ w.getD (t - 16) 0) 1])
    ((List.range 16).map (fun i => be_word ((block.drop (4 * i)).take 4)))

/-- Modelled from the spec: the round function of SHA-1 in round `t`. -/
def sha1_f (t b c d : Nat) : Nat :=
  if t < 20 then (b &&& c) ||| ((4294967295 - b) &&& d)
  else if t < 40 then b ^^^ c ^^^ d
  else if t < 60 then (b &&& c) ||| (b &&& d) ||| (c &&& d)
  else b ^^^ c ^^^ d

/-- Modelled from the spec: the round constant of SHA-1 in round `t`. -/
def sha1_k (t : Nat) : Nat :=
  if t < 20 then 0x5A827999 else if t < 40 then 0x6ED9EBA1
  else if t < 60 then 0x8F1BBCDC else 0xCA62C1D6

/-- Modelled from the spec: the five 32-bit words of the SHA-1 state. -/
structure sha1_state where
  a : Nat
  b : Nat
  c : Nat
  d : Nat
  e : Nat
deriving DecidableEq, Repr

/-- Modelled from the spec: one round of SHA-1 with schedule `w`. -/
def sha1_round (w : List Nat) (s : sha1_state) (t : Nat) : sha1_state :=
  { a := (rotl32 s.a 5 + sha1_f t s.b s.c s.d + s.e + sha1_k t + w.getD t 0) % 4294967296
    b := s.a
    c := rotl32 s.b 30
    d := s.c
    e := s.d }

/-- Modelled from the spec: the SHA-1 compression of one block into the state `h`. -/
def sha1_block (h : sha1_state) (block : List Nat) : sha1_state :=
  let s := (List.range 80).foldl (sha1_round (sha1_schedule block)) h
  { a := (h.a + s.a) % 4294967296
    b := (h.b + s.b) % 4294967296
    c := (h.c + s.c) % 4294967296
    d := (h.d + s.d) % 4294967296
    e := (h.e + s.e) % 4294967296 }

/-- Modelled from the spec: the initial SHA-1 state. -/
def sha1_init : sha1_state :=
  { a := 0x67452301, b := 0xEFCDAB89, c := 0x98BADCFE, d := 0x10325476, e := 0xC3D2E1F0 }

/-- Modelled from the spec: `br_sha1_init`, `br_sha1_update` over the whole message and
`br_sha1_out` of BearSSL (not among the sources): the 20 bytes of the SHA-1 digest of `msg`. -/
def br_sha1 (msg : List Nat) : List Nat :=
  let p := sha1_pad msg
  let s := (sha1_blocks (p.length / 64) p).foldl sha1_block sha1_init
  be_bytes 4 s.a ++ be_bytes 4 s.b ++ be_bytes 4 s.c ++ be_bytes 4 s.d ++ be_bytes 4 s.e

/-- Modelled from the spec: the character of the value `n < 64` in the original base64 alphabet. -/
def base64_char (n : Nat) : Nat :=
  if n < 26 then 65 + n else if n < 52 then 97 + (n - 26)
  else if n < 62 then 48 + (n - 52) else if n = 62 then 43 else 47

/-- Modelled from the spec: the base64 text of a byte string in the original variant, padded
with the character 61. -/
def base64_text : List Nat → List Nat
  | [] => []
  | [a] => [base64_char (a / 4), base64_char (a % 4 * 16), 61, 61]
  | [a, b] => [base64_char (a / 4), base64_char (a % 4 * 16 + b / 16), base64_char (b % 16 * 4), 61]
  | a :: b :: c :: rest =>
    base64_char (a / 4) :: base64_char (a % 4 * 16 + b / 16)
      :: base64_char (b % 16 * 4 + c / 64) :: base64_char (c % 64) :: base64_text rest

/-- Modelled from the spec: `iwn_base64_encode` of `utils/base64.h` (not among the sources) with
`base64_VARIANT_ORIGINAL`: it fails when the buffer of `b64_maxlen` bytes cannot hold the text and a
terminating zero, and gives the text otherwise; the length it reports is the length of the text. -/
def iwn_base64_encode (b64_maxlen : Nat) (bin : List Nat) : Option (List Nat) :=
  if (base64_text bin).length < b64_maxlen then some (base64_text bin) else none

/-- Modelled from the spec: `WS_MAGIC13` of `ws_server.h` (not among the sources); `ws.c` writes the
same text out in `_handshake_validate_accept_key`. -/
def WS_MAGIC13 : List Nat := str "258EAFA5-E914-47DA-95CA-C5AB0DC85B11"

/-- The `struct iwn_val` of `utils/iwn_pairs.h`: the length and the memory at the pointer (`none`
for the null pointer). -/
structure iwn_val where
  len : Nat := 0
  buf : Option (List Nat) := none
deriving DecidableEq, Repr

/-- Modelled from the spec: the `struct iwn_http_req` that `ws_server.c` is written against, as far
as `_route_handler` touches it: the headers of the request, the response headers set so far, the
upgrade mark of the connection, the status code of the written response and whether `_ws_data`
holds a session context. -/
structure ws_http_req where
  request_headers : List (List Nat × List Nat) := []
  response_headers : List (List Nat × List Nat) := []
  upgrade : Bool := false
  response_code : Option Int := none
  _ws_data : Bool := false
deriving DecidableEq, Repr

/-- Modelled from the spec: the `iwn_http_request_header_get (hreq, name, name_len)` that
`ws_server.c` calls (three arguments, a `struct iwn_val` as result; not the function of this name
in `http_server.c`): the value of the first request header whose name is `name` up to the case of
letters, the zero value when there is none. -/
def ws_request_header_get (hreq : ws_http_req) (name : List Nat) (name_len : Nat) : iwn_val :=
  match hreq.request_headers.find?
      (fun h => h.1.length == name_len && strncasecmp_eq h.1 name name_len) with
  | some h => { len := h.2.length, buf := some h.2 }
  | none => {}

/-- Modelled from the spec: the `iwn_http_response_header_set (hreq, name, value, value_len)` that
`ws_server.c` calls: the header is added to the response with the first `value_len` bytes of
`value`; it does not fail. -/
def ws_response_header_set (hreq : ws_http_req) (name value : List Nat) (value_len : Nat) :
    ws_http_req :=
  { hreq with response_headers := hreq.response_headers ++ [(name, value.take value_len)] }

/-- Modelled from the spec: `iwn_http_connection_set_upgrade`: the connection is marked as
upgraded. -/
def iwn_http_connection_set_upgrade (hreq : ws_http_req) : ws_http_req :=
  { hreq with upgrade := true }

/-- Modelled from the spec: the `iwn_http_response_write (hreq, status_code, …)` that `ws_server.c`
calls: the response is written with the status code and the call reports success. -/
def iwn_http_response_write (hreq : ws_http_req) (status_code : Int) : Bool × ws_http_req :=
  (true, { hreq with response_code := some status_code })

/-- The C `strncmp (a, b, n) == 0`: the strings agree up to their first zero byte or up to `n`
bytes. -/
def strncmp_eq : List Nat → List Nat → Nat → Bool
  | _, _, 0 => true
  | a, b, n + 1 =>
    if a.headD 0 ≠ b.headD 0 then false
    else if a.headD 0 = 0 then true
    else strncmp_eq a.tail b.tail n

/-- The `_route_handler` of `ws_server.c`: the result `rv` and the request after the call. The
allocation of the session context does not fail; `rc` stays zero because the modelled header
setter does not fail. -/
def _route_handler (hreq : ws_http_req) : Int × ws_http_req :=
  let val := ws_request_header_get hreq (str "upgrade") (str "upgrade").length
  if val.len ≠ (str "websocket").length
      ∨ ¬ strncasecmp_eq (val.buf.getD []) (str "websocket") val.len then (-1, hreq)
  else
    let val := ws_request_header_get hreq (str "sec-websocket-version")
      (str "sec-websocket-version").length
    if val.len ≠ (str "13").length ∨ ¬ strncmp_eq (val.buf.getD []) (str "13") val.len then
      (-1, hreq)
    else
      let ws_key := ws_request_header_get hreq (str "sec-websocket-key")
        (str "sec-websocket-key").length
      if ws_key.len = 0 then (-1, hreq)
      else
        let hreq1 := ws_response_header_set hreq (str "upgrade") (str "websocket")
          (str "websocket").length
        let ws_protocol := ws_request_header_get hreq1 (str "sec-websocket-protocol")
          (str "sec-websocket-protocol").length
        let hreq2 :=
          if ws_protocol.len ≠ 0 then
            ws_response_header_set hreq1 (str "sec-websocket-protocol") (ws_protocol.buf.getD [])
              ws_protocol.len
          else hreq1
        let buf := (ws_key.buf.getD []).take ws_key.len ++ WS_MAGIC13
        let hbuf := br_sha1 buf
        match iwn_base64_encode (20 * 2) hbuf with
        | none => (-1, hreq2)
        | some vbuf =>
          let hreq3 := ws_response_header_set hreq2 (str "sec-websocket-accept") vbuf vbuf.length
          let hreq4 := { hreq3 with _ws_data := true }
          let hreq5 := iwn_http_connection_set_upgrade hreq4
          let w := iwn_http_response_write hreq5 101
          if w.1 then (1, w.2) else (-1, { w.2 with _ws_data := false })

/-- A handshake request in the style of RFC 6455. -/
def sample_ws_req : ws_http_req :=
  { request_headers :=
      [(str "Host", str "server.example.com"), (str "Upgrade", str "WebSocket"),
       (str "Connection", str "Upgrade"),
       (str "Sec-WebSocket-Key", str "dGhlIHNhbXBsZSBub25jZQ=="),
       (str "Sec-WebSocket-Version", str "13")] }

/-- Two read buffers of the same size that hold the same bytes from the offset
`a` on. -/
def buf_agree (a : Nat) (b b2 : Option (List Nat)) : Prop :=
  (b.getD []).length = (b2.getD []).length ∧ (b.getD []).drop a = (b2.getD []).drop a

/-- The states of the character FSM before the end of the request head: every
state but `HN` and the states of a body. -/
def early_state (s : state_e) : Prop := ¬ (s = HN ∨ body_state s)

instance (s : state_e) : Decidable (early_state s) := by
  unfold early_state; infer_instance

/-- Two byte strings that differ only in the case of letters inside header
names, read by the character FSM from the state `s`: they have the same
length, and where the bytes differ they are the same letter up to case and the
byte takes the character FSM into the state `HK`, in which the name of a header
is read. -/
def case_variant : state_e → List Nat → List Nat → Prop
  | _, [], [] => True
  | s, c :: cs, c2 :: cs2 =>
    (c = c2 ∨ (tolower c = tolower c2 ∧ transitions_at s (ctype_of c) = HK))
      ∧ case_variant (transitions_at s (ctype_of c)) cs cs2
  | _, _, _ => False

/-- The relation kept by the parser between a client and a second read buffer
before the end of the request head: the bytes not yet read are case variants
from the state of the parser, and the meta FSM is in a state of the head. -/
def early_ok (cl : client) (B2 : Option (List Nat)) : Prop :=
  frame_inv 0 cl ∧ early_state cl.parser.state ∧ head_meta cl.parser.meta
    ∧ case_variant cl.parser.state ((cl.stream.buf.getD []).drop cl.stream.index.toNat)
        ((B2.getD []).drop cl.stream.index.toNat)

/-- The relation kept by the parser between a client and a second read buffer:
either the head is still being read and the buffers are case variants, or the
buffers agree from an offset on before which the parser no longer looks. -/
def case_rel (cl : client) (B2 : Option (List Nat)) : Prop :=
  (cl.stream.buf.getD []).length = (B2.getD []).length
    ∧ (early_ok cl B2 ∨ ∃ a, frame_inv a cl ∧ buf_agree a cl.stream.buf B2)

instance case_variant_dec : ∀ (s : state_e) (l l2 : List Nat), Decidable (case_variant s l l2)
  | _, [], [] => isTrue trivial
  | _, [], _ :: _ => isFalse (by simp [case_variant])
  | _, _ :: _, [] => isFalse (by simp [case_variant])
  | s, c :: cs, c2 :: cs2 =>
    have := case_variant_dec (transitions_at s (ctype_of c)) cs cs2
    decidable_of_iff
      ((c = c2 ∨ (tolower c = tolower c2 ∧ transitions_at s (ctype_of c) = HK))
        ∧ case_variant (transitions_at s (ctype_of c)) cs cs2)
      (by simp [case_variant])

/-- The request of scenario 2 of the specification with other cases of the
letters of its header names. -/
def echo_request_upper : List Nat :=
  str "POST /echo HTTP/1.1\r\nHOST: x\r\nContent-Length: 5\r\n\r\nhello"

/-- A request whose Content-Length value is the byte `!`, followed by one
byte. -/
def bang_length_request : List Nat := str "POST /echo HTTP/1.1\r\nContent-Length: !\r\n\r\nx"

/-- A request with `Content-Length: 4294967296` (2^32) of whose body three
bytes have arrived. -/
def huge_length_request : List Nat :=
  str "POST /echo HTTP/1.1\r\nContent-Length: 4294967296\r\n\r\nabc"

/-- A request whose first header line has an empty value. -/
def empty_value_request : List Nat := str "GET / HTTP/1.1\r\nA:\r\nB: c\r\n\r\n"

/-- The number of entries of the table `_token_start_states` of the source
(one for each state from `ST` to `C2`). -/
def token_start_states_len : Nat := 24

/-- The index of the read `_token_start_states[to]` that `_transition` makes in
the turn of the loop of `_token_parse` for the byte `c`: the state `to` the
parser passes to, read when `from != to`; `none` when the table is not read. -/
def token_start_index (p : parser) (c : Nat) : Option Nat :=
  if p.state ≠ next_state p c then some (next_state p c).toNat else none

/-- Calls of `_token_parse` until it returns no token, at most `fuel` of them:
the tokens returned and the client. -/
def parse_exhaust : Nat → client → Option (List token × client)
  | 0, _ => none
  | fuel + 1, cl =>
    match _token_parse cl with
    | none => none
    | some (t, cl1) =>
      if t.type = HS_TOK_NONE then some ([], cl1)
      else
        match parse_exhaust fuel cl1 with
        | none => none
        | some (ts, cl2) => some (t :: ts, cl2)

/-- The tokens of a request that arrives in the reads `ds`: each read stores
its bytes behind the valid bytes of the buffer, and `_token_parse` is called
until it returns no token. -/
def parse_reads (fuel : Nat) : client → List (List Nat) → Option (List token × client)
  | cl, [] => some ([], cl)
  | cl, d :: ds =>
    match parse_exhaust fuel (client_feed cl d) with
    | none => none
    | some (ts, cl1) =>
      match parse_reads fuel cl1 ds with
      | none => none
      | some (ts2, cl2) => some (ts ++ ts2, cl2)

/-- A request with a SMALL body of five bytes, two of them spaces. -/
def spaced_body_request : List Nat :=
  str "POST /echo HTTP/1.1\r\nHost: x\r\ncontent-length: 5\r\n\r\na b c"

/-- The `struct msg` of `ws_server.c`: the bytes of the message and the
address of the next message of the list (`none` for the null pointer). -/
structure msg where
  buf : List Nat := []
  next : Option Nat := none
deriving DecidableEq, Repr

/-- The part of the `struct ctx` of `ws_server.c` that the message queue uses:
the messages allocated so far (the address of a message is its position in
`heap`), the head `messages` of the pending list, and whether the
configuration has a `msg_handler`. -/
structure ws_ctx where
  heap : List msg := []
  messages : Option Nat := none
  msg_handler : Bool := true
deriving DecidableEq, Repr

/-- What stops a function of the message queue before it returns: the read of
a field through a null pointer, or the bound on the turns of a loop. -/
inductive ws_fault where
  | null_deref
  | fuel
deriving DecidableEq, Repr

/-- Modelled from the spec: `wslay_is_ctrl_frame` of the wslay library (not
among the sources): the opcodes with bit 3 set are control frames. -/
def wslay_is_ctrl_frame (opcode : Nat) : Bool := (opcode / 8) % 2 == 1

/-- The loop `while (mm->next) mm = m->next;` of `_wslay_msg_recv_callback`,
with a bound on its turns: the condition reads `mm->next`, the body sets `mm`
to the `next` field of the NEW message `m`. -/
def msg_tail_loop : Nat → List msg → Nat → Option Nat → Except ws_fault Nat
  | 0, _, _, _ => Except.error ws_fault.fuel
  | _ + 1, _, _, none => Except.error ws_fault.null_deref
  | fuel + 1, heap, m, some mm =>
    match heap.get? mm with
    | none => Except.error ws_fault.null_deref
    | some node =>
      match node.next with
      | none => Except.ok mm
      | some _ => msg_tail_loop fuel heap m ((heap.get? m).bind (fun x => x.next))

/-- The store `p->next = m` in the heap. -/
def msg_set_next (heap : List msg) (p m : Nat) : List msg :=
  heap.set p { (heap.getD p {}) with next := some m }

/-- `_wslay_msg_recv_callback` for a message with the opcode `opcode` and the
bytes `data` (allocation does not fail). -/
def _wslay_msg_recv_callback (fuel : Nat) (ctx : ws_ctx) (opcode : Nat) (data : List Nat) :
    Except ws_fault ws_ctx :=
  if wslay_is_ctrl_frame opcode ∨ data.length = 0 ∨ ¬ ctx.msg_handler then Except.ok ctx
  else
    let m := ctx.heap.length
    let heap := ctx.heap ++ [{ buf := data, next := none }]
    match ctx.messages with
    | some mm =>
      match msg_tail_loop fuel heap m (some mm) with
      | Except.error e => Except.error e
      | Except.ok last => Except.ok { ctx with heap := msg_set_next heap last m }
    | none => Except.ok { ctx with heap := heap, messages := some m }

/-- The loop `while (m)` of `_on_poller_adapter_event` of `ws_server.c`, with a
bound on its turns: the messages passed to `msg_handler`, in order, and the
value of `ret`; a message is passed only while `ret` is not -1, and `ret`
becomes -1 when the handler returns false. -/
def ws_deliver (handler : List Nat → Bool) :
    Nat → List msg → Option Nat → Int → Except ws_fault (List (List Nat) × Int)
  | _, _, none, ret => Except.ok ([], ret)
  | 0, _, some _, _ => Except.error ws_fault.fuel
  | fuel + 1, heap, some m, ret =>
    match heap.get? m with
    | none => Except.error ws_fault.null_deref
    | some node =>
      let call := decide (ret ≠ -1)
      let ret1 : Int := if call ∧ ¬ handler node.buf then -1 else ret
      match ws_deliver handler fuel heap node.next ret1 with
      | Except.error e => Except.error e
      | Except.ok (l, r) => Except.ok (if call then node.buf :: l else l, r)

/-- The context of a session with two pending text messages `a` and `b`. -/
def two_pending : Except ws_fault ws_ctx :=
  match _wslay_msg_recv_callback 8 {} 1 (str "a") with
  | Except.error e => Except.error e
  | Except.ok c => _wslay_msg_recv_callback 8 c 1 (str "b")

/-- A session in the Write state with the five bytes `hello` to send, on a
socket that takes two bytes. -/
def partial_write_client : client :=
  { state := HTTP_SESSION_WRITE
    stream := { buf := some (str "hello"), length := 5, capacity := 6 }
    pa := { output := [Sum.inl 2] }
    flags := { HTTP_KEEP_ALIVE := true } }

/-- A session in the Write state whose five bytes the socket takes at once, on
a keep-alive connection. -/
def full_write_client : client :=
  { state := HTTP_SESSION_WRITE
    stream := { buf := some (str "hello"), length := 5, capacity := 6 }
    flags := { HTTP_KEEP_ALIVE := true } }

/-- A session in the Write state whose five bytes the socket takes at once, on
a connection without keep-alive. -/
def last_write_client : client :=
  { state := HTTP_SESSION_WRITE
    stream := { buf := some (str "hello"), length := 5, capacity := 6 } }

/-- A request whose header line has a TAB after the colon and a value with a
space and a TAB inside. -/
def tab_value_request : List Nat := str "GET / HTTP/1.1\r\nA:\tb c\td\r\n\r\n"

/-- A connection on which two requests of scenario 1 arrive in one read. -/
def pipelined_client : client :=
  client_accepted {} { input := [io_result.bytes (empty_request ++ empty_request)] }

/-- A connection on which one request of scenario 1 arrives. -/
def single_client : client :=
  client_accepted {} { input := [io_result.bytes empty_request] }

/-- The client `cl0` with parser `p`, cursor `a`, anchor `A`, `L` valid bytes,
a current token that is zero but for its index `ti`, and `CONSUMED` bit
`b`. -/
def str_at (cl0 : client) (p : parser) (a : Nat) (A L ti : Int) (b : Bool) : client :=
  { cl0 with
    parser := p
    stream := { cl0.stream with
      index := (a : Int), anchor := A, length := L, token := { index := ti }, consumed := b } }

/-- The pulls of a streamed body, one for each piece of bytes that arrives:
the read of `_client_read_bytes` finds the piece and `_token_parse` is called
once.  The result lists the token of each pull with the bytes it refers to in
the buffer at that moment (the view of `iwn_http_request_chunk_get`). -/
def stream_pulls : client → List (List Nat) → Option (List (token × List Nat) × client)
  | cl, [] => some ([], cl)
  | cl, d :: ds =>
    match _token_parse (client_feed cl d) with
    | none => none
    | some (t, cl1) =>
      match stream_pulls cl1 ds with
      | none => none
      | some (ts, cl2) => some ((t, token_bytes cl1.stream.buf t) :: ts, cl2)

/-- The pulls of a streamed body whose first bytes `d0` arrived in the read
that brought the end of the headers: if there are such bytes the first pull
calls `_token_parse` without a read (`_client_read_bytes` returns at once when
unread bytes are left); the further pulls are those of `stream_pulls`. -/
def body_pulls (cl : client) (d0 : List Nat) (ds : List (List Nat)) :
    Option (List (token × List Nat) × client) :=
  if d0 = [] then stream_pulls cl ds
  else
    match _token_parse cl with
    | none => none
    | some (t, cl1) =>
      match stream_pulls cl1 ds with
      | none => none
      | some (ts, cl2) => some ((t, token_bytes cl1.stream.buf t) :: ts, cl2)

/-- The CHUNK_BODY token at offset `a` for the bytes `d`, with these bytes. -/
def chunk_of (a : Nat) (d : List Nat) : token × List Nat :=
  ({ index := (a : Int), len := (d.length : Int), type := HS_TOK_CHUNK_BODY }, d)

/-- The first body bytes of the witness of C4, which arrive with the head. -/
def large_piece0 : List Nat := List.replicate 1000 97

/-- The further pieces of the body of the witness of C4. -/
def large_pieces : List (List Nat) := [List.replicate 4000000 98, List.replicate 4999000 99]

/-- The body of the witness of C4: 9000000 bytes, more than the 8 MiB of the
default `request_buf_max_size`. -/
def large_body_bytes : List Nat := large_piece0 ++ large_pieces.flatten

/-- The script of an adapter on which the pieces `ds` arrive one per
readiness event: each piece is what the reads of one event find, after which
a read would block (`EAGAIN`). -/
def read_script : List (List Nat) → List io_result
  | [] => []
  | d :: ds => io_result.bytes d :: io_result.fail EAGAIN :: read_script ds

/-- Successive readiness events on a connection, each one a call of
`_client_on_poller_adapter_event`; after a negative return the poller closes
the connection and no further event comes. -/
def run_events (cb : callbacks) (e : env) (fuel : Nat) : Nat → client → Option client
  | 0, cl => some cl
  | k + 1, cl =>
    match _client_on_poller_adapter_event cb e fuel cl with
    | none => none
    | some (r, cl1) => if r < 0 then some cl1 else run_events cb e fuel k cl1

/-- A connection that reads its request: the read buffer holds exactly the
bytes `bs`, the pieces `ds` are still to arrive and fit the buffer, and while
pieces are to come the adapter holds their script and the buffer has room. -/
def ready (cl0 : client) (bs : List Nat) (ds : List (List Nat)) : Prop :=
  cl0.stream.buf = some bs ∧ cl0.stream.length = (bs.length : Int)
    ∧ cl0.state = HTTP_SESSION_READ ∧ cl0.flags.HTTP_END_SESSION = false
    ∧ (bs.length : Int) + (ds.flatten.length : Int) ≤ cl0.server.spec.request_buf_max_size
    ∧ (ds ≠ [] → cl0.pa.input = read_script ds ∧ (bs.length : Int) < cl0.stream.capacity)

/-- The events for the pieces still to come take the client `cl` to a client
that satisfies `F`, and before the last of them the client satisfies `R`. -/
def events_lead (cb : callbacks) (e : env) (fuel : Nat) (R F : client → Prop) (cl : client)
    (n : Nat) : Prop :=
  (∃ clf, run_events cb e fuel n cl = some clf ∧ F clf)
    ∧ (∀ k, k < n → ∃ cl1, run_events cb e fuel k cl = some cl1 ∧ R cl1)

/-- The client `cl` after reads that left the adapter `pa1`, the bytes `bs` in
the buffer, `tot` bytes counted and the capacity `cap1`. -/
def after_read (cl : client) (pa1 : iwn_poller_adapter) (bs : List Nat) (tot cap1 : Int) :
    client :=
  { cl with
    pa := pa1
    stream := { cl.stream with
      buf := some bs, length := (bs.length : Int), bytes_total := tot, capacity := cap1 } }

/-- The client at the first read of a new connection: `_client_init` has run,
the state is READ and `_client_read_bytes` has allocated the read buffer of
`request_buf_size` bytes. -/
def client_first_read (srv : server) (pa : iwn_poller_adapter) : client :=
  { _client_init (client_accepted srv pa) with
    state := HTTP_SESSION_READ
    stream := { buf := some [], capacity := srv.spec.request_buf_size } }

/-! ## Theorems -/

/-! ### The parser loop -/

theorem drop_cons_getD {bs : List Nat} {n : Nat} {c : Nat} {rest : List Nat}
    (h : bs.drop n = c :: rest) : n < bs.length ∧ bs.getD n 0 = c ∧ bs.drop (n + 1) = rest := by
  induction bs generalizing n with
  | nil => simp at h
  | cons b bs ih =>
    cases n with
    | zero =>
      simp at h
      obtain ⟨rfl, rfl⟩ := h
      simp
    | succ n =>
      simp at h
      have := ih h
      simpa using this

theorem token_parse_loop_at_consumed (f : Nat) (cl0 : client) (p : parser) (n : Nat)
    (tok : token) (b : Bool) :
    token_parse_loop f (at_ cl0 p n tok b) = token_parse_loop f (at_ cl0 p n tok false) := by
  cases f with
  | zero => rfl
  | succ f => simp [token_parse_loop, _stream_next, at_]

theorem token_parse_loop_succ (f : Nat) (cl0 : client) (p : parser) (n : Nat) (tok : token)
    (b : Bool) (bs : List Nat) (c : Nat) (rest : List Nat)
    (hb : cl0.stream.buf = some bs) (hl : cl0.stream.length = bs.length)
    (hd : bs.drop n = c :: rest) :
    token_parse_loop (f + 1) (at_ cl0 p n tok b) =
      if (token_parse_step (at_ cl0 p n tok false) c).1.type ≠ HS_TOK_NONE
      then some (some (token_parse_step (at_ cl0 p n tok false) c).1,
                 (token_parse_step (at_ cl0 p n tok false) c).2)
      else token_parse_loop f (token_parse_step (at_ cl0 p n tok false) c).2 := by
  obtain ⟨hlt, hc, -⟩ := drop_cons_getD hd
  have h1 : ¬ ((n : Int) ≥ cl0.stream.length) := by rw [hl]; omega
  simp only [token_parse_loop, _stream_next, at_, h1, if_false, buf_at, hb, Option.getD_some,
    Int.toNat_ofNat, hc]

theorem token_parse_loop_end (f : Nat) (cl0 : client) (p : parser) (n : Nat) (tok : token)
    (b : Bool) (hl : cl0.stream.length = n) :
    token_parse_loop (f + 1) (at_ cl0 p n tok b) = some (none, at_ cl0 p n tok false) := by
  simp [token_parse_loop, _stream_next, at_, hl]

theorem token_parse_loop_mono (f : Nat) : ∀ (cl : client) (r : Option token × client),
    token_parse_loop f cl = some r → ∀ g, f ≤ g → token_parse_loop g cl = some r := by
  induction f with
  | zero => intro cl r h; simp [token_parse_loop] at h
  | succ f ih =>
    intro cl r h g hg
    obtain ⟨g, rfl⟩ : ∃ k, g = k + 1 := ⟨g - 1, by omega⟩
    unfold token_parse_loop at h ⊢
    rcases hn : _stream_next cl.stream with ⟨o, s⟩
    rw [hn] at h
    cases o with
    | none => simpa using h
    | some c =>
      simp only at h ⊢
      by_cases he : (token_parse_step { cl with stream := s } c).1.type ≠ HS_TOK_NONE
      · rw [if_pos he] at h ⊢
        exact h
      · rw [if_neg he] at h ⊢
        exact ih _ _ h g (by omega)

theorem run_stay (S : state_e) (upd : parser → Nat → parser)
    (hupd : ∀ p c, p.state = S → (upd p c).state = S)
    (hstep : ∀ (cl0 : client) (p : parser) (n : Nat) (tok : token) (c : Nat),
      p.state = S → accepts S S c → tok.type ≠ HS_TOK_NONE →
      token_parse_step (at_ cl0 p n tok false) c =
        ({}, at_ cl0 (upd p c) (n + 1) { tok with len := tok.len + 1 } true)) :
    ∀ (seg : List Nat), (∀ c ∈ seg, accepts S S c) →
    ∀ (cl0 : client) (bs : List Nat) (p : parser) (n : Nat) (tok : token) (f : Nat)
      (rest : List Nat) (b : Bool),
      cl0.stream.buf = some bs → cl0.stream.length = bs.length →
      bs.drop n = seg ++ rest → p.state = S → tok.type ≠ HS_TOK_NONE →
      token_parse_loop (f + seg.length) (at_ cl0 p n tok b) =
        token_parse_loop f (at_ cl0 (seg.foldl upd p) (n + seg.length)
          { tok with len := tok.len + seg.length } false) := by
  intro seg
  induction seg with
  | nil =>
    intro _ cl0 bs p n tok f rest b _ _ _ _ _
    simpa using token_parse_loop_at_consumed f cl0 p n tok b
  | cons c seg ih =>
    intro hseg cl0 bs p n tok f rest b hb hl hd hs ht
    have hc : accepts S S c := hseg c (by simp)
    have hd1 : bs.drop n = c :: (seg ++ rest) := by simpa using hd
    obtain ⟨-, -, hd2⟩ := drop_cons_getD hd1
    have e1 : f + (c :: seg).length = (f + seg.length) + 1 := by simp; omega
    rw [e1, token_parse_loop_succ _ cl0 p n tok b bs c (seg ++ rest) hb hl hd1,
      hstep cl0 p n tok c hs hc ht]
    simp only [ne_eq, not_true_eq_false, if_false]
    rw [ih (fun d hd => hseg d (by simp [hd])) cl0 bs (upd p c) (n + 1)
      { tok with len := tok.len + 1 } f rest true hb hl hd2 (hupd p c hs) ht]
    have e2 : n + 1 + seg.length = n + (c :: seg).length := by simp; omega
    have e3 : tok.len + 1 + (seg.length : Int) = tok.len + ((c :: seg).length : Int) := by
      simp; omega
    simp only [List.foldl_cons, e2, e3]

theorem run_token (S0 S S1 : state_e) (T : token_e) (hT : T ≠ HS_TOK_NONE)
    (Q : client → parser → Prop)
    (pb upd : parser → Nat → parser) (pe : parser → parser)
    (hpb : ∀ p c, (pb p c).state = S)
    (hupd : ∀ p c, p.state = S → (upd p c).state = S)
    (hbegin : ∀ (cl0 : client) (p : parser) (n : Nat) (c : Nat),
      p.state = S0 → accepts S0 S c → Q cl0 p →
      token_parse_step (at_ cl0 p n {} false) c =
        ({}, at_ cl0 (pb p c) (n + 1) { index := n, len := 1, type := T } true))
    (hstep : ∀ (cl0 : client) (p : parser) (n : Nat) (tok : token) (c : Nat),
      p.state = S → accepts S S c → tok.type ≠ HS_TOK_NONE →
      token_parse_step (at_ cl0 p n tok false) c =
        ({}, at_ cl0 (upd p c) (n + 1) { tok with len := tok.len + 1 } true))
    (hemit : ∀ (cl0 : client) (p : parser) (n : Nat) (tok : token) (c : Nat),
      p.state = S → accepts S S1 c → tok.type ≠ HS_TOK_NONE →
      token_parse_step (at_ cl0 p n tok false) c = (tok, at_ cl0 (pe p) (n + 1) {} true))
    (cl0 : client) (bs : List Nat) (p : parser) (n f : Nat) (first : Nat) (seg : List Nat)
    (term : Nat) (rest : List Nat) (b : Bool)
    (hb : cl0.stream.buf = some bs) (hl : cl0.stream.length = bs.length)
    (hd : bs.drop n = first :: (seg ++ term :: rest))
    (hs : p.state = S0) (hq : Q cl0 p) (h1 : accepts S0 S first)
    (h2 : ∀ c ∈ seg, accepts S S c) (h3 : accepts S S1 term) :
    token_parse_loop (f + (seg.length + 2)) (at_ cl0 p n {} b) =
      some (some { index := n, len := seg.length + 1, type := T },
        at_ cl0 (pe (seg.foldl upd (pb p first))) (n + seg.length + 2) {} true) := by
  obtain ⟨-, -, hd1⟩ := drop_cons_getD hd
  have e1 : f + (seg.length + 2) = (f + 1 + seg.length) + 1 := by omega
  rw [e1, token_parse_loop_succ _ cl0 p n {} b bs first _ hb hl hd, hbegin cl0 p n first hs h1 hq]
  simp only [ne_eq, not_true_eq_false, if_false]
  rw [run_stay S upd hupd hstep seg h2 cl0 bs (pb p first) (n + 1) _ (f + 1) (term :: rest) true
    hb hl hd1 (hpb p first) (by simpa using hT)]
  have hd2 : bs.drop (n + 1 + seg.length) = term :: rest := by
    have := congrArg (List.drop seg.length) hd1
    simpa [List.drop_drop, Nat.add_comm] using this
  have hss : (seg.foldl upd (pb p first)).state = S := by
    have : ∀ (l : List Nat) (q : parser), q.state = S → (l.foldl upd q).state = S := by
      intro l
      induction l with
      | nil => intro q hq; simpa using hq
      | cons a l ih => intro q hq; simpa using ih _ (hupd q a hq)
    exact this seg _ (hpb p first)
  rw [token_parse_loop_succ _ cl0 _ _ _ false bs term rest hb hl hd2,
    hemit cl0 _ _ _ term hss h3 (by simpa using hT)]
  have e2 : n + 1 + seg.length + 1 = n + seg.length + 2 := by omega
  have e3 : (1 : Int) + (seg.length : Int) = (seg.length : Int) + 1 := by omega
  simp [hT, e2, e3]

theorem parser_state_eta (p : parser) (S : state_e) (hs : p.state = S) :
    { p with state := S } = p := by
  cases p; simp at hs; subst hs; rfl

theorem step_stay (S : state_e) (hS : S = MT ∨ S = TR ∨ S = VN)
    (cl0 : client) (p : parser) (n : Nat) (tok : token) (c : Nat)
    (hs : p.state = S) (hc : accepts S S c) (ht : tok.type ≠ HS_TOK_NONE) :
    token_parse_step (at_ cl0 p n tok false) c =
      ({}, at_ cl0 p (n + 1) { tok with len := tok.len + 1 } true) := by
  unfold accepts at hc
  conv_rhs => rw [← parser_state_eta p S hs]
  rcases hS with rfl | rfl | rfl <;>
  simp [token_parse_step, at_, _transition, _transition_enter, _transition_switch,
    _stream_consume, hs, hc, ht]

theorem step_begin (S0 S : state_e) (T : token_e)
    (hS : (S0 = state_e.ST ∧ S = MT ∧ T = HS_TOK_METHOD) ∨ (S0 = MS ∧ S = TR ∧ T = HS_TOK_TARGET)
      ∨ (S0 = TS ∧ S = VN ∧ T = HS_TOK_VERSION))
    (cl0 : client) (p : parser) (n : Nat) (c : Nat)
    (hs : p.state = S0) (hc : accepts S0 S c) :
    token_parse_step (at_ cl0 p n {} false) c =
      ({}, at_ cl0 { p with state := S, match_index := 0 } (n + 1)
        { index := n, len := 1, type := T } true) := by
  unfold accepts at hc
  rcases hS with ⟨rfl, rfl, rfl⟩ | ⟨rfl, rfl, rfl⟩ | ⟨rfl, rfl, rfl⟩ <;>
  simp [token_parse_step, at_, _transition, _transition_enter, _transition_switch,
    _stream_consume, _stream_begin_token, _token_start_states, hs, hc]

theorem step_emit_sp (S S1 : state_e) (hS : (S = MT ∧ S1 = MS) ∨ (S = TR ∧ S1 = TS))
    (cl0 : client) (p : parser) (n : Nat) (tok : token) (c : Nat)
    (hs : p.state = S) (hc : accepts S S1 c) :
    token_parse_step (at_ cl0 p n tok false) c =
      (tok, at_ cl0 { p with state := S1, match_index := 0 } (n + 1) {} true) := by
  unfold accepts at hc
  rcases hS with ⟨rfl, rfl⟩ | ⟨rfl, rfl⟩ <;>
  simp [token_parse_step, at_, _transition, _transition_enter, _transition_switch,
    _stream_consume, _stream_emit, _token_start_states, hs, hc]

theorem step_emit_cr (S S1 : state_e) (hS : (S = VN ∧ S1 = RR) ∨ (S = HV ∧ S1 = HR))
    (cl0 : client) (p : parser) (n : Nat) (tok : token) (c : Nat)
    (hs : p.state = S) (hc : accepts S S1 c) :
    token_parse_step (at_ cl0 p n tok false) c =
      (tok, at_ cl0 { p with state := S1, match_index := 0,
                             meta := meta_transitions_at p.meta HS_META_END_VALUE }
        (n + 1) {} true) := by
  unfold accepts at hc
  rcases hS with ⟨rfl, rfl⟩ | ⟨rfl, rfl⟩ <;>
  simp [token_parse_step, at_, _transition, _transition_enter, _transition_switch,
    _stream_consume, _stream_emit, _token_start_states, _meta_trigger, hs, hc]

theorem step_skip (S S1 : state_e)
    (hS : (S = RR ∧ S1 = RN) ∨ (S = HR ∧ S1 = HE) ∨ (S = HE ∧ S1 = ER))
    (cl0 : client) (p : parser) (n : Nat) (c : Nat)
    (hs : p.state = S) (hc : accepts S S1 c) :
    token_parse_step (at_ cl0 p n {} false) c =
      ({}, at_ cl0 { p with state := S1, match_index := 0 } (n + 1) {} true) := by
  unfold accepts at hc
  rcases hS with ⟨rfl, rfl⟩ | ⟨rfl, rfl⟩ | ⟨rfl, rfl⟩ <;>
  simp [token_parse_step, at_, _transition, _transition_enter, _transition_switch,
    _stream_consume, _token_start_states, hs, hc]

theorem step_HS_stay (cl0 : client) (p : parser) (n : Nat) (c : Nat)
    (hs : p.state = HS) (hc : accepts HS HS c) :
    token_parse_step (at_ cl0 p n {} false) c = ({}, at_ cl0 p (n + 1) {} true) := by
  unfold accepts at hc
  conv_rhs => rw [← parser_state_eta p HS hs]
  simp [token_parse_step, at_, _transition, _transition_enter, _transition_switch,
    _stream_consume, hs, hc]

theorem step_HK_begin (S0 : state_e) (hS : S0 = RN ∨ S0 = HE)
    (cl0 : client) (p : parser) (n : Nat) (c : Nat)
    (hs : p.state = S0) (hc : accepts S0 HK c)
    (hq : toInt16 (p.header_count + 1) ≤ cl0.server.spec.request_max_header_count) :
    token_parse_step (at_ cl0 p n {} false) c =
      ({}, at_ cl0
        (_transition_hk { p with state := HK, header_count := toInt16 (p.header_count + 1),
                                 match_index := 0 } c)
        (n + 1) { index := n, len := 1, type := HS_TOK_HEADER_KEY } true) := by
  unfold accepts at hc
  have hq1 : ¬ (cl0.server.spec.request_max_header_count < toInt16 (p.header_count + 1)) := by
    omega
  rcases hS with rfl | rfl <;>
  simp [token_parse_step, at_, _transition, _transition_enter, _transition_switch,
    _stream_consume, _stream_begin_token, _token_start_states, hs, hc, hq1]

theorem step_HK_stay (cl0 : client) (p : parser) (n : Nat) (tok : token) (c : Nat)
    (hs : p.state = HK) (hc : accepts HK HK c) (ht : tok.type ≠ HS_TOK_NONE) :
    token_parse_step (at_ cl0 p n tok false) c =
      ({}, at_ cl0 (_transition_hk p c) (n + 1) { tok with len := tok.len + 1 } true) := by
  unfold accepts at hc
  conv_rhs => rw [← parser_state_eta p HK hs]
  simp [token_parse_step, at_, _transition, _transition_enter, _transition_switch,
    _stream_consume, hs, hc, ht]

theorem step_HK_HS (cl0 : client) (p : parser) (n : Nat) (tok : token) (c : Nat)
    (hs : p.state = HK) (hc : accepts HK HS c) :
    token_parse_step (at_ cl0 p n tok false) c =
      (tok, at_ cl0 { p with state := HS, match_index := 0,
                             meta := meta_transitions_at p.meta HS_META_END_KEY }
        (n + 1) {} true) := by
  unfold accepts at hc
  simp [token_parse_step, at_, _transition, _transition_enter, _transition_switch,
    _stream_consume, _stream_emit, _token_start_states, _meta_trigger, hs, hc]

theorem step_HV_begin (cl0 : client) (p : parser) (n : Nat) (c : Nat)
    (hs : p.state = HS) (hc : accepts HS HV c) :
    token_parse_step (at_ cl0 p n {} false) c =
      ({}, at_ cl0 (_transition_hv { p with state := HV, match_index := 0 } c)
        (n + 1) { index := n, len := 1, type := HS_TOK_HEADER_VAL } true) := by
  unfold accepts at hc
  simp [token_parse_step, at_, _transition, _transition_enter, _transition_switch,
    _stream_consume, _stream_begin_token, _token_start_states, hs, hc]

theorem step_HV_stay (cl0 : client) (p : parser) (n : Nat) (tok : token) (c : Nat)
    (hs : p.state = HV) (hc : accepts HV HV c) (ht : tok.type ≠ HS_TOK_NONE) :
    token_parse_step (at_ cl0 p n tok false) c =
      ({}, at_ cl0 (_transition_hv p c) (n + 1) { tok with len := tok.len + 1 } true) := by
  unfold accepts at hc
  conv_rhs => rw [← parser_state_eta p HV hs]
  simp [token_parse_step, at_, _transition, _transition_enter, _transition_switch,
    _stream_consume, hs, hc, ht]

theorem step_HN_no_body (cl0 : client) (p : parser) (n : Nat) (c : Nat)
    (hs : p.state = ER) (hm : p.meta = M_ANY) (hc : accepts ER HN c) :
    token_parse_step (at_ cl0 p n {} false) c =
      ({ type := HS_TOK_BODY },
        at_ cl0 { p with state := HN, match_index := 0, meta := M_END } (n + 1) {} true) := by
  unfold accepts at hc
  simp [token_parse_step, at_, _transition, _transition_enter, _transition_switch,
    _stream_consume, _token_start_states, _meta_trigger, hs, hc, hm, meta_transitions_at,
    _meta_transitions, meta_state_e.toNat, HS_META_TYPE_LEN, HS_META_END_HEADERS]

theorem token_parse_of_loop (cl0 : client) (p : parser) (n : Nat) (tok : token) (b : Bool)
    (f : Nat) (t : token) (cl1 : client)
    (hm1 : p.meta ≠ M_SEN) (hm2 : p.meta ≠ M_END)
    (hf : f ≤ 2 * (cl0.stream.length - (n : Int)).toNat + 2)
    (h : token_parse_loop f (at_ cl0 p n tok b) = some (some t, cl1)) :
    _token_parse (at_ cl0 p n tok b) = some (t, cl1) := by
  have he : _meta_emit_token p = ({}, p) := by
    unfold _meta_emit_token
    split <;> simp_all
  have h2 := token_parse_loop_mono f _ _ h _ hf
  have e1 : (at_ cl0 p n tok b).parser = p := rfl
  have e2 : ({ at_ cl0 p n tok b with parser := p } : client) = at_ cl0 p n tok b := rfl
  have e3 : (at_ cl0 p n tok b).stream.length = cl0.stream.length := rfl
  have e4 : (at_ cl0 p n tok b).stream.index = (n : Int) := rfl
  unfold _token_parse
  simp only [e1, he, e2, e3, e4, h2, ne_eq, not_true_eq_false, if_false]

theorem foldl_keep (q : parser) (seg : List Nat) :
    seg.foldl (fun (p : parser) (_ : Nat) => p) q = q := by
  induction seg with
  | nil => rfl
  | cons a l ih => simp [ih]

theorem drop_length_le {bs : List Nat} {n : Nat} {w : List Nat}
    (hd : bs.drop n = w) : (bs.length : Int) - (n : Int) = w.length ∨ w = [] := by
  by_cases h : n ≤ bs.length
  · left
    have := congrArg List.length hd
    simp at this
    omega
  · right
    rw [← hd]
    exact List.drop_eq_nil_of_le (by omega)

theorem fuel_ok (cl0 : client) (bs : List Nat) (n k : Nat) (w : List Nat)
    (hl : cl0.stream.length = bs.length) (hd : bs.drop n = w) (hk : k ≤ w.length)
    (hw : w ≠ []) : k ≤ 2 * (cl0.stream.length - (n : Int)).toNat + 2 := by
  rcases drop_length_le hd with h | h
  · rw [hl, h]
    simp
    omega
  · exact absurd h hw

/-- A METHOD or TARGET token is returned by one call of `_token_parse`. -/
theorem token_parse_simple (S0 S S1 : state_e) (T : token_e)
    (hS : (S0 = state_e.ST ∧ S = MT ∧ S1 = MS ∧ T = HS_TOK_METHOD)
      ∨ (S0 = MS ∧ S = TR ∧ S1 = TS ∧ T = HS_TOK_TARGET))
    (cl0 : client) (bs : List Nat) (m : meta_state_e) (hc : Int) (n : Nat)
    (w : List Nat) (term : Nat) (rest : List Nat) (b : Bool)
    (hb : cl0.stream.buf = some bs) (hl : cl0.stream.length = bs.length)
    (hd : bs.drop n = w ++ term :: rest)
    (hm1 : m ≠ M_SEN) (hm2 : m ≠ M_END)
    (hw : token_ok S0 S w) (ht : accepts S S1 term) :
    _token_parse (at_ cl0 (pst S0 m hc) n {} b) =
      some ({ index := n, len := w.length, type := T },
        at_ cl0 (pst S1 m hc) (n + w.length + 1) {} true) := by
  cases w with
  | nil => exact absurd hw (by simp [token_ok])
  | cons first seg =>
    obtain ⟨h1, h2⟩ := hw
    have hT : T ≠ HS_TOK_NONE := by rcases hS with ⟨-, -, -, rfl⟩ | ⟨-, -, -, rfl⟩ <;> simp
    have hSS : S = MT ∨ S = TR ∨ S = VN := by
      rcases hS with ⟨-, rfl, -, -⟩ | ⟨-, rfl, -, -⟩ <;> simp
    have hB : (S0 = state_e.ST ∧ S = MT ∧ T = HS_TOK_METHOD) ∨ (S0 = MS ∧ S = TR ∧ T = HS_TOK_TARGET)
        ∨ (S0 = TS ∧ S = VN ∧ T = HS_TOK_VERSION) := by
      rcases hS with ⟨rfl, rfl, -, rfl⟩ | ⟨rfl, rfl, -, rfl⟩ <;> simp
    have hE : (S = MT ∧ S1 = MS) ∨ (S = TR ∧ S1 = TS) := by
      rcases hS with ⟨-, rfl, rfl, -⟩ | ⟨-, rfl, rfl, -⟩ <;> simp
    have hd1 : bs.drop n = first :: (seg ++ term :: rest) := by simpa using hd
    have key := run_token S0 S S1 T hT (fun _ _ => True)
      (fun p _ => { p with state := S, match_index := 0 }) (fun p _ => p)
      (fun p => { p with state := S1, match_index := 0 })
      (fun _ _ => rfl) (fun _ _ h => h)
      (fun cl0 p n c hs hc _ => step_begin S0 S T hB cl0 p n c hs hc)
      (fun cl0 p n tok c hs hc ht => step_stay S hSS cl0 p n tok c hs hc ht)
      (fun cl0 p n tok c hs hc _ => step_emit_sp S S1 hE cl0 p n tok c hs hc)
      cl0 bs (pst S0 m hc) n 0 first seg term rest b hb hl hd1 rfl trivial h1 h2 ht
    rw [foldl_keep] at key
    have e1 : n + (first :: seg).length + 1 = n + seg.length + 2 := by simp; omega
    have e2 : (((first :: seg).length : Nat) : Int) = (seg.length : Int) + 1 := by simp
    rw [e1, e2]
    refine token_parse_of_loop cl0 _ n {} b (0 + (seg.length + 2)) _ _ hm1 hm2 ?_ ?_
    · exact fuel_ok cl0 bs n _ _ hl hd1 (by simp) (by simp)
    · simpa [pst] using key

/-- The VERSION token is returned by one call of `_token_parse`. -/
theorem token_parse_version
    (cl0 : client) (bs : List Nat) (hc : Int) (n : Nat)
    (w : List Nat) (term : Nat) (rest : List Nat) (b : Bool)
    (hb : cl0.stream.buf = some bs) (hl : cl0.stream.length = bs.length)
    (hd : bs.drop n = w ++ term :: rest)
    (hw : token_ok TS VN w) (ht : accepts VN RR term) :
    _token_parse (at_ cl0 (pst TS M_WFK hc) n {} b) =
      some ({ index := n, len := w.length, type := HS_TOK_VERSION },
        at_ cl0 (pst RR M_ANY hc) (n + w.length + 1) {} true) := by
  cases w with
  | nil => exact absurd hw (by simp [token_ok])
  | cons first seg =>
    obtain ⟨h1, h2⟩ := hw
    have hd1 : bs.drop n = first :: (seg ++ term :: rest) := by simpa using hd
    have key := run_token TS VN RR HS_TOK_VERSION (by simp) (fun _ _ => True)
      (fun p _ => { p with state := VN, match_index := 0 }) (fun p _ => p)
      (fun p => { p with state := RR, match_index := 0,
                         meta := meta_transitions_at p.meta HS_META_END_VALUE })
      (fun _ _ => rfl) (fun _ _ h => h)
      (fun cl0 p n c hs hc _ => step_begin TS VN HS_TOK_VERSION (by simp) cl0 p n c hs hc)
      (fun cl0 p n tok c hs hc ht => step_stay VN (by simp) cl0 p n tok c hs hc ht)
      (fun cl0 p n tok c hs hc _ => step_emit_cr VN RR (by simp) cl0 p n tok c hs hc)
      cl0 bs (pst TS M_WFK hc) n 0 first seg term rest b hb hl hd1 rfl trivial h1 h2 ht
    rw [foldl_keep] at key
    have e1 : n + (first :: seg).length + 1 = n + seg.length + 2 := by simp; omega
    have e2 : (((first :: seg).length : Nat) : Int) = (seg.length : Int) + 1 := by simp
    rw [e1, e2]
    refine token_parse_of_loop cl0 _ n {} b (0 + (seg.length + 2)) _ _ (by simp [pst])
      (by simp [pst]) ?_ ?_
    · exact fuel_ok cl0 bs n _ _ hl hd1 (by simp) (by simp)
    · have em : meta_transitions_at M_WFK HS_META_END_VALUE = M_ANY := rfl
      simpa [pst, em] using key

theorem transition_hv_wfk (p : parser) (c : Nat) (hm : p.meta = M_WFK) :
    _transition_hv p c = p := by
  simp [_transition_hv, hm]

theorem foldl_hv_wfk (seg : List Nat) : ∀ (p : parser), p.meta = M_WFK →
    seg.foldl _transition_hv p = p := by
  induction seg with
  | nil => intro p _; rfl
  | cons a l ih =>
    intro p hm
    simp only [List.foldl_cons, transition_hv_wfk p a hm]
    exact ih p hm

theorem MATCH_fields (s : List Nat) (e c : Nat) (mp : Nat × parser) :
    (MATCH s e c mp).2.state = mp.2.state
    ∧ (MATCH s e c mp).2.header_count = mp.2.header_count
    ∧ (MATCH s e c mp).2.content_length = mp.2.content_length
    ∧ (MATCH s e c mp).2.body_consumed = mp.2.body_consumed
    ∧ (MATCH s e c mp).2.match_index = mp.2.match_index := by
  simp only [MATCH, _meta_trigger]
  split_ifs <;> simp

theorem transition_hv_state (p : parser) (c : Nat) : (_transition_hv p c).state = p.state := by
  unfold _transition_hv
  split_ifs
  · exact (MATCH_fields _ _ _ _).1
  · rfl
  · rfl

/-- The HEADER_VAL token of a header that is neither Content-Length nor
Transfer-Encoding is returned by one call of `_token_parse`. -/
theorem token_parse_header_val
    (cl0 : client) (bs : List Nat) (hc : Int) (n : Nat)
    (w : List Nat) (sp term : Nat) (rest : List Nat) (b : Bool)
    (hb : cl0.stream.buf = some bs) (hl : cl0.stream.length = bs.length)
    (hd : bs.drop n = sp :: (w ++ term :: rest))
    (hsp : accepts HS HS sp) (hw : token_ok HS HV w) (ht : accepts HV HR term) :
    _token_parse (at_ cl0 (pst HS M_WFK hc) n {} b) =
      some ({ index := (n : Int) + 1, len := w.length, type := HS_TOK_HEADER_VAL },
        at_ cl0 (pst HR M_ANY hc) (n + w.length + 2) {} true) := by
  cases w with
  | nil => exact absurd hw (by simp [token_ok])
  | cons first seg =>
    obtain ⟨h1, h2⟩ := hw
    obtain ⟨-, -, hd1⟩ := drop_cons_getD hd
    have hd2 : bs.drop (n + 1) = first :: (seg ++ term :: rest) := by simpa using hd1
    have key := run_token HS HV HR HS_TOK_HEADER_VAL (by simp) (fun _ _ => True)
      (fun p c => _transition_hv { p with state := HV, match_index := 0 } c) _transition_hv
      (fun p => { p with state := HR, match_index := 0,
                         meta := meta_transitions_at p.meta HS_META_END_VALUE })
      (fun p c => by rw [transition_hv_state])
      (fun p c h => by rw [transition_hv_state]; exact h)
      (fun cl0 p n c hs hc _ => step_HV_begin cl0 p n c hs hc)
      (fun cl0 p n tok c hs hc ht => step_HV_stay cl0 p n tok c hs hc ht)
      (fun cl0 p n tok c hs hc _ => step_emit_cr HV HR (by simp) cl0 p n tok c hs hc)
      cl0 bs (pst HS M_WFK hc) (n + 1) 0 first seg term rest true hb hl hd2 rfl trivial h1 h2 ht
    have e0 : _transition_hv { pst HS M_WFK hc with state := HV, match_index := 0 } first
        = pst HV M_WFK hc := by
      rw [transition_hv_wfk _ _ rfl]; rfl
    simp only [e0] at key
    rw [foldl_hv_wfk seg _ rfl] at key
    have e1 : n + (first :: seg).length + 2 = n + 1 + seg.length + 2 := by simp; omega
    have e2 : (((first :: seg).length : Nat) : Int) = (seg.length : Int) + 1 := by simp
    rw [e1, e2]
    refine token_parse_of_loop cl0 _ n {} b (0 + (seg.length + 2) + 1) _ _ (by simp [pst])
      (by simp [pst]) ?_ ?_
    · exact fuel_ok cl0 bs n _ _ hl hd (by simp) (by simp)
    · rw [token_parse_loop_succ _ cl0 _ n {} b bs sp _ hb hl hd,
        step_HS_stay cl0 _ n sp rfl hsp]
      simp only [ne_eq, not_true_eq_false, if_false]
      have em : meta_transitions_at M_WFK HS_META_END_VALUE = M_ANY := rfl
      simpa [pst, em] using key

theorem transition_hk_fields (p : parser) (c : Nat) :
    (_transition_hk p c).state = p.state
    ∧ (_transition_hk p c).header_count = p.header_count
    ∧ (_transition_hk p c).content_length = p.content_length
    ∧ (_transition_hk p c).body_consumed = p.body_consumed := by
  unfold _transition_hk
  have h1 := MATCH_fields (str "transfer-encoding") HS_META_NOT_TRANSFER_ENC c (0, p)
  have h2 := MATCH_fields (str "content-length") HS_META_NOT_CONTENT_LEN c
    (MATCH (str "transfer-encoding") HS_META_NOT_TRANSFER_ENC c (0, p))
  simp only at h1 h2 ⊢
  refine ⟨?_, ?_, ?_, ?_⟩
  · rw [h2.1, h1.1]
  · rw [h2.2.1, h1.2.1]
  · rw [h2.2.2.1, h1.2.2.1]
  · rw [h2.2.2.2.1, h1.2.2.2.1]

theorem foldl_hk_fields (seg : List Nat) : ∀ (p : parser),
    (seg.foldl _transition_hk p).state = p.state
    ∧ (seg.foldl _transition_hk p).header_count = p.header_count
    ∧ (seg.foldl _transition_hk p).content_length = p.content_length
    ∧ (seg.foldl _transition_hk p).body_consumed = p.body_consumed := by
  induction seg with
  | nil => intro p; simp
  | cons a l ih =>
    intro p
    have h1 := transition_hk_fields p a
    have h2 := ih (_transition_hk p a)
    simp only [List.foldl_cons]
    refine ⟨?_, ?_, ?_, ?_⟩
    · rw [h2.1, h1.1]
    · rw [h2.2.1, h1.2.1]
    · rw [h2.2.2.1, h1.2.2.1]
    · rw [h2.2.2.2, h1.2.2.2]

theorem MATCH_congr (s : List Nat) (e c : Nat) (m : Nat) (p q : parser)
    (h1 : p.meta = q.meta) (h2 : p.match_index = q.match_index) :
    (MATCH s e c (m, p)).1 = (MATCH s e c (m, q)).1
    ∧ (MATCH s e c (m, p)).2.meta = (MATCH s e c (m, q)).2.meta
    ∧ (MATCH s e c (m, p)).2.match_index = (MATCH s e c (m, q)).2.match_index := by
  simp only [MATCH, _meta_trigger, h1, h2]
  split_ifs <;> simp [h1, h2]

theorem transition_hk_congr (c : Nat) (p q : parser)
    (h1 : p.meta = q.meta) (h2 : p.match_index = q.match_index) :
    (_transition_hk p c).meta = (_transition_hk q c).meta
    ∧ (_transition_hk p c).match_index = (_transition_hk q c).match_index := by
  unfold _transition_hk
  obtain ⟨a1, a2, a3⟩ := MATCH_congr (str "transfer-encoding") HS_META_NOT_TRANSFER_ENC c 0 p q h1 h2
  generalize MATCH (str "transfer-encoding") HS_META_NOT_TRANSFER_ENC c (0, p) = x at a1 a2 a3 ⊢
  generalize MATCH (str "transfer-encoding") HS_META_NOT_TRANSFER_ENC c (0, q) = y at a1 a2 a3 ⊢
  obtain ⟨xm, xp⟩ := x
  obtain ⟨ym, yp⟩ := y
  simp only at a1 a2 a3
  subst a1
  obtain ⟨b1, b2, b3⟩ := MATCH_congr (str "content-length") HS_META_NOT_CONTENT_LEN c xm xp yp a2 a3
  simp only [b2, b3, and_self]

theorem foldl_hk_congr (seg : List Nat) : ∀ (p q : parser),
    p.meta = q.meta → p.match_index = q.match_index →
    (seg.foldl _transition_hk p).meta = (seg.foldl _transition_hk q).meta := by
  induction seg with
  | nil => intro p q h _; simpa using h
  | cons a l ih =>
    intro p q h1 h2
    obtain ⟨c1, c2⟩ := transition_hk_congr a p q h1 h2
    simpa using ih _ _ c1 c2

theorem MATCH_meta (s : List Nat) (e c : Nat) (mp : Nat × parser) :
    (MATCH s e c mp).2.meta = mp.2.meta
    ∨ (MATCH s e c mp).2.meta = meta_transitions_at mp.2.meta e := by
  simp only [MATCH]
  generalize (if decide (mp.2.match_index < (s.length : Int)) = true
    then s.getD mp.2.match_index.toNat 0 else mp.1) = m
  generalize (if 65 ≤ c ∧ c ≤ 90 then c + 32 else c) = low
  by_cases h : low ≠ m
  · right; simp [h, _meta_trigger]
  · left; simp [h]

/-- After a byte of a header name the meta FSM stays in one of `M_WFK`,
`M_MTE`, `M_MCL`. -/
theorem transition_hk_meta (p : parser) (c : Nat)
    (h : p.meta = M_WFK ∨ p.meta = M_MTE ∨ p.meta = M_MCL) :
    (_transition_hk p c).meta = M_WFK ∨ (_transition_hk p c).meta = M_MTE
      ∨ (_transition_hk p c).meta = M_MCL := by
  have e : (_transition_hk p c).meta = (MATCH (str "content-length") HS_META_NOT_CONTENT_LEN c
      (MATCH (str "transfer-encoding") HS_META_NOT_TRANSFER_ENC c (0, p))).2.meta := rfl
  rw [e]
  have h1 := MATCH_meta (str "transfer-encoding") HS_META_NOT_TRANSFER_ENC c (0, p)
  have h2 := MATCH_meta (str "content-length") HS_META_NOT_CONTENT_LEN c
    (MATCH (str "transfer-encoding") HS_META_NOT_TRANSFER_ENC c (0, p))
  generalize MATCH (str "transfer-encoding") HS_META_NOT_TRANSFER_ENC c (0, p) = x at h1 h2 ⊢
  generalize MATCH (str "content-length") HS_META_NOT_CONTENT_LEN c x = y at h2 ⊢
  simp only at h1 h2 ⊢
  rcases h with h | h | h <;> rw [h] at h1 <;> rcases h1 with h1 | h1 <;> rw [h1] at h2 <;>
    rcases h2 with h2 | h2 <;> rw [h2] <;> decide

theorem MATCH_zero (s : List Nat) (e c m : Nat) (p : parser) (k : Nat)
    (hi : p.match_index = 0) (hk : s.getD 0 0 = k) (hl : (0 : Int) < s.length) :
    MATCH s e c (m, p) =
      (k, if (if 65 ≤ c ∧ c ≤ 90 then c + 32 else c) ≠ k then _meta_trigger p e else p) := by
  simp only [MATCH, hi, hl, decide_True, if_true, Int.toNat_zero, hk]
  by_cases a : (if 65 ≤ c ∧ c ≤ 90 then c + 32 else c) ≠ k
  · rw [if_pos a, if_pos a]
  · rw [if_neg a, if_neg a]

/-- The first byte of a header name takes the meta FSM from `M_ANY` to one of
`M_WFK`, `M_MTE`, `M_MCL`: no byte is both `t` and `c`. -/
theorem transition_hk_meta_any (p : parser) (c : Nat)
    (h : p.meta = M_ANY) (hi : p.match_index = 0) :
    (_transition_hk p c).meta = M_WFK ∨ (_transition_hk p c).meta = M_MTE
      ∨ (_transition_hk p c).meta = M_MCL := by
  have e : (_transition_hk p c).meta = (MATCH (str "content-length") HS_META_NOT_CONTENT_LEN c
      (MATCH (str "transfer-encoding") HS_META_NOT_TRANSFER_ENC c (0, p))).2.meta := rfl
  have hi2 : (if (if 65 ≤ c ∧ c ≤ 90 then c + 32 else c) ≠ 116
      then _meta_trigger p HS_META_NOT_TRANSFER_ENC else p).match_index = 0 := by
    split_ifs <;> simp [_meta_trigger, hi]
  rw [e, MATCH_zero (str "transfer-encoding") _ c 0 p 116 hi rfl (by decide),
    MATCH_zero (str "content-length") _ c 116 _ 99 hi2 rfl (by decide)]
  generalize (if 65 ≤ c ∧ c ≤ 90 then c + 32 else c) = low
  have m1 : meta_transitions_at M_ANY HS_META_NOT_TRANSFER_ENC = M_MCL := rfl
  have m2 : meta_transitions_at M_ANY HS_META_NOT_CONTENT_LEN = M_MTE := rfl
  have m3 : meta_transitions_at M_MCL HS_META_NOT_CONTENT_LEN = M_WFK := rfl
  by_cases a : low = 116
  · subst a
    simp [_meta_trigger, h, m2]
  · by_cases b : low = 99
    · subst b
      simp [_meta_trigger, h, m1]
    · simp [a, b, _meta_trigger, h, m1, m3]

theorem foldl_hk_meta (seg : List Nat) : ∀ (p : parser),
    (p.meta = M_WFK ∨ p.meta = M_MTE ∨ p.meta = M_MCL) →
    (seg.foldl _transition_hk p).meta = M_WFK ∨ (seg.foldl _transition_hk p).meta = M_MTE
      ∨ (seg.foldl _transition_hk p).meta = M_MCL := by
  induction seg with
  | nil => intro p h; simpa using h
  | cons a l ih =>
    intro p h
    simpa using ih _ (transition_hk_meta p a h)

/-- A header name that the meta FSM takes neither for Content-Length nor for
Transfer-Encoding leaves it in `M_WFK`. -/
theorem header_class_wfk (key : List Nat) (hk : key ≠ [])
    (h1 : header_class key ≠ M_CLV) (h2 : header_class key ≠ M_MCK) :
    header_class key = M_WFK := by
  cases key with
  | nil => exact absurd rfl hk
  | cons a l =>
    unfold header_class at h1 h2 ⊢
    simp only [List.foldl_cons] at h1 h2 ⊢
    have h0 := foldl_hk_meta l (_transition_hk { meta := M_ANY } a)
      (transition_hk_meta_any _ a rfl rfl)
    rcases h0 with h | h | h
    · rw [h]; rfl
    · rw [h] at h2; exact absurd rfl h2
    · rw [h] at h1; exact absurd rfl h1

theorem accepts_HE_of_RN (c : Nat) (h : accepts RN HK c) : accepts HE HK c := by
  unfold accepts at h ⊢
  generalize ctype_of c = t at h ⊢
  cases t <;> first | rfl | exact absurd h (by decide)

/-- The parser after the colon of a header name the meta FSM takes for neither
of its two headers. -/
theorem parser_after_key (key : List Nat) (hk : key ≠ []) (hc : Int)
    (hcl : header_class key ≠ M_CLV) (hte : header_class key ≠ M_MCK) :
    ({ key.foldl _transition_hk (pst HK M_ANY hc) with
        state := HS, match_index := 0,
        meta := meta_transitions_at (key.foldl _transition_hk (pst HK M_ANY hc)).meta
          HS_META_END_KEY } : parser) = pst HS M_WFK hc := by
  have hf := foldl_hk_fields key (pst HK M_ANY hc)
  have hm := foldl_hk_congr key (pst HK M_ANY hc) { meta := M_ANY } rfl rfl
  have hw := header_class_wfk key hk hcl hte
  unfold header_class at hw
  rw [← hm] at hw
  generalize key.foldl _transition_hk (pst HK M_ANY hc) = q at hf hw ⊢
  obtain ⟨a, b, c, d, e, f⟩ := q
  simp only [pst] at hf hw ⊢
  obtain ⟨-, h2, h3, h4⟩ := hf
  subst h2 h3 h4
  rw [hw]

/-- The HEADER_KEY token of a header that is neither Content-Length nor
Transfer-Encoding is returned by one call of `_token_parse`, which first reads
the LF that ends the line before. -/
theorem token_parse_header_key (S : state_e) (hS : S = RR ∨ S = HR)
    (cl0 : client) (bs : List Nat) (hc : Int) (n : Nat)
    (key : List Nat) (rest : List Nat) (b : Bool)
    (hb : cl0.stream.buf = some bs) (hl : cl0.stream.length = bs.length)
    (hd : bs.drop n = 10 :: (key ++ 58 :: rest))
    (hw : token_ok RN HK key)
    (hcl : header_class key ≠ M_CLV) (hte : header_class key ≠ M_MCK)
    (hq : toInt16 (hc + 1) ≤ cl0.server.spec.request_max_header_count) :
    _token_parse (at_ cl0 (pst S M_ANY hc) n {} b) =
      some ({ index := (n : Int) + 1, len := key.length, type := HS_TOK_HEADER_KEY },
        at_ cl0 (pst HS M_WFK (toInt16 (hc + 1))) (n + key.length + 2) {} true) := by
  cases key with
  | nil => exact absurd hw (by simp [token_ok])
  | cons first seg =>
    obtain ⟨h1, h2⟩ := hw
    obtain ⟨-, -, hd1⟩ := drop_cons_getD hd
    have hd2 : bs.drop (n + 1) = first :: (seg ++ 58 :: rest) := by simpa using hd1
    obtain ⟨S1, hS1, hS2, hfirst⟩ : ∃ S1, (S1 = RN ∨ S1 = HE)
        ∧ ((S = RR ∧ S1 = RN) ∨ (S = HR ∧ S1 = HE)) ∧ accepts S1 HK first := by
      rcases hS with rfl | rfl
      · exact ⟨RN, Or.inl rfl, Or.inl ⟨rfl, rfl⟩, h1⟩
      · exact ⟨HE, Or.inr rfl, Or.inr ⟨rfl, rfl⟩, accepts_HE_of_RN first h1⟩
    have hlf : accepts S S1 10 := by
      rcases hS2 with ⟨rfl, rfl⟩ | ⟨rfl, rfl⟩ <;> decide
    have hskip : (S = RR ∧ S1 = RN) ∨ (S = HR ∧ S1 = HE) ∨ (S = HE ∧ S1 = ER) := by
      rcases hS2 with h | h
      · exact Or.inl h
      · exact Or.inr (Or.inl h)
    have key := run_token S1 HK HS HS_TOK_HEADER_KEY (by simp)
      (fun cl0 p => toInt16 (p.header_count + 1) ≤ cl0.server.spec.request_max_header_count)
      (fun p c => _transition_hk
        { p with state := HK, header_count := toInt16 (p.header_count + 1), match_index := 0 } c)
      _transition_hk
      (fun p => { p with state := HS, match_index := 0,
                         meta := meta_transitions_at p.meta HS_META_END_KEY })
      (fun p c => by rw [(transition_hk_fields _ _).1])
      (fun p c h => by rw [(transition_hk_fields _ _).1]; exact h)
      (fun cl0 p n c hs hc hq => step_HK_begin S1 hS1 cl0 p n c hs hc hq)
      (fun cl0 p n tok c hs hc ht => step_HK_stay cl0 p n tok c hs hc ht)
      (fun cl0 p n tok c hs hc _ => step_HK_HS cl0 p n tok c hs hc)
      cl0 bs (pst S1 M_ANY hc) (n + 1) 0 first seg 58 rest true hb hl hd2 rfl hq hfirst h2
      (by decide)
    have e0 : ({ pst S1 M_ANY hc with
        state := HK
        header_count := toInt16 ((pst S1 M_ANY hc).header_count + 1)
        match_index := 0 } : parser) = pst HK M_ANY (toInt16 (hc + 1)) := rfl
    have e1 : seg.foldl _transition_hk (_transition_hk (pst HK M_ANY (toInt16 (hc + 1))) first)
        = (first :: seg).foldl _transition_hk (pst HK M_ANY (toInt16 (hc + 1))) := rfl
    simp only [e0, e1] at key
    rw [parser_after_key (first :: seg) (by simp) _ hcl hte] at key
    have e2 : n + (first :: seg).length + 2 = n + 1 + seg.length + 2 := by simp; omega
    have e3 : (((first :: seg).length : Nat) : Int) = (seg.length : Int) + 1 := by simp
    rw [e2, e3]
    refine token_parse_of_loop cl0 _ n {} b (0 + (seg.length + 2) + 1) _ _ (by simp [pst])
      (by simp [pst]) ?_ ?_
    · exact fuel_ok cl0 bs n _ _ hl hd (by simp) (by simp)
    · rw [token_parse_loop_succ _ cl0 _ n {} b bs 10 _ hb hl hd,
        step_skip S S1 hskip cl0 _ n 10 rfl hlf]
      simp only [ne_eq, not_true_eq_false, if_false]
      simpa [pst] using key

/-- The empty line after a header line when no header selected a body: one
call of `_token_parse` returns a zero BODY token. -/
theorem token_parse_no_body
    (cl0 : client) (bs : List Nat) (hc : Int) (n : Nat) (rest : List Nat) (b : Bool)
    (hb : cl0.stream.buf = some bs) (hl : cl0.stream.length = bs.length)
    (hd : bs.drop n = 10 :: 13 :: 10 :: rest) :
    _token_parse (at_ cl0 (pst HR M_ANY hc) n {} b) =
      some ({ type := HS_TOK_BODY }, at_ cl0 (pst HN M_END hc) (n + 3) {} true) := by
  obtain ⟨-, -, hd1⟩ := drop_cons_getD hd
  obtain ⟨-, -, hd2⟩ := drop_cons_getD hd1
  refine token_parse_of_loop cl0 _ n {} b 3 _ _ (by simp [pst]) (by simp [pst]) ?_ ?_
  · exact fuel_ok cl0 bs n _ _ hl hd (by simp) (by simp)
  · rw [token_parse_loop_succ 2 cl0 _ n {} b bs 10 _ hb hl hd,
      step_skip HR HE (by simp) cl0 _ n 10 rfl (by decide)]
    simp only [ne_eq, not_true_eq_false, if_false]
    rw [token_parse_loop_succ 1 cl0 _ (n + 1) {} true bs 13 _ hb hl hd1,
      step_skip HE ER (by simp) cl0 _ (n + 1) 13 rfl (by decide)]
    simp only [ne_eq, not_true_eq_false, if_false]
    rw [token_parse_loop_succ 0 cl0 _ (n + 1 + 1) {} true bs 10 _ hb hl hd2,
      step_HN_no_body cl0 _ (n + 1 + 1) 10 rfl rfl (by decide)]
    simp [pst]

/-- After the last token of a request `_token_parse` returns REQ_END and
zeroes the parser. -/
theorem token_parse_req_end (cl : client) (h : cl.parser.meta = M_END) :
    _token_parse cl = some ({ type := HS_TOK_REQ_END }, { cl with parser := {} }) := by
  simp [_token_parse, _meta_emit_token, h]

theorem token_parse_n_succ (n : Nat) (cl cl1 : client) (t : token)
    (h : _token_parse cl = some (t, cl1)) :
    (token_parse_n (n + 1) cl).map Prod.fst
      = ((token_parse_n n cl1).map Prod.fst).map (fun ts => t :: ts) := by
  simp only [token_parse_n, h]
  cases token_parse_n n cl1 with
  | none => rfl
  | some r => rfl

theorem toInt16_le (x : Int) (h : -32768 ≤ x) : toInt16 x ≤ x ∧ -32768 ≤ toInt16 x := by
  unfold toInt16
  omega

theorem drop_add_of_drop {bs : List Nat} {n : Nat} {w rest : List Nat}
    (hd : bs.drop n = w ++ rest) : bs.drop (n + w.length) = rest := by
  have := congrArg (List.drop w.length) hd
  simpa [List.drop_drop, Nat.add_comm] using this

/-- The header lines of a request head, the empty line and the end of the
request, from the LF that ends the line before. -/
theorem token_parse_headers (cl0 : client) (bs : List Nat)
    (hb : cl0.stream.buf = some bs) (hl : cl0.stream.length = bs.length) :
    ∀ (hs : List (List Nat × List Nat)) (S : state_e) (hc : Int) (n : Nat) (b : Bool),
      (S = HR ∨ (S = RR ∧ hs ≠ [])) →
      bs.drop n = 10 :: (header_block hs ++ [13, 10]) →
      (∀ h ∈ hs, header_ok h) →
      -32768 ≤ hc → hc + hs.length ≤ cl0.server.spec.request_max_header_count →
      (token_parse_n (2 * hs.length + 2) (at_ cl0 (pst S M_ANY hc) n {} b)).map Prod.fst
        = some (header_tokens (n + 1) hs ++ [{ type := HS_TOK_BODY }, { type := HS_TOK_REQ_END }]) := by
  intro hs
  induction hs with
  | nil =>
    intro S hc n b hS hd _ _ _
    have hS1 : S = HR := by
      rcases hS with h | ⟨-, h⟩
      · exact h
      · exact absurd rfl h
    subst hS1
    have hd1 : bs.drop n = 10 :: 13 :: 10 :: [] := by simpa [header_block] using hd
    have h1 := token_parse_no_body cl0 bs hc n [] b hb hl hd1
    have h2 := token_parse_req_end (at_ cl0 (pst HN M_END hc) (n + 3) {} true) rfl
    have e : 2 * ([] : List (List Nat × List Nat)).length + 2 = 1 + 1 := rfl
    rw [e, token_parse_n_succ 1 _ _ _ h1, token_parse_n_succ 0 _ _ _ h2]
    simp [token_parse_n, header_tokens]
  | cons h hs ih =>
    intro S hc n b hS hd hok hlo hhi
    obtain ⟨hk, hcl, hte, hv⟩ := hok h (by simp)
    have hS1 : S = RR ∨ S = HR := by
      rcases hS with h | ⟨h, -⟩
      · exact Or.inr h
      · exact Or.inl h
    have hlen : ((h :: hs).length : Int) = (hs.length : Int) + 1 := by simp
    obtain ⟨hw1, hw2⟩ := toInt16_le (hc + 1) (by omega)
    have hd1 : bs.drop n = 10 :: (h.1 ++ 58 :: (32 :: (h.2 ++ 13 :: (10 ::
        (header_block hs ++ [13, 10]))))) := by
      simpa [header_block, header_line] using hd
    have t1 := token_parse_header_key S hS1 cl0 bs hc n h.1 _ b hb hl hd1 hk hcl hte
      (by omega)
    have hd2 : bs.drop (n + h.1.length + 2) = 32 :: (h.2 ++ 13 :: (10 ::
        (header_block hs ++ [13, 10]))) := by
      have a := drop_add_of_drop (w := 10 :: (h.1 ++ [58])) (by simpa using hd1)
      have e : n + (10 :: (h.1 ++ [58])).length = n + h.1.length + 2 := by simp; omega
      rw [e] at a
      exact a
    have t2 := token_parse_header_val cl0 bs (toInt16 (hc + 1)) (n + h.1.length + 2) h.2 32 13
      _ true hb hl hd2 (by decide) hv (by decide)
    have hd3 : bs.drop (n + h.1.length + 2 + h.2.length + 2) = 10 ::
        (header_block hs ++ [13, 10]) := by
      have a := drop_add_of_drop (w := 32 :: (h.2 ++ [13])) (by simpa using hd2)
      have e : n + h.1.length + 2 + (32 :: (h.2 ++ [13])).length
          = n + h.1.length + 2 + h.2.length + 2 := by simp; omega
      rw [e] at a
      exact a
    have t3 := ih HR (toInt16 (hc + 1)) (n + h.1.length + 2 + h.2.length + 2) true (Or.inl rfl)
      hd3 (fun x hx => hok x (by simp [hx])) hw2 (by omega)
    have e : 2 * (h :: hs).length + 2 = (2 * hs.length + 2) + 1 + 1 := by simp; omega
    rw [e, token_parse_n_succ _ _ _ _ t1, token_parse_n_succ _ _ _ _ t2, t3]
    have e2 : n + h.1.length + 2 + h.2.length + 2 + 1 = n + 1 + (header_line h).length := by
      simp [header_line]; omega
    simp only [Option.map_some', header_tokens, List.cons_append, e2]
    have e5 : ((n + h.1.length + 2 : Nat) : Int) + 1 = (n : Int) + 1 + h.1.length + 2 := by
      push_cast; omega
    rw [e5]
    simp only [Nat.cast_add, Nat.cast_one]

theorem drop_token {bs : List Nat} {n : Nat} {w : List Nat} {c : Nat} {rest : List Nat}
    (hd : bs.drop n = w ++ c :: rest) : bs.drop (n + w.length + 1) = rest := by
  have a := drop_add_of_drop (w := w ++ [c]) (by simpa using hd)
  have e : n + (w ++ [c]).length = n + w.length + 1 := by simp; omega
  rw [e] at a
  exact a

theorem request_head_tokens (srv : server) (m t v : List Nat) (hs : List (List Nat × List Nat))
    (hm : token_ok state_e.ST MT m) (ht : token_ok MS TR t) (hv : token_ok TS VN v)
    (hh : ∀ h ∈ hs, header_ok h) (hn : 1 ≤ hs.length)
    (hmax : (hs.length : Int) ≤ srv.spec.request_max_header_count) :
    (token_parse_n (2 * hs.length + 5)
        (client_holding srv (request_bytes m t v hs))).map Prod.fst
      = some (request_tokens m t v hs) := by
  set bs := request_bytes m t v hs with hbs
  set cl0 := client_holding srv bs with hcl0
  have hb : cl0.stream.buf = some bs := rfl
  have hl : cl0.stream.length = bs.length := rfl
  have h0 : cl0 = at_ cl0 (pst state_e.ST M_WFK 0) 0 {} false := rfl
  have hd0 : bs.drop 0 = m ++ 32 :: (t ++ 32 :: (v ++ 13 :: 10 :: (header_block hs ++ [13, 10]))) :=
    rfl
  have t1 := token_parse_simple state_e.ST MT MS HS_TOK_METHOD (Or.inl ⟨rfl, rfl, rfl, rfl⟩)
    cl0 bs M_WFK 0 0 m 32 _ false hb hl hd0 (by simp) (by simp) hm (by decide)
  have hd1 : bs.drop (0 + m.length + 1) = t ++ 32 :: (v ++ 13 :: 10 :: (header_block hs ++ [13, 10])) := by
    exact drop_token hd0
  have t2 := token_parse_simple MS TR TS HS_TOK_TARGET (Or.inr ⟨rfl, rfl, rfl, rfl⟩)
    cl0 bs M_WFK 0 (0 + m.length + 1) t 32 _ true hb hl hd1 (by simp) (by simp) ht (by decide)
  have hd2 : bs.drop (0 + m.length + 1 + t.length + 1)
      = v ++ 13 :: 10 :: (header_block hs ++ [13, 10]) := by
    exact drop_token hd1
  have t3 := token_parse_version cl0 bs 0 (0 + m.length + 1 + t.length + 1) v 13 _ true hb hl hd2
    hv (by decide)
  have hd3 : bs.drop (0 + m.length + 1 + t.length + 1 + v.length + 1)
      = 10 :: (header_block hs ++ [13, 10]) := by
    exact drop_token hd2
  have hne : hs ≠ [] := by
    intro h; rw [h] at hn; simp at hn
  have t4 := token_parse_headers cl0 bs hb hl hs RR 0
    (0 + m.length + 1 + t.length + 1 + v.length + 1) true (Or.inr ⟨rfl, hne⟩) hd3 hh (by omega)
    (by simpa using hmax)
  have e : 2 * hs.length + 5 = (2 * hs.length + 2) + 1 + 1 + 1 := by omega
  rw [h0, e, token_parse_n_succ _ _ _ _ t1, token_parse_n_succ _ _ _ _ t2,
    token_parse_n_succ _ _ _ _ t3, t4]
  have e2 : 0 + m.length + 1 + t.length + 1 + v.length + 1 + 1
      = m.length + 1 + t.length + 1 + v.length + 2 := by omega
  simp only [Option.map_some', request_tokens, e2]
  simp only [Nat.cast_add, Nat.cast_one, Nat.cast_zero, zero_add]

theorem token_bytes_eq (bs pre w post : List Nat) (i l : Int) (T : token_e)
    (h : bs = pre ++ (w ++ post)) (hi : i = pre.length) (hl : l = w.length) :
    token_bytes (some bs) { index := i, len := l, type := T } = w := by
  subst h hi hl
  simp [token_bytes]

theorem header_tokens_bytes : ∀ (hs : List (List Nat × List Nat)) (pre post : List Nat),
    (header_tokens pre.length hs).map (token_bytes (some (pre ++ (header_block hs ++ post))))
      = header_fields hs := by
  intro hs
  induction hs with
  | nil => intro pre post; rfl
  | cons h hs ih =>
    intro pre post
    have e1 : pre.length + (header_line h).length = (pre ++ header_line h).length := by simp
    have e2 : pre ++ (header_block (h :: hs) ++ post)
        = (pre ++ header_line h) ++ (header_block hs ++ post) := by
      simp [header_block]
    simp only [header_tokens, List.map_cons, header_fields, e1]
    rw [e2, ih (pre ++ header_line h) post]
    congr 1
    · exact token_bytes_eq _ pre h.1 (58 :: 32 :: (h.2 ++ [13, 10]) ++ (header_block hs ++ post)) _ _ _
        (by simp [header_line]) rfl rfl
    · congr 1
      exact token_bytes_eq _ (pre ++ h.1 ++ [58, 32]) h.2 ([13, 10] ++ (header_block hs ++ post)) _ _ _
        (by simp [header_line]) (by simp; omega) rfl

theorem request_tokens_bytes (m t v : List Nat) (hs : List (List Nat × List Nat)) :
    (request_tokens m t v hs).map (token_bytes (some (request_bytes m t v hs)))
      = m :: t :: v :: (header_fields hs ++ [[], []]) := by
  have e0 : request_bytes m t v hs
      = (m ++ 32 :: (t ++ 32 :: (v ++ [13, 10]))) ++ (header_block hs ++ [13, 10]) := by
    simp [request_bytes]
  have e1 : m.length + 1 + t.length + 1 + v.length + 2
      = (m ++ 32 :: (t ++ 32 :: (v ++ [13, 10]))).length := by simp; omega
  simp only [request_tokens, List.map_cons, List.map_append, List.map_nil]
  congr 1
  · exact token_bytes_eq _ [] m _ _ _ _ (by simp [request_bytes]; rfl) rfl rfl
  congr 1
  · exact token_bytes_eq _ (m ++ [32]) t (32 :: (v ++ 13 :: 10 :: (header_block hs ++ [13, 10])))
      _ _ _ (by simp [request_bytes]) (by simp) rfl
  congr 1
  · exact token_bytes_eq _ (m ++ 32 :: (t ++ [32])) v (13 :: 10 :: (header_block hs ++ [13, 10]))
      _ _ _ (by simp [request_bytes]) (by simp; omega) rfl
  · rw [e1, e0, header_tokens_bytes]
    simp [token_bytes]

theorem header_tokens_no_error : ∀ (hs : List (List Nat × List Nat)) (off : Nat),
    ∀ tok ∈ header_tokens off hs, tok.type ≠ HS_TOK_ERROR := by
  intro hs
  induction hs with
  | nil => intro off tok h; simp [header_tokens] at h
  | cons h hs ih =>
    intro off tok ht
    simp only [header_tokens, List.mem_cons] at ht
    rcases ht with rfl | rfl | ht
    · simp
    · simp
    · exact ih _ tok ht

theorem request_tokens_no_error (m t v : List Nat) (hs : List (List Nat × List Nat)) :
    ∀ tok ∈ request_tokens m t v hs, tok.type ≠ HS_TOK_ERROR := by
  intro tok ht
  simp only [request_tokens, List.mem_cons, List.mem_append, List.mem_singleton,
    List.not_mem_nil, or_false] at ht
  rcases ht with rfl | rfl | rfl | ht | rfl | rfl
  · simp
  · simp
  · simp
  · exact header_tokens_no_error hs _ tok ht
  · simp
  · simp

/-- C1 (amended).  For every request `METHOD SP TARGET SP VERSION CRLF`
followed by `n >= 1` header lines `name: value` CRLF and a blank CRLF, whose
bytes take the transitions of the table that the grammar expects, whose header
names the meta FSM takes neither for Content-Length nor for Transfer-Encoding,
and with `n <= request_max_header_count`: `2 * n + 5` calls of `_token_parse`
on a freshly initialised client holding the whole request return exactly
METHOD, TARGET, VERSION, then HEADER_KEY and HEADER_VAL of each header in
request order, then a zero-length BODY, then REQ_END; none of them is ERROR;
and the index and len of each token delimit exactly the bytes of the method,
the target, the version, each name and each value. -/
theorem c1_head_tokens (srv : server) (m t v : List Nat) (hs : List (List Nat × List Nat))
    (hm : token_ok state_e.ST MT m) (ht : token_ok MS TR t) (hv : token_ok TS VN v)
    (hh : ∀ h ∈ hs, header_ok h) (hn : 1 ≤ hs.length)
    (hmax : (hs.length : Int) ≤ srv.spec.request_max_header_count) :
    (token_parse_n (2 * hs.length + 5)
        (client_holding srv (request_bytes m t v hs))).map Prod.fst
      = some (request_tokens m t v hs)
    ∧ (request_tokens m t v hs).map (fun tok => tok.type)
      = HS_TOK_METHOD :: HS_TOK_TARGET :: HS_TOK_VERSION ::
          ((header_tokens (m.length + 1 + t.length + 1 + v.length + 2) hs).map (fun tok => tok.type)
            ++ [HS_TOK_BODY, HS_TOK_REQ_END])
    ∧ (∀ tok ∈ request_tokens m t v hs, tok.type ≠ HS_TOK_ERROR)
    ∧ (request_tokens m t v hs).map (token_bytes (some (request_bytes m t v hs)))
      = m :: t :: v :: (header_fields hs ++ [[], []]) :=
  ⟨request_head_tokens srv m t v hs hm ht hv hh hn hmax, by simp [request_tokens],
    request_tokens_no_error m t v hs, request_tokens_bytes m t v hs⟩

/-- Witness of C1 (amended): the request `GET /empty HTTP/1.1` with the header
`Host: x` on a server with the default configuration. -/
theorem c1_head_tokens_witness :
    (token_parse_n 7 (client_holding {}
        (request_bytes (str "GET") (str "/empty") (str "HTTP/1.1") [(str "Host", str "x")]))).map
          Prod.fst
      = some (request_tokens (str "GET") (str "/empty") (str "HTTP/1.1") [(str "Host", str "x")]) :=
  (c1_head_tokens {} (str "GET") (str "/empty") (str "HTTP/1.1") [(str "Host", str "x")]
    (by decide) (by decide) (by decide) (by decide) (by decide) (by decide)).1

/-- Counterexample to C1 as stated: with `request_max_header_count = 1` the
well-formed request `GET / HTTP/1.1` with the headers `A: b` and `B: d`, none
of them Content-Length or Transfer-Encoding, makes `_token_parse` return ERROR
on the first byte of the second header name. -/
theorem c1_header_count_counterexample :
    token_ok state_e.ST MT (str "GET") ∧ token_ok MS TR (str "/") ∧ token_ok TS VN (str "HTTP/1.1")
    ∧ header_ok (str "A", str "b") ∧ header_ok (str "B", str "d")
    ∧ (token_parse_n 6 (client_holding one_header_server two_header_request)).map
        (fun r => r.1.map (fun tok => tok.type))
      = some [HS_TOK_METHOD, HS_TOK_TARGET, HS_TOK_VERSION, HS_TOK_HEADER_KEY,
          HS_TOK_HEADER_VAL, HS_TOK_ERROR] := by
  decide

/-- C3 (code defect).  On the chunked upload of scenario 3 the parser returns
BODY_STREAM and the CHUNK_BODY `hello`, and then ERROR instead of the second
chunk: `_stream_jump` leaves the cursor on the first byte of the payload, so
the state `CD` reads `h` where it expects CR. -/
theorem c3_chunked_upload_error :
    (token_parse_n 10 (client_holding {} chunked_request)).map
        (fun r => r.1.map (fun tok => (tok.type, token_bytes (some chunked_request) tok)))
      = some [(HS_TOK_METHOD, str "POST"), (HS_TOK_TARGET, str "/large"),
          (HS_TOK_VERSION, str "HTTP/1.1"), (HS_TOK_HEADER_KEY, str "Host"),
          (HS_TOK_HEADER_VAL, str "x"), (HS_TOK_HEADER_KEY, str "transfer-encoding"),
          (HS_TOK_HEADER_VAL, str "chunked"), (HS_TOK_BODY_STREAM, []),
          (HS_TOK_CHUNK_BODY, str "hello"), (HS_TOK_ERROR, [])] := by
  decide

/-- C5 (code defect).  For the request `GET /host` with the headers `From: a`
and `Host: x`, in the state in which the handler is called,
`iwn_http_request_header_get(request, "Host")` is the value `a` of the header
`From`, and the lookup of the absent name `Date` is `a` as well, not empty:
the loop compares the length of the name only. -/
theorem c5_header_get_by_length :
    (on_event no_callbacks example_env
        (client_accepted {} { input := [io_result.bytes host_request] })).map
      (fun cl => (cl.state, (iwn_http_request_header_get cl (str "Host")).bytes,
        (iwn_http_request_header_get cl (str "Date")).bytes))
      = some (HTTP_SESSION_NOP, str "a", str "a") := by
  decide

/-- C8 (code defect).  On a keep-alive connection the echo POST of scenario 2
is answered with `content-length: 5` and the body `hello`; the next request,
`GET /empty`, one second later, whose handler sets no body, is answered with
`content-length: 5` again and no byte after the blank line: `_response_data_reset` leaves
`body_len` as it was. -/
theorem c8_stale_content_length :
    ((on_event server1_callbacks example_env
        (client_accepted {} { input := [io_result.bytes echo_request, io_result.fail EAGAIN,
          io_result.bytes empty_request] })).bind
      (fun cl => on_event
        { server1_callbacks with
          request_handler := server1_request_handler example_env_later (fun c => c) }
        example_env_later cl)).map (fun cl => cl.pa.sent)
      = some (str "HTTP/1.1 200 OK\r\nDate: Thu, 01 Jan 1970 00:00:01 GMT\r\nconnection: keep-alive\r\ncontent-type: text/plain\r\ncontent-length: 5\r\n\r\nhello"
          ++ str "HTTP/1.1 200 OK\r\nDate: Thu, 01 Jan 1970 00:00:02 GMT\r\nconnection: keep-alive\r\ncontent-length: 5\r\n\r\n") := by
  decide

/-- C9 (code defect).  The request with `User-Agent: curl` before
`Connection: close` is answered with `connection: keep-alive`, keep-alive is
set and the session is reset, not ended: the lookup of `connection` returns
the value of the first header whose name has 10 bytes. -/
theorem c9_connection_close_missed :
    (on_event server1_callbacks example_env
        (client_accepted {} { input := [io_result.bytes close_request] })).map
      (fun cl => (cl.pa.sent, cl.flags.HTTP_KEEP_ALIVE, cl.flags.HTTP_END_SESSION, cl.state))
      = some (str "HTTP/1.1 200 OK\r\nDate: Thu, 01 Jan 1970 00:00:01 GMT\r\nconnection: keep-alive\r\ncontent-length: 0\r\n\r\n",
          true, false, HTTP_SESSION_INIT) := by
  decide

/-- Counterexample to C10 as stated: the HTTP/1.0 request with the header
`Connection: foo`, under the automatic policy, is answered with
`connection: keep-alive`; keep-alive is set and the session is not ended. -/
theorem c10_http10_other_value_counterexample :
    (on_event server1_callbacks example_env
        (client_accepted {} { input := [io_result.bytes http10_request] })).map
      (fun cl => (cl.pa.sent, cl.flags.HTTP_AUTOMATIC, cl.flags.HTTP_KEEP_ALIVE,
        cl.flags.HTTP_END_SESSION, cl.state))
      = some (str "HTTP/1.1 200 OK\r\nDate: Thu, 01 Jan 1970 00:00:01 GMT\r\nconnection: keep-alive\r\ncontent-length: 0\r\n\r\n",
          true, true, false, HTTP_SESSION_INIT) := by
  decide

/-- Counterexample to C6 as stated: for the input `GE!T / HTTP/1.1` CRLF CRLF
the parser returns ERROR after the VERSION token, the driver answers
`400 Bad Request` with `connection: keep-alive`, and once the response is
written the session is reset for another request: HTTP_END_SESSION is not
set. -/
theorem c6_malformed_keep_alive_counterexample :
    (token_parse_n 4 (client_holding {} malformed_request)).map
        (fun r => r.1.map (fun tok => tok.type))
      = some [HS_TOK_METHOD, HS_TOK_TARGET, HS_TOK_VERSION, HS_TOK_ERROR]
    ∧ (on_event server1_callbacks example_env
        (client_accepted {} { input := [io_result.bytes malformed_request] })).map
      (fun cl => (cl.pa.sent, cl.flags.HTTP_END_SESSION, cl.state))
      = some (str "HTTP/1.1 400 Bad Request\r\nDate: Thu, 01 Jan 1970 00:00:01 GMT\r\nconnection: keep-alive\r\ncontent-type: text/plain\r\ncontent-length: 11\r\n\r\nBad request",
          false, HTTP_SESSION_INIT) := by
  decide

theorem response_end_eq (cb : callbacks) (e : env) (cl : client) :
    iwn_http_response_end cb e cl
      = _client_response_write cb (_client_response_headers_write_http e cl).1
          (response_end_text e cl) := by
  unfold iwn_http_response_end response_end_text
  cases h : (_client_response_headers_write_http e cl).1.response.body <;> simp [h]

theorem buf_slice_all (xs : List Nat) : buf_slice (some xs) 0 (xs.length : Int) = xs := by
  simp [buf_slice]

theorem response_data_reset_flags (cl : client) :
    (_response_data_reset cl).flags = cl.flags ∧ (_response_data_reset cl).stream = cl.stream
    ∧ (_response_data_reset cl).pa = cl.pa ∧ (_response_data_reset cl).server = cl.server
    ∧ (_response_data_reset cl).state = cl.state
    ∧ (_response_data_reset cl).chunk_cb = cl.chunk_cb :=
  ⟨rfl, rfl, rfl, rfl, rfl, rfl⟩

/-- What `_client_response_write` leaves when the socket takes the whole text
in one call, without `EPIPE`, for a response that is not chunked. -/
theorem client_response_write_full (cb : callbacks) (cl : client) (xstr : List Nat)
    (pa1 : iwn_poller_adapter)
    (hnc : cl.flags.HTTP_CHUNKED_RESPONSE = false) (hne : xstr ≠ [])
    (hw : pa_write cl.pa xstr = ((xstr.length : Int), pa1)) (he : pa1.errno ≠ EPIPE) :
    let r := _client_response_write cb cl xstr
    r.flags.HTTP_END_SESSION = (cl.flags.HTTP_END_SESSION || !cl.flags.HTTP_KEEP_ALIVE)
    ∧ r.flags.HTTP_KEEP_ALIVE = cl.flags.HTTP_KEEP_ALIVE
    ∧ r.state = (if cl.flags.HTTP_KEEP_ALIVE then HTTP_SESSION_INIT else HTTP_SESSION_WRITE)
    ∧ r.pa.sent = pa1.sent
    ∧ (cl.flags.HTTP_KEEP_ALIVE = true → r.stream = {} ∧ r.tokens = {}) := by
  obtain ⟨h1, h2, h3, h4, h5, h6⟩ := response_data_reset_flags
    { _stream_free_buffer cl with
      stream := { (_stream_free_buffer cl).stream with
        length := xstr.length
        capacity := max (_stream_free_buffer cl).server.spec.response_buf_size (xstr.length + 1)
        buf := some xstr
        bytes_total := 0 }
      state := HTTP_SESSION_WRITE }
  simp only [_client_response_write]
  generalize _response_data_reset _ = c at h1 h2 h3 h4 h5 h6 ⊢
  simp only [_stream_free_buffer] at h1 h2 h3 h4 h5 h6
  have hs : buf_slice c.stream.buf c.stream.bytes_total c.stream.length = xstr := by
    rw [h2]; exact buf_slice_all xstr
  have hx : (0 : Int) < xstr.length := by
    have := List.length_pos.mpr hne
    omega
  by_cases hk : cl.flags.HTTP_KEEP_ALIVE = true
  · simp [_client_write, _client_write_bytes, buf_slice_all, h1, h2, h3, hw, he, hnc, hk, hx,
      _client_reset, _stream_free_buffer, _tokens_free_buffer, set_timeout]
    split_ifs <;> simp_all
  · simp [_client_write, _client_write_bytes, buf_slice_all, h1, h2, h3, h5, hw, he, hnc, hk, hx]

theorem client_read_token_error (cb : callbacks) (e : env) (cl : client) (tok : token)
    (ht : tok.type = HS_TOK_ERROR) :
    client_read_token cb e cl tok = iwn_http_response_end cb e (error_response_client cl tok) := by
  simp [client_read_token, ht, _client_response_error, iwn_http_response_write_simple,
    iwn_http_response_code_set, error_response_client]

theorem autodetect_eq (cl : client) :
    _client_autodetect_keep_alive cl
      = { cl with flags := { cl.flags with
            HTTP_KEEP_ALIVE := (_client_autodetect_keep_alive cl).flags.HTTP_KEEP_ALIVE } } := by
  have key : ∀ c : client,
      (∃ k, c = { cl with flags := { cl.flags with HTTP_KEEP_ALIVE := k } }) →
      c = { cl with flags := { cl.flags with HTTP_KEEP_ALIVE := c.flags.HTTP_KEEP_ALIVE } } := by
    rintro c ⟨k, rfl⟩
    rfl
  apply key
  unfold _client_autodetect_keep_alive
  dsimp only
  split
  · exact ⟨cl.flags.HTTP_KEEP_ALIVE, rfl⟩
  · split_ifs <;> first | exact ⟨false, rfl⟩ | exact ⟨true, rfl⟩

/-- The fields `_client_response_headers_write_http` leaves as they are, and
the keep-alive flag it writes. -/
theorem headers_write_http_fields (e : env) (cl : client) :
    (_client_response_headers_write_http e cl).1.pa = cl.pa
    ∧ (_client_response_headers_write_http e cl).1.flags.HTTP_CHUNKED_RESPONSE
        = cl.flags.HTTP_CHUNKED_RESPONSE
    ∧ (_client_response_headers_write_http e cl).1.flags.HTTP_END_SESSION
        = cl.flags.HTTP_END_SESSION
    ∧ (_client_response_headers_write_http e cl).1.flags.HTTP_KEEP_ALIVE
        = (if cl.flags.HTTP_AUTOMATIC then (_client_autodetect_keep_alive cl).flags.HTTP_KEEP_ALIVE
           else cl.flags.HTTP_KEEP_ALIVE) := by
  have ha := autodetect_eq cl
  generalize (_client_autodetect_keep_alive cl).flags.HTTP_KEEP_ALIVE = k at ha
  simp only [_client_response_headers_write_http, iwn_http_response_header_set, ha]
  refine ⟨?_, ?_, ?_, ?_⟩ <;> split_ifs <;> simp_all

theorem pa_write_full (pa pa1 : iwn_poller_adapter) (data : List Nat)
    (hw : pa_write pa data = ((data.length : Int), pa1)) : pa1.sent = pa.sent ++ data := by
  unfold pa_write at hw
  split at hw
  · simp at hw; rw [← hw]
  · simp only [Prod.mk.injEq] at hw
    obtain ⟨h1, h2⟩ := hw
    have hk : min (Int.toNat ‹Int›) data.length = data.length := by
      have := h1
      omega
    rw [← h2]
    simp [hk]
  · simp only [Prod.mk.injEq] at hw
    omega

theorem headers_write_http_code (e : env) (cl : client) :
    (_client_response_headers_write_http e cl).1.response.code
      = (if cl.response.code = 0 then 200 else cl.response.code)
    ∧ (_client_response_headers_write_http e cl).1.response.body = cl.response.body
    ∧ (_client_response_headers_write_http e cl).1.response.body_len = cl.response.body_len := by
  have ha := autodetect_eq cl
  generalize (_client_autodetect_keep_alive cl).flags.HTTP_KEEP_ALIVE = k at ha
  simp only [_client_response_headers_write_http, iwn_http_response_header_set, ha]
  refine ⟨?_, ?_, ?_⟩ <;> split_ifs <;> simp_all

/-- The text of a response starts with the status line of its code. -/
theorem response_end_text_status (e : env) (cl : client) :
    ∃ rest, response_end_text e cl
      = str "HTTP/1.1 " ++ fmt_d (if cl.response.code = 0 then 200 else cl.response.code)
        ++ str " " ++ _status_text (if cl.response.code = 0 then 200 else cl.response.code)
        ++ str "\r\n" ++ rest := by
  have hc := (headers_write_http_code e cl).1
  have ht : ∃ r, (_client_response_headers_write_http e cl).2
      = str "HTTP/1.1 " ++ fmt_d (_client_response_headers_write_http e cl).1.response.code
        ++ str " " ++ _status_text (_client_response_headers_write_http e cl).1.response.code
        ++ str "\r\n" ++ r := by
    refine ⟨str "Date: " ++ (_server_time cl.server e e.dbuf).2 ++ str "\r\n"
      ++ _client_response_headers_write (_client_response_headers_write_http e cl).1, ?_⟩
    have ha := autodetect_eq cl
    generalize (_client_autodetect_keep_alive cl).flags.HTTP_KEEP_ALIVE = k at ha
    simp only [_client_response_headers_write_http, iwn_http_response_header_set, ha]
    have e1 : str "\r\nDate: " = str "\r\n" ++ str "Date: " := rfl
    rw [e1]
    split_ifs <;> simp only [List.append_assoc]
  obtain ⟨r, hr⟩ := ht
  rw [hc] at hr
  unfold response_end_text
  dsimp only
  split
  · rename_i b _
    exact ⟨r ++ b.take (_client_response_headers_write_http e cl).1.response.body_len.toNat,
      by rw [hr]; simp only [List.append_assoc]⟩
  · exact ⟨r, hr⟩

theorem response_end_text_ne_nil (e : env) (cl : client) : response_end_text e cl ≠ [] := by
  obtain ⟨rest, h⟩ := response_end_text_status e cl
  rw [h]
  have e1 : str "HTTP/1.1 " = 72 :: (str "HTTP/1.1 ").tail := rfl
  rw [e1]
  simp

/-- The outcome of `iwn_http_response_end` for a response that is not chunked
when the socket takes the whole text in one call, without `EPIPE`. -/
theorem response_end_full (cb : callbacks) (e : env) (cl : client) (pa1 : iwn_poller_adapter)
    (hnc : cl.flags.HTTP_CHUNKED_RESPONSE = false)
    (hw : pa_write cl.pa (response_end_text e cl)
      = (((response_end_text e cl).length : Int), pa1))
    (he : pa1.errno ≠ EPIPE) :
    (iwn_http_response_end cb e cl).flags.HTTP_KEEP_ALIVE
        = (if cl.flags.HTTP_AUTOMATIC then (_client_autodetect_keep_alive cl).flags.HTTP_KEEP_ALIVE
           else cl.flags.HTTP_KEEP_ALIVE)
    ∧ (iwn_http_response_end cb e cl).flags.HTTP_END_SESSION
        = (cl.flags.HTTP_END_SESSION || !(iwn_http_response_end cb e cl).flags.HTTP_KEEP_ALIVE)
    ∧ (iwn_http_response_end cb e cl).state
        = (if (iwn_http_response_end cb e cl).flags.HTTP_KEEP_ALIVE then HTTP_SESSION_INIT
           else HTTP_SESSION_WRITE)
    ∧ (iwn_http_response_end cb e cl).pa.sent = cl.pa.sent ++ response_end_text e cl
    ∧ ((iwn_http_response_end cb e cl).flags.HTTP_KEEP_ALIVE = true →
        (iwn_http_response_end cb e cl).stream = {} ∧ (iwn_http_response_end cb e cl).tokens = {}) := by
  obtain ⟨f1, f2, f3, f4⟩ := headers_write_http_fields e cl
  have h := client_response_write_full cb (_client_response_headers_write_http e cl).1
    (response_end_text e cl) pa1 (by rw [f2]; exact hnc) (response_end_text_ne_nil e cl)
    (by rw [f1]; exact hw) he
  rw [← response_end_eq] at h
  obtain ⟨h1, h2, h3, h4, h5⟩ := h
  rw [f4] at h2
  refine ⟨h2, ?_, ?_, ?_, ?_⟩
  · rw [h1, f3, h2, f4]
  · rw [h3, h2, f4]
  · rw [h4, pa_write_full _ _ _ hw]
  · intro hk
    rw [h2, ← f4] at hk
    exact h5 hk

/-- Keep-alive autodetection for a request whose VERSION token does not end
in `1`: the flag is cleared exactly when the value found for `connection` is
empty or `close`. -/
theorem autodetect_http10 (cl : client) (b : List Nat)
    (hv : (_token_get_string cl HS_TOK_VERSION).buf = some b)
    (h10 : b.getD ((_token_get_string cl HS_TOK_VERSION).len - 1).toNat 0 ≠ 49) :
    (_client_autodetect_keep_alive cl).flags.HTTP_KEEP_ALIVE
      = !decide ((iwn_http_request_header_get cl (str "connection")).len = 0
          ∨ says_close (iwn_http_request_header_get cl (str "connection"))) := by
  unfold _client_autodetect_keep_alive says_close
  simp only [hv, h10, if_false]
  by_cases h1 : (iwn_http_request_header_get cl (str "connection")).len = 0
  · simp [h1]
  · by_cases h2 : (iwn_http_request_header_get cl (str "connection")).len = 5
      ∧ strncasecmp_eq ((iwn_http_request_header_get cl (str "connection")).buf.getD [])
          (str "close") 5 = true
    · simp [h1, h2]
    · simp [h1, h2]

/-- C10 (amended).  For every request whose VERSION token ends in a byte other
than `1` and whose keep-alive policy is Automatic, when the response is ended
and the socket takes it whole: if the lookup of the header `connection` gives
an empty value or the value `close` (ignoring case), HTTP_KEEP_ALIVE is
cleared and the session is ended after the response; for every other value of
the lookup, `keep-alive` or not, HTTP_KEEP_ALIVE is set and the session is
reset for the next request instead of being ended. -/
theorem c10_http10_keep_alive (cb : callbacks) (e : env) (cl : client) (b : List Nat)
    (pa1 : iwn_poller_adapter)
    (hauto : cl.flags.HTTP_AUTOMATIC = true)
    (hnc : cl.flags.HTTP_CHUNKED_RESPONSE = false)
    (hend : cl.flags.HTTP_END_SESSION = false)
    (hv : (_token_get_string cl HS_TOK_VERSION).buf = some b)
    (h10 : b.getD ((_token_get_string cl HS_TOK_VERSION).len - 1).toNat 0 ≠ 49)
    (hw : pa_write cl.pa (response_end_text e cl)
      = (((response_end_text e cl).length : Int), pa1))
    (he : pa1.errno ≠ EPIPE) :
    (((iwn_http_request_header_get cl (str "connection")).len = 0
        ∨ says_close (iwn_http_request_header_get cl (str "connection"))) →
      (iwn_http_response_end cb e cl).flags.HTTP_KEEP_ALIVE = false
      ∧ (iwn_http_response_end cb e cl).flags.HTTP_END_SESSION = true)
    ∧ (¬ ((iwn_http_request_header_get cl (str "connection")).len = 0
        ∨ says_close (iwn_http_request_header_get cl (str "connection"))) →
      (iwn_http_response_end cb e cl).flags.HTTP_KEEP_ALIVE = true
      ∧ (iwn_http_response_end cb e cl).flags.HTTP_END_SESSION = false
      ∧ (iwn_http_response_end cb e cl).state = HTTP_SESSION_INIT) := by
  obtain ⟨h1, h2, h3, -, -⟩ := response_end_full cb e cl pa1 hnc hw he
  rw [hauto, if_pos rfl, autodetect_http10 cl b hv h10] at h1
  constructor
  · intro hc
    have hk : (iwn_http_response_end cb e cl).flags.HTTP_KEEP_ALIVE = false := by
      rw [h1]; simp [hc]
    exact ⟨hk, by rw [h2, hk]; simp⟩
  · intro hc
    have hk : (iwn_http_response_end cb e cl).flags.HTTP_KEEP_ALIVE = true := by
      rw [h1]; simp [hc]
    exact ⟨hk, by rw [h2, hk, hend]; simp, by rw [h3, hk]; simp⟩

/-- Witness of C10 (amended): the HTTP/1.0 request with `Connection: foo`, at
the call of its handler: keep-alive is set and the session is reset. -/
theorem c10_http10_keep_alive_witness :
    (iwn_http_response_end no_callbacks example_env
        (client_at_handler http10_request)).flags.HTTP_KEEP_ALIVE = true
    ∧ (iwn_http_response_end no_callbacks example_env
        (client_at_handler http10_request)).flags.HTTP_END_SESSION = false
    ∧ (iwn_http_response_end no_callbacks example_env
        (client_at_handler http10_request)).state = HTTP_SESSION_INIT :=
  (c10_http10_keep_alive no_callbacks example_env (client_at_handler http10_request)
    (http10_request.drop 11)
    (pa_write (client_at_handler http10_request).pa
      (response_end_text example_env (client_at_handler http10_request))).2
    (by decide) (by decide) (by decide) (by decide) (by decide) (by decide) (by decide)).2
    (by decide)

theorem error_response_client_fields (cl : client) (tok : token) :
    (error_response_client cl tok).response.code = 400
    ∧ (error_response_client cl tok).flags = cl.flags
    ∧ (error_response_client cl tok).pa = cl.pa
    ∧ (error_response_client cl tok).tokens = tokens_push cl.tokens tok
    ∧ (error_response_client cl tok).stream = cl.stream := by
  unfold error_response_client iwn_http_response_body_set iwn_http_response_body_clear
    iwn_http_response_header_set
  have e1 : ((-1 : Int) = 0) = False := by simp
  simp only [e1, if_false]
  refine ⟨?_, ?_, ?_, ?_, ?_⟩ <;> (split <;> try split) <;> rfl

/-- Keep-alive autodetection reads the token array, the read buffer and the
flag it may leave as it is, nothing else. -/
theorem autodetect_congr (c1 c2 : client) (ht : c1.tokens = c2.tokens)
    (hs : c1.stream = c2.stream)
    (hf : c1.flags.HTTP_KEEP_ALIVE = c2.flags.HTTP_KEEP_ALIVE) :
    (_client_autodetect_keep_alive c1).flags.HTTP_KEEP_ALIVE
      = (_client_autodetect_keep_alive c2).flags.HTTP_KEEP_ALIVE := by
  have h1 : _token_get_string c1 HS_TOK_VERSION = _token_get_string c2 HS_TOK_VERSION := by
    unfold _token_get_string; rw [ht, hs]
  have h2 : iwn_http_request_header_get c1 (str "connection")
      = iwn_http_request_header_get c2 (str "connection") := by
    unfold iwn_http_request_header_get; rw [ht, hs]
  unfold _client_autodetect_keep_alive
  rw [h1, h2]
  dsimp only
  split
  · exact hf
  · split_ifs <;> rfl

/-- C6 (amended).  Whenever the parser returns an ERROR token, the session
driver stores it and serializes a response whose status line is
`HTTP/1.1 400 Bad Request`.  Once the socket has taken that response whole,
the session is ended, and not reset, exactly when keep-alive is off: under
the automatic policy, when autodetection on the tokens returned before the
error leaves HTTP_KEEP_ALIVE clear; otherwise, keep-alive being on, the session
is reset for another request and HTTP_END_SESSION is not set. -/
theorem c6_error_response (cb : callbacks) (e : env) (cl : client) (tok : token)
    (pa1 : iwn_poller_adapter)
    (ht : tok.type = HS_TOK_ERROR)
    (hnc : cl.flags.HTTP_CHUNKED_RESPONSE = false)
    (hend : cl.flags.HTTP_END_SESSION = false)
    (hw : pa_write cl.pa (response_end_text e (error_response_client cl tok))
      = (((response_end_text e (error_response_client cl tok)).length : Int), pa1))
    (he : pa1.errno ≠ EPIPE) :
    (∃ rest, (client_read_token cb e cl tok).pa.sent
        = cl.pa.sent ++ (str "HTTP/1.1 400 Bad Request\r\n" ++ rest))
    ∧ (client_read_token cb e cl tok).flags.HTTP_KEEP_ALIVE
        = (if cl.flags.HTTP_AUTOMATIC
           then (_client_autodetect_keep_alive
                  { cl with tokens := tokens_push cl.tokens tok }).flags.HTTP_KEEP_ALIVE
           else cl.flags.HTTP_KEEP_ALIVE)
    ∧ ((client_read_token cb e cl tok).flags.HTTP_KEEP_ALIVE = false →
        (client_read_token cb e cl tok).flags.HTTP_END_SESSION = true
        ∧ (client_read_token cb e cl tok).state = HTTP_SESSION_WRITE)
    ∧ ((client_read_token cb e cl tok).flags.HTTP_KEEP_ALIVE = true →
        (client_read_token cb e cl tok).flags.HTTP_END_SESSION = false
        ∧ (client_read_token cb e cl tok).state = HTTP_SESSION_INIT
        ∧ (client_read_token cb e cl tok).stream = {}
        ∧ (client_read_token cb e cl tok).tokens = {}) := by
  obtain ⟨g1, g2, g3, g4, g5⟩ := error_response_client_fields cl tok
  rw [client_read_token_error cb e cl tok ht]
  obtain ⟨h1, h2, h3, h4, h5⟩ := response_end_full cb e (error_response_client cl tok) pa1
    (by rw [g2]; exact hnc) (by rw [g3]; exact hw) he
  rw [g2] at h1 h2
  rw [g3] at h4
  refine ⟨?_, ?_, ?_, ?_⟩
  · obtain ⟨rest, hr⟩ := response_end_text_status e (error_response_client cl tok)
    rw [g1] at hr
    refine ⟨rest, ?_⟩
    rw [h4, hr]
    have e1 : str "HTTP/1.1 " ++ fmt_d (if (400 : Int) = 0 then 200 else 400) ++ str " "
        ++ _status_text (if (400 : Int) = 0 then 200 else 400) ++ str "\r\n"
        = str "HTTP/1.1 400 Bad Request\r\n" := by decide
    rw [e1]
  · rw [h1]
    rw [autodetect_congr (error_response_client cl tok)
      { cl with tokens := tokens_push cl.tokens tok } g4 g5 (by rw [g2])]
  · intro hk
    exact ⟨by rw [h2, hk]; simp, by rw [h3, hk]; simp⟩
  · intro hk
    obtain ⟨a, b⟩ := h5 hk
    exact ⟨by rw [h2, hk, hend]; simp, by rw [h3, hk]; simp, a, b⟩

/-- Witness of C6 (amended): the byte `?` is refused by the parser on a fresh
connection; the ERROR token is answered with 400, keep-alive stays off and the
session is ended. -/
theorem c6_error_response_witness :
    (client_read_token no_callbacks example_env (client_holding {} (str "?"))
        { type := HS_TOK_ERROR }).flags.HTTP_KEEP_ALIVE = false
    ∧ (client_read_token no_callbacks example_env (client_holding {} (str "?"))
        { type := HS_TOK_ERROR }).flags.HTTP_END_SESSION = true :=
  ⟨by decide,
   ((c6_error_response no_callbacks example_env (client_holding {} (str "?"))
      { type := HS_TOK_ERROR }
      (pa_write (client_holding {} (str "?")).pa
        (response_end_text example_env
          (error_response_client (client_holding {} (str "?")) { type := HS_TOK_ERROR }))).2
      (by decide) (by decide) (by decide) (by decide) (by decide)).2.2.1 (by decide)).1⟩

theorem tokens_push_list (l : List token) (cap : Int) (tok : token)
    (h : (l.length : Int) ≠ cap) :
    tokens_push { buf := some l, capacity := cap, size := l.length } tok
      = { buf := some (l ++ [tok]), capacity := cap, size := ((l ++ [tok]).length : Nat) } := by
  simp [tokens_push, h]

/-- A turn of the loop of `_client_read` for a token of the request line or
of a header line: the token is stored and the loop goes on. -/
theorem crl_push (cb : callbacks) (e : env) (f : Nat) (cl0 : client) (p p1 : parser)
    (n n1 : Nat) (b b1 : Bool) (tok : token)
    (h : _token_parse (at_ cl0 p n {} b) = some (tok, at_ cl0 p1 n1 {} b1))
    (hty : tok.type = HS_TOK_METHOD ∨ tok.type = HS_TOK_TARGET ∨ tok.type = HS_TOK_VERSION
      ∨ tok.type = HS_TOK_HEADER_KEY ∨ tok.type = HS_TOK_HEADER_VAL)
    (hst : cl0.state = HTTP_SESSION_READ) :
    client_read_loop cb e (f + 1) (at_ cl0 p n {} b)
      = client_read_loop cb e f
          (at_ { cl0 with tokens := tokens_push cl0.tokens tok } p1 n1 {} b1) := by
  have hs : (at_ cl0 p1 n1 {} b1).state = HTTP_SESSION_READ := hst
  have hs2 : (at_ { cl0 with tokens := tokens_push cl0.tokens tok } p1 n1 {} b1).state
      = HTTP_SESSION_READ := hst
  have e1 : ({ at_ cl0 p1 n1 {} b1 with tokens := tokens_push (at_ cl0 p1 n1 {} b1).tokens tok }
      : client) = at_ { cl0 with tokens := tokens_push cl0.tokens tok } p1 n1 {} b1 := rfl
  conv_lhs => rw [client_read_loop]
  rw [h]
  rcases hty with ht | ht | ht | ht | ht <;>
  simp [client_read_token, ht, e1, hs2]

/-- The turn of the loop of `_client_read` for the BODY token: the token is
stored, the request handler is called, and the loop ends when the handler
leaves a state other than READ. -/
theorem crl_body (cb : callbacks) (e : env) (f : Nat) (cl cl1 : client) (tok : token)
    (h : _token_parse cl = some (tok, cl1)) (hty : tok.type = HS_TOK_BODY)
    (hh : (cb.request_handler
        { cl1 with tokens := tokens_push cl1.tokens tok, state := HTTP_SESSION_NOP }).state
          ≠ HTTP_SESSION_READ) :
    client_read_loop cb e (f + 1) cl
      = some (cb.request_handler
          { cl1 with tokens := tokens_push cl1.tokens tok, state := HTTP_SESSION_NOP }) := by
  conv_lhs => rw [client_read_loop]
  rw [h]
  simp [client_read_token, hty, hh]

theorem drop_sp_token {bs : List Nat} {n : Nat} {sp : Nat} {w : List Nat} {c : Nat}
    {rest : List Nat} (hd : bs.drop n = sp :: (w ++ c :: rest)) :
    bs.drop (n + w.length + 2) = rest := by
  obtain ⟨-, -, hd1⟩ := drop_cons_getD hd
  have a := drop_token hd1
  have e : n + 1 + w.length + 1 = n + w.length + 2 := by omega
  rw [e] at a
  exact a

theorem read_loop_host_only (cb : callbacks) (e : env) (f : Nat) (srv : server)
    (t v : List Nat) (ht : token_ok MS TR t) (hv : token_ok HS HV v)
    (hmax : 1 ≤ srv.spec.request_max_header_count)
    (hh : (cb.request_handler (host_only_at_handler srv t v)).state ≠ HTTP_SESSION_READ) :
    client_read_loop cb e (f + 6) (client_holding srv (host_only_request t v))
      = some (cb.request_handler (host_only_at_handler srv t v)) := by
  set bs := host_only_request t v with hbs
  set cl0 := client_holding srv bs with hcl0
  have h0 : cl0 = at_ cl0 (pst state_e.ST M_WFK 0) 0 {} false := rfl
  have hd0 : bs.drop 0 = str "GET" ++ 32 :: (t ++ 32 :: (str "HTTP/1.1" ++ 13 :: 10 ::
      (header_block [(str "Host", v)] ++ [13, 10]))) := rfl
  have t1 := token_parse_simple state_e.ST MT MS HS_TOK_METHOD (Or.inl ⟨rfl, rfl, rfl, rfl⟩)
    cl0 bs M_WFK 0 0 (str "GET") 32 _ false rfl rfl hd0 (by simp) (by simp) (by decide)
    (by decide)
  have hd1 := drop_token hd0
  set cl1 : client := { cl0 with tokens := (tokens_push cl0.tokens (token.mk ((0 : Nat) : Int) (str "GET").length HS_TOK_METHOD)) } with hcl1
  have t2 := token_parse_simple MS TR TS HS_TOK_TARGET (Or.inr ⟨rfl, rfl, rfl, rfl⟩)
    cl1 bs M_WFK 0 (0 + (str "GET").length + 1) t 32 _ true rfl rfl hd1 (by simp) (by simp) ht
    (by decide)
  have hd2 := drop_token hd1
  set cl2 : client := { cl1 with tokens := (tokens_push cl1.tokens (token.mk ((0 + (str "GET").length + 1 : Nat) : Int) t.length HS_TOK_TARGET)) } with hcl2
  have t3 := token_parse_version cl2 bs 0 (0 + (str "GET").length + 1 + t.length + 1)
    (str "HTTP/1.1") 13 _ true rfl rfl hd2 (by decide) (by decide)
  have hd3 := drop_token hd2
  set cl3 : client := { cl2 with tokens := (tokens_push cl2.tokens (token.mk ((0 + (str "GET").length + 1 + t.length + 1 : Nat) : Int) (str "HTTP/1.1").length HS_TOK_VERSION)) } with hcl3
  have hd3a : bs.drop (0 + (str "GET").length + 1 + t.length + 1 + (str "HTTP/1.1").length + 1)
      = 10 :: (str "Host" ++ 58 :: (32 :: (v ++ 13 :: (10 :: [13, 10])))) := by
    rw [hd3]; simp [header_block, header_line]
  have t4 := token_parse_header_key RR (Or.inl rfl) cl3 bs 0 _ (str "Host") _ true rfl rfl hd3a
    (by decide) (by decide) (by decide) (by simpa [toInt16] using hmax)
  have hd4 := drop_sp_token hd3a
  set cl4 : client := { cl3 with tokens := (tokens_push cl3.tokens (token.mk (((0 + (str "GET").length + 1 + t.length + 1 + (str "HTTP/1.1").length + 1 : Nat) : Int) + 1) (str "Host").length HS_TOK_HEADER_KEY)) } with hcl4
  have t5 := token_parse_header_val cl4 bs (toInt16 (0 + 1)) _ v 32 13 _ true rfl rfl hd4
    (by decide) hv (by decide)
  have hd5 := drop_sp_token hd4
  set cl5 : client := { cl4 with tokens := (tokens_push cl4.tokens (token.mk (((0 + (str "GET").length + 1 + t.length + 1 + (str "HTTP/1.1").length + 1 + (str "Host").length + 2 : Nat) : Int) + 1) v.length HS_TOK_HEADER_VAL)) } with hcl5
  have t6 := token_parse_no_body cl5 bs (toInt16 (0 + 1)) _ [] true rfl rfl hd5
  have e6 : f + 6 = f + 1 + 1 + 1 + 1 + 1 + 1 := rfl
  rw [h0, e6, crl_push cb e _ cl0 _ _ _ _ _ _ _ t1 (by simp) rfl,
    crl_push cb e _ cl1 _ _ _ _ _ _ _ t2 (by simp) rfl,
    crl_push cb e _ cl2 _ _ _ _ _ _ _ t3 (by simp) rfl,
    crl_push cb e _ cl3 _ _ _ _ _ _ _ t4 (by simp) rfl,
    crl_push cb e _ cl4 _ _ _ _ _ _ _ t5 (by simp) rfl]
  have key : ({ at_ cl5 (pst HN M_END (toInt16 (0 + 1)))
        (0 + (str "GET").length + 1 + t.length + 1 + (str "HTTP/1.1").length + 1
          + (str "Host").length + 2 + v.length + 2 + 3) {} true with
      tokens := tokens_push (at_ cl5 (pst HN M_END (toInt16 (0 + 1)))
        (0 + (str "GET").length + 1 + t.length + 1 + (str "HTTP/1.1").length + 1
          + (str "Host").length + 2 + v.length + 2 + 3) {} true).tokens { type := HS_TOK_BODY },
      state := HTTP_SESSION_NOP } : client) = host_only_at_handler srv t v := by
    have e1 : toInt16 (0 + 1) = 1 := by decide
    have e2 : (str "GET").length = 3 := rfl
    have e3 : (str "HTTP/1.1").length = 8 := rfl
    have e4 : (str "Host").length = 4 := rfl
    simp only [host_only_at_handler, hcl5, hcl4, hcl3, hcl2, hcl1, hcl0, at_, client_holding,
      tokens_push, e1, e2, e3, e4]
    simp
    omega
  rw [crl_body cb e f _ _ _ t6 rfl (by rw [key]; exact hh), key]

theorem host_only_version (srv : server) (t v : List Nat) :
    _token_get_string (host_only_at_handler srv t v) HS_TOK_VERSION
      = { buf := some ((host_only_request t v).drop (t.length + 5)), len := 8 } := by
  have e : List.range 6 = [0, 1, 2, 3, 4, 5] := rfl
  have e3 : ((t.length : Int) + 5).toNat = t.length + 5 := by omega
  simp [_token_get_string, host_only_at_handler, tokens_at, e, List.find?, stream_ptr, at_,
    client_holding, e3]

theorem host_only_connection (srv : server) (t v : List Nat) :
    iwn_http_request_header_get (host_only_at_handler srv t v) (str "connection") = {} := by
  have e : List.range 6 = [0, 1, 2, 3, 4, 5] := rfl
  have e2 : ((str "connection").length : Int) = 10 := rfl
  simp [iwn_http_request_header_get, host_only_at_handler, tokens_at, e, e2, List.find?]

/-- The text of the response of a handler that set no status, header or
body, for a request on which autodetection enables keep-alive. -/
theorem response_end_text_plain (e : env) (cl : client) (hr : cl.response = {})
    (hauto : cl.flags.HTTP_AUTOMATIC = true) (hnc : cl.flags.HTTP_CHUNKED_RESPONSE = false)
    (hk : (_client_autodetect_keep_alive cl).flags.HTTP_KEEP_ALIVE = true) :
    response_end_text e cl
      = str "HTTP/1.1 200 OK\r\nDate: " ++ (_server_time cl.server e e.dbuf).2
        ++ str "\r\nconnection: keep-alive\r\ncontent-length: 0\r\n\r\n" := by
  have ha := autodetect_eq cl
  rw [hk] at ha
  have e1 : (str "connection").map tolower = str "connection" := by decide
  have e2 : fmt_d 200 = str "200" := by decide
  have e3 : _status_text 200 = str "OK" := by decide
  have e4 : fmt_d (toInt32 0) = str "0" := by decide
  simp only [response_end_text, _client_response_headers_write_http, hauto, if_true, ha,
    iwn_http_response_header_set, hr, _client_response_headers_write, hnc]
  simp [e1, e2, e3, e4, str]
  decide

theorem host_only_keep_alive (srv : server) (t v : List Nat) :
    (_client_autodetect_keep_alive (host_only_at_handler srv t v)).flags.HTTP_KEEP_ALIVE
      = true := by
  have hd : (host_only_request t v).drop (t.length + 5)
      = str "HTTP/1.1" ++ 13 :: 10 :: (header_block [(str "Host", v)] ++ [13, 10]) := by
    have h0 : (host_only_request t v).drop 0 = str "GET" ++ 32 :: (t ++ 32 :: (str "HTTP/1.1"
        ++ 13 :: 10 :: (header_block [(str "Host", v)] ++ [13, 10]))) := rfl
    have a := drop_token (drop_token h0)
    have e : 0 + (str "GET").length + 1 + t.length + 1 = t.length + 5 := by
      have : (str "GET").length = 3 := rfl
      omega
    rw [e] at a
    exact a
  unfold _client_autodetect_keep_alive
  rw [host_only_version, host_only_connection]
  simp only [hd]
  have e1 : (str "HTTP/1.1" ++ 13 :: 10 :: (header_block [(str "Host", v)] ++ [13, 10]))[7]?
      = some 49 := rfl
  simp [e1]

/-- C7.  On a freshly initialised connection whose read buffer holds a
request `GET <target> HTTP/1.1` with the single header `Host`, for every
target and every Host value the character table accepts (on a server that
allows at least one header, as every server made by `iwn_http_server_create`
does): when the request handler sets no status, header or body and calls
`iwn_http_response_end`, the loop of `_client_read` returns, the bytes handed
to the socket are exactly `HTTP/1.1 200 OK`, `Date: <date>`,
`connection: keep-alive`, `content-length: 0` and the blank line, with nothing
after it (`<date>` is the text `_server_time` leaves in the date buffer), and
after the write the session is reset for the next request (state INIT, read
buffer and token array released) and HTTP_END_SESSION is not set. -/
theorem c7_empty_response (srv : server) (e : env) (t v : List Nat) (f : Nat)
    (ht : token_ok MS TR t) (hv : token_ok HS HV v)
    (hmax : 1 ≤ srv.spec.request_max_header_count) :
    ∃ cl, client_read_loop (end_callbacks e) e (f + 6)
        (client_holding srv (host_only_request t v)) = some cl
      ∧ cl.pa.sent = str "HTTP/1.1 200 OK\r\nDate: " ++ (_server_time srv e e.dbuf).2
          ++ str "\r\nconnection: keep-alive\r\ncontent-length: 0\r\n\r\n"
      ∧ cl.state = HTTP_SESSION_INIT
      ∧ cl.flags.HTTP_KEEP_ALIVE = true
      ∧ cl.flags.HTTP_END_SESSION = false
      ∧ cl.stream = {} ∧ cl.tokens = {} := by
  have hk := host_only_keep_alive srv t v
  have htext := response_end_text_plain e (host_only_at_handler srv t v) rfl rfl rfl hk
  have hfull := response_end_full no_callbacks e (host_only_at_handler srv t v)
    { sent := response_end_text e (host_only_at_handler srv t v) } rfl
    (by simp [pa_write, host_only_at_handler, at_, client_holding])
    (by show (0 : Int) ≠ 32; decide)
  obtain ⟨h1, h2, h3, h4, h5⟩ := hfull
  have hauto : (host_only_at_handler srv t v).flags.HTTP_AUTOMATIC = true := rfl
  rw [hauto, if_pos rfl, hk] at h1
  rw [h1] at h2 h3
  refine ⟨iwn_http_response_end no_callbacks e (host_only_at_handler srv t v), ?_, ?_, ?_, h1,
    ?_, (h5 h1).1, (h5 h1).2⟩
  · exact read_loop_host_only (end_callbacks e) e f srv t v ht hv hmax
      (by show (iwn_http_response_end no_callbacks e (host_only_at_handler srv t v)).state ≠ _
          rw [h3]; decide)
  · rw [h4, htext]
    rfl
  · rw [h3]; rfl
  · rw [h2]; rfl

/-- Witness of C7: the request `GET /empty HTTP/1.1` with the header
`Host: x` on a server with the default configuration, at second 1. -/
theorem c7_empty_response_witness :
    ∃ cl, client_read_loop (end_callbacks example_env) example_env 6
        (client_holding {} (host_only_request (str "/empty") (str "x"))) = some cl
      ∧ cl.pa.sent = str "HTTP/1.1 200 OK\r\nDate: "
          ++ (_server_time {} example_env example_env.dbuf).2
          ++ str "\r\nconnection: keep-alive\r\ncontent-length: 0\r\n\r\n"
      ∧ cl.state = HTTP_SESSION_INIT
      ∧ cl.flags.HTTP_KEEP_ALIVE = true
      ∧ cl.flags.HTTP_END_SESSION = false
      ∧ cl.stream = {} ∧ cl.tokens = {} :=
  c7_empty_response {} example_env (str "/empty") (str "x") 0 (by decide) (by decide) (by decide)

theorem meta_emit_quiet (p : parser) (h1 : p.meta ≠ M_SEN) (h2 : p.meta ≠ M_END) :
    _meta_emit_token p = ({}, p) := by
  unfold _meta_emit_token
  split <;> simp_all

/-- The value of `_token_parse` does not depend on the `CONSUMED` bit when the
meta FSM has no token to emit. -/
theorem token_parse_flag (cl0 : client) (p : parser) (n : Nat) (tok : token) (b : Bool)
    (h1 : p.meta ≠ M_SEN) (h2 : p.meta ≠ M_END) :
    _token_parse (at_ cl0 p n tok b) = _token_parse (at_ cl0 p n tok false) := by
  have he := meta_emit_quiet p h1 h2
  have e1 : ∀ b, (at_ cl0 p n tok b).parser = p := fun _ => rfl
  have e2 : ∀ b, ({ at_ cl0 p n tok b with parser := p } : client) = at_ cl0 p n tok b :=
    fun _ => rfl
  have e3 : ∀ b, (at_ cl0 p n tok b).stream.length = cl0.stream.length := fun _ => rfl
  have e4 : ∀ b, (at_ cl0 p n tok b).stream.index = (n : Int) := fun _ => rfl
  unfold _token_parse
  simp only [e1, he, e2, e3, e4]
  rw [token_parse_loop_at_consumed]
  simp

/-- With the cursor at the end of the valid bytes `_token_parse` returns no
token. -/
theorem token_parse_at_end (cl0 : client) (p : parser) (n : Nat) (tok : token) (b : Bool)
    (hl : cl0.stream.length = n) (hok : rest_ok cl0.server.spec p tok) :
    _token_parse (at_ cl0 p n tok b) = some ({}, at_ cl0 p n tok false) := by
  obtain ⟨h1, h2, h3, h4⟩ := hok
  have he := meta_emit_quiet p h1 h2
  have e1 : (at_ cl0 p n tok b).parser = p := rfl
  have e2 : ({ at_ cl0 p n tok b with parser := p } : client) = at_ cl0 p n tok b := rfl
  have e3 : (at_ cl0 p n tok b).stream.length = cl0.stream.length := rfl
  have e4 : (at_ cl0 p n tok b).stream.index = (n : Int) := rfl
  have h5 : ¬ (tok.type ≠ HS_TOK_CHUNK_BODY ∧ tok.type ≠ HS_TOK_BODY
      ∧ tok.len > cl0.server.spec.request_token_max_len) := by
    rintro ⟨a, b, c⟩
    rcases h4 with h | h | h
    · exact a h
    · exact b h
    · omega
  unfold _token_parse
  simp only [e1, he, e2, e3, e4, hl, sub_self, Int.toNat_zero, Nat.mul_zero, Nat.zero_add]
  rw [show (2 : Nat) = 1 + 1 from rfl, token_parse_loop_end 1 cl0 p n tok b hl]
  simp only [token_parse_finish]
  have e5 : (at_ cl0 p n tok false).parser = p := rfl
  have e6 : (at_ cl0 p n tok false).stream.token = tok := rfl
  have e7 : (at_ cl0 p n tok false).server = cl0.server := rfl
  simp [e5, h3, he, at_, h5]

/-- A turn of the byte loop that emits a token ends the call of
`_token_parse`. -/
theorem token_parse_emit (cl0 : client) (bs : List Nat) (p p1 : parser) (n : Nat)
    (tok tok1 t : token) (c : Nat) (rest : List Nat) (b : Bool)
    (hb : cl0.stream.buf = some bs) (hl : cl0.stream.length = bs.length)
    (hd : bs.drop n = c :: rest)
    (h1 : p.meta ≠ M_SEN) (h2 : p.meta ≠ M_END)
    (hstep : token_parse_step (at_ cl0 p n tok false) c = (t, at_ cl0 p1 (n + 1) tok1 true))
    (ht : t.type ≠ HS_TOK_NONE) :
    _token_parse (at_ cl0 p n tok b) = some (t, at_ cl0 p1 (n + 1) tok1 true) := by
  refine token_parse_of_loop cl0 p n tok b 1 _ _ h1 h2 ?_ ?_
  · omega
  · rw [token_parse_loop_succ 0 cl0 p n tok b bs c rest hb hl hd, hstep]
    simp [ht]

/-- A turn of the byte loop that emits no token: the call of `_token_parse`
returns what a call from the next byte returns. -/
theorem token_parse_skip (cl0 : client) (bs : List Nat) (p p1 : parser) (n : Nat)
    (tok tok1 t : token) (c : Nat) (rest : List Nat) (b : Bool)
    (r : token × client)
    (hb : cl0.stream.buf = some bs) (hl : cl0.stream.length = bs.length)
    (hd : bs.drop n = c :: rest)
    (h1 : p.meta ≠ M_SEN) (h2 : p.meta ≠ M_END)
    (h3 : p1.meta ≠ M_SEN) (h4 : p1.meta ≠ M_END)
    (hstep : token_parse_step (at_ cl0 p n tok false) c = (t, at_ cl0 p1 (n + 1) tok1 true))
    (ht : t.type = HS_TOK_NONE)
    (hr : _token_parse (at_ cl0 p1 (n + 1) tok1 false) = some r) :
    _token_parse (at_ cl0 p n tok b) = some r := by
  obtain ⟨hlt, -, -⟩ := drop_cons_getD hd
  have he := meta_emit_quiet p h1 h2
  have he1 := meta_emit_quiet p1 h3 h4
  have e1 : ∀ (q : parser) (m : Nat) (k : token) (b : Bool), (at_ cl0 q m k b).parser = q :=
    fun _ _ _ _ => rfl
  have e2 : ∀ (q : parser) (m : Nat) (k : token) (b : Bool),
      ({ at_ cl0 q m k b with parser := q } : client) = at_ cl0 q m k b := fun _ _ _ _ => rfl
  have e3 : ∀ (q : parser) (m : Nat) (k : token) (b : Bool),
      (at_ cl0 q m k b).stream.length = cl0.stream.length := fun _ _ _ _ => rfl
  have e4 : ∀ (q : parser) (m : Nat) (k : token) (b : Bool),
      (at_ cl0 q m k b).stream.index = (m : Int) := fun _ _ _ _ => rfl
  unfold _token_parse at hr ⊢
  simp only [e1, he, he1, e2, e3, e4, ne_eq, not_true_eq_false, if_false] at hr ⊢
  have ef : 2 * (cl0.stream.length - (n : Int)).toNat + 2
      = (2 * (cl0.stream.length - ((n + 1 : Nat) : Int)).toNat + 2 + 1) + 1 := by
    rw [hl]; push_cast; omega
  rw [ef, token_parse_loop_succ _ cl0 p n tok b bs c rest hb hl hd, hstep]
  simp only [ht, ne_eq, not_true_eq_false, if_false]
  rw [token_parse_loop_at_consumed]
  cases hloop : token_parse_loop (2 * (cl0.stream.length - ((n + 1 : Nat) : Int)).toNat + 2)
      (at_ cl0 p1 (n + 1) tok1 false) with
  | none => rw [hloop] at hr; simp at hr
  | some x =>
    rw [token_parse_loop_mono _ _ _ hloop _ (Nat.le_succ _)]
    rw [hloop] at hr
    exact hr

/-- A turn of the loop of `_client_read` for a plain token: the token is
stored and the loop goes on. -/
theorem crl_plain (cb : callbacks) (e : env) (f : Nat) (cl cl1 : client) (t : token)
    (h : _token_parse cl = some (t, cl1))
    (hty : plain_token t.type) (hne : t.type ≠ HS_TOK_NONE)
    (hst : cl1.state = HTTP_SESSION_READ) :
    client_read_loop cb e (f + 1) cl
      = client_read_loop cb e f { cl1 with tokens := tokens_push cl1.tokens t } := by
  conv_lhs => rw [client_read_loop]
  rw [h]
  rcases hty with ht | ht | ht | ht | ht | ht
  · exact absurd ht hne
  all_goals simp [client_read_token, ht, hst]

/-- The loop of `_client_read` ends on a call of `_token_parse` that returns
no token. -/
theorem crl_none (cb : callbacks) (e : env) (f : Nat) (cl cl1 : client)
    (h : _token_parse cl = some ({}, cl1)) :
    client_read_loop cb e (f + 1) cl = some cl1 := by
  conv_lhs => rw [client_read_loop]
  rw [h]
  simp [client_read_token]

theorem crl_congr (cb : callbacks) (e : env) (f : Nat) (cl cl1 : client)
    (h : _token_parse cl = _token_parse cl1) :
    client_read_loop cb e f cl = client_read_loop cb e f cl1 := by
  cases f with
  | zero => rfl
  | succ f =>
    conv_lhs => rw [client_read_loop]
    conv_rhs => rw [client_read_loop]
    rw [h]

theorem crl_some (cb : callbacks) (e : env) (f : Nat) (cl X : client)
    (h : client_read_loop cb e f cl = some X) : ∃ r, _token_parse cl = some r := by
  cases f with
  | zero => simp [client_read_loop] at h
  | succ f =>
    rw [client_read_loop] at h
    cases hp : _token_parse cl with
    | none => rw [hp] at h; simp at h
    | some r => exact ⟨r, rfl⟩

theorem crl_mono (cb : callbacks) (e : env) (f : Nat) : ∀ (cl X : client),
    client_read_loop cb e f cl = some X → ∀ g, f ≤ g → client_read_loop cb e g cl = some X := by
  induction f with
  | zero => intro cl X h; simp [client_read_loop] at h
  | succ f ih =>
    intro cl X h g hg
    obtain ⟨g, rfl⟩ : ∃ k, g = k + 1 := ⟨g - 1, by omega⟩
    rw [client_read_loop] at h ⊢
    cases hp : _token_parse cl with
    | none => rw [hp] at h; simp at h
    | some r =>
      rw [hp] at h
      simp only at h ⊢
      split_ifs at h ⊢ with hc
      · exact ih _ _ h g (by omega)
      · exact h

/-- A buffer-independent run inside the loop of `_client_read`: when the
buffer holds the bytes of the run at the cursor, the loop stores the tokens
of the run and goes on from its end. -/
theorem crl_head_run (cb : callbacks) (e : env) (spec : iwn_http_server_spec)
    (p : parser) (n : Nat) (tok : token) (seg : List Nat) (ts : List token)
    (p2 : parser) (tok2 : token) (hrun : head_run spec p n tok seg ts p2 tok2) :
    ∀ (cl0 : client) (bs rest : List Nat) (X : client) (fuel : Nat) (b : Bool),
      cl0.server.spec = spec → cl0.stream.buf = some bs → cl0.stream.length = bs.length →
      bs.drop n = seg ++ rest → cl0.state = HTTP_SESSION_READ →
      client_read_loop cb e fuel
        (at_ { cl0 with tokens := ts.foldl tokens_push cl0.tokens } p2 (n + seg.length) tok2
          false) = some X →
      client_read_loop cb e (fuel + ts.length) (at_ cl0 p n tok b) = some X := by
  induction hrun with
  | nil p n tok hok =>
    intro cl0 bs rest X fuel b _ _ _ _ _ hX
    have hX1 : client_read_loop cb e fuel (at_ cl0 p n tok false) = some X := hX
    rw [crl_congr cb e _ _ _ (token_parse_flag cl0 p n tok b hok.1 hok.2.1)]
    exact hX1
  | cons p n tok c t p1 tok1 cs ts ts1 p2 tok2 hok hstep hplain hrun hts ih =>
    intro cl0 bs rest X fuel b hspec hb hl hd hst hX
    have hd1 : bs.drop n = c :: (cs ++ rest) := by simpa using hd
    obtain ⟨-, -, hd2⟩ := drop_cons_getD hd1
    have en : n + (c :: cs).length = n + 1 + cs.length := by simp; omega
    rw [en] at hX
    have hok1 : rest_ok spec p1 tok1 := by
      cases hrun with
      | nil _ _ _ h => exact h
      | cons _ _ _ _ _ _ _ _ _ _ _ _ h _ _ _ _ => exact h
    by_cases ht : t.type = HS_TOK_NONE
    · rw [if_pos ht] at hts
      subst hts
      have h1 := ih cl0 bs rest X fuel true hspec hb hl hd2 hst hX
      obtain ⟨r, hr⟩ := crl_some cb e _ _ _ h1
      rw [token_parse_flag cl0 p1 (n + 1) tok1 true hok1.1 hok1.2.1] at hr
      have h2 := token_parse_skip cl0 bs p p1 n tok tok1 t c _ b r hb hl hd1 hok.1 hok.2.1
        hok1.1 hok1.2.1 (hstep cl0 hspec) ht hr
      rw [crl_congr cb e _ (at_ cl0 p n tok b) (at_ cl0 p1 (n + 1) tok1 true)
        (by rw [h2, token_parse_flag cl0 p1 (n + 1) tok1 true hok1.1 hok1.2.1, hr])]
      exact h1
    · rw [if_neg ht] at hts
      subst hts
      have h2 := token_parse_emit cl0 bs p p1 n tok tok1 t c _ b hb hl hd1 hok.1 hok.2.1
        (hstep cl0 hspec) ht
      have ef : fuel + (t :: ts).length = (fuel + ts.length) + 1 := by simp; omega
      rw [ef, crl_plain cb e _ _ _ t h2 hplain ht hst]
      exact ih { cl0 with tokens := tokens_push cl0.tokens t } bs rest X fuel true hspec hb hl
        hd2 hst hX

theorem head_run_start (spec : iwn_http_server_spec) (p : parser) (n : Nat) (tok : token)
    (seg : List Nat) (ts : List token) (p2 : parser) (tok2 : token)
    (h : head_run spec p n tok seg ts p2 tok2) : rest_ok spec p tok := by
  cases h with
  | nil _ _ _ h => exact h
  | cons _ _ _ _ _ _ _ _ _ _ _ _ h _ _ _ _ => exact h

theorem head_run_end (spec : iwn_http_server_spec) (p : parser) (n : Nat) (tok : token)
    (seg : List Nat) (ts : List token) (p2 : parser) (tok2 : token)
    (h : head_run spec p n tok seg ts p2 tok2) : rest_ok spec p2 tok2 := by
  induction h with
  | nil _ _ _ h => exact h
  | cons _ _ _ _ _ _ _ _ _ _ _ _ _ _ _ _ _ ih => exact ih

/-- Two runs one after the other make one run. -/
theorem head_run_append (spec : iwn_http_server_spec) (p : parser) (n : Nat) (tok : token)
    (a : List Nat) (ta : List token) (p1 : parser) (tok1 : token)
    (h1 : head_run spec p n tok a ta p1 tok1) :
    ∀ (b : List Nat) (tb : List token) (p2 : parser) (tok2 : token),
      head_run spec p1 (n + a.length) tok1 b tb p2 tok2 →
      head_run spec p n tok (a ++ b) (ta ++ tb) p2 tok2 := by
  induction h1 with
  | nil p n tok _ =>
    intro b tb p2 tok2 h2
    simpa using h2
  | cons p n tok c t p1 tok1 cs ts ts1 p2 tok2 hok hstep hplain _ hts ih =>
    intro b tb p3 tok3 h2
    have en : n + (c :: cs).length = n + 1 + cs.length := by simp; omega
    rw [en] at h2
    refine head_run.cons p n tok c t p1 tok1 (cs ++ b) (ts ++ tb) _ p3 tok3 hok hstep hplain
      (ih b tb p3 tok3 h2) ?_
    rw [hts]
    split_ifs <;> simp

/-- A run over `a ++ b` is a run over `a` followed by a run over `b`. -/
theorem head_run_split (spec : iwn_http_server_spec) (a : List Nat) :
    ∀ (p : parser) (n : Nat) (tok : token) (b : List Nat) (ts : List token) (p2 : parser)
      (tok2 : token), head_run spec p n tok (a ++ b) ts p2 tok2 →
      ∃ p1 tok1 ta tb, head_run spec p n tok a ta p1 tok1
        ∧ head_run spec p1 (n + a.length) tok1 b tb p2 tok2 ∧ ts = ta ++ tb := by
  induction a with
  | nil =>
    intro p n tok b ts p2 tok2 h
    exact ⟨p, tok, [], ts, head_run.nil p n tok (head_run_start _ _ _ _ _ _ _ _ h),
      by simpa using h, by simp⟩
  | cons c cs ih =>
    intro p n tok b ts p2 tok2 h
    cases h with
    | cons _ _ _ _ t p1 tok1 _ ts0 _ _ _ hok hstep hplain hrun hts =>
      obtain ⟨q, tq, ta, tb, r1, r2, e⟩ := ih p1 (n + 1) tok1 b ts0 p2 tok2 hrun
      have en : n + (c :: cs).length = n + 1 + cs.length := by simp; omega
      rw [en]
      refine ⟨q, tq, (if t.type = HS_TOK_NONE then ta else t :: ta), tb,
        head_run.cons p n tok c t p1 tok1 cs ta _ q tq hok hstep hplain r1 rfl, r2, ?_⟩
      rw [hts, e]
      split_ifs <;> simp

/-- A run of one byte. -/
theorem head_run_one (spec : iwn_http_server_spec) (p : parser) (n : Nat) (tok : token)
    (c : Nat) (t : token) (p1 : parser) (tok1 : token)
    (hok : rest_ok spec p tok) (hok1 : rest_ok spec p1 tok1)
    (hstep : ∀ cl0 : client, cl0.server.spec = spec →
      token_parse_step (at_ cl0 p n tok false) c = (t, at_ cl0 p1 (n + 1) tok1 true))
    (hplain : plain_token t.type) :
    head_run spec p n tok [c] (if t.type = HS_TOK_NONE then [] else [t]) p1 tok1 :=
  head_run.cons p n tok c t p1 tok1 [] [] _ p1 tok1 hok hstep hplain
    (head_run.nil p1 (n + 1) tok1 hok1) rfl

/-- The bytes inside a token: every byte keeps the state `S` and lengthens
the current token. -/
theorem head_run_stay (spec : iwn_http_server_spec) (S : state_e) (hS : S ≠ CB)
    (upd : parser → Nat → parser) (I : parser → Prop)
    (hI : ∀ p, I p → p.state = S ∧ p.meta ≠ M_SEN ∧ p.meta ≠ M_END)
    (hupd : ∀ p c, I p → I (upd p c))
    (hstep : ∀ (cl0 : client) (p : parser) (n : Nat) (tok : token) (c : Nat),
      p.state = S → accepts S S c → tok.type ≠ HS_TOK_NONE →
      token_parse_step (at_ cl0 p n tok false) c =
        ({}, at_ cl0 (upd p c) (n + 1) { tok with len := tok.len + 1 } true)) :
    ∀ (seg : List Nat), (∀ c ∈ seg, accepts S S c) →
    ∀ (p : parser) (n : Nat) (tok : token), I p → tok.type ≠ HS_TOK_NONE →
      tok.len + seg.length ≤ spec.request_token_max_len →
      head_run spec p n tok seg [] (seg.foldl upd p) { tok with len := tok.len + seg.length } := by
  intro seg
  induction seg with
  | nil =>
    intro _ p n tok hp ht hlen
    obtain ⟨h1, h2, h3⟩ := hI p hp
    have e : ({ tok with len := tok.len + (([] : List Nat).length : Int) } : token) = tok := by
      simp
    rw [e]
    exact head_run.nil p n tok ⟨h2, h3, by rw [h1]; exact hS, Or.inr (Or.inr (by simpa using hlen))⟩
  | cons c seg ih =>
    intro hseg p n tok hp ht hlen
    obtain ⟨h1, h2, h3⟩ := hI p hp
    have hl1 : ((c :: seg).length : Int) = (seg.length : Int) + 1 := by simp
    have e : ({ tok with len := tok.len + ((c :: seg).length : Int) } : token)
        = { ({ tok with len := tok.len + 1 } : token) with len := tok.len + 1 + seg.length } := by
      simp [hl1]; omega
    rw [e]
    refine head_run.cons p n tok c {} (upd p c) { tok with len := tok.len + 1 } seg [] [] _ _
      ⟨h2, h3, by rw [h1]; exact hS, Or.inr (Or.inr (by rw [hl1] at hlen; omega))⟩
      (fun cl0 _ => hstep cl0 p n tok c h1 (hseg c (by simp)) ht) (Or.inl rfl) ?_ (by simp)
    exact ih (fun d hd => hseg d (by simp [hd])) (upd p c) (n + 1) { tok with len := tok.len + 1 }
      (hupd p c hp) ht (by rw [hl1] at hlen; simp only; omega)

/-- A whole token: the byte that begins it, the bytes inside it and the byte
that ends it, on which it is emitted. -/
theorem head_run_token (spec : iwn_http_server_spec) (S S1 : state_e) (T : token_e)
    (hT : T ≠ HS_TOK_NONE) (hTp : plain_token T) (hS : S ≠ CB)
    (pb upd : parser → Nat → parser) (pe : parser → parser) (I : parser → Prop)
    (hI : ∀ p, I p → p.state = S ∧ p.meta ≠ M_SEN ∧ p.meta ≠ M_END)
    (hupd : ∀ p c, I p → I (upd p c))
    (p : parser) (n : Nat) (first : Nat) (seg : List Nat) (term : Nat)
    (hbegin : ∀ (cl0 : client), cl0.server.spec = spec →
      token_parse_step (at_ cl0 p n {} false) first =
        ({}, at_ cl0 (pb p first) (n + 1) { index := n, len := 1, type := T } true))
    (hstep : ∀ (cl0 : client) (p : parser) (n : Nat) (tok : token) (c : Nat),
      p.state = S → accepts S S c → tok.type ≠ HS_TOK_NONE →
      token_parse_step (at_ cl0 p n tok false) c =
        ({}, at_ cl0 (upd p c) (n + 1) { tok with len := tok.len + 1 } true))
    (hemit : ∀ (cl0 : client) (p : parser) (n : Nat) (tok : token) (c : Nat),
      p.state = S → accepts S S1 c → tok.type ≠ HS_TOK_NONE →
      token_parse_step (at_ cl0 p n tok false) c = (tok, at_ cl0 (pe p) (n + 1) {} true))
    (hp0 : rest_ok spec p {}) (hIb : I (pb p first))
    (hend : rest_ok spec (pe (seg.foldl upd (pb p first))) {})
    (h2 : ∀ c ∈ seg, accepts S S c) (h3 : accepts S S1 term)
    (hlen : (seg.length : Int) + 1 ≤ spec.request_token_max_len) :
    head_run spec p n {} (first :: (seg ++ [term]))
      [{ index := n, len := (seg.length : Int) + 1, type := T }]
      (pe (seg.foldl upd (pb p first))) {} := by
  have hfold : ∀ (l : List Nat) (q : parser), I q → I (l.foldl upd q) := by
    intro l
    induction l with
    | nil => intro q hq; simpa using hq
    | cons a l ih => intro q hq; simpa using ih _ (hupd q a hq)
  have r1 := head_run_stay spec S hS upd I hI hupd hstep seg h2 (pb p first) (n + 1)
    { index := n, len := 1, type := T } hIb (by simpa using hT) (by simp only; omega)
  have hIe := hfold seg _ hIb
  obtain ⟨s1, s2, s3⟩ := hI _ hIe
  have r2 := head_run_one spec (seg.foldl upd (pb p first)) (n + 1 + seg.length)
    { index := n, len := 1 + seg.length, type := T } term
    { index := n, len := 1 + seg.length, type := T } (pe (seg.foldl upd (pb p first))) {}
    (head_run_end _ _ _ _ _ _ _ _ r1) hend
    (fun cl0 _ => hemit cl0 _ _ _ term s1 h3 (by simpa using hT)) (by simpa using hTp)
  have r3 := head_run_append spec _ _ _ _ _ _ _ r1 _ _ _ _ r2
  have e1 : (1 : Int) + seg.length = (seg.length : Int) + 1 := by omega
  simp only [hT, if_false, List.nil_append, e1] at r3
  exact head_run.cons p n {} first {} (pb p first) { index := n, len := 1, type := T }
    (seg ++ [term]) _ _ _ _ hp0 hbegin (Or.inl rfl) r3 (by simp)

/-- The parser at a token boundary of the request head: character state,
meta state, header count and content length; the other fields are zero. -/
theorem rest_ok_boundary (spec : iwn_http_server_spec) (p : parser)
    (h1 : p.meta ≠ M_SEN) (h2 : p.meta ≠ M_END) (h3 : p.state ≠ CB)
    (h4 : 0 ≤ spec.request_token_max_len) : rest_ok spec p {} :=
  ⟨h1, h2, h3, Or.inr (Or.inr h4)⟩

theorem rest_ok_psl (spec : iwn_http_server_spec) (st : state_e) (m : meta_state_e)
    (hc N : Int) (hm : meta_quiet m) (hst : st ≠ CB)
    (h4 : 0 ≤ spec.request_token_max_len) : rest_ok spec (psl st m hc N) {} :=
  ⟨hm.1, hm.2, hst, Or.inr (Or.inr h4)⟩

/-- The run of a METHOD or TARGET token and the space that ends it. -/
theorem head_run_simple (spec : iwn_http_server_spec) (S0 S S1 : state_e) (T : token_e)
    (hS : (S0 = state_e.ST ∧ S = MT ∧ S1 = MS ∧ T = HS_TOK_METHOD)
      ∨ (S0 = MS ∧ S = TR ∧ S1 = TS ∧ T = HS_TOK_TARGET))
    (m : meta_state_e) (hc N : Int) (n : Nat) (w : List Nat) (term : Nat)
    (hm : meta_quiet m) (hw : token_ok S0 S w) (ht : accepts S S1 term)
    (hlen : (w.length : Int) ≤ spec.request_token_max_len) :
    head_run spec (psl S0 m hc N) n {} (w ++ [term])
      [{ index := n, len := w.length, type := T }] (psl S1 m hc N) {} := by
  cases w with
  | nil => exact absurd hw (by simp [token_ok])
  | cons first seg =>
    obtain ⟨h1, h2⟩ := hw
    have hl1 : (((first :: seg).length : Nat) : Int) = (seg.length : Int) + 1 := by simp
    rw [hl1] at hlen ⊢
    have hT : T ≠ HS_TOK_NONE := by rcases hS with ⟨-, -, -, rfl⟩ | ⟨-, -, -, rfl⟩ <;> simp
    have hTp : plain_token T := by
      rcases hS with ⟨-, -, -, rfl⟩ | ⟨-, -, -, rfl⟩ <;> simp [plain_token]
    have hSS : S = MT ∨ S = TR ∨ S = VN := by
      rcases hS with ⟨-, rfl, -, -⟩ | ⟨-, rfl, -, -⟩ <;> simp
    have hB : (S0 = state_e.ST ∧ S = MT ∧ T = HS_TOK_METHOD) ∨ (S0 = MS ∧ S = TR ∧ T = HS_TOK_TARGET)
        ∨ (S0 = TS ∧ S = VN ∧ T = HS_TOK_VERSION) := by
      rcases hS with ⟨rfl, rfl, -, rfl⟩ | ⟨rfl, rfl, -, rfl⟩ <;> simp
    have hE : (S = MT ∧ S1 = MS) ∨ (S = TR ∧ S1 = TS) := by
      rcases hS with ⟨-, rfl, rfl, -⟩ | ⟨-, rfl, rfl, -⟩ <;> simp
    have hScb : S ≠ CB := by rcases hSS with rfl | rfl | rfl <;> simp
    have hS0cb : S0 ≠ CB := by rcases hS with ⟨rfl, -, -, -⟩ | ⟨rfl, -, -, -⟩ <;> simp
    have hS1cb : S1 ≠ CB := by rcases hS with ⟨-, -, rfl, -⟩ | ⟨-, -, rfl, -⟩ <;> simp
    have h0 : (0 : Int) ≤ spec.request_token_max_len := by omega
    have key := head_run_token spec S S1 T hT hTp hScb
      (fun p _ => { p with state := S, match_index := 0 }) (fun p _ => p)
      (fun p => { p with state := S1, match_index := 0 })
      (fun p => p = psl S m hc N)
      (fun p hp => by subst hp; exact ⟨rfl, hm.1, hm.2⟩)
      (fun p c hp => hp)
      (psl S0 m hc N) n first seg term
      (fun cl0 _ => step_begin S0 S T hB cl0 _ n first rfl h1)
      (fun cl0 p n tok c hs hc ht => step_stay S hSS cl0 p n tok c hs hc ht)
      (fun cl0 p n tok c hs hc _ => step_emit_sp S S1 hE cl0 p n tok c hs hc)
      (rest_ok_psl spec S0 m hc N hm hS0cb h0) rfl
      (by rw [foldl_keep]; exact rest_ok_psl spec S1 m hc N hm hS1cb h0)
      h2 ht hlen
    rw [foldl_keep] at key
    exact key

/-- The run of the VERSION token and the CR that ends it. -/
theorem head_run_version (spec : iwn_http_server_spec)
    (m : meta_state_e) (hc N : Int) (n : Nat) (w : List Nat) (term : Nat)
    (hm : meta_quiet m) (hm1 : meta_quiet (meta_transitions_at m HS_META_END_VALUE))
    (hw : token_ok TS VN w) (ht : accepts VN RR term)
    (hlen : (w.length : Int) ≤ spec.request_token_max_len) :
    head_run spec (psl TS m hc N) n {} (w ++ [term])
      [{ index := n, len := w.length, type := HS_TOK_VERSION }]
      (psl RR (meta_transitions_at m HS_META_END_VALUE) hc N) {} := by
  cases w with
  | nil => exact absurd hw (by simp [token_ok])
  | cons first seg =>
    obtain ⟨h1, h2⟩ := hw
    have hl1 : (((first :: seg).length : Nat) : Int) = (seg.length : Int) + 1 := by simp
    rw [hl1] at hlen ⊢
    have h0 : (0 : Int) ≤ spec.request_token_max_len := by omega
    have key := head_run_token spec VN RR HS_TOK_VERSION (by simp) (by simp [plain_token])
      (by simp)
      (fun p _ => { p with state := VN, match_index := 0 }) (fun p _ => p)
      (fun p => { p with state := RR, match_index := 0,
                         meta := meta_transitions_at p.meta HS_META_END_VALUE })
      (fun p => p = psl VN m hc N)
      (fun p hp => by subst hp; exact ⟨rfl, hm.1, hm.2⟩)
      (fun p c hp => hp)
      (psl TS m hc N) n first seg term
      (fun cl0 _ => step_begin TS VN HS_TOK_VERSION (by simp) cl0 _ n first rfl h1)
      (fun cl0 p n tok c hs hc ht => step_stay VN (by simp) cl0 p n tok c hs hc ht)
      (fun cl0 p n tok c hs hc _ => step_emit_cr VN RR (by simp) cl0 p n tok c hs hc)
      (rest_ok_psl spec TS m hc N hm (by simp) h0) rfl
      (by rw [foldl_keep]; exact rest_ok_psl spec RR _ hc N hm1 (by simp) h0)
      h2 ht hlen
    rw [foldl_keep] at key
    exact key

/-- The run of one byte between two tokens: the LF of a line end, or the CR
of the blank line. -/
theorem head_run_skip (spec : iwn_http_server_spec) (S S1 : state_e)
    (hS : (S = RR ∧ S1 = RN) ∨ (S = HR ∧ S1 = HE) ∨ (S = HE ∧ S1 = ER))
    (m : meta_state_e) (hc N : Int) (n : Nat) (c : Nat)
    (hm : meta_quiet m) (ha : accepts S S1 c) (h0 : 0 ≤ spec.request_token_max_len) :
    head_run spec (psl S m hc N) n {} [c] [] (psl S1 m hc N) {} := by
  have hScb : S ≠ CB := by rcases hS with ⟨rfl, -⟩ | ⟨rfl, -⟩ | ⟨rfl, -⟩ <;> simp
  have hS1cb : S1 ≠ CB := by rcases hS with ⟨-, rfl⟩ | ⟨-, rfl⟩ | ⟨-, rfl⟩ <;> simp
  exact head_run_one spec (psl S m hc N) n {} c {} (psl S1 m hc N) {}
    (rest_ok_psl spec S m hc N hm hScb h0) (rest_ok_psl spec S1 m hc N hm hS1cb h0)
    (fun cl0 _ => step_skip S S1 hS cl0 _ n c rfl ha) (Or.inl rfl)

/-- The run of a space or tab after the colon of a header line. -/
theorem head_run_space (spec : iwn_http_server_spec)
    (m : meta_state_e) (hc N : Int) (n : Nat) (c : Nat)
    (hm : meta_quiet m) (ha : accepts HS HS c) (h0 : 0 ≤ spec.request_token_max_len) :
    head_run spec (psl HS m hc N) n {} [c] [] (psl HS m hc N) {} :=
  head_run_one spec (psl HS m hc N) n {} c {} (psl HS m hc N) {}
    (rest_ok_psl spec HS m hc N hm (by simp) h0) (rest_ok_psl spec HS m hc N hm (by simp) h0)
    (fun cl0 _ => step_HS_stay cl0 _ n c rfl ha) (Or.inl rfl)

theorem transition_hv_quiet (p : parser) (c : Nat) (h : p.meta = M_WFK ∨ p.meta = M_SML) :
    _transition_hv p c = p := by
  rcases h with h | h <;> simp [_transition_hv, h]

theorem transition_hv_clv (p : parser) (c : Nat) (h : p.meta = M_CLV) :
    _transition_hv p c = { p with content_length := p.content_length * 10 + ((c : Int) - 48) } := by
  simp [_transition_hv, h]

theorem foldl_hv_clv (seg : List Nat) : ∀ (st : state_e) (hc N : Int),
    seg.foldl _transition_hv (psl st M_CLV hc N)
      = psl st M_CLV hc (seg.foldl (fun a c => a * 10 + ((c : Int) - 48)) N) := by
  induction seg with
  | nil => intro st hc N; rfl
  | cons a l ih =>
    intro st hc N
    simp only [List.foldl_cons]
    rw [transition_hv_clv _ _ rfl]
    exact ih st hc _

theorem foldl_hv_quiet (seg : List Nat) (p : parser) (h : p.meta = M_WFK ∨ p.meta = M_SML) :
    seg.foldl _transition_hv p = p := by
  induction seg with
  | nil => rfl
  | cons a l ih => simp only [List.foldl_cons]; rw [transition_hv_quiet p a h]; exact ih

/-- The run of a header value and the CR that ends it, for a header that is
not Content-Length (meta state `M_WFK`, or `M_SML` after a Content-Length
header). -/
theorem head_run_value (spec : iwn_http_server_spec)
    (m : meta_state_e) (hm : m = M_WFK ∨ m = M_SML) (hc N : Int) (n : Nat) (w : List Nat)
    (term : Nat) (hw : token_ok HS HV w) (ht : accepts HV HR term)
    (hlen : (w.length : Int) ≤ spec.request_token_max_len) :
    head_run spec (psl HS m hc N) n {} (w ++ [term])
      [{ index := n, len := w.length, type := HS_TOK_HEADER_VAL }]
      (psl HR (meta_transitions_at m HS_META_END_VALUE) hc N) {} := by
  cases w with
  | nil => exact absurd hw (by simp [token_ok])
  | cons first seg =>
    obtain ⟨h1, h2⟩ := hw
    have hl1 : (((first :: seg).length : Nat) : Int) = (seg.length : Int) + 1 := by simp
    rw [hl1] at hlen ⊢
    have h0 : (0 : Int) ≤ spec.request_token_max_len := by omega
    have hq : meta_quiet m := by rcases hm with rfl | rfl <;> decide
    have hq1 : meta_quiet (meta_transitions_at m HS_META_END_VALUE) := by
      rcases hm with rfl | rfl <;> decide
    have e0 : _transition_hv { psl HS m hc N with state := HV, match_index := 0 } first
        = psl HV m hc N := by
      rw [transition_hv_quiet _ _ hm]; rfl
    have key := head_run_token spec HV HR HS_TOK_HEADER_VAL (by simp) (by simp [plain_token])
      (by simp)
      (fun p c => _transition_hv { p with state := HV, match_index := 0 } c) _transition_hv
      (fun p => { p with state := HR, match_index := 0,
                         meta := meta_transitions_at p.meta HS_META_END_VALUE })
      (fun p => p = psl HV m hc N)
      (fun p hp => by subst hp; exact ⟨rfl, hq.1, hq.2⟩)
      (fun p c hp => by subst hp; exact transition_hv_quiet _ c hm)
      (psl HS m hc N) n first seg term
      (fun cl0 _ => step_HV_begin cl0 _ n first rfl h1)
      (fun cl0 p n tok c hs hc ht => step_HV_stay cl0 p n tok c hs hc ht)
      (fun cl0 p n tok c hs hc _ => step_emit_cr HV HR (by simp) cl0 p n tok c hs hc)
      (rest_ok_psl spec HS m hc N hq (by simp) h0) e0
      (by simp only [e0]; rw [foldl_hv_quiet seg _ hm]
          exact rest_ok_psl spec HR _ hc N hq1 (by simp) h0)
      h2 ht hlen
    simp only [e0] at key
    rw [foldl_hv_quiet seg _ hm] at key
    exact key

/-- The run of the value of a Content-Length header and the CR that ends it:
the content length becomes the decimal value of the bytes and the meta FSM
passes to `M_SML`. -/
theorem head_run_length_value (spec : iwn_http_server_spec)
    (hc : Int) (n : Nat) (w : List Nat)
    (term : Nat) (hw : token_ok HS HV w) (ht : accepts HV HR term)
    (hlen : (w.length : Int) ≤ spec.request_token_max_len) :
    head_run spec (psl HS M_CLV hc 0) n {} (w ++ [term])
      [{ index := n, len := w.length, type := HS_TOK_HEADER_VAL }]
      (psl HR M_SML hc (decimal_value w)) {} := by
  cases w with
  | nil => exact absurd hw (by simp [token_ok])
  | cons first seg =>
    obtain ⟨h1, h2⟩ := hw
    have hl1 : (((first :: seg).length : Nat) : Int) = (seg.length : Int) + 1 := by simp
    rw [hl1] at hlen ⊢
    have h0 : (0 : Int) ≤ spec.request_token_max_len := by omega
    have e0 : _transition_hv { psl HS M_CLV hc 0 with state := HV, match_index := 0 } first
        = psl HV M_CLV hc (0 * 10 + ((first : Int) - 48)) := by
      rw [transition_hv_clv _ _ rfl]; rfl
    have key := head_run_token spec HV HR HS_TOK_HEADER_VAL (by simp) (by simp [plain_token])
      (by simp)
      (fun p c => _transition_hv { p with state := HV, match_index := 0 } c) _transition_hv
      (fun p => { p with state := HR, match_index := 0,
                         meta := meta_transitions_at p.meta HS_META_END_VALUE })
      (fun p => ∃ K, p = psl HV M_CLV hc K)
      (fun p hp => by obtain ⟨K, rfl⟩ := hp; exact ⟨rfl, by simp [psl], by simp [psl]⟩)
      (fun p c hp => by
        obtain ⟨K, rfl⟩ := hp
        exact ⟨_, by rw [transition_hv_clv _ _ rfl]; rfl⟩)
      (psl HS M_CLV hc 0) n first seg term
      (fun cl0 _ => step_HV_begin cl0 _ n first rfl h1)
      (fun cl0 p n tok c hs hc ht => step_HV_stay cl0 p n tok c hs hc ht)
      (fun cl0 p n tok c hs hc _ => step_emit_cr HV HR (by simp) cl0 p n tok c hs hc)
      (rest_ok_psl spec HS M_CLV hc 0 (by decide) (by simp) h0) ⟨_, e0⟩
      (by simp only [e0]; rw [foldl_hv_clv]
          exact rest_ok_psl spec HR M_SML hc _ (by decide) (by simp) h0)
      h2 ht hlen
    simp only [e0] at key
    rw [foldl_hv_clv] at key
    exact key

theorem transition_hk_sml (p : parser) (c : Nat) (h : p.meta = M_SML) :
    (_transition_hk p c).meta = M_SML := by
  have e : (_transition_hk p c).meta = (MATCH (str "content-length") HS_META_NOT_CONTENT_LEN c
      (MATCH (str "transfer-encoding") HS_META_NOT_TRANSFER_ENC c (0, p))).2.meta := rfl
  rw [e]
  have h1 := MATCH_meta (str "transfer-encoding") HS_META_NOT_TRANSFER_ENC c (0, p)
  have h2 := MATCH_meta (str "content-length") HS_META_NOT_CONTENT_LEN c
    (MATCH (str "transfer-encoding") HS_META_NOT_TRANSFER_ENC c (0, p))
  generalize MATCH (str "transfer-encoding") HS_META_NOT_TRANSFER_ENC c (0, p) = x at h1 h2 ⊢
  generalize MATCH (str "content-length") HS_META_NOT_CONTENT_LEN c x = y at h2 ⊢
  simp only at h1 h2 ⊢
  rw [h] at h1
  rcases h1 with h1 | h1 <;> rw [h1] at h2 <;> rcases h2 with h2 | h2 <;> rw [h2] <;> rfl

theorem psl_of_fields (q : parser) (st : state_e) (m : meta_state_e) (hc N : Int)
    (h2 : q.header_count = hc) (h3 : q.content_length = N) (h4 : q.body_consumed = 0) :
    ({ q with state := st, match_index := 0, meta := m } : parser) = psl st m hc N := by
  obtain ⟨a, b, c, d, e, f⟩ := q
  simp only at h2 h3 h4
  subst h2 h3 h4
  rfl

/-- The run of a header name and the colon that ends it.  The meta FSM starts
the line in `m`, which is `M_ANY` before a Content-Length header and `M_SML`
after one, and is left in `m1`. -/
theorem head_run_key (spec : iwn_http_server_spec) (S0 : state_e) (hS : S0 = RN ∨ S0 = HE)
    (m m1 : meta_state_e) (hc N : Int) (n : Nat) (key : List Nat)
    (hm : (m = M_ANY ∧ m1 = header_class key) ∨ (m = M_SML ∧ m1 = M_SML))
    (hw : token_ok RN HK key)
    (hq : toInt16 (hc + 1) ≤ spec.request_max_header_count)
    (hlen : (key.length : Int) ≤ spec.request_token_max_len) :
    head_run spec (psl S0 m hc N) n {} (key ++ [58])
      [{ index := n, len := key.length, type := HS_TOK_HEADER_KEY }]
      (psl HS m1 (toInt16 (hc + 1)) N) {} := by
  cases key with
  | nil => exact absurd hw (by simp [token_ok])
  | cons first seg =>
    obtain ⟨h1, h2⟩ := hw
    have hl1 : (((first :: seg).length : Nat) : Int) = (seg.length : Int) + 1 := by simp
    rw [hl1] at hlen ⊢
    have h0 : (0 : Int) ≤ spec.request_token_max_len := by omega
    have hfirst : accepts S0 HK first := by
      rcases hS with rfl | rfl
      · exact h1
      · exact accepts_HE_of_RN first h1
    have hq0 : meta_quiet m := by rcases hm with ⟨rfl, -⟩ | ⟨rfl, -⟩ <;> decide
    have hS0cb : S0 ≠ CB := by rcases hS with rfl | rfl <;> simp
    obtain ⟨P0, hP0⟩ : ∃ P0 : parser, P0 = { content_length := N, header_count := toInt16 (hc + 1), state := HK, meta := m } := ⟨_, rfl⟩
    have hP0m : P0.meta = m := by rw [hP0]
    have hP0i : P0.match_index = 0 := by rw [hP0]
    have hP0h : P0.header_count = toInt16 (hc + 1) := by rw [hP0]
    have hP0c : P0.content_length = N := by rw [hP0]
    have hP0b : P0.body_consumed = 0 := by rw [hP0]
    have hP0s : P0.state = HK := by rw [hP0]
    -- the invariant inside the name
    have hIb : (_transition_hk P0 first).state = HK
        ∧ (_transition_hk P0 first).header_count = toInt16 (hc + 1)
        ∧ (_transition_hk P0 first).content_length = N
        ∧ (_transition_hk P0 first).body_consumed = 0
        ∧ (((_transition_hk P0 first).meta = M_WFK ∨ (_transition_hk P0 first).meta = M_MTE
            ∨ (_transition_hk P0 first).meta = M_MCL) ∨ (_transition_hk P0 first).meta = M_SML) := by
      obtain ⟨f1, f2, f3, f4⟩ := transition_hk_fields P0 first
      refine ⟨by rw [f1, hP0s], by rw [f2, hP0h], by rw [f3, hP0c], by rw [f4, hP0b], ?_⟩
      rcases hm with ⟨hm, -⟩ | ⟨hm, -⟩
      · exact Or.inl (transition_hk_meta_any P0 first (by rw [hP0m, hm]) hP0i)
      · exact Or.inr (transition_hk_sml P0 first (by rw [hP0m, hm]))
    have hupd : ∀ (p : parser) (c : Nat),
        (p.state = HK ∧ p.header_count = toInt16 (hc + 1) ∧ p.content_length = N
          ∧ p.body_consumed = 0
          ∧ ((p.meta = M_WFK ∨ p.meta = M_MTE ∨ p.meta = M_MCL) ∨ p.meta = M_SML)) →
        ((_transition_hk p c).state = HK ∧ (_transition_hk p c).header_count = toInt16 (hc + 1)
          ∧ (_transition_hk p c).content_length = N ∧ (_transition_hk p c).body_consumed = 0
          ∧ (((_transition_hk p c).meta = M_WFK ∨ (_transition_hk p c).meta = M_MTE
              ∨ (_transition_hk p c).meta = M_MCL) ∨ (_transition_hk p c).meta = M_SML)) := by
      rintro p c ⟨a1, a2, a3, a4, a5⟩
      obtain ⟨f1, f2, f3, f4⟩ := transition_hk_fields p c
      refine ⟨by rw [f1, a1], by rw [f2, a2], by rw [f3, a3], by rw [f4, a4], ?_⟩
      rcases a5 with a5 | a5
      · exact Or.inl (transition_hk_meta p c a5)
      · exact Or.inr (transition_hk_sml p c a5)
    have hfold : ∀ (l : List Nat) (q : parser),
        (q.state = HK ∧ q.header_count = toInt16 (hc + 1) ∧ q.content_length = N
          ∧ q.body_consumed = 0
          ∧ ((q.meta = M_WFK ∨ q.meta = M_MTE ∨ q.meta = M_MCL) ∨ q.meta = M_SML)) →
        ((l.foldl _transition_hk q).state = HK
          ∧ (l.foldl _transition_hk q).header_count = toInt16 (hc + 1)
          ∧ (l.foldl _transition_hk q).content_length = N
          ∧ (l.foldl _transition_hk q).body_consumed = 0
          ∧ (((l.foldl _transition_hk q).meta = M_WFK ∨ (l.foldl _transition_hk q).meta = M_MTE
              ∨ (l.foldl _transition_hk q).meta = M_MCL) ∨ (l.foldl _transition_hk q).meta = M_SML)) := by
      intro l
      induction l with
      | nil => intro q hq; simpa using hq
      | cons a l ih => intro q hq; simpa using ih _ (hupd q a hq)
    obtain ⟨e1, e2, e3, e4, e5⟩ := hfold seg _ hIb
    -- the meta state after the colon
    have hend : meta_transitions_at (seg.foldl _transition_hk (_transition_hk P0 first)).meta
        HS_META_END_KEY = m1 := by
      rcases hm with ⟨hm, hm1⟩ | ⟨hm, hm1⟩
      · rw [hm1]
        unfold header_class
        simp only [List.foldl_cons]
        obtain ⟨c1, c2⟩ := transition_hk_congr first P0 { meta := M_ANY } (by rw [hP0m, hm]) hP0i
        rw [foldl_hk_congr seg _ _ c1 c2]
      · have hs : ∀ (l : List Nat) (q : parser), q.meta = M_SML →
            (l.foldl _transition_hk q).meta = M_SML := by
          intro l
          induction l with
          | nil => intro q hq; simpa using hq
          | cons a l ih => intro q hq; simpa using ih _ (transition_hk_sml q a hq)
        rw [hs seg _ (transition_hk_sml P0 first (by rw [hP0m, hm])), hm1]
        rfl
    have hq1 : meta_quiet m1 := by
      rw [← hend]
      rcases e5 with (h | h | h) | h <;> rw [h] <;> decide
    have hpe : ({ seg.foldl _transition_hk (_transition_hk P0 first) with
        state := HS, match_index := 0,
        meta := meta_transitions_at (seg.foldl _transition_hk (_transition_hk P0 first)).meta
          HS_META_END_KEY } : parser) = psl HS m1 (toInt16 (hc + 1)) N := by
      rw [hend]
      exact psl_of_fields _ HS m1 _ N e2 e3 e4
    have key := head_run_token spec HK HS HS_TOK_HEADER_KEY (by simp) (by simp [plain_token])
      (by simp)
      (fun p c => _transition_hk
        { p with state := HK, header_count := toInt16 (p.header_count + 1), match_index := 0 } c)
      _transition_hk
      (fun p => { p with state := HS, match_index := 0,
                         meta := meta_transitions_at p.meta HS_META_END_KEY })
      (fun p => p.state = HK ∧ p.header_count = toInt16 (hc + 1) ∧ p.content_length = N
          ∧ p.body_consumed = 0
          ∧ ((p.meta = M_WFK ∨ p.meta = M_MTE ∨ p.meta = M_MCL) ∨ p.meta = M_SML))
      (fun p hp => by
        obtain ⟨a1, -, -, -, a5⟩ := hp
        refine ⟨a1, ?_, ?_⟩ <;> rcases a5 with (h | h | h) | h <;> rw [h] <;> decide)
      hupd
      (psl S0 m hc N) n first seg 58
      (fun cl0 hspec => step_HK_begin S0 hS cl0 _ n first rfl hfirst (by rw [hspec]; exact hq))
      (fun cl0 p n tok c hs hc ht => step_HK_stay cl0 p n tok c hs hc ht)
      (fun cl0 p n tok c hs hc _ => step_HK_HS cl0 p n tok c hs hc)
      (rest_ok_psl spec S0 m hc N hq0 hS0cb h0) (by rw [hP0] at hIb; exact hIb)
      (by
        have := rest_ok_psl spec HS m1 (toInt16 (hc + 1)) N hq1 (by simp) h0
        rw [← hpe, hP0] at this
        exact this)
      h2 (by decide) hlen
    rw [← hpe, hP0]
    exact key

/-- The run of one header line that is not a Content-Length header, from the
first byte of the name to the LF. -/
theorem head_run_line (spec : iwn_http_server_spec) (S0 : state_e) (hS : S0 = RN ∨ S0 = HE)
    (m : meta_state_e) (hm : m = M_ANY ∨ m = M_SML) (hc N : Int) (n : Nat)
    (h : List Nat × List Nat) (hok : line_ok spec m h)
    (hq : toInt16 (hc + 1) ≤ spec.request_max_header_count) :
    head_run spec (psl S0 m hc N) n {} (header_line h) (header_tokens n [h])
      (psl HE m (toInt16 (hc + 1)) N) {} := by
  obtain ⟨hk, hv, lk, lv, hcls⟩ := hok
  have h0 : (0 : Int) ≤ spec.request_token_max_len := by
    have : (0 : Int) ≤ h.1.length := Int.natCast_nonneg _
    omega
  obtain ⟨m1, hm1, hm2, hm3⟩ : ∃ m1, ((m = M_ANY ∧ m1 = header_class h.1) ∨ (m = M_SML ∧ m1 = M_SML))
      ∧ (m1 = M_WFK ∨ m1 = M_SML) ∧ meta_transitions_at m1 HS_META_END_VALUE = m := by
    rcases hm with rfl | rfl
    · exact ⟨header_class h.1, Or.inl ⟨rfl, rfl⟩, Or.inl (hcls rfl), by rw [hcls rfl]; rfl⟩
    · exact ⟨M_SML, Or.inr ⟨rfl, rfl⟩, Or.inr rfl, rfl⟩
  have hq1 : meta_quiet m1 := by rcases hm2 with rfl | rfl <;> decide
  have hq2 : meta_quiet m := by rcases hm with rfl | rfl <;> decide
  have r1 := head_run_key spec S0 hS m m1 hc N n h.1 hm1 hk hq lk
  have r2 := head_run_space spec m1 (toInt16 (hc + 1)) N (n + (h.1 ++ [58]).length) 32 hq1
    (by decide) h0
  have r3 := head_run_value spec m1 hm2 (toInt16 (hc + 1)) N
    (n + (h.1 ++ [58]).length + [32].length) h.2 13 hv (by decide) lv
  rw [hm3] at r3
  have r4 := head_run_skip spec HR HE (Or.inr (Or.inl ⟨rfl, rfl⟩)) m (toInt16 (hc + 1)) N
    (n + (h.1 ++ [58]).length + [32].length + (h.2 ++ [13]).length) 10 hq2 (by decide) h0
  have r := head_run_append spec _ _ _ _ _ _ _ r1 _ _ _ _
    (head_run_append spec _ _ _ _ _ _ _ r2 _ _ _ _
      (head_run_append spec _ _ _ _ _ _ _ r3 _ _ _ _ r4))
  have eb : (h.1 ++ [58]) ++ ([32] ++ ((h.2 ++ [13]) ++ [10])) = header_line h := by
    simp [header_line]
  rw [eb] at r
  have et : [({ index := (n : Int), len := h.1.length, type := HS_TOK_HEADER_KEY } : token)]
      ++ ([] ++ ([{ index := ((n + (h.1 ++ [58]).length + [32].length : Nat) : Int),
                    len := h.2.length, type := HS_TOK_HEADER_VAL }] ++ []))
      = header_tokens n [h] := by
    simp [header_tokens]
    omega
  rw [et] at r
  exact r

/-- The run of a Content-Length header line: the meta FSM passes from `M_ANY`
to `M_SML` and the content length becomes the decimal value of the bytes of
the value. -/
theorem head_run_length_line (spec : iwn_http_server_spec) (S0 : state_e)
    (hS : S0 = RN ∨ S0 = HE) (hc : Int) (n : Nat) (h : List Nat × List Nat)
    (hk : token_ok RN HK h.1) (hv : token_ok HS HV h.2)
    (lk : (h.1.length : Int) ≤ spec.request_token_max_len)
    (lv : (h.2.length : Int) ≤ spec.request_token_max_len)
    (hcls : header_class h.1 = M_CLV)
    (hq : toInt16 (hc + 1) ≤ spec.request_max_header_count) :
    head_run spec (psl S0 M_ANY hc 0) n {} (header_line h) (header_tokens n [h])
      (psl HE M_SML (toInt16 (hc + 1)) (decimal_value h.2)) {} := by
  have h0 : (0 : Int) ≤ spec.request_token_max_len := by
    have : (0 : Int) ≤ h.1.length := Int.natCast_nonneg _
    omega
  have r1 := head_run_key spec S0 hS M_ANY M_CLV hc 0 n h.1 (Or.inl ⟨rfl, hcls.symm⟩) hk hq lk
  have r2 := head_run_space spec M_CLV (toInt16 (hc + 1)) 0 (n + (h.1 ++ [58]).length) 32
    (by decide) (by decide) h0
  have r3 := head_run_length_value spec (toInt16 (hc + 1))
    (n + (h.1 ++ [58]).length + [32].length) h.2 13 hv (by decide) lv
  have r4 := head_run_skip spec HR HE (Or.inr (Or.inl ⟨rfl, rfl⟩)) M_SML (toInt16 (hc + 1))
    (decimal_value h.2)
    (n + (h.1 ++ [58]).length + [32].length + (h.2 ++ [13]).length) 10 (by decide) (by decide) h0
  have r := head_run_append spec _ _ _ _ _ _ _ r1 _ _ _ _
    (head_run_append spec _ _ _ _ _ _ _ r2 _ _ _ _
      (head_run_append spec _ _ _ _ _ _ _ r3 _ _ _ _ r4))
  have eb : (h.1 ++ [58]) ++ ([32] ++ ((h.2 ++ [13]) ++ [10])) = header_line h := by
    simp [header_line]
  rw [eb] at r
  have et : [({ index := (n : Int), len := h.1.length, type := HS_TOK_HEADER_KEY } : token)]
      ++ ([] ++ ([{ index := ((n + (h.1 ++ [58]).length + [32].length : Nat) : Int),
                    len := h.2.length, type := HS_TOK_HEADER_VAL }] ++ []))
      = header_tokens n [h] := by
    simp [header_tokens]
    omega
  rw [et] at r
  exact r

theorem header_block_append (a b : List (List Nat × List Nat)) :
    header_block (a ++ b) = header_block a ++ header_block b := by
  induction a with
  | nil => rfl
  | cons h a ih => simp [header_block, ih]

theorem header_tokens_append (a b : List (List Nat × List Nat)) : ∀ (n : Nat),
    header_tokens n (a ++ b)
      = header_tokens n a ++ header_tokens (n + (header_block a).length) b := by
  induction a with
  | nil => intro n; simp [header_tokens, header_block]
  | cons h a ih =>
    intro n
    have e := ih (n + (header_line h).length)
    rw [Nat.add_assoc] at e
    simp only [List.cons_append, header_tokens, header_block, List.length_append]
    exact congrArg (List.cons _) (congrArg (List.cons _) e)

/-- The run of a block of header lines none of which is a Content-Length
header. -/
theorem head_run_block (spec : iwn_http_server_spec) (m : meta_state_e)
    (hm : m = M_ANY ∨ m = M_SML) (N : Int) (h0 : 0 ≤ spec.request_token_max_len) :
    ∀ (hs : List (List Nat × List Nat)) (S0 : state_e) (hc : Int) (n : Nat),
      (S0 = HE ∨ (S0 = RN ∧ hs ≠ [])) → (∀ h ∈ hs, line_ok spec m h) →
      -32768 ≤ hc → hc + hs.length ≤ spec.request_max_header_count →
      ∃ hc1, -32768 ≤ hc1 ∧ hc1 ≤ hc + hs.length
        ∧ head_run spec (psl S0 m hc N) n {} (header_block hs) (header_tokens n hs)
            (psl HE m hc1 N) {} := by
  intro hs
  induction hs with
  | nil =>
    intro S0 hc n hS _ hlo _
    have hS1 : S0 = HE := by
      rcases hS with h | ⟨-, h⟩
      · exact h
      · exact absurd rfl h
    subst hS1
    have hq : meta_quiet m := by rcases hm with rfl | rfl <;> decide
    exact ⟨hc, hlo, by simp, head_run.nil _ _ _ (rest_ok_psl spec HE m hc N hq (by simp) h0)⟩
  | cons h hs ih =>
    intro S0 hc n hS hok hlo hhi
    have hS1 : S0 = RN ∨ S0 = HE := by
      rcases hS with h | ⟨h, -⟩
      · exact Or.inr h
      · exact Or.inl h
    have hlen : ((h :: hs).length : Int) = (hs.length : Int) + 1 := by simp
    obtain ⟨hw1, hw2⟩ := toInt16_le (hc + 1) (by omega)
    have r1 := head_run_line spec S0 hS1 m hm hc N n h (hok h (by simp)) (by omega)
    obtain ⟨hc1, b1, b2, r2⟩ := ih HE (toInt16 (hc + 1)) (n + (header_line h).length)
      (Or.inl rfl) (fun x hx => hok x (by simp [hx])) hw2 (by omega)
    refine ⟨hc1, b1, by omega, ?_⟩
    have r := head_run_append spec _ _ _ _ _ _ _ r1 _ _ _ _ r2
    simpa [header_block, header_tokens] using r

/-- The LF of the blank line for a body that fits the buffer: no token yet,
the meta FSM passes from `M_SML` to `M_BDY`. -/
theorem step_HN_small (cl0 : client) (p : parser) (n : Nat) (c : Nat)
    (hs : p.state = ER) (hm : p.meta = M_SML) (hc : accepts ER HN c)
    (hfit : p.content_length ≤ cl0.server.spec.request_buf_max_size - (n : Int) + 1)
    (hne : p.content_length ≠ 0) :
    token_parse_step (at_ cl0 p n {} false) c =
      ({}, at_ cl0 { p with state := HN, match_index := 0, meta := M_BDY } (n + 1) {} true) := by
  unfold accepts at hc
  have hfit1 : ¬ (cl0.server.spec.request_buf_max_size - (n : Int) + 1 < p.content_length) := by
    omega
  simp [token_parse_step, at_, _transition, _transition_enter, _transition_switch,
    _stream_consume, _token_start_states, _meta_trigger, hs, hc, hm, meta_transitions_at,
    _meta_transitions, meta_state_e.toNat, HS_META_TYPE_LEN, HS_META_END_HEADERS,
    _stream_can_contain, hfit1, hne]

/-- The LF of the blank line for a body that does not fit the buffer:
BODY_STREAM is emitted and the meta FSM passes to `M_STR`. -/
theorem step_HN_large (cl0 : client) (p : parser) (n : Nat) (c : Nat)
    (hs : p.state = ER) (hm : p.meta = M_SML) (hc : accepts ER HN c)
    (hbig : cl0.server.spec.request_buf_max_size - (n : Int) + 1 < p.content_length) :
    token_parse_step (at_ cl0 p n {} false) c =
      ({ type := HS_TOK_BODY_STREAM },
        at_ cl0 { p with state := HN, match_index := 0, meta := M_STR } (n + 1) {} true) := by
  unfold accepts at hc
  simp [token_parse_step, at_, _transition, _transition_enter, _transition_switch,
    _stream_consume, _token_start_states, _meta_trigger, hs, hc, hm, meta_transitions_at,
    _meta_transitions, meta_state_e.toNat, HS_META_TYPE_LEN, HS_META_END_HEADERS,
    HS_META_LARGE_BODY, _stream_can_contain, hbig]

theorem transitions_HN (c : Nat) : transitions_at HN (ctype_of c) = BD := by
  generalize ctype_of c = t
  cases t <;> rfl

theorem transitions_BD (c : Nat) : transitions_at BD (ctype_of c) = BD := by
  generalize ctype_of c = t
  cases t <;> rfl

/-- The first byte of a body that fits the buffer, when the rest of the body
is already in the buffer: the BODY token is emitted; the cursor stays on the
first byte because `_stream_jump` does not move it. -/
theorem step_BD_first_done (cl0 : client) (p : parser) (n : Nat) (c : Nat)
    (hs : p.state = HN) (hm : p.meta = M_BDY) (hb : p.body_consumed = 0)
    (hfit : (n : Int) + toInt32 p.content_length ≤ cl0.stream.length) :
    token_parse_step (at_ cl0 p n {} false) c =
      ({ index := n, len := toInt32 p.content_length, type := HS_TOK_BODY },
        at_ (anch cl0 n)
          { p with state := BD, match_index := 0, meta := M_END, content_length := 0,
                   body_consumed := 0 } n {} true) := by
  have hfit1 : ¬ (cl0.stream.length < (n : Int) + toInt32 p.content_length) := by omega
  simp [token_parse_step, at_, anch, _transition, _transition_enter, _transition_switch,
    _transition_body, _stream_jump, _stream_emit, _stream_begin_token, _stream_anchor,
    _stream_consume, _token_start_states, _meta_trigger, hs, hm, hb, transitions_HN,
    meta_transitions_at, _meta_transitions, meta_state_e.toNat, HS_META_TYPE_LEN,
    HS_META_NEXT, hfit1]

/-- The first byte of a body that fits the buffer, when the rest of the body
has not arrived: every byte of the buffer is taken into the BODY token and no
token is emitted. -/
theorem step_BD_first_more (cl0 : client) (p : parser) (n L : Nat) (c : Nat)
    (hs : p.state = HN) (hm : p.meta = M_BDY) (hb : p.body_consumed = 0)
    (hl : cl0.stream.length = (L : Int))
    (hmore : (L : Int) < (n : Int) + toInt32 p.content_length) :
    token_parse_step (at_ cl0 p n {} false) c =
      ({}, at_ (anch cl0 n)
          { p with state := BD, match_index := 0, body_consumed := (L : Int) - (n : Int) } L
          { index := n, len := (L : Int) - (n : Int), type := HS_TOK_BODY } true) := by
  simp [token_parse_step, at_, anch, _transition, _transition_enter, _transition_switch,
    _transition_body, _stream_jump, _stream_jumpall, _stream_emit, _stream_begin_token,
    _stream_anchor, _stream_consume, _token_start_states, _meta_trigger, hs, hm, hb,
    transitions_HN, hl, hmore]

/-- A later byte of a body that fits the buffer, when the rest of the body is
in the buffer: the BODY token is emitted with its full length. -/
theorem step_BD_next_done (cl0 : client) (p : parser) (n : Nat) (tok : token) (c : Nat)
    (hs : p.state = BD) (hm : p.meta = M_BDY) (ht : tok.type = HS_TOK_BODY)
    (hfit : (n : Int) + toInt32 (p.content_length - p.body_consumed) ≤ cl0.stream.length) :
    token_parse_step (at_ cl0 p n tok false) c =
      ({ tok with len := tok.len + toInt32 (p.content_length - p.body_consumed) },
        at_ cl0 { p with meta := M_END, content_length := 0, body_consumed := 0 } n {} true) := by
  have hfit1 : ¬ (cl0.stream.length
      < (n : Int) + toInt32 (p.content_length - p.body_consumed)) := by omega
  conv_rhs => rw [← parser_state_eta p BD hs]
  simp [token_parse_step, at_, _transition, _transition_enter, _transition_switch,
    _transition_body, _stream_jump, _stream_emit, _stream_consume, _meta_trigger, hs, hm, ht,
    transitions_BD, meta_transitions_at, _meta_transitions, meta_state_e.toNat,
    HS_META_TYPE_LEN, HS_META_NEXT, hfit1]

/-- A later byte of a body that fits the buffer, when the rest of the body
has not arrived. -/
theorem step_BD_next_more (cl0 : client) (p : parser) (n L : Nat) (tok : token) (c : Nat)
    (hs : p.state = BD) (hm : p.meta = M_BDY) (ht : tok.type = HS_TOK_BODY)
    (hl : cl0.stream.length = (L : Int))
    (hmore : (L : Int) < (n : Int) + toInt32 (p.content_length - p.body_consumed)) :
    token_parse_step (at_ cl0 p n tok false) c =
      ({}, at_ cl0 { p with body_consumed := p.body_consumed + ((L : Int) - (n : Int)) } L
          { tok with len := tok.len + ((L : Int) - (n : Int)) } true) := by
  conv_rhs => rw [← parser_state_eta p BD hs]
  simp [token_parse_step, at_, _transition, _transition_enter, _transition_switch,
    _transition_body, _stream_jump, _stream_jumpall, _stream_emit, _stream_consume,
    _meta_trigger, hs, hm, ht, transitions_BD, hl, hmore]

theorem token_parse_finish_quiet (cl0 : client) (p : parser) (n : Nat) (tok : token)
    (hok : rest_ok cl0.server.spec p tok) :
    token_parse_finish (at_ cl0 p n tok false) = ({}, at_ cl0 p n tok false) := by
  obtain ⟨h1, h2, h3, h4⟩ := hok
  have he := meta_emit_quiet p h1 h2
  have h5 : ¬ (tok.type ≠ HS_TOK_CHUNK_BODY ∧ tok.type ≠ HS_TOK_BODY
      ∧ tok.len > cl0.server.spec.request_token_max_len) := by
    rintro ⟨a, b, c⟩
    rcases h4 with h | h | h
    · exact a h
    · exact b h
    · omega
  simp only [token_parse_finish]
  have e5 : (at_ cl0 p n tok false).parser = p := rfl
  simp [e5, h3, he, at_, h5]

/-- A turn of the byte loop that emits a token ends the call of
`_token_parse`, whatever it does to the stream. -/
theorem token_parse_emit_any (cl0 cl1 : client) (bs : List Nat) (p : parser) (n : Nat)
    (tok t : token) (c : Nat) (rest : List Nat) (b : Bool)
    (hb : cl0.stream.buf = some bs) (hl : cl0.stream.length = bs.length)
    (hd : bs.drop n = c :: rest)
    (h1 : p.meta ≠ M_SEN) (h2 : p.meta ≠ M_END)
    (hstep : token_parse_step (at_ cl0 p n tok false) c = (t, cl1))
    (ht : t.type ≠ HS_TOK_NONE) :
    _token_parse (at_ cl0 p n tok b) = some (t, cl1) := by
  refine token_parse_of_loop cl0 p n tok b 1 _ _ h1 h2 ?_ ?_
  · omega
  · rw [token_parse_loop_succ 0 cl0 p n tok b bs c rest hb hl hd, hstep]
    simp [ht]

/-- A turn of the byte loop that takes every byte of the buffer and emits no
token: the call of `_token_parse` returns no token. -/
theorem token_parse_jumpall (cl0 cl1 : client) (bs : List Nat) (p p1 : parser) (n L : Nat)
    (tok tok1 : token) (c : Nat) (rest : List Nat) (b : Bool)
    (hb : cl0.stream.buf = some bs) (hl : cl0.stream.length = bs.length)
    (hd : bs.drop n = c :: rest)
    (h1 : p.meta ≠ M_SEN) (h2 : p.meta ≠ M_END)
    (hstep : token_parse_step (at_ cl0 p n tok false) c = ({}, at_ cl1 p1 L tok1 true))
    (hl1 : cl1.stream.length = L) (hok : rest_ok cl1.server.spec p1 tok1) :
    _token_parse (at_ cl0 p n tok b) = some ({}, at_ cl1 p1 L tok1 false) := by
  have he := meta_emit_quiet p h1 h2
  have e1 : (at_ cl0 p n tok b).parser = p := rfl
  have e2 : ({ at_ cl0 p n tok b with parser := p } : client) = at_ cl0 p n tok b := rfl
  unfold _token_parse
  simp only [e1, he, e2, ne_eq, not_true_eq_false, if_false]
  have ef : 2 * ((at_ cl0 p n tok b).stream.length - (at_ cl0 p n tok b).stream.index).toNat + 2
      = (2 * ((at_ cl0 p n tok b).stream.length - (at_ cl0 p n tok b).stream.index).toNat + 0 + 1)
        + 1 := by omega
  rw [ef, token_parse_loop_succ _ cl0 p n tok b bs c rest hb hl hd, hstep]
  simp only [ne_eq, not_true_eq_false, if_false]
  rw [token_parse_loop_end _ cl1 p1 L tok1 true hl1]
  simp only [token_parse_finish_quiet cl1 p1 L tok1 hok]

theorem buf_store_end (bs d : List Nat) : buf_store bs (bs.length : Int) d = bs ++ d := by
  simp [buf_store]

theorem toInt32_id (x : Int) (h0 : 0 ≤ x) (h1 : x < 2147483648) : toInt32 x = x := by
  unfold toInt32
  omega

theorem head_run_plain (spec : iwn_http_server_spec) (p : parser) (n : Nat) (tok : token)
    (seg : List Nat) (ts : List token) (p2 : parser) (tok2 : token)
    (h : head_run spec p n tok seg ts p2 tok2) : ∀ t ∈ ts, plain_token t.type := by
  induction h with
  | nil _ _ _ _ => intro t ht; simp at ht
  | cons p n tok c t p1 tok1 cs ts ts1 p2 tok2 _ _ hplain _ hts ih =>
    intro x hx
    rw [hts] at hx
    split_ifs at hx
    · exact ih x hx
    · rcases List.mem_cons.mp hx with rfl | hx
      · exact hplain
      · exact ih x hx

theorem flatten_nil_of_nonempty (ds : List (List Nat)) (hne : ∀ d ∈ ds, d ≠ [])
    (h : ds.flatten.length = 0) : ds = [] := by
  cases ds with
  | nil => rfl
  | cons d ds =>
    have hd := hne d (by simp)
    simp only [List.flatten_cons, List.length_append] at h
    have : d.length = 0 := by omega
    exact absurd (List.length_eq_zero.mp this) hd

theorem head_run_count (spec : iwn_http_server_spec) (p : parser) (n : Nat) (tok : token)
    (seg : List Nat) (ts : List token) (p2 : parser) (tok2 : token)
    (h : head_run spec p n tok seg ts p2 tok2) : ts.length ≤ seg.length := by
  induction h with
  | nil _ _ _ _ => simp
  | cons p n tok c t p1 tok1 cs ts ts1 p2 tok2 _ _ _ _ hts ih =>
    rw [hts]
    split_ifs <;> simp <;> omega

theorem append_split_left (d x seg y : List Nat) (h : d ++ x = seg ++ y)
    (hl : d.length ≤ seg.length) : ∃ s1, seg = d ++ s1 ∧ x = s1 ++ y := by
  induction d generalizing seg with
  | nil => exact ⟨seg, rfl, by simpa using h⟩
  | cons a d ih =>
    cases seg with
    | nil => simp at hl
    | cons b seg =>
      simp only [List.cons_append, List.cons.injEq] at h
      obtain ⟨rfl, h⟩ := h
      obtain ⟨s1, h1, h2⟩ := ih seg h (by simpa using hl)
      exact ⟨s1, by rw [h1]; rfl, h2⟩

theorem append_split_right (d x seg y : List Nat) (h : d ++ x = seg ++ y)
    (hl : seg.length < d.length) : ∃ b1, d = seg ++ b1 ∧ b1 ≠ [] ∧ b1 ++ x = y := by
  induction seg generalizing d with
  | nil =>
    refine ⟨d, rfl, ?_, by simpa using h⟩
    intro hd; subst hd; simp at hl
  | cons b seg ih =>
    cases d with
    | nil => simp at hl
    | cons a d =>
      simp only [List.cons_append, List.cons.injEq] at h
      obtain ⟨rfl, h⟩ := h
      obtain ⟨b1, h1, h2, h3⟩ := ih d h (by simpa using hl)
      exact ⟨b1, by rw [h1]; rfl, h2, h3⟩

/-- The turn of the loop of `_client_read` in which a buffer-independent run
reaches the end of the buffer: the tokens of the run are stored and the loop
returns. -/
theorem crl_head_run_end (cb : callbacks) (e : env) (spec : iwn_http_server_spec)
    (p : parser) (n : Nat) (tok : token) (seg : List Nat) (ts : List token)
    (p2 : parser) (tok2 : token) (hrun : head_run spec p n tok seg ts p2 tok2)
    (cl0 : client) (bs : List Nat) (fuel : Nat) (b : Bool)
    (hspec : cl0.server.spec = spec) (hb : cl0.stream.buf = some bs)
    (hl : cl0.stream.length = bs.length) (hd : bs.drop n = seg) (hn : n + seg.length = bs.length)
    (hst : cl0.state = HTTP_SESSION_READ) (hf : seg.length + 1 ≤ fuel) :
    client_read_loop cb e fuel (at_ cl0 p n tok b)
      = some (at_ { cl0 with tokens := ts.foldl tokens_push cl0.tokens } p2 (n + seg.length)
          tok2 false) := by
  have hend := token_parse_at_end { cl0 with tokens := ts.foldl tokens_push cl0.tokens } p2
    (n + seg.length) tok2 false (by show cl0.stream.length = _; rw [hl, hn])
    (by show rest_ok cl0.server.spec p2 tok2; rw [hspec]; exact head_run_end _ _ _ _ _ _ _ _ hrun)
  have h1 := crl_none cb e 0 _ _ hend
  have h2 := crl_head_run cb e spec p n tok seg ts p2 tok2 hrun cl0 bs [] _ 1 b hspec hb hl
    (by simpa using hd) hst h1
  exact crl_mono cb e _ _ _ h2 fuel (by have := head_run_count _ _ _ _ _ _ _ _ hrun; omega)

/-- The run of a block of header lines from the state after the LF of the
line before, which is `RN` after the request line and `HE` after a header
line. -/
theorem head_run_block_any (spec : iwn_http_server_spec) (m : meta_state_e)
    (hm : m = M_ANY ∨ m = M_SML) (N : Int) (h0 : 0 ≤ spec.request_token_max_len)
    (hs : List (List Nat × List Nat)) (S0 : state_e) (hS : S0 = RN ∨ S0 = HE) (hc : Int)
    (n : Nat) (hok : ∀ h ∈ hs, line_ok spec m h)
    (hlo : -32768 ≤ hc) (hhi : hc + hs.length ≤ spec.request_max_header_count) :
    ∃ hc1, -32768 ≤ hc1 ∧ hc1 ≤ hc + hs.length
      ∧ head_run spec (psl S0 m hc N) n {} (header_block hs) (header_tokens n hs)
          (psl (if hs = [] then S0 else HE) m hc1 N) {} := by
  by_cases hnil : hs = []
  · subst hnil
    have hq : meta_quiet m := by rcases hm with rfl | rfl <;> decide
    have hcb : S0 ≠ CB := by rcases hS with rfl | rfl <;> simp
    exact ⟨hc, hlo, by simp,
      head_run.nil _ _ _ (rest_ok_psl spec S0 m hc N hq hcb h0)⟩
  · have hS1 : S0 = HE ∨ (S0 = RN ∧ hs ≠ []) := by
      rcases hS with h | h
      · exact Or.inr ⟨h, hnil⟩
      · exact Or.inl h
    obtain ⟨hc1, b1, b2, r⟩ := head_run_block spec m hm N h0 hs S0 hc n hS1 hok hlo hhi
    rw [if_neg hnil]
    exact ⟨hc1, b1, b2, r⟩

/-- The run of the head of a request with a Content-Length header, up to the
CR of the blank line: the request line, the header lines before the
Content-Length header, that header, and the header lines after it. -/
theorem head_run_to_blank (spec : iwn_http_server_spec) (m t v : List Nat)
    (hs1 : List (List Nat × List Nat)) (cl : List Nat × List Nat)
    (hs2 : List (List Nat × List Nat))
    (hm : token_ok state_e.ST MT m) (ht : token_ok MS TR t) (hv : token_ok TS VN v)
    (lm : (m.length : Int) ≤ spec.request_token_max_len)
    (lt : (t.length : Int) ≤ spec.request_token_max_len)
    (lv : (v.length : Int) ≤ spec.request_token_max_len)
    (h1 : ∀ h ∈ hs1, line_ok spec M_ANY h)
    (hk : token_ok RN HK cl.1) (hd : token_ok HS HV cl.2)
    (lk : (cl.1.length : Int) ≤ spec.request_token_max_len)
    (ld : (cl.2.length : Int) ≤ spec.request_token_max_len)
    (hcls : header_class cl.1 = M_CLV)
    (h2 : ∀ h ∈ hs2, line_ok spec M_SML h)
    (hmax : ((hs1 ++ cl :: hs2).length : Int) ≤ spec.request_max_header_count) :
    ∃ hc, head_run spec (psl state_e.ST M_WFK 0 0) 0 {}
      (m ++ 32 :: (t ++ 32 :: (v ++ 13 :: 10 :: (header_block (hs1 ++ cl :: hs2) ++ [13]))))
      (head_tokens m t v (hs1 ++ cl :: hs2)) (psl ER M_SML hc (decimal_value cl.2)) {} := by
  have h0 : (0 : Int) ≤ spec.request_token_max_len := by
    have : (0 : Int) ≤ m.length := Int.natCast_nonneg _
    omega
  have hlen : ((hs1 ++ cl :: hs2).length : Int) = (hs1.length : Int) + 1 + hs2.length := by
    simp; omega
  rw [hlen] at hmax
  have r1 := head_run_simple spec state_e.ST MT MS HS_TOK_METHOD (Or.inl ⟨rfl, rfl, rfl, rfl⟩)
    M_WFK 0 0 0 m 32 (by decide) hm (by decide) lm
  have r2 := head_run_simple spec MS TR TS HS_TOK_TARGET (Or.inr ⟨rfl, rfl, rfl, rfl⟩)
    M_WFK 0 0 (0 + (m ++ [32]).length) t 32 (by decide) ht (by decide) lt
  have r3 := head_run_version spec M_WFK 0 0 (0 + (m ++ [32]).length + (t ++ [32]).length) v 13
    (by decide) (by decide) hv (by decide) lv
  have r4 := head_run_skip spec RR RN (Or.inl ⟨rfl, rfl⟩) M_ANY 0 0
    (0 + (m ++ [32]).length + (t ++ [32]).length + (v ++ [13]).length) 10 (by decide)
    (by decide) h0
  obtain ⟨hc1, a1, a2, r5⟩ := head_run_block_any spec M_ANY (Or.inl rfl) 0 h0 hs1 RN
    (Or.inl rfl) 0
    (0 + (m ++ [32]).length + (t ++ [32]).length + (v ++ [13]).length + [10].length) h1
    (by omega) (by omega)
  have hS1 : (if hs1 = [] then RN else HE) = RN ∨ (if hs1 = [] then RN else HE) = HE := by
    split_ifs <;> simp
  obtain ⟨w1, w2⟩ := toInt16_le (hc1 + 1) (by omega)
  have r6 := head_run_length_line spec _ hS1 hc1
    (0 + (m ++ [32]).length + (t ++ [32]).length + (v ++ [13]).length + [10].length
      + (header_block hs1).length) cl hk hd lk ld hcls (by omega)
  obtain ⟨hc2, c1, c2, r7⟩ := head_run_block_any spec M_SML (Or.inr rfl)
    (decimal_value cl.2) h0 hs2 HE (Or.inr rfl) (toInt16 (hc1 + 1))
    (0 + (m ++ [32]).length + (t ++ [32]).length + (v ++ [13]).length + [10].length
      + (header_block hs1).length + (header_line cl).length) h2 w2 (by omega)
  rw [ite_self] at r7
  have r8 := head_run_skip spec HE ER (Or.inr (Or.inr ⟨rfl, rfl⟩)) M_SML hc2 (decimal_value cl.2)
    (0 + (m ++ [32]).length + (t ++ [32]).length + (v ++ [13]).length + [10].length
      + (header_block hs1).length + (header_line cl).length + (header_block hs2).length) 13
    (by decide) (by decide) h0
  have r := head_run_append spec _ _ _ _ _ _ _ r1 _ _ _ _
    (head_run_append spec _ _ _ _ _ _ _ r2 _ _ _ _
      (head_run_append spec _ _ _ _ _ _ _ r3 _ _ _ _
        (head_run_append spec _ _ _ _ _ _ _ r4 _ _ _ _
          (head_run_append spec _ _ _ _ _ _ _ r5 _ _ _ _
            (head_run_append spec _ _ _ _ _ _ _ r6 _ _ _ _
              (head_run_append spec _ _ _ _ _ _ _ r7 _ _ _ _ r8))))))
  refine ⟨hc2, ?_⟩
  have eb : (m ++ [32]) ++ ((t ++ [32]) ++ ((v ++ [13]) ++ ([10] ++ (header_block hs1
      ++ (header_line cl ++ (header_block hs2 ++ [13]))))))
      = m ++ 32 :: (t ++ 32 :: (v ++ 13 :: 10 :: (header_block (hs1 ++ cl :: hs2) ++ [13]))) := by
    simp [header_block_append, header_block]
  have et : [({ index := ((0 : Nat) : Int), len := m.length, type := HS_TOK_METHOD } : token)]
      ++ ([({ index := ((0 + (m ++ [32]).length : Nat) : Int), len := t.length,
              type := HS_TOK_TARGET } : token)]
      ++ ([({ index := ((0 + (m ++ [32]).length + (t ++ [32]).length : Nat) : Int),
              len := v.length, type := HS_TOK_VERSION } : token)]
      ++ ([] ++ (header_tokens (0 + (m ++ [32]).length + (t ++ [32]).length + (v ++ [13]).length
              + [10].length) hs1
      ++ (header_tokens (0 + (m ++ [32]).length + (t ++ [32]).length + (v ++ [13]).length
              + [10].length + (header_block hs1).length) [cl]
      ++ (header_tokens (0 + (m ++ [32]).length + (t ++ [32]).length + (v ++ [13]).length
              + [10].length + (header_block hs1).length + (header_line cl).length) hs2
      ++ []))))))
      = head_tokens m t v (hs1 ++ cl :: hs2) := by
    have en : 0 + (m ++ [32]).length + (t ++ [32]).length + (v ++ [13]).length + [10].length
        = m.length + 1 + t.length + 1 + v.length + 2 := by simp; omega
    rw [en]
    simp only [head_tokens, header_tokens_append, header_tokens, List.append_nil,
      List.nil_append, List.singleton_append, List.cons_append]
    simp
    omega
  rw [eb, et] at r
  exact r

theorem tokens_push_buf (T : tokens_buf) (l : List token) (tok : token)
    (hb : T.buf = some l) (hs : T.size = l.length) :
    (tokens_push T tok).buf = some (l ++ [tok])
    ∧ (tokens_push T tok).size = ((l ++ [tok]).length : Nat) := by
  unfold tokens_push
  split_ifs <;> simp [hb, hs]

/-- The token array after the tokens `ts` were stored one by one. -/
theorem tokens_foldl_buf (ts : List token) : ∀ (T : tokens_buf) (l : List token),
    T.buf = some l → T.size = l.length →
    (ts.foldl tokens_push T).buf = some (l ++ ts)
    ∧ (ts.foldl tokens_push T).size = ((l ++ ts).length : Nat) := by
  induction ts with
  | nil => intro T l hb hs; simpa using ⟨hb, hs⟩
  | cons t ts ih =>
    intro T l hb hs
    obtain ⟨h1, h2⟩ := tokens_push_buf T l t hb hs
    have := ih (tokens_push T t) (l ++ [t]) h1 h2
    simpa using this

theorem find_range (P : Nat → Bool) : ∀ (n k : Nat), k < n → P k = true →
    (∀ j, j < k → P j = false) → (List.range n).find? P = some k := by
  intro n
  induction n with
  | zero => intro k hk; omega
  | succ n ih =>
    intro k hk hP hlt
    rw [List.range_succ, List.find?_append]
    by_cases h : k < n
    · rw [ih k h hP hlt]; rfl
    · have hkn : k = n := by omega
      subst hkn
      have hnone : (List.range k).find? P = none := by
        rw [List.find?_eq_none]
        intro x hx
        rw [List.mem_range] at hx
        simp [hlt x hx]
      rw [hnone]
      simp [hP]

theorem getD_append_mid (pre post : List token) (tk d : token) :
    (pre ++ tk :: post).getD pre.length d = tk := by
  induction pre with
  | nil => rfl
  | cons a pre ih => simpa using ih

theorem getD_append_pre (pre post : List token) (d : token) : ∀ (j : Nat), j < pre.length →
    (pre ++ post).getD j d ∈ pre := by
  induction pre with
  | nil => intro j hj; simp at hj
  | cons a pre ih =>
    intro j hj
    cases j with
    | zero => simp
    | succ j =>
      have := ih j (by simpa using hj)
      simp only [List.cons_append, List.getD_cons_succ, List.mem_cons]
      exact Or.inr this

/-- `_token_get_string` returns the view of the first token of the type. -/
theorem token_get_string_first (cl : client) (ty : token_e) (pre post : List token)
    (tk : token) (hb : cl.tokens.buf = some (pre ++ tk :: post))
    (hs : cl.tokens.size = ((pre ++ tk :: post).length : Nat))
    (hpre : ∀ x ∈ pre, x.type ≠ ty) (htk : tk.type = ty) :
    _token_get_string cl ty = { buf := stream_ptr cl.stream tk.index, len := tk.len } := by
  have hat : ∀ j : Nat, tokens_at cl.tokens (j : Int) = (pre ++ tk :: post).getD j {} := by
    intro j
    unfold tokens_at
    rw [hb]
    simp
  have hf : (List.range cl.tokens.size.toNat).find?
      (fun (i : Nat) => decide ((tokens_at cl.tokens (i : Int)).type = ty))
        = some pre.length := by
    apply find_range
    · rw [hs]; simp
    · rw [hat, getD_append_mid]; simp [htk]
    · intro j hj
      rw [hat]
      have := hpre _ (getD_append_pre pre (tk :: post) {} j hj)
      exact decide_eq_false this
  have hmap : ∀ (l : List Nat), (l >>= fun a => pure (a : Int))
      = @List.map Nat Int (fun (a : Nat) => (a : Int)) l := by
    intro l
    induction l with
    | nil => rfl
    | cons a l ih =>
      have e : ((a :: l) >>= fun a => pure (a : Int))
          = (a : Int) :: (l >>= fun a => pure (a : Int)) := rfl
      rw [e, ih]
      rfl
  have hf1 : List.find? ((fun (i : Int) => decide ((tokens_at cl.tokens i).type = ty))
      ∘ (fun (a : Nat) => (a : Int))) (List.range cl.tokens.size.toNat) = some pre.length := hf
  unfold _token_get_string
  rw [hb]
  dsimp only
  rw [hmap, List.find?_map, hf1]
  dsimp only [Option.map_some']
  rw [hat, getD_append_mid]

/-- The run of the whole head of a request with a Content-Length header whose
body fits the buffer, through the LF of the blank line: the meta FSM is left
in `M_BDY` and no BODY token is emitted yet. -/
theorem head_run_small (spec : iwn_http_server_spec) (m t v : List Nat)
    (hs1 : List (List Nat × List Nat)) (cl : List Nat × List Nat)
    (hs2 : List (List Nat × List Nat))
    (hm : token_ok state_e.ST MT m) (ht : token_ok MS TR t) (hv : token_ok TS VN v)
    (lm : (m.length : Int) ≤ spec.request_token_max_len)
    (lt : (t.length : Int) ≤ spec.request_token_max_len)
    (lv : (v.length : Int) ≤ spec.request_token_max_len)
    (h1 : ∀ h ∈ hs1, line_ok spec M_ANY h)
    (hk : token_ok RN HK cl.1) (hd : token_ok HS HV cl.2)
    (lk : (cl.1.length : Int) ≤ spec.request_token_max_len)
    (ld : (cl.2.length : Int) ≤ spec.request_token_max_len)
    (hcls : header_class cl.1 = M_CLV)
    (h2 : ∀ h ∈ hs2, line_ok spec M_SML h)
    (hmax : ((hs1 ++ cl :: hs2).length : Int) ≤ spec.request_max_header_count)
    (hne : decimal_value cl.2 ≠ 0)
    (hfit : decimal_value cl.2 ≤ spec.request_buf_max_size
      - ((request_bytes m t v (hs1 ++ cl :: hs2)).length : Int) + 2) :
    ∃ hc, head_run spec (psl state_e.ST M_WFK 0 0) 0 {}
      (request_bytes m t v (hs1 ++ cl :: hs2))
      (head_tokens m t v (hs1 ++ cl :: hs2)) (psl HN M_BDY hc (decimal_value cl.2)) {} := by
  obtain ⟨hc, r⟩ := head_run_to_blank spec m t v hs1 cl hs2 hm ht hv lm lt lv h1 hk hd lk ld hcls
    h2 hmax
  have h0 : (0 : Int) ≤ spec.request_token_max_len := by
    have : (0 : Int) ≤ m.length := Int.natCast_nonneg _
    omega
  have eb : request_bytes m t v (hs1 ++ cl :: hs2)
      = (m ++ 32 :: (t ++ 32 :: (v ++ 13 :: 10 :: (header_block (hs1 ++ cl :: hs2) ++ [13]))))
        ++ [10] := by
    simp [request_bytes]
  have hlen : ((request_bytes m t v (hs1 ++ cl :: hs2)).length : Int)
      = ((m ++ 32 :: (t ++ 32 :: (v ++ 13 :: 10 :: (header_block (hs1 ++ cl :: hs2)
          ++ [13])))).length : Nat) + 1 := by
    rw [eb]; simp; omega
  have r2 := head_run_one spec (psl ER M_SML hc (decimal_value cl.2))
    (0 + (m ++ 32 :: (t ++ 32 :: (v ++ 13 :: 10 :: (header_block (hs1 ++ cl :: hs2)
      ++ [13])))).length) {} 10 {} (psl HN M_BDY hc (decimal_value cl.2)) {}
    (rest_ok_psl spec ER M_SML hc _ (by decide) (by simp) h0)
    (rest_ok_psl spec HN M_BDY hc _ (by decide) (by simp) h0)
    (fun cl0 hspec => step_HN_small cl0 (psl ER M_SML hc (decimal_value cl.2)) _ 10 rfl rfl
      (by decide)
      (by
        rw [hspec]
        show decimal_value cl.2 ≤ _
        rw [hlen] at hfit
        push_cast at hfit ⊢
        omega)
      hne)
    (Or.inl rfl)
  have r3 := head_run_append spec _ _ _ _ _ _ _ r _ _ _ _ r2
  rw [← eb] at r3
  refine ⟨hc, ?_⟩
  simpa using r3

theorem plain_not_body (t : token_e) (h : plain_token t) : t ≠ HS_TOK_BODY := by
  rcases h with h | h | h | h | h | h <;> rw [h] <;> simp

/-- A header value that runs to the end of the buffer and is longer than
`request_token_max_len`: `_token_parse` returns ERROR. -/
theorem token_parse_value_overflow (cl0 : client) (bs : List Nat) (hc : Int) (n : Nat)
    (w : List Nat) (sp : Nat) (b : Bool)
    (hb : cl0.stream.buf = some bs) (hl : cl0.stream.length = bs.length)
    (hd : bs.drop n = sp :: w) (hsp : accepts HS HS sp) (hw : token_ok HS HV w)
    (hlong : cl0.server.spec.request_token_max_len < (w.length : Int)) :
    ∃ cl1, _token_parse (at_ cl0 (pst HS M_WFK hc) n {} b)
      = some ({ type := HS_TOK_ERROR }, cl1) := by
  cases w with
  | nil => exact absurd hw (by simp [token_ok])
  | cons first seg =>
    obtain ⟨h1, h2⟩ := hw
    obtain ⟨-, -, hd1⟩ := drop_cons_getD hd
    obtain ⟨-, -, hd2⟩ := drop_cons_getD hd1
    have hlen : (bs.length : Int) = (n : Int) + 1 + 1 + seg.length := by
      have := congrArg List.length hd
      simp at this
      omega
    have e0 : _transition_hv { pst HS M_WFK hc with state := HV, match_index := 0 } first
        = pst HV M_WFK hc := by
      rw [transition_hv_wfk _ _ rfl]; rfl
    have hrun := run_stay HV _transition_hv
      (fun p c h => by rw [transition_hv_state]; exact h)
      (fun cl0 p n tok c hs hc ht => step_HV_stay cl0 p n tok c hs hc ht)
      seg h2 cl0 bs (pst HV M_WFK hc) (n + 1 + 1)
      { index := ((n + 1 : Nat) : Int), len := 1, type := HS_TOK_HEADER_VAL } 1 [] true hb hl
      (by simpa using hd2) rfl (by simp)
    rw [foldl_hv_wfk seg _ rfl] at hrun
    have hend := token_parse_loop_end 0 cl0 (pst HV M_WFK hc) (n + 1 + 1 + seg.length)
      { index := ((n + 1 : Nat) : Int), len := 1 + (seg.length : Int),
        type := HS_TOK_HEADER_VAL } false (by rw [hl, hlen]; push_cast; ring)
    have hloop : token_parse_loop ((1 + seg.length) + 1 + 1) (at_ cl0 (pst HS M_WFK hc) n {} b)
        = some (none, at_ cl0 (pst HV M_WFK hc) (n + 1 + 1 + seg.length)
            { index := ((n + 1 : Nat) : Int), len := 1 + (seg.length : Int),
              type := HS_TOK_HEADER_VAL } false) := by
      rw [token_parse_loop_succ _ cl0 _ n {} b bs sp _ hb hl hd,
        step_HS_stay cl0 _ n sp rfl hsp]
      simp only [ne_eq, not_true_eq_false, if_false]
      rw [token_parse_loop_succ _ cl0 _ (n + 1) {} true bs first _ hb hl hd1,
        step_HV_begin cl0 _ (n + 1) first rfl h1]
      simp only [ne_eq, not_true_eq_false, if_false, e0]
      rw [hrun]
      exact hend
    have hfuel : (1 + seg.length) + 1 + 1 ≤ 2 * (cl0.stream.length - (n : Int)).toNat + 2 := by
      rw [hl, hlen]
      have : ((n : Int) + 1 + 1 + seg.length - n).toNat = seg.length + 2 := by omega
      rw [this]; omega
    have hloop2 := token_parse_loop_mono _ _ _ hloop _ hfuel
    have he := meta_emit_quiet (pst HS M_WFK hc) (by simp [pst]) (by simp [pst])
    have e1 : (at_ cl0 (pst HS M_WFK hc) n {} b).parser = pst HS M_WFK hc := rfl
    have e2 : ({ at_ cl0 (pst HS M_WFK hc) n {} b with parser := pst HS M_WFK hc } : client)
        = at_ cl0 (pst HS M_WFK hc) n {} b := rfl
    have e3 : (at_ cl0 (pst HS M_WFK hc) n {} b).stream.length = cl0.stream.length := rfl
    have e4 : (at_ cl0 (pst HS M_WFK hc) n {} b).stream.index = (n : Int) := rfl
    have hl1 : (((first :: seg).length : Nat) : Int) = (seg.length : Int) + 1 := by simp
    rw [hl1] at hlong
    have hgt : (1 : Int) + seg.length > cl0.server.spec.request_token_max_len := by omega
    have hfin : (token_parse_finish (at_ cl0 (pst HV M_WFK hc) (n + 1 + 1 + seg.length)
        { index := ((n + 1 : Nat) : Int), len := 1 + (seg.length : Int),
          type := HS_TOK_HEADER_VAL } false)).1 = { type := HS_TOK_ERROR } := by
      simp [token_parse_finish, at_, pst, _meta_emit_token, hgt]
    refine ⟨(token_parse_finish (at_ cl0 (pst HV M_WFK hc) (n + 1 + 1 + seg.length)
        { index := ((n + 1 : Nat) : Int), len := 1 + (seg.length : Int),
          type := HS_TOK_HEADER_VAL } false)).2, ?_⟩
    unfold _token_parse
    simp only [e1, he, e2, e3, e4, ne_eq, not_true_eq_false, if_false, hloop2]
    rw [← hfin]

/-- The tokens of a buffer that ends inside a header value longer than
`request_token_max_len`: after the name of the header `_token_parse` returns
ERROR. -/
theorem token_parse_long_value (srv : server) (w : List Nat) (hw : token_ok HS HV w)
    (hlong : srv.spec.request_token_max_len < (w.length : Int))
    (hmax : 1 ≤ srv.spec.request_max_header_count) :
    (token_parse_n 5 (client_holding srv (str "POST" ++ 32 :: (str "/echo" ++ 32 ::
        (str "HTTP/1.1" ++ 13 :: 10 :: (str "Host" ++ 58 :: 32 :: w)))))).map Prod.fst
      = some [{ index := 0, len := 4, type := HS_TOK_METHOD },
              { index := 5, len := 5, type := HS_TOK_TARGET },
              { index := 11, len := 8, type := HS_TOK_VERSION },
              { index := 21, len := 4, type := HS_TOK_HEADER_KEY },
              { type := HS_TOK_ERROR }] := by
  set bs := str "POST" ++ 32 :: (str "/echo" ++ 32 ::
    (str "HTTP/1.1" ++ 13 :: 10 :: (str "Host" ++ 58 :: 32 :: w))) with hbs
  set cl0 := client_holding srv bs with hcl0
  have hb : cl0.stream.buf = some bs := rfl
  have hl : cl0.stream.length = bs.length := rfl
  have h0 : cl0 = at_ cl0 (pst state_e.ST M_WFK 0) 0 {} false := rfl
  have hd0 : bs.drop 0 = str "POST" ++ 32 :: (str "/echo" ++ 32 ::
    (str "HTTP/1.1" ++ 13 :: 10 :: (str "Host" ++ 58 :: 32 :: w))) := rfl
  have t1 := token_parse_simple state_e.ST MT MS HS_TOK_METHOD (Or.inl ⟨rfl, rfl, rfl, rfl⟩)
    cl0 bs M_WFK 0 0 (str "POST") 32 _ false hb hl hd0 (by simp) (by simp) (by decide)
    (by decide)
  have hd1 := drop_token hd0
  have t2 := token_parse_simple MS TR TS HS_TOK_TARGET (Or.inr ⟨rfl, rfl, rfl, rfl⟩)
    cl0 bs M_WFK 0 _ (str "/echo") 32 _ true hb hl hd1 (by simp) (by simp) (by decide)
    (by decide)
  have hd2 := drop_token hd1
  have t3 := token_parse_version cl0 bs 0 _ (str "HTTP/1.1") 13 _ true hb hl hd2 (by decide)
    (by decide)
  have hd3 := drop_token hd2
  have t4 := token_parse_header_key RR (Or.inl rfl) cl0 bs 0 _ (str "Host") _ true hb hl hd3
    (by decide) (by decide) (by decide) (by simpa [toInt16] using hmax)
  have hd4 := drop_sp_token hd3
  obtain ⟨cl1, t5⟩ := token_parse_value_overflow cl0 bs (toInt16 (0 + 1)) _ w 32 true hb hl hd4
    (by decide) hw hlong
  have e : (5 : Nat) = 0 + 1 + 1 + 1 + 1 + 1 := rfl
  rw [h0, e, token_parse_n_succ _ _ _ _ t1, token_parse_n_succ _ _ _ _ t2,
    token_parse_n_succ _ _ _ _ t3, token_parse_n_succ _ _ _ _ t4, token_parse_n_succ _ _ _ _ t5]
  simp [token_parse_n]
  decide

/-- Counterexample to C2 as stated: the request `POST /echo HTTP/1.1` with the
headers `Host: aaa...a` (8193 bytes `a`) and `content-length: 5` and the body
`hello`, on a server with the default configuration, arrives in two reads, the
first of which ends with the last byte of the Host value.  The two pieces are
the request; the calls of `_token_parse` on the buffer of the first read return
METHOD, TARGET, VERSION, HEADER_KEY and then ERROR, so no BODY token is ever
produced, although the value is a well-formed token that the parser accepts
when its terminator arrives in the same read. -/
theorem c2_long_value_split_counterexample :
    split_first ++ split_second
        = request_bytes (str "POST") (str "/echo") (str "HTTP/1.1")
            [(str "Host", long_value), (str "content-length", str "5")] ++ str "hello"
      ∧ token_ok HS HV long_value
      ∧ (token_parse_n 5 (client_holding {} split_first)).map Prod.fst
        = some [{ index := 0, len := 4, type := HS_TOK_METHOD },
                { index := 5, len := 5, type := HS_TOK_TARGET },
                { index := 11, len := 8, type := HS_TOK_VERSION },
                { index := 21, len := 4, type := HS_TOK_HEADER_KEY },
                { type := HS_TOK_ERROR }] := by
  have hw : token_ok HS HV long_value := by
    have e : long_value = 97 :: List.replicate 8192 97 := by
      unfold long_value; exact List.replicate_succ 97 8192
    rw [e]
    exact ⟨by decide, fun d hd => by rw [List.eq_of_mem_replicate hd]; decide⟩
  have e1 : str "POST /echo HTTP/1.1\r\nHost: " = str "POST" ++ 32 :: (str "/echo" ++ 32 ::
      (str "HTTP/1.1" ++ 13 :: 10 :: (str "Host" ++ [58, 32]))) := by decide
  have e2 : split_second = 13 :: 10 :: (str "content-length" ++ 58 :: 32 :: (str "5" ++
      [13, 10, 13, 10])) ++ str "hello" := by decide
  refine ⟨?_, hw, ?_⟩
  · rw [e2]
    simp only [split_first, e1, request_bytes, header_block, header_line]
    simp [List.append_assoc]
  · have h := token_parse_long_value {} long_value hw
      (by rw [long_value, List.length_replicate]; decide) (by decide)
    have e3 : split_first = str "POST" ++ 32 :: (str "/echo" ++ 32 ::
        (str "HTTP/1.1" ++ 13 :: 10 :: (str "Host" ++ 58 :: 32 :: long_value))) := by
      simp only [split_first, e1]
      simp [List.append_assoc]
    rw [e3]
    exact h

/-- Counterexample to C20 as stated: on a response that has the body `old`
with a deleter, `iwn_http_response_body_set` called with an empty body
(`len = 0`) and another deleter returns at its first test: the body, its
length and its deleter are still those of `old`, and the deleter of `old` has
not been invoked. -/
theorem c20_empty_body_counterexample :
    (iwn_http_response_body_set client_with_body (some []) 0 (some 2)).response.body
        = some (str "old")
      ∧ (iwn_http_response_body_set client_with_body (some []) 0 (some 2)).response.body_len = 3
      ∧ (iwn_http_response_body_set client_with_body (some []) 0 (some 2)).response.body_free
        = some 1
      ∧ (iwn_http_response_body_set client_with_body (some []) 0 (some 2)).freed = [] := by
  decide

/-- C20 (amended).  For every call of `iwn_http_response_body_set` with a body
that is not the null pointer and a length other than 0, the response body
afterwards is the given body with the given deleter and the given length (the
C-string length when the length is negative), and the body set before, if
there was one with a deleter, has been handed to its deleter exactly once;
the other fields of the client are as before.  A call with the length 0 or
with the null pointer changes nothing. -/
theorem c20_body_set (cl : client) (b : List Nat) (len : Int) (del : Option Nat)
    (hlen : len ≠ 0) :
    (iwn_http_response_body_set cl (some b) len del).response.body = some b
    ∧ (iwn_http_response_body_set cl (some b) len del).response.body_len
        = (if len < 0 then strlen b else len)
    ∧ (iwn_http_response_body_set cl (some b) len del).response.body_free = del
    ∧ (iwn_http_response_body_set cl (some b) len del).freed
        = cl.freed ++ (match cl.response.body, cl.response.body_free with
            | some old, some _ => [old]
            | _, _ => [])
    ∧ (iwn_http_response_body_set cl (some b) len del).response.headers = cl.response.headers
    ∧ (iwn_http_response_body_set cl (some b) len del).response.code = cl.response.code
    ∧ (∀ d, iwn_http_response_body_set cl (some b) 0 d = cl)
    ∧ (∀ l d, iwn_http_response_body_set cl none l d = cl) := by
  refine ⟨?_, ?_, ?_, ?_, ?_, ?_, ?_, ?_⟩
  all_goals
    unfold iwn_http_response_body_set iwn_http_response_body_clear
    rcases hb : cl.response.body with _ | old <;> rcases hf : cl.response.body_free with _ | f <;>
      simp [hlen, hb, hf]

/-- Witness of C20 (amended): the body `new` set with its length 3 on a
response that has the body `old` with a deleter. -/
theorem c20_body_set_witness :
    (iwn_http_response_body_set client_with_body (some (str "new")) 3 (some 2)).response.body
        = some (str "new")
      ∧ (iwn_http_response_body_set client_with_body (some (str "new")) 3 (some 2)).freed
        = [str "old"] := by
  have h := c20_body_set client_with_body (str "new") 3 (some 2) (by decide)
  exact ⟨h.1, h.2.2.2.1⟩

theorem tolower_idem (c : Nat) : tolower (tolower c) = tolower c := by
  unfold tolower
  by_cases h : 65 ≤ c ∧ c ≤ 90
  · rw [if_pos h, if_neg (by omega)]
  · rw [if_neg h, if_neg h]

theorem strcasecmp_lower (a b : List Nat) :
    strcasecmp_eq (a.map tolower) b = strcasecmp_eq a b := by
  unfold strcasecmp_eq
  rw [List.map_map]
  have : tolower ∘ tolower = tolower := funext tolower_idem
  rw [this]

theorem strcasecmp_trans_left (a b n : List Nat) (h : strcasecmp_eq a b = true) :
    strcasecmp_eq a n = strcasecmp_eq b n := by
  unfold strcasecmp_eq at *
  rw [beq_iff_eq] at h
  rw [h]

theorem strcasecmp_trans_right (a b n : List Nat) (h : strcasecmp_eq a b = true) :
    strcasecmp_eq n a = strcasecmp_eq n b := by
  unfold strcasecmp_eq at *
  rw [beq_iff_eq] at h
  rw [h]

theorem header_replace_eq (name value : List Nat) : ∀ (l : List header),
    header_replace name value l
      = (l.findIdx? (fun h => strcasecmp_eq h.name name)).map
          (fun i => l.modify (fun h => { h with value := value }) i) := by
  intro l
  induction l with
  | nil => rfl
  | cons h t ih =>
    rw [List.findIdx?_cons, header_replace]
    by_cases hp : strcasecmp_eq h.name name = true
    · simp [hp]
    · simp only [hp, Bool.false_eq_true, if_false]
      rw [List.findIdx?_succ, ih]
      cases List.findIdx? (fun h => strcasecmp_eq h.name name) t <;> simp

theorem header_set_headers (cl : client) (name value : List Nat) :
    (iwn_http_response_header_set cl name value).response.headers
      = (header_replace name value cl.response.headers).getD
          ({ name := name.map tolower, value := value } :: cl.response.headers) := by
  rw [header_replace_eq]
  unfold iwn_http_response_header_set
  cases hf : List.findIdx? (fun h => strcasecmp_eq h.name name) cl.response.headers <;> simp [hf]

theorem header_get_value (cl : client) (n : List Nat) :
    iwn_http_response_header_get cl n
      = match (cl.response.headers.find? (fun h => strcasecmp_eq h.name n)).map (fun h => h.value) with
        | some v => { buf := some v, len := strlen v }
        | none => {} := by
  unfold iwn_http_response_header_get
  cases cl.response.headers.find? (fun h => strcasecmp_eq h.name n) <;> rfl

theorem header_replace_names (name value : List Nat) : ∀ (l r : List header),
    header_replace name value l = some r → r.map (fun h => h.name) = l.map (fun h => h.name) := by
  intro l
  induction l with
  | nil => intro r h; simp [header_replace] at h
  | cons a t ih =>
    intro r h
    rw [header_replace] at h
    by_cases hp : strcasecmp_eq a.name name = true
    · simp only [hp, if_true, Option.some.injEq] at h
      rw [← h]; rfl
    · simp only [hp, Bool.false_eq_true, if_false] at h
      cases hr : header_replace name value t with
      | none => rw [hr] at h; simp at h
      | some r1 =>
        rw [hr] at h
        simp only [Option.map_some', Option.some.injEq] at h
        rw [← h]
        simp only [List.map_cons]
        rw [ih r1 hr]

theorem header_replace_none (name value : List Nat) : ∀ (l : List header),
    header_replace name value l = none ↔ ∀ h ∈ l, strcasecmp_eq h.name name = false := by
  intro l
  induction l with
  | nil => simp [header_replace]
  | cons a t ih =>
    rw [header_replace]
    by_cases hp : strcasecmp_eq a.name name = true
    · simp [hp]
    · simp only [hp, Bool.false_eq_true, if_false, Option.map_eq_none', ih]
      simp [hp]

theorem header_replace_find_same (name value n : List Nat) (hn : strcasecmp_eq name n = true) :
    ∀ (l r : List header), header_replace name value l = some r →
      (r.find? (fun h => strcasecmp_eq h.name n)).map (fun h => h.value) = some value := by
  intro l
  induction l with
  | nil => intro r h; simp [header_replace] at h
  | cons a t ih =>
    intro r h
    rw [header_replace] at h
    have e : strcasecmp_eq a.name n = strcasecmp_eq a.name name :=
      (strcasecmp_trans_right name n a.name hn).symm
    by_cases hp : strcasecmp_eq a.name name = true
    · simp only [hp, if_true, Option.some.injEq] at h
      rw [← h]
      simp [List.find?_cons, e, hp]
    · simp only [hp, Bool.false_eq_true, if_false] at h
      cases hr : header_replace name value t with
      | none => rw [hr] at h; simp at h
      | some r1 =>
        rw [hr] at h
        simp only [Option.map_some', Option.some.injEq] at h
        rw [← h]
        have hp1 : strcasecmp_eq a.name n = false := by rw [e]; simpa using hp
        simp only [List.find?_cons, hp1]
        exact ih r1 hr

theorem header_replace_find_other (name value n : List Nat) (hn : strcasecmp_eq name n = false) :
    ∀ (l r : List header), header_replace name value l = some r →
      (r.find? (fun h => strcasecmp_eq h.name n)).map (fun h => h.value)
        = (l.find? (fun h => strcasecmp_eq h.name n)).map (fun h => h.value) := by
  intro l
  induction l with
  | nil => intro r h; simp [header_replace] at h
  | cons a t ih =>
    intro r h
    rw [header_replace] at h
    by_cases hp : strcasecmp_eq a.name name = true
    · simp only [hp, if_true, Option.some.injEq] at h
      rw [← h]
      have e : strcasecmp_eq a.name n = false := by
        rw [strcasecmp_trans_left a.name name n hp]; exact hn
      simp [List.find?_cons, e]
    · simp only [hp, Bool.false_eq_true, if_false] at h
      cases hr : header_replace name value t with
      | none => rw [hr] at h; simp at h
      | some r1 =>
        rw [hr] at h
        simp only [Option.map_some', Option.some.injEq] at h
        rw [← h]
        simp only [List.find?_cons]
        cases strcasecmp_eq a.name n
        · exact ih r1 hr
        · rfl

theorem headers_distinct_names (l r : List header)
    (h : r.map (fun h => h.name) = l.map (fun h => h.name)) (hd : headers_distinct l) :
    headers_distinct r := by
  unfold headers_distinct at *
  have e : ∀ (x : List header),
      x.Pairwise (fun a b => strcasecmp_eq a.name b.name = false)
        ↔ (x.map (fun h => h.name)).Pairwise (fun a b => strcasecmp_eq a b = false) := by
    intro x
    rw [List.pairwise_map]
  rw [e] at hd ⊢
  rw [h]
  exact hd

/-- C19.  The response header list is a case-insensitive map.  Let the stored
headers have names that are pairwise different ignoring case.  After
`iwn_http_response_header_set(name, value)`: `iwn_http_response_header_get(n)`
is a view of `value` for every `n` equal to `name` ignoring ASCII case; if a
header with such a name existed, the names of the list, their number and their
order are unchanged; otherwise the list is the old one with one header put in
front whose name is `name` with A-Z lowercased; for every `n` that differs
from `name` also ignoring case the lookup returns what it returned before; and
the stored names are again pairwise different ignoring case. -/
theorem c19_header_map (cl : client) (name value : List Nat)
    (hd : headers_distinct cl.response.headers) :
    (∀ n, strcasecmp_eq name n = true →
        iwn_http_response_header_get (iwn_http_response_header_set cl name value) n
          = { buf := some value, len := strlen value })
    ∧ ((∃ h ∈ cl.response.headers, strcasecmp_eq h.name name = true) →
        (iwn_http_response_header_set cl name value).response.headers.map (fun h => h.name)
          = cl.response.headers.map (fun h => h.name))
    ∧ ((∀ h ∈ cl.response.headers, strcasecmp_eq h.name name = false) →
        (iwn_http_response_header_set cl name value).response.headers
          = { name := name.map tolower, value := value } :: cl.response.headers)
    ∧ (∀ n, strcasecmp_eq name n = false →
        iwn_http_response_header_get (iwn_http_response_header_set cl name value) n
          = iwn_http_response_header_get cl n)
    ∧ headers_distinct (iwn_http_response_header_set cl name value).response.headers := by
  have hset := header_set_headers cl name value
  cases hr : header_replace name value cl.response.headers with
  | some r =>
    rw [hr] at hset
    simp only [Option.getD_some] at hset
    have hnames := header_replace_names name value _ r hr
    have hex : ¬ ∀ h ∈ cl.response.headers, strcasecmp_eq h.name name = false := by
      rw [← header_replace_none name value]; rw [hr]; simp
    refine ⟨?_, ?_, ?_, ?_, ?_⟩
    · intro n hn
      rw [header_get_value, hset, header_replace_find_same name value n hn _ r hr]
    · intro _; rw [hset]; exact hnames
    · intro hall; exact absurd hall hex
    · intro n hn
      rw [header_get_value, header_get_value cl n, hset,
        header_replace_find_other name value n hn _ r hr]
    · rw [hset]; exact headers_distinct_names _ _ hnames hd
  | none =>
    rw [hr] at hset
    simp only [Option.getD_none] at hset
    have hall := (header_replace_none name value _).1 hr
    refine ⟨?_, ?_, ?_, ?_, ?_⟩
    · intro n hn
      have e : strcasecmp_eq (name.map tolower) n = true := by rw [strcasecmp_lower]; exact hn
      rw [header_get_value, hset]
      simp [List.find?_cons, e]
    · rintro ⟨h, hm, hh⟩
      rw [hall h hm] at hh
      exact absurd hh (by simp)
    · intro _; exact hset
    · intro n hn
      have e : strcasecmp_eq (name.map tolower) n = false := by rw [strcasecmp_lower]; exact hn
      rw [header_get_value, header_get_value cl n, hset]
      simp [List.find?_cons, e]
    · rw [hset]
      unfold headers_distinct at *
      rw [List.pairwise_cons]
      refine ⟨?_, hd⟩
      intro b hb
      show strcasecmp_eq (name.map tolower) b.name = false
      rw [strcasecmp_lower]
      have hb1 := hall b hb
      unfold strcasecmp_eq at *
      simp only [beq_eq_false_iff_ne, ne_eq] at hb1 ⊢
      exact fun h => hb1 h.symm

/-- Witness of C19: `Content-Type` set to `text/html` on a response that has
the headers `content-type: text/plain` and `x-id: 1`. -/
theorem c19_header_map_witness :
    headers_distinct client_with_headers.response.headers
    ∧ iwn_http_response_header_get
        (iwn_http_response_header_set client_with_headers (str "Content-Type") (str "text/html"))
        (str "CONTENT-TYPE") = { buf := some (str "text/html"), len := 9 }
    ∧ (iwn_http_response_header_set client_with_headers (str "Content-Type")
        (str "text/html")).response.headers.map (fun h => h.name)
        = [str "content-type", str "x-id"] :=
  ⟨by decide,
   (c19_header_map client_with_headers (str "Content-Type") (str "text/html") (by decide)).1
     (str "CONTENT-TYPE") (by decide),
   (c19_header_map client_with_headers (str "Content-Type") (str "text/html")
     (by decide)).2.1 ⟨_, List.mem_cons_self _ _, by decide⟩⟩

/-- C18 (code defect).  For the chunked upload of scenario 3, in the state in
which the handler is called (8 tokens, the last one BODY_STREAM), the first
two calls of `iwn_http_request_headers_iterate` yield `Host: x` and
`transfer-encoding: chunked`; the third call does not return false: it takes
the BODY_STREAM token for a header name, reads entry 8 of the token array,
which is outside the first `tokens.size` entries, for its value, and returns
true.  For the request `GET /host` with two headers, whose body is delivered
as BODY, the third call returns false. -/
theorem c18_iterate_past_body_stream :
    (on_event no_callbacks example_env
        (client_accepted {} { input := [io_result.bytes chunked_request] })).map
      (fun cl => (cl.state, cl.tokens.size, (tokens_at cl.tokens 7).type))
      = some (HTTP_SESSION_NOP, 8, HS_TOK_BODY_STREAM)
    ∧ (on_event no_callbacks example_env
        (client_accepted {} { input := [io_result.bytes chunked_request] })).map
      (fun cl => headers_iterate_calls cl 3 0)
      = some [(true, str "Host", str "x", 4), (true, str "transfer-encoding", str "chunked", 6),
           (true, [], [], 8)]
    ∧ (on_event no_callbacks example_env
        (client_accepted {} { input := [io_result.bytes host_request] })).map
      (fun cl => (cl.state, cl.tokens.size, (tokens_at cl.tokens 7).type))
      = some (HTTP_SESSION_NOP, 8, HS_TOK_BODY)
    ∧ (on_event no_callbacks example_env
        (client_accepted {} { input := [io_result.bytes host_request] })).map
      (fun cl => headers_iterate_calls cl 3 0)
      = some [(true, str "From", str "a", 4), (true, str "Host", str "x", 6),
           (false, [], [], 7)] := by
  refine ⟨?_, ?_, ?_, ?_⟩ <;> decide

/-- C15 (code defect).  With the default `request_buf_max_size = 8388608` and a
request head of 57 bytes, `R = 8388551`.  For the Content-Length `R + 1` the
parser returns the seven tokens of the head and then no token: no
BODY_STREAM is emitted, the meta FSM is in `M_BDY` (the BODY path, SMALL) and
waits for 8388552 body bytes, one more than the buffer can ever hold after the
head.  `_stream_can_contain` tests `max - index + 1 >= size` with the cursor on
the LF of the blank line; BODY_STREAM appears only from `R + 3` on. -/
theorem c15_small_exceeds_buffer :
    over_room_request.length = 57
    ∧ (token_parse_n 8 (client_holding {} over_room_request)).map
        (fun r => (r.1.map (fun tok => tok.type), r.2.parser.meta, r.2.parser.content_length))
      = some ([HS_TOK_METHOD, HS_TOK_TARGET, HS_TOK_VERSION, HS_TOK_HEADER_KEY, HS_TOK_HEADER_VAL,
          HS_TOK_HEADER_KEY, HS_TOK_HEADER_VAL, HS_TOK_NONE], M_BDY, 8388552)
    ∧ (token_parse_n 8 (client_holding {} stream_room_request)).map
        (fun r => (r.1.map (fun tok => tok.type), r.2.parser.meta, r.2.parser.content_length))
      = some ([HS_TOK_METHOD, HS_TOK_TARGET, HS_TOK_VERSION, HS_TOK_HEADER_KEY, HS_TOK_HEADER_VAL,
          HS_TOK_HEADER_KEY, HS_TOK_HEADER_VAL, HS_TOK_BODY_STREAM], M_STR, 8388554) := by
  refine ⟨?_, ?_, ?_⟩ <;> decide

theorem read_bytes_wide (bs : List Nat) (hlen : bs.length = 2097152) :
    (_client_read_bytes (client_accepted { spec := wide_spec }
        { input := [io_result.bytes bs] })).map
      (fun r => (r.1, r.2.stream.length, r.2.stream.capacity))
      = some (false, 2097152, 1048576) := by
  have h1 : input_size { input := [io_result.bytes bs] } + 2 = 2097153 + 1 + 1 := by
    simp [input_size, hlen]
  unfold _client_read_bytes
  simp only [client_accepted]
  rw [if_neg (by decide)]
  simp only [h1]
  rw [client_read_bytes_loop]
  simp [pa_read, hlen, wide_spec]
  rw [client_read_bytes_loop]
  simp [pa_read, hlen, wide_spec]

/-- C16 (code defect).  The configuration with `request_buf_size = 2 MiB` and
`request_buf_max_size = 1 MiB` is accepted by `iwn_http_server_create` as it
is.  On a connection of that server the first call of `_client_read_bytes`
allocates a buffer of 2 MiB, so after a read of 20 bytes the capacity,
2097152, exceeds `request_buf_max_size`; and after a read of 2 MiB, which
fills the buffer, the capacity is cut to `request_buf_max_size = 1048576`
while the length stays 2097152: the length exceeds the capacity. -/
theorem c16_buffer_over_max :
    iwn_http_server_create wide_spec = wide_spec
    ∧ (_client_read_bytes (client_accepted { spec := iwn_http_server_create wide_spec }
        { input := [io_result.bytes (List.replicate 20 65)] })).map
      (fun r => (r.1, r.2.stream.length, r.2.stream.capacity,
        r.2.server.spec.request_buf_max_size))
      = some (true, 20, 2097152, 1048576)
    ∧ (_client_read_bytes (client_accepted { spec := iwn_http_server_create wide_spec }
        { input := [io_result.bytes wide_input] })).map
      (fun r => (r.1, r.2.stream.length, r.2.stream.capacity))
      = some (false, 2097152, 1048576) := by
  have e : iwn_http_server_create wide_spec = wide_spec := by decide
  refine ⟨e, ?_, ?_⟩
  · decide
  · rw [e]
    exact read_bytes_wide wide_input (by rw [wide_input, List.length_replicate])

theorem long_value_ok : token_ok HS HV long_value := by
  have e : long_value = 97 :: List.replicate 8192 97 := by
    unfold long_value; exact List.replicate_succ 97 8192
  rw [e]
  exact ⟨by decide, fun d hd => by rw [List.eq_of_mem_replicate hd]; decide⟩

/-- C13 (code defect).  With the default `request_token_max_len = 8192`, the
request `GET /empty HTTP/1.1` whose header `Host` has a value of 8193 bytes,
held whole in the read buffer, is parsed without ERROR: seven calls of
`_token_parse` return METHOD, TARGET, VERSION, HEADER_KEY, a HEADER_VAL of
8193 bytes, BODY and REQ_END.  The same value is answered with ERROR when
the read ends with its last byte: the length of a token is tested only when
the buffer runs out. -/
theorem c13_long_token_accepted :
    ((str "Host", long_value).2.length : Int) = ({} : server).spec.request_token_max_len + 1
    ∧ (token_parse_n 7 (client_holding {} long_value_request)).map Prod.fst
      = some [{ index := 0, len := 3, type := HS_TOK_METHOD },
              { index := 4, len := 6, type := HS_TOK_TARGET },
              { index := 11, len := 8, type := HS_TOK_VERSION },
              { index := 21, len := 4, type := HS_TOK_HEADER_KEY },
              { index := 27, len := 8193, type := HS_TOK_HEADER_VAL },
              { index := 0, len := 0, type := HS_TOK_BODY },
              { index := 0, len := 0, type := HS_TOK_REQ_END }]
    ∧ (token_parse_n 5 (client_holding {} (str "POST" ++ 32 :: (str "/echo" ++ 32 ::
        (str "HTTP/1.1" ++ 13 :: 10 :: (str "Host" ++ 58 :: 32 :: long_value)))))).map
          (fun r => r.1.map (fun tok => tok.type))
      = some [HS_TOK_METHOD, HS_TOK_TARGET, HS_TOK_VERSION, HS_TOK_HEADER_KEY, HS_TOK_ERROR] := by
  refine ⟨?_, ?_, ?_⟩
  · show ((long_value.length : Nat) : Int) = _
    rw [long_value, List.length_replicate]; decide
  · have h := request_head_tokens {} (str "GET") (str "/empty") (str "HTTP/1.1")
      [(str "Host", long_value)] (by decide) (by decide) (by decide)
      (by
        intro h hh
        rw [List.mem_singleton] at hh
        subst hh
        exact ⟨by decide, by decide, by decide, long_value_ok⟩)
      (by decide) (by decide)
    have e : 2 * [(str "Host", long_value)].length + 5 = 7 := rfl
    rw [e] at h
    rw [long_value_request, h]
    have hl : (long_value.length : Int) = 8193 := by
      rw [long_value, List.length_replicate]; rfl
    simp [request_tokens, header_tokens, hl]
    decide
  · have h := token_parse_long_value {} long_value long_value_ok
      (by rw [long_value, List.length_replicate]; decide) (by decide)
    rw [Option.map_eq_some'] at h
    obtain ⟨r, hr, hr1⟩ := h
    rw [hr]
    simp only [Option.map_some', hr1]
    rfl

theorem head_meta_quiet (m : meta_state_e) (h : head_meta m) : meta_quiet m := by
  unfold head_meta at h
  rcases h with h | h | h | h | h | h | h | h | h | h <;> rw [h] <;> decide

theorem head_meta_step (m : meta_state_e) (ev : Nat) (hev : ev ≤ 3) (h : head_meta m) :
    head_meta (meta_transitions_at m ev) := by
  have hev1 : ev = 0 ∨ ev = 1 ∨ ev = 2 ∨ ev = 3 := by omega
  unfold head_meta at h
  rcases hev1 with rfl | rfl | rfl | rfl <;>
    rcases h with h | h | h | h | h | h | h | h | h | h <;> rw [h] <;> decide

theorem transition_hk_head (p : parser) (c : Nat) (h : head_meta p.meta) :
    head_meta (_transition_hk p c).meta := by
  have e : (_transition_hk p c).meta = (MATCH (str "content-length") HS_META_NOT_CONTENT_LEN c
      (MATCH (str "transfer-encoding") HS_META_NOT_TRANSFER_ENC c (0, p))).2.meta := rfl
  rw [e]
  have h1 := MATCH_meta (str "transfer-encoding") HS_META_NOT_TRANSFER_ENC c (0, p)
  have h2 := MATCH_meta (str "content-length") HS_META_NOT_CONTENT_LEN c
    (MATCH (str "transfer-encoding") HS_META_NOT_TRANSFER_ENC c (0, p))
  generalize MATCH (str "transfer-encoding") HS_META_NOT_TRANSFER_ENC c (0, p) = x at h1 h2 ⊢
  generalize MATCH (str "content-length") HS_META_NOT_CONTENT_LEN c x = y at h2 ⊢
  simp only at h1 h2 ⊢
  have hx : head_meta x.2.meta := by
    rcases h1 with h1 | h1 <;> rw [h1]
    · exact h
    · exact head_meta_step _ _ (by decide) h
  rcases h2 with h2 | h2 <;> rw [h2]
  · exact hx
  · exact head_meta_step _ _ (by decide) hx

theorem foldl_hk_head (seg : List Nat) : ∀ (p : parser), head_meta p.meta →
    head_meta (seg.foldl _transition_hk p).meta := by
  induction seg with
  | nil => intro p h; simpa using h
  | cons a l ih => intro p h; simpa using ih _ (transition_hk_head p a h)

/-- The run of a header name and the colon that ends it, from any meta state
of the request head. -/
theorem head_run_key_any (spec : iwn_http_server_spec) (S0 : state_e) (hS : S0 = RN ∨ S0 = HE)
    (m : meta_state_e) (hm : head_meta m) (hc N : Int) (n : Nat) (key : List Nat)
    (hw : token_ok RN HK key)
    (hq : toInt16 (hc + 1) ≤ spec.request_max_header_count)
    (hlen : (key.length : Int) ≤ spec.request_token_max_len) :
    head_run spec (psl S0 m hc N) n {} (key ++ [58])
      [{ index := n, len := key.length, type := HS_TOK_HEADER_KEY }]
      (psl HS (key_meta m key) (toInt16 (hc + 1)) N) {} := by
  cases key with
  | nil => exact absurd hw (by simp [token_ok])
  | cons first seg =>
    obtain ⟨h1, h2⟩ := hw
    have hl1 : (((first :: seg).length : Nat) : Int) = (seg.length : Int) + 1 := by simp
    rw [hl1] at hlen ⊢
    have h0 : (0 : Int) ≤ spec.request_token_max_len := by omega
    have hfirst : accepts S0 HK first := by
      rcases hS with rfl | rfl
      · exact h1
      · exact accepts_HE_of_RN first h1
    have hq0 : meta_quiet m := head_meta_quiet m hm
    have hS0cb : S0 ≠ CB := by rcases hS with rfl | rfl <;> simp
    obtain ⟨P0, hP0⟩ : ∃ P0 : parser, P0 = { content_length := N, header_count := toInt16 (hc + 1), state := HK, meta := m } := ⟨_, rfl⟩
    have hP0m : P0.meta = m := by rw [hP0]
    have hP0i : P0.match_index = 0 := by rw [hP0]
    have hP0h : P0.header_count = toInt16 (hc + 1) := by rw [hP0]
    have hP0c : P0.content_length = N := by rw [hP0]
    have hP0b : P0.body_consumed = 0 := by rw [hP0]
    have hP0s : P0.state = HK := by rw [hP0]
    have hupd : ∀ (p : parser) (c : Nat),
        (p.state = HK ∧ p.header_count = toInt16 (hc + 1) ∧ p.content_length = N
          ∧ p.body_consumed = 0 ∧ head_meta p.meta) →
        ((_transition_hk p c).state = HK ∧ (_transition_hk p c).header_count = toInt16 (hc + 1)
          ∧ (_transition_hk p c).content_length = N ∧ (_transition_hk p c).body_consumed = 0
          ∧ head_meta (_transition_hk p c).meta) := by
      rintro p c ⟨a1, a2, a3, a4, a5⟩
      obtain ⟨f1, f2, f3, f4⟩ := transition_hk_fields p c
      exact ⟨by rw [f1, a1], by rw [f2, a2], by rw [f3, a3], by rw [f4, a4],
        transition_hk_head p c a5⟩
    have hIb := hupd P0 first ⟨hP0s, hP0h, hP0c, hP0b, by rw [hP0m]; exact hm⟩
    have hfold : ∀ (l : List Nat) (q : parser),
        (q.state = HK ∧ q.header_count = toInt16 (hc + 1) ∧ q.content_length = N
          ∧ q.body_consumed = 0 ∧ head_meta q.meta) →
        ((l.foldl _transition_hk q).state = HK
          ∧ (l.foldl _transition_hk q).header_count = toInt16 (hc + 1)
          ∧ (l.foldl _transition_hk q).content_length = N
          ∧ (l.foldl _transition_hk q).body_consumed = 0
          ∧ head_meta (l.foldl _transition_hk q).meta) := by
      intro l
      induction l with
      | nil => intro q hq; simpa using hq
      | cons a l ih => intro q hq; simpa using ih _ (hupd q a hq)
    obtain ⟨e1, e2, e3, e4, e5⟩ := hfold seg _ hIb
    have hend : meta_transitions_at (seg.foldl _transition_hk (_transition_hk P0 first)).meta
        HS_META_END_KEY = key_meta m (first :: seg) := by
      unfold key_meta
      simp only [List.foldl_cons]
      obtain ⟨c1, c2⟩ := transition_hk_congr first P0 { meta := m } hP0m hP0i
      rw [foldl_hk_congr seg _ _ c1 c2]
    have hq1 : meta_quiet (key_meta m (first :: seg)) := by
      rw [← hend]
      exact head_meta_quiet _ (head_meta_step _ _ (by decide) e5)
    have hpe : ({ seg.foldl _transition_hk (_transition_hk P0 first) with
        state := HS, match_index := 0,
        meta := meta_transitions_at (seg.foldl _transition_hk (_transition_hk P0 first)).meta
          HS_META_END_KEY } : parser) = psl HS (key_meta m (first :: seg)) (toInt16 (hc + 1)) N := by
      rw [hend]
      exact psl_of_fields _ HS _ _ N e2 e3 e4
    have key := head_run_token spec HK HS HS_TOK_HEADER_KEY (by simp) (by simp [plain_token])
      (by simp)
      (fun p c => _transition_hk
        { p with state := HK, header_count := toInt16 (p.header_count + 1), match_index := 0 } c)
      _transition_hk
      (fun p => { p with state := HS, match_index := 0,
                         meta := meta_transitions_at p.meta HS_META_END_KEY })
      (fun p => p.state = HK ∧ p.header_count = toInt16 (hc + 1) ∧ p.content_length = N
          ∧ p.body_consumed = 0 ∧ head_meta p.meta)
      (fun p hp => by
        obtain ⟨a1, -, -, -, a5⟩ := hp
        have := head_meta_quiet _ a5
        exact ⟨a1, this.1, this.2⟩)
      hupd
      (psl S0 m hc N) n first seg 58
      (fun cl0 hspec => step_HK_begin S0 hS cl0 _ n first rfl hfirst (by rw [hspec]; exact hq))
      (fun cl0 p n tok c hs hc ht => step_HK_stay cl0 p n tok c hs hc ht)
      (fun cl0 p n tok c hs hc _ => step_HK_HS cl0 p n tok c hs hc)
      (rest_ok_psl spec S0 m hc N hq0 hS0cb h0) (by rw [hP0] at hIb; exact hIb)
      (by
        have := rest_ok_psl spec HS (key_meta m (first :: seg)) (toInt16 (hc + 1)) N hq1
          (by simp) h0
        rw [← hpe, hP0] at this
        exact this)
      h2 (by decide) hlen
    rw [← hpe, hP0]
    exact key

theorem transition_hv_fields (p : parser) (c : Nat) :
    (_transition_hv p c).state = p.state
    ∧ (_transition_hv p c).header_count = p.header_count
    ∧ (_transition_hv p c).body_consumed = p.body_consumed := by
  unfold _transition_hv
  split_ifs
  · have h := MATCH_fields (str "chunked") HS_META_NOT_CHUNKED c (0, p)
    exact ⟨h.1, h.2.1, h.2.2.2.1⟩
  · exact ⟨rfl, rfl, rfl⟩
  · exact ⟨rfl, rfl, rfl⟩

theorem transition_hv_head (p : parser) (c : Nat) (h : head_meta p.meta) :
    head_meta (_transition_hv p c).meta := by
  unfold _transition_hv
  split_ifs
  · have h1 := MATCH_meta (str "chunked") HS_META_NOT_CHUNKED c (0, p)
    simp only at h1 ⊢
    rcases h1 with h1 | h1 <;> rw [h1]
    · exact h
    · exact head_meta_step _ _ (by decide) h
  · exact h
  · exact h

theorem transition_hv_congr (c : Nat) (p q : parser)
    (h1 : p.meta = q.meta) (h2 : p.match_index = q.match_index) :
    (_transition_hv p c).meta = (_transition_hv q c).meta
    ∧ (_transition_hv p c).match_index = (_transition_hv q c).match_index
    ∧ (p.content_length = q.content_length →
        (_transition_hv p c).content_length = (_transition_hv q c).content_length) := by
  unfold _transition_hv
  by_cases hk : p.meta = M_MCK
  · have hk2 : q.meta = M_MCK := by rw [← h1]; exact hk
    rw [if_pos hk, if_pos hk2]
    obtain ⟨-, a2, a3⟩ := MATCH_congr (str "chunked") HS_META_NOT_CHUNKED c 0 p q h1 h2
    have f1 := MATCH_fields (str "chunked") HS_META_NOT_CHUNKED c (0, p)
    have f2 := MATCH_fields (str "chunked") HS_META_NOT_CHUNKED c (0, q)
    simp only at f1 f2 ⊢
    refine ⟨a2, by rw [a3], ?_⟩
    intro h3
    rw [f1.2.2.1, f2.2.2.1, h3]
  · have hk2 : ¬ q.meta = M_MCK := by rw [← h1]; exact hk
    rw [if_neg hk, if_neg hk2]
    by_cases hl : p.meta = M_CLV
    · have hl2 : q.meta = M_CLV := by rw [← h1]; exact hl
      rw [if_pos hl, if_pos hl2]
      refine ⟨h1, h2, ?_⟩
      intro h3
      simp only [h3]
    · have hl2 : ¬ q.meta = M_CLV := by rw [← h1]; exact hl
      rw [if_neg hl, if_neg hl2]
      exact ⟨h1, h2, fun h3 => h3⟩

theorem foldl_hv_congr (seg : List Nat) : ∀ (p q : parser),
    p.meta = q.meta → p.match_index = q.match_index →
    (seg.foldl _transition_hv p).meta = (seg.foldl _transition_hv q).meta
    ∧ (p.content_length = q.content_length →
        (seg.foldl _transition_hv p).content_length
          = (seg.foldl _transition_hv q).content_length) := by
  induction seg with
  | nil => intro p q h1 _; exact ⟨by simpa using h1, fun h3 => by simpa using h3⟩
  | cons a l ih =>
    intro p q h1 h2
    obtain ⟨c1, c2, c3⟩ := transition_hv_congr a p q h1 h2
    obtain ⟨d1, d2⟩ := ih _ _ c1 c2
    exact ⟨by simpa using d1, fun h3 => by simpa using d2 (c3 h3)⟩

/-- The run of a header value and the CR that ends it, from any meta state of
the request head. -/
theorem head_run_value_any (spec : iwn_http_server_spec)
    (m : meta_state_e) (hm : head_meta m) (hc N : Int) (n : Nat) (w : List Nat)
    (term : Nat) (hw : token_ok HS HV w) (ht : accepts HV HR term)
    (hlen : (w.length : Int) ≤ spec.request_token_max_len) :
    head_run spec (psl HS m hc N) n {} (w ++ [term])
      [{ index := n, len := w.length, type := HS_TOK_HEADER_VAL }]
      (psl HR (value_meta m w) hc (value_length m N w)) {} := by
  cases w with
  | nil => exact absurd hw (by simp [token_ok])
  | cons first seg =>
    obtain ⟨h1, h2⟩ := hw
    have hl1 : (((first :: seg).length : Nat) : Int) = (seg.length : Int) + 1 := by simp
    rw [hl1] at hlen ⊢
    have h0 : (0 : Int) ≤ spec.request_token_max_len := by omega
    have hq : meta_quiet m := head_meta_quiet m hm
    obtain ⟨P0, hP0⟩ : ∃ P0 : parser, P0 = { psl HS m hc N with state := HV, match_index := 0 } :=
      ⟨_, rfl⟩
    have hupd : ∀ (p : parser) (c : Nat),
        (p.state = HV ∧ p.header_count = hc ∧ p.body_consumed = 0 ∧ head_meta p.meta) →
        ((_transition_hv p c).state = HV ∧ (_transition_hv p c).header_count = hc
          ∧ (_transition_hv p c).body_consumed = 0 ∧ head_meta (_transition_hv p c).meta) := by
      rintro p c ⟨a1, a2, a3, a4⟩
      obtain ⟨f1, f2, f3⟩ := transition_hv_fields p c
      exact ⟨by rw [f1, a1], by rw [f2, a2], by rw [f3, a3], transition_hv_head p c a4⟩
    have hIb := hupd P0 first ⟨by rw [hP0], by rw [hP0]; rfl, by rw [hP0]; rfl,
      by rw [hP0]; exact hm⟩
    have hfold : ∀ (l : List Nat) (q : parser),
        (q.state = HV ∧ q.header_count = hc ∧ q.body_consumed = 0 ∧ head_meta q.meta) →
        ((l.foldl _transition_hv q).state = HV ∧ (l.foldl _transition_hv q).header_count = hc
          ∧ (l.foldl _transition_hv q).body_consumed = 0
          ∧ head_meta (l.foldl _transition_hv q).meta) := by
      intro l
      induction l with
      | nil => intro q hq; simpa using hq
      | cons a l ih => intro q hq; simpa using ih _ (hupd q a hq)
    obtain ⟨e1, e2, e3, e4⟩ := hfold seg _ hIb
    obtain ⟨c1, c2⟩ := foldl_hv_congr (first :: seg) P0 { meta := m, content_length := N }
      (by rw [hP0]; rfl) (by rw [hP0])
    have c2 := c2 (by rw [hP0]; rfl)
    obtain ⟨d1, -⟩ := foldl_hv_congr (first :: seg) P0 { meta := m }
      (by rw [hP0]; rfl) (by rw [hP0])
    simp only [List.foldl_cons] at c1 c2 d1
    have hend : meta_transitions_at (seg.foldl _transition_hv (_transition_hv P0 first)).meta
        HS_META_END_VALUE = value_meta m (first :: seg) := by
      unfold value_meta
      simp only [List.foldl_cons]
      rw [d1]
    have hlenv : (seg.foldl _transition_hv (_transition_hv P0 first)).content_length
        = value_length m N (first :: seg) := by
      unfold value_length
      simp only [List.foldl_cons]
      exact c2
    have hq1 : meta_quiet (value_meta m (first :: seg)) := by
      rw [← hend]
      exact head_meta_quiet _ (head_meta_step _ _ (by decide) e4)
    have hpe : ({ seg.foldl _transition_hv (_transition_hv P0 first) with
        state := HR, match_index := 0,
        meta := meta_transitions_at (seg.foldl _transition_hv (_transition_hv P0 first)).meta
          HS_META_END_VALUE } : parser)
        = psl HR (value_meta m (first :: seg)) hc (value_length m N (first :: seg)) := by
      rw [hend]
      exact psl_of_fields _ HR _ _ _ e2 hlenv e3
    have key := head_run_token spec HV HR HS_TOK_HEADER_VAL (by simp) (by simp [plain_token])
      (by simp)
      (fun p c => _transition_hv { p with state := HV, match_index := 0 } c) _transition_hv
      (fun p => { p with state := HR, match_index := 0,
                         meta := meta_transitions_at p.meta HS_META_END_VALUE })
      (fun p => p.state = HV ∧ p.header_count = hc ∧ p.body_consumed = 0 ∧ head_meta p.meta)
      (fun p hp => by
        obtain ⟨a1, -, -, a4⟩ := hp
        have := head_meta_quiet _ a4
        exact ⟨a1, this.1, this.2⟩)
      hupd
      (psl HS m hc N) n first seg term
      (fun cl0 _ => step_HV_begin cl0 _ n first rfl h1)
      (fun cl0 p n tok c hs hc ht => step_HV_stay cl0 p n tok c hs hc ht)
      (fun cl0 p n tok c hs hc _ => step_emit_cr HV HR (by simp) cl0 p n tok c hs hc)
      (rest_ok_psl spec HS m hc N hq (by simp) h0) (by rw [hP0] at hIb; exact hIb)
      (by
        have := rest_ok_psl spec HR (value_meta m (first :: seg)) hc
          (value_length m N (first :: seg)) hq1 (by simp) h0
        rw [← hpe, hP0] at this
        exact this)
      h2 ht hlen
    rw [← hpe, hP0]
    exact key

theorem key_meta_head (m : meta_state_e) (key : List Nat) (h : head_meta m) :
    head_meta (key_meta m key) :=
  head_meta_step _ _ (by decide) (foldl_hk_head key _ h)

theorem foldl_hv_head (seg : List Nat) : ∀ (p : parser), head_meta p.meta →
    head_meta (seg.foldl _transition_hv p).meta := by
  induction seg with
  | nil => intro p h; simpa using h
  | cons a l ih => intro p h; simpa using ih _ (transition_hv_head p a h)

theorem value_meta_head (m : meta_state_e) (w : List Nat) (h : head_meta m) :
    head_meta (value_meta m w) :=
  head_meta_step _ _ (by decide) (foldl_hv_head w _ h)

theorem line_meta_head (m : meta_state_e) (h : List Nat × List Nat) (hm : head_meta m) :
    head_meta (line_meta m h) :=
  value_meta_head _ _ (key_meta_head _ _ hm)

theorem block_state_head (hs : List (List Nat × List Nat)) : ∀ (m : meta_state_e) (N : Int),
    head_meta m → head_meta (block_state m N hs).1 := by
  induction hs with
  | nil => intro m N h; exact h
  | cons h hs ih => intro m N hm; exact ih _ _ (line_meta_head m h hm)

theorem toInt16_id (x : Int) (h1 : -32768 ≤ x) (h2 : x ≤ 32767) : toInt16 x = x := by
  unfold toInt16
  omega

/-- The run of one header line, from the first byte of the name to the LF,
from any meta state of the request head. -/
theorem head_run_line_any (spec : iwn_http_server_spec) (S0 : state_e) (hS : S0 = RN ∨ S0 = HE)
    (m : meta_state_e) (hm : head_meta m) (hc N : Int) (n : Nat)
    (h : List Nat × List Nat) (hok : line_valid spec h)
    (hq : toInt16 (hc + 1) ≤ spec.request_max_header_count) :
    head_run spec (psl S0 m hc N) n {} (header_line h) (header_tokens n [h])
      (psl HE (line_meta m h) (toInt16 (hc + 1)) (line_length m N h)) {} := by
  obtain ⟨hk, hv, lk, lv⟩ := hok
  have h0 : (0 : Int) ≤ spec.request_token_max_len := by
    have : (0 : Int) ≤ h.1.length := Int.natCast_nonneg _
    omega
  have hm1 : head_meta (key_meta m h.1) := key_meta_head m h.1 hm
  have hm2 : head_meta (line_meta m h) := line_meta_head m h hm
  have r1 := head_run_key_any spec S0 hS m hm hc N n h.1 hk hq lk
  have r2 := head_run_space spec (key_meta m h.1) (toInt16 (hc + 1)) N
    (n + (h.1 ++ [58]).length) 32 (head_meta_quiet _ hm1) (by decide) h0
  have r3 := head_run_value_any spec (key_meta m h.1) hm1 (toInt16 (hc + 1)) N
    (n + (h.1 ++ [58]).length + [32].length) h.2 13 hv (by decide) lv
  have r4 := head_run_skip spec HR HE (Or.inr (Or.inl ⟨rfl, rfl⟩)) (line_meta m h)
    (toInt16 (hc + 1)) (line_length m N h)
    (n + (h.1 ++ [58]).length + [32].length + (h.2 ++ [13]).length) 10
    (head_meta_quiet _ hm2) (by decide) h0
  have r := head_run_append spec _ _ _ _ _ _ _ r1 _ _ _ _
    (head_run_append spec _ _ _ _ _ _ _ r2 _ _ _ _
      (head_run_append spec _ _ _ _ _ _ _ r3 _ _ _ _ r4))
  have eb : (h.1 ++ [58]) ++ ([32] ++ ((h.2 ++ [13]) ++ [10])) = header_line h := by
    simp [header_line]
  rw [eb] at r
  have et : [({ index := (n : Int), len := h.1.length, type := HS_TOK_HEADER_KEY } : token)]
      ++ ([] ++ ([{ index := ((n + (h.1 ++ [58]).length + [32].length : Nat) : Int),
                    len := h.2.length, type := HS_TOK_HEADER_VAL }] ++ []))
      = header_tokens n [h] := by
    simp [header_tokens]
    omega
  rw [et] at r
  exact r

/-- The run of a block of header lines, from any meta state of the request
head: the header count grows by the number of lines. -/
theorem head_run_lines (spec : iwn_http_server_spec) (h0 : 0 ≤ spec.request_token_max_len) :
    ∀ (hs : List (List Nat × List Nat)) (S0 : state_e) (m : meta_state_e) (hc N : Int) (n : Nat),
      (S0 = RN ∨ S0 = HE) → head_meta m → (∀ h ∈ hs, line_valid spec h) →
      -32768 ≤ hc → hc + hs.length ≤ spec.request_max_header_count → hc + hs.length ≤ 32767 →
      head_run spec (psl S0 m hc N) n {} (header_block hs) (header_tokens n hs)
        (psl (if hs = [] then S0 else HE) (block_state m N hs).1 (hc + hs.length)
          (block_state m N hs).2) {} := by
  intro hs
  induction hs with
  | nil =>
    intro S0 m hc N n hS hm _ _ _ _
    have hcb : S0 ≠ CB := by rcases hS with rfl | rfl <;> simp
    simp only [List.length_nil, Nat.cast_zero, add_zero, if_true, block_state]
    exact head_run.nil _ _ _ (rest_ok_psl spec S0 m hc N (head_meta_quiet m hm) hcb h0)
  | cons h hs ih =>
    intro S0 m hc N n hS hm hok hlo hhi hhi2
    have hlen : ((h :: hs).length : Int) = (hs.length : Int) + 1 := by simp
    have hnn : (0 : Int) ≤ hs.length := Int.natCast_nonneg _
    have e16 : toInt16 (hc + 1) = hc + 1 := toInt16_id _ (by omega) (by omega)
    have r1 := head_run_line_any spec S0 hS m hm hc N n h (hok h (by simp))
      (by rw [e16]; omega)
    rw [e16] at r1
    have r2 := ih HE (line_meta m h) (hc + 1) (line_length m N h) (n + (header_line h).length)
      (Or.inr rfl) (line_meta_head m h hm) (fun x hx => hok x (by simp [hx])) (by omega)
      (by omega) (by omega)
    rw [ite_self] at r2
    have r := head_run_append spec _ _ _ _ _ _ _ r1 _ _ _ _ r2
    have e1 : (hc + 1 + (hs.length : Int)) = hc + ((h :: hs).length : Nat) := by
      rw [hlen]; omega
    rw [e1] at r
    simpa [header_block, header_tokens, block_state] using r

/-- The run of the head of a request up to the CR of the blank line: the
request line and the header lines. -/
theorem head_run_head (spec : iwn_http_server_spec) (m t v : List Nat)
    (hs : List (List Nat × List Nat))
    (hm : token_ok state_e.ST MT m) (ht : token_ok MS TR t) (hv : token_ok TS VN v)
    (lm : (m.length : Int) ≤ spec.request_token_max_len)
    (lt : (t.length : Int) ≤ spec.request_token_max_len)
    (lv : (v.length : Int) ≤ spec.request_token_max_len)
    (hok : ∀ h ∈ hs, line_valid spec h) (hne : hs ≠ [])
    (hmax : (hs.length : Int) ≤ spec.request_max_header_count)
    (h16 : (hs.length : Int) ≤ 32767) :
    head_run spec (psl state_e.ST M_WFK 0 0) 0 {}
      (m ++ 32 :: (t ++ 32 :: (v ++ 13 :: 10 :: (header_block hs ++ [13]))))
      (head_tokens m t v hs)
      (psl ER (block_state M_ANY 0 hs).1 hs.length (block_state M_ANY 0 hs).2) {} := by
  have h0 : (0 : Int) ≤ spec.request_token_max_len := by
    have : (0 : Int) ≤ m.length := Int.natCast_nonneg _
    omega
  have r1 := head_run_simple spec state_e.ST MT MS HS_TOK_METHOD (Or.inl ⟨rfl, rfl, rfl, rfl⟩)
    M_WFK 0 0 0 m 32 (by decide) hm (by decide) lm
  have r2 := head_run_simple spec MS TR TS HS_TOK_TARGET (Or.inr ⟨rfl, rfl, rfl, rfl⟩)
    M_WFK 0 0 (0 + (m ++ [32]).length) t 32 (by decide) ht (by decide) lt
  have r3 := head_run_version spec M_WFK 0 0 (0 + (m ++ [32]).length + (t ++ [32]).length) v 13
    (by decide) (by decide) hv (by decide) lv
  have r4 := head_run_skip spec RR RN (Or.inl ⟨rfl, rfl⟩) M_ANY 0 0
    (0 + (m ++ [32]).length + (t ++ [32]).length + (v ++ [13]).length) 10 (by decide)
    (by decide) h0
  have r5 := head_run_lines spec h0 hs RN M_ANY 0 0
    (0 + (m ++ [32]).length + (t ++ [32]).length + (v ++ [13]).length + [10].length)
    (Or.inl rfl) (by decide) hok (by omega) (by omega) (by omega)
  have e0 : (0 : Int) + (hs.length : Int) = hs.length := zero_add _
  rw [if_neg hne, e0] at r5
  have hbm : head_meta (block_state M_ANY 0 hs).1 := block_state_head hs _ _ (by decide)
  have r6 := head_run_skip spec HE ER (Or.inr (Or.inr ⟨rfl, rfl⟩)) (block_state M_ANY 0 hs).1
    hs.length (block_state M_ANY 0 hs).2
    (0 + (m ++ [32]).length + (t ++ [32]).length + (v ++ [13]).length + [10].length
      + (header_block hs).length) 13
    (head_meta_quiet _ hbm) (by decide) h0
  have r := head_run_append spec _ _ _ _ _ _ _ r1 _ _ _ _
    (head_run_append spec _ _ _ _ _ _ _ r2 _ _ _ _
      (head_run_append spec _ _ _ _ _ _ _ r3 _ _ _ _
        (head_run_append spec _ _ _ _ _ _ _ r4 _ _ _ _
          (head_run_append spec _ _ _ _ _ _ _ r5 _ _ _ _ r6))))
  have eb : (m ++ [32]) ++ ((t ++ [32]) ++ ((v ++ [13]) ++ ([10] ++ (header_block hs ++ [13]))))
      = m ++ 32 :: (t ++ 32 :: (v ++ 13 :: 10 :: (header_block hs ++ [13]))) := by
    simp
  have et : [({ index := ((0 : Nat) : Int), len := m.length, type := HS_TOK_METHOD } : token)]
      ++ ([({ index := ((0 + (m ++ [32]).length : Nat) : Int), len := t.length,
              type := HS_TOK_TARGET } : token)]
      ++ ([({ index := ((0 + (m ++ [32]).length + (t ++ [32]).length : Nat) : Int),
              len := v.length, type := HS_TOK_VERSION } : token)]
      ++ ([] ++ (header_tokens (0 + (m ++ [32]).length + (t ++ [32]).length + (v ++ [13]).length
              + [10].length) hs ++ []))))
      = head_tokens m t v hs := by
    have en : 0 + (m ++ [32]).length + (t ++ [32]).length + (v ++ [13]).length + [10].length
        = m.length + 1 + t.length + 1 + v.length + 2 := by simp; omega
    rw [en]
    simp only [head_tokens, List.append_nil, List.nil_append, List.singleton_append]
    simp
    omega
  rw [eb, et] at r
  exact r

/-- A run of the head followed by a byte on which a token is emitted, all in
one buffer: the calls of `_token_parse` return the tokens of the run and then
that token. -/
theorem token_parse_n_head_run (spec : iwn_http_server_spec)
    (p : parser) (n : Nat) (tok : token) (seg : List Nat) (ts : List token)
    (p2 : parser) (tok2 : token) (hrun : head_run spec p n tok seg ts p2 tok2) :
    ∀ (cl0 : client) (bs rest : List Nat) (c : Nat) (t : token) (cl1 : client) (b : Bool),
      cl0.server.spec = spec → cl0.stream.buf = some bs → cl0.stream.length = bs.length →
      bs.drop n = seg ++ c :: rest →
      token_parse_step (at_ cl0 p2 (n + seg.length) tok2 false) c = (t, cl1) →
      t.type ≠ HS_TOK_NONE →
      token_parse_n (ts.length + 1) (at_ cl0 p n tok b) = some (ts ++ [t], cl1) := by
  induction hrun with
  | nil p n tok hok =>
    intro cl0 bs rest c t cl1 b _ hb hl hd hstep ht
    have h := token_parse_emit_any cl0 cl1 bs p n tok t c rest b hb hl (by simpa using hd)
      hok.1 hok.2.1 (by simpa using hstep) ht
    simp [token_parse_n, h]
  | cons p n tok c0 t0 p1 tok1 cs ts ts1 p2 tok2 hok hstep0 hplain hrun hts ih =>
    intro cl0 bs rest c t cl1 b hspec hb hl hd hstep ht
    have hd1 : bs.drop n = c0 :: (cs ++ c :: rest) := by simpa using hd
    obtain ⟨-, -, hd2⟩ := drop_cons_getD hd1
    have en : n + (c0 :: cs).length = n + 1 + cs.length := by simp; omega
    rw [en] at hstep
    have hok1 : rest_ok spec p1 tok1 := head_run_start _ _ _ _ _ _ _ _ hrun
    by_cases ht0 : t0.type = HS_TOK_NONE
    · rw [if_pos ht0] at hts
      subst hts
      have h1 := ih cl0 bs rest c t cl1 false hspec hb hl hd2 hstep ht
      have hr : ∃ r, _token_parse (at_ cl0 p1 (n + 1) tok1 false) = some r := by
        cases hp : _token_parse (at_ cl0 p1 (n + 1) tok1 false) with
        | none => simp [token_parse_n, hp] at h1
        | some r => exact ⟨r, rfl⟩
      obtain ⟨r, hr⟩ := hr
      have h2 := token_parse_skip cl0 bs p p1 n tok tok1 t0 c0 _ b r hb hl hd1 hok.1 hok.2.1
        hok1.1 hok1.2.1 (hstep0 cl0 hspec) ht0 hr
      have e : token_parse_n (ts1.length + 1) (at_ cl0 p n tok b)
          = token_parse_n (ts1.length + 1) (at_ cl0 p1 (n + 1) tok1 false) := by
        simp only [token_parse_n, h2, hr]
      rw [e]
      exact h1
    · rw [if_neg ht0] at hts
      subst hts
      have h2 := token_parse_emit cl0 bs p p1 n tok tok1 t0 c0 _ b hb hl hd1 hok.1 hok.2.1
        (hstep0 cl0 hspec) ht0
      have h1 := ih cl0 bs rest c t cl1 true hspec hb hl hd2 hstep ht
      have e : (t0 :: ts).length + 1 = (ts.length + 1) + 1 := by simp
      rw [e]
      simp only [token_parse_n, h2] at h1 ⊢
      rw [h1]
      rfl

/-- The LF of the blank line never makes the parser return ERROR: the token
it emits is BODY_STREAM, BODY or none. -/
theorem step_HN_no_error (cl0 : client) (p : parser) (n : Nat) (c : Nat)
    (hs : p.state = ER) (hc : accepts ER HN c) :
    (token_parse_step (at_ cl0 p n {} false) c).1.type = HS_TOK_NONE
    ∨ (token_parse_step (at_ cl0 p n {} false) c).1.type = HS_TOK_BODY
    ∨ (token_parse_step (at_ cl0 p n {} false) c).1.type = HS_TOK_BODY_STREAM := by
  unfold accepts at hc
  simp only [token_parse_step, at_, _transition, _transition_enter, _transition_switch,
    _stream_consume, _token_start_states, _meta_trigger, hs, hc]
  simp
  split_ifs <;> simp

/-- The first byte of a header name when the header count is already at its
maximum: ERROR, on that byte. -/
theorem step_HK_error (S0 : state_e) (hS : S0 = RN ∨ S0 = HE)
    (cl0 : client) (p : parser) (n : Nat) (c : Nat)
    (hs : p.state = S0) (hc : accepts S0 HK c)
    (hq : cl0.server.spec.request_max_header_count < toInt16 (p.header_count + 1)) :
    (token_parse_step (at_ cl0 p n {} false) c).1 = { type := HS_TOK_ERROR }
    ∧ (token_parse_step (at_ cl0 p n {} false) c).2.stream.index = (n : Int) + 1 := by
  unfold accepts at hc
  rcases hS with rfl | rfl <;>
    simp [token_parse_step, at_, _transition, _transition_enter, _transition_switch,
      _stream_consume, _token_start_states, _stream_begin_token, hs, hc, hq]

/-- The LF of the blank line, for any meta state. -/
theorem step_HN_any (cl0 : client) (p : parser) (n : Nat) (c : Nat)
    (hs : p.state = ER) (hc : accepts ER HN c) :
    token_parse_step (at_ cl0 p n {} false) c
      = ((end_headers cl0.server.spec n p).1,
          at_ cl0 (end_headers cl0.server.spec n p).2 (n + 1) {} true) := by
  unfold accepts at hc
  simp only [token_parse_step, at_, _transition, _transition_enter, _transition_switch,
    _stream_consume, _token_start_states, _meta_trigger, hs, hc, end_headers,
    _stream_can_contain]
  simp
  split_ifs <;> simp_all

theorem end_headers_type (spec : iwn_http_server_spec) (n : Nat) (p : parser) :
    (end_headers spec n p).1 = token.mk 0 0 HS_TOK_NONE
      ∨ (end_headers spec n p).1 = { type := HS_TOK_BODY }
      ∨ (end_headers spec n p).1 = { type := HS_TOK_BODY_STREAM } := by
  simp only [end_headers]
  split_ifs <;> simp

theorem end_headers_not_sen (m : meta_state_e) :
    meta_transitions_at m HS_META_END_HEADERS ≠ M_SEN := by
  cases m <;> decide

theorem end_headers_state (spec : iwn_http_server_spec) (n : Nat) (p : parser) :
    (end_headers spec n p).2.state = HN := by
  simp only [end_headers, _meta_trigger]
  split_ifs <;> rfl

theorem end_headers_quiet (spec : iwn_http_server_spec) (n : Nat) (p : parser)
    (h : (end_headers spec n p).1.type = HS_TOK_NONE) :
    meta_quiet (end_headers spec n p).2.meta := by
  simp only [end_headers] at h ⊢
  generalize (if ({ p with state := HN, match_index := 0 } : parser).meta = M_SML
      ∧ ¬ (spec.request_buf_max_size - (n : Int) + 1
            ≥ ({ p with state := HN, match_index := 0 } : parser).content_length)
    then _meta_trigger { p with state := HN, match_index := 0 } HS_META_LARGE_BODY
    else { p with state := HN, match_index := 0 }) = p2 at h ⊢
  generalize (if p2.meta = M_BIG ∨ p2.meta = M_CHK then ({ type := HS_TOK_BODY_STREAM } : token)
    else {}) = em at h ⊢
  have h3 : (_meta_trigger p2 HS_META_END_HEADERS).meta ≠ M_SEN := end_headers_not_sen p2.meta
  generalize _meta_trigger p2 HS_META_END_HEADERS = p3 at h h3 ⊢
  by_cases hc : p3.content_length = 0 ∧ p3.meta = M_BDY
  · rw [if_pos hc] at h
    simp at h
  · rw [if_neg hc] at h ⊢
    by_cases he : p3.meta = M_END
    · rw [if_pos he] at h
      simp at h
    · exact ⟨h3, he⟩

/-- A run of the head that reaches the end of the buffer: the calls of
`_token_parse` return the tokens of the run and then no token. -/
theorem token_parse_n_head_run_end (spec : iwn_http_server_spec)
    (p : parser) (n : Nat) (tok : token) (seg : List Nat) (ts : List token)
    (p2 : parser) (tok2 : token) (hrun : head_run spec p n tok seg ts p2 tok2) :
    ∀ (cl0 : client) (bs : List Nat) (b : Bool),
      cl0.server.spec = spec → cl0.stream.buf = some bs → cl0.stream.length = bs.length →
      bs.drop n = seg → n + seg.length = bs.length →
      token_parse_n (ts.length + 1) (at_ cl0 p n tok b)
        = some (ts ++ [token.mk 0 0 HS_TOK_NONE], at_ cl0 p2 (n + seg.length) tok2 false) := by
  induction hrun with
  | nil p n tok hok =>
    intro cl0 bs b hspec _ hl _ hn
    have h := token_parse_at_end cl0 p n tok b (by rw [hl]; simpa using hn.symm ▸ rfl)
      (by rw [hspec]; exact hok)
    simp [token_parse_n, h]
  | cons p n tok c0 t0 p1 tok1 cs ts ts1 p2 tok2 hok hstep0 hplain hrun hts ih =>
    intro cl0 bs b hspec hb hl hd hn
    have hd1 : bs.drop n = c0 :: (cs ++ []) := by simpa using hd
    obtain ⟨-, -, hd2⟩ := drop_cons_getD hd1
    have hd3 : bs.drop (n + 1) = cs := by simpa using hd2
    have en : n + (c0 :: cs).length = n + 1 + cs.length := by simp; omega
    rw [en] at hn ⊢
    have hok1 : rest_ok spec p1 tok1 := head_run_start _ _ _ _ _ _ _ _ hrun
    by_cases ht0 : t0.type = HS_TOK_NONE
    · rw [if_pos ht0] at hts
      subst hts
      have h1 := ih cl0 bs false hspec hb hl hd3 hn
      have hr : ∃ r, _token_parse (at_ cl0 p1 (n + 1) tok1 false) = some r := by
        cases hp : _token_parse (at_ cl0 p1 (n + 1) tok1 false) with
        | none => simp [token_parse_n, hp] at h1
        | some r => exact ⟨r, rfl⟩
      obtain ⟨r, hr⟩ := hr
      have h2 := token_parse_skip cl0 bs p p1 n tok tok1 t0 c0 _ b r hb hl hd1 hok.1 hok.2.1
        hok1.1 hok1.2.1 (hstep0 cl0 hspec) ht0 hr
      have e : token_parse_n (ts1.length + 1) (at_ cl0 p n tok b)
          = token_parse_n (ts1.length + 1) (at_ cl0 p1 (n + 1) tok1 false) := by
        simp only [token_parse_n, h2, hr]
      rw [e]
      exact h1
    · rw [if_neg ht0] at hts
      subst hts
      have h2 := token_parse_emit cl0 bs p p1 n tok tok1 t0 c0 _ b hb hl hd1 hok.1 hok.2.1
        (hstep0 cl0 hspec) ht0
      have h1 := ih cl0 bs true hspec hb hl hd3 hn
      have e : (t0 :: ts).length + 1 = (ts.length + 1) + 1 := by simp
      rw [e]
      simp only [token_parse_n, h2] at h1 ⊢
      rw [h1]
      rfl

theorem header_tokens_length : ∀ (hs : List (List Nat × List Nat)) (n : Nat),
    (header_tokens n hs).length = 2 * hs.length := by
  intro hs
  induction hs with
  | nil => intro n; rfl
  | cons h hs ih =>
    intro n
    simp only [header_tokens, List.length_cons, ih]
    omega

theorem head_tokens_length (m t v : List Nat) (hs : List (List Nat × List Nat)) :
    (head_tokens m t v hs).length = 2 * hs.length + 3 := by
  simp only [head_tokens, List.length_cons, header_tokens_length]

/-- The run of the request line and of the header lines `hs`, up to the LF of
the last of them. -/
theorem head_run_upto (spec : iwn_http_server_spec) (m t v : List Nat)
    (hs : List (List Nat × List Nat))
    (hm : token_ok state_e.ST MT m) (ht : token_ok MS TR t) (hv : token_ok TS VN v)
    (lm : (m.length : Int) ≤ spec.request_token_max_len)
    (lt : (t.length : Int) ≤ spec.request_token_max_len)
    (lv : (v.length : Int) ≤ spec.request_token_max_len)
    (hok : ∀ h ∈ hs, line_valid spec h)
    (hmax : (hs.length : Int) ≤ spec.request_max_header_count)
    (h16 : (hs.length : Int) ≤ 32767) :
    head_run spec (psl state_e.ST M_WFK 0 0) 0 {}
      (m ++ 32 :: (t ++ 32 :: (v ++ 13 :: 10 :: header_block hs)))
      (head_tokens m t v hs)
      (psl (if hs = [] then RN else HE) (block_state M_ANY 0 hs).1 hs.length
        (block_state M_ANY 0 hs).2) {} := by
  have h0 : (0 : Int) ≤ spec.request_token_max_len := by
    have : (0 : Int) ≤ m.length := Int.natCast_nonneg _
    omega
  have r1 := head_run_simple spec state_e.ST MT MS HS_TOK_METHOD (Or.inl ⟨rfl, rfl, rfl, rfl⟩)
    M_WFK 0 0 0 m 32 (by decide) hm (by decide) lm
  have r2 := head_run_simple spec MS TR TS HS_TOK_TARGET (Or.inr ⟨rfl, rfl, rfl, rfl⟩)
    M_WFK 0 0 (0 + (m ++ [32]).length) t 32 (by decide) ht (by decide) lt
  have r3 := head_run_version spec M_WFK 0 0 (0 + (m ++ [32]).length + (t ++ [32]).length) v 13
    (by decide) (by decide) hv (by decide) lv
  have r4 := head_run_skip spec RR RN (Or.inl ⟨rfl, rfl⟩) M_ANY 0 0
    (0 + (m ++ [32]).length + (t ++ [32]).length + (v ++ [13]).length) 10 (by decide)
    (by decide) h0
  have r5 := head_run_lines spec h0 hs RN M_ANY 0 0
    (0 + (m ++ [32]).length + (t ++ [32]).length + (v ++ [13]).length + [10].length)
    (Or.inl rfl) (by decide) hok (by omega) (by omega) (by omega)
  have e0 : (0 : Int) + (hs.length : Int) = hs.length := zero_add _
  rw [e0] at r5
  have r := head_run_append spec _ _ _ _ _ _ _ r1 _ _ _ _
    (head_run_append spec _ _ _ _ _ _ _ r2 _ _ _ _
      (head_run_append spec _ _ _ _ _ _ _ r3 _ _ _ _
        (head_run_append spec _ _ _ _ _ _ _ r4 _ _ _ _ r5)))
  have eb : (m ++ [32]) ++ ((t ++ [32]) ++ ((v ++ [13]) ++ ([10] ++ header_block hs)))
      = m ++ 32 :: (t ++ 32 :: (v ++ 13 :: 10 :: header_block hs)) := by
    simp
  have et : [({ index := ((0 : Nat) : Int), len := m.length, type := HS_TOK_METHOD } : token)]
      ++ ([({ index := ((0 + (m ++ [32]).length : Nat) : Int), len := t.length,
              type := HS_TOK_TARGET } : token)]
      ++ ([({ index := ((0 + (m ++ [32]).length + (t ++ [32]).length : Nat) : Int),
              len := v.length, type := HS_TOK_VERSION } : token)]
      ++ ([] ++ header_tokens (0 + (m ++ [32]).length + (t ++ [32]).length + (v ++ [13]).length
              + [10].length) hs)))
      = head_tokens m t v hs := by
    have en : 0 + (m ++ [32]).length + (t ++ [32]).length + (v ++ [13]).length + [10].length
        = m.length + 1 + t.length + 1 + v.length + 2 := by simp; omega
    rw [en]
    simp only [head_tokens, List.nil_append, List.singleton_append]
    simp
    omega
  rw [eb, et] at r
  exact r

/-- C14.  Let `request_max_header_count = M` with `1 <= M < 32767`, and take
a request line and `M` header lines that the character FSM accepts, with
tokens no longer than `request_token_max_len`.  When the buffer holds the
request with exactly these `M` header lines, `2 * M + 4` calls of
`_token_parse` return the tokens of the request line and of the `M` header
lines and then the token of the end of the headers, which is BODY,
BODY_STREAM or none: no ERROR.  When the buffer holds the request with one
more header line (followed by any bytes), the calls return the same tokens of
the request line and of the first `M` header lines and then ERROR, with the
cursor one byte past the first byte of the name of header `M + 1`: no token of
that header is emitted. -/
theorem c14_header_count (srv : server) (M : Nat) (m t v : List Nat)
    (hs : List (List Nat × List Nat)) (extra : List Nat × List Nat) (rest : List Nat)
    (hM1 : 1 ≤ M) (hM2 : M < 32767) (hmax : srv.spec.request_max_header_count = (M : Int))
    (hm : token_ok state_e.ST MT m) (ht : token_ok MS TR t) (hv : token_ok TS VN v)
    (lm : (m.length : Int) ≤ srv.spec.request_token_max_len)
    (lt : (t.length : Int) ≤ srv.spec.request_token_max_len)
    (lv : (v.length : Int) ≤ srv.spec.request_token_max_len)
    (hok : ∀ h ∈ hs, line_valid srv.spec h) (hlen : hs.length = M)
    (hx : line_valid srv.spec extra) :
    (∃ tk X, token_parse_n (2 * M + 4) (client_holding srv (request_bytes m t v hs))
          = some (head_tokens m t v hs ++ [tk], X)
        ∧ (tk.type = HS_TOK_NONE ∨ tk.type = HS_TOK_BODY ∨ tk.type = HS_TOK_BODY_STREAM)
        ∧ ∀ x ∈ head_tokens m t v hs, x.type ≠ HS_TOK_ERROR)
    ∧ (∃ X, token_parse_n (2 * M + 4)
            (client_holding srv (request_bytes m t v (hs ++ [extra]) ++ rest))
          = some (head_tokens m t v hs ++ [{ type := HS_TOK_ERROR }], X)
        ∧ X.stream.index
          = (((m ++ 32 :: (t ++ 32 :: (v ++ [13, 10]))).length + (header_block hs).length : Nat)
              : Int) + 1) := by
  have hne : hs ≠ [] := by
    intro h; rw [h] at hlen; simp at hlen; omega
  have hlenI : (hs.length : Int) = (M : Int) := by rw [hlen]
  have h0 : (0 : Int) ≤ srv.spec.request_token_max_len := by
    have : (0 : Int) ≤ m.length := Int.natCast_nonneg _
    omega
  have hcount : 2 * M + 4 = (head_tokens m t v hs).length + 1 := by
    rw [head_tokens_length, hlen]
  constructor
  · -- exactly M header lines
    have r := head_run_head srv.spec m t v hs hm ht hv lm lt lv hok hne (by omega) (by omega)
    have hplain := head_run_plain _ _ _ _ _ _ _ _ r
    have hnoerr : ∀ x ∈ head_tokens m t v hs, x.type ≠ HS_TOK_ERROR := by
      intro x hx1
      have := hplain x hx1
      rcases this with h | h | h | h | h | h <;> rw [h] <;> simp
    obtain ⟨seg, hseg⟩ : ∃ seg, seg = m ++ 32 :: (t ++ 32 :: (v ++ 13 :: 10 ::
        (header_block hs ++ [13]))) := ⟨_, rfl⟩
    rw [← hseg] at r
    have ebs : request_bytes m t v hs = seg ++ [10] := by
      rw [hseg]; simp [request_bytes]
    obtain ⟨P, hP⟩ : ∃ P, P = psl ER (block_state M_ANY 0 hs).1 hs.length
        (block_state M_ANY 0 hs).2 := ⟨_, rfl⟩
    rw [← hP] at r
    have hPs : P.state = ER := by rw [hP]; rfl
    set cl0 := client_holding srv (request_bytes m t v hs) with hcl0
    have hb : cl0.stream.buf = some (request_bytes m t v hs) := rfl
    have hl : cl0.stream.length = (request_bytes m t v hs).length := rfl
    have hat : cl0 = at_ cl0 (psl state_e.ST M_WFK 0 0) 0 {} false := rfl
    have hstep := step_HN_any cl0 P (0 + seg.length) 10 hPs (by decide)
    rw [hcount]
    by_cases hty : (end_headers cl0.server.spec (0 + seg.length) P).1.type = HS_TOK_NONE
    · have hq := end_headers_quiet _ _ _ hty
      have hst := end_headers_state cl0.server.spec (0 + seg.length) P
      have r1 := head_run_one srv.spec P (0 + seg.length) {} 10
        (end_headers srv.spec (0 + seg.length) P).1 (end_headers srv.spec (0 + seg.length) P).2 {}
        (head_run_end _ _ _ _ _ _ _ _ r)
        (rest_ok_boundary _ _ hq.1 hq.2 (by rw [show cl0.server.spec = srv.spec from rfl] at hst
                                            rw [hst]; simp) h0)
        (fun c1 hspec => by
          have := step_HN_any c1 P (0 + seg.length) 10 hPs (by decide)
          rw [hspec] at this
          exact this)
        (by left; exact hty)
      have hty1 : (end_headers srv.spec (0 + seg.length) P).1.type = HS_TOK_NONE := hty
      rw [if_pos hty1] at r1
      have r2 := head_run_append _ _ _ _ _ _ _ _ r _ _ _ _ r1
      have h := token_parse_n_head_run_end _ _ _ _ _ _ _ _ r2 cl0 (request_bytes m t v hs) false
        rfl hb hl (by rw [ebs]; rfl) (by rw [ebs]; simp)
      rw [List.append_nil] at h
      rw [hat, h]
      exact ⟨_, _, rfl, Or.inl rfl, hnoerr⟩
    · have h := token_parse_n_head_run _ _ _ _ _ _ _ _ r cl0 (request_bytes m t v hs) [] 10 _ _
        false rfl hb hl (by rw [ebs]; rfl) hstep hty
      rw [hat, h]
      refine ⟨_, _, rfl, ?_, hnoerr⟩
      rcases end_headers_type cl0.server.spec (0 + seg.length) P with e | e | e <;> rw [e] <;> simp
  · -- one header line more
    have r := head_run_upto srv.spec m t v hs hm ht hv lm lt lv hok (by omega) (by omega)
    rw [if_neg hne] at r
    obtain ⟨hk, -, -, -⟩ := hx
    obtain ⟨c, key1, hkey⟩ : ∃ c key1, extra.1 = c :: key1 := by
      cases he : extra.1 with
      | nil => rw [he] at hk; simp [token_ok] at hk
      | cons c k => exact ⟨c, k, rfl⟩
    have hc : accepts HE HK c := by
      rw [hkey] at hk
      exact accepts_HE_of_RN c hk.1
    obtain ⟨seg, hseg⟩ : ∃ seg, seg = m ++ 32 :: (t ++ 32 :: (v ++ 13 :: 10 :: header_block hs)) :=
      ⟨_, rfl⟩
    rw [← hseg] at r
    have ebs : request_bytes m t v (hs ++ [extra]) ++ rest
        = seg ++ c :: (key1 ++ 58 :: 32 :: (extra.2 ++ [13, 10]) ++ [13, 10] ++ rest) := by
      rw [hseg]
      simp [request_bytes, header_block_append, header_block, header_line, hkey]
    have elen : (m ++ 32 :: (t ++ 32 :: (v ++ [13, 10]))).length + (header_block hs).length
        = 0 + seg.length := by
      rw [hseg]; simp; omega
    set cl0 := client_holding srv (request_bytes m t v (hs ++ [extra]) ++ rest) with hcl0
    have hb : cl0.stream.buf = some (request_bytes m t v (hs ++ [extra]) ++ rest) := rfl
    have hl : cl0.stream.length = (request_bytes m t v (hs ++ [extra]) ++ rest).length := rfl
    have hat : cl0 = at_ cl0 (psl state_e.ST M_WFK 0 0) 0 {} false := rfl
    obtain ⟨e1, e2⟩ := step_HK_error HE (Or.inr rfl) cl0
      (psl HE (block_state M_ANY 0 hs).1 hs.length (block_state M_ANY 0 hs).2) (0 + seg.length) c
      rfl hc (by
        show srv.spec.request_max_header_count < toInt16 ((hs.length : Int) + 1)
        rw [toInt16_id _ (by omega) (by omega)]
        omega)
    have hstep : token_parse_step (at_ cl0
          (psl HE (block_state M_ANY 0 hs).1 hs.length (block_state M_ANY 0 hs).2)
          (0 + seg.length) {} false) c
        = ({ type := HS_TOK_ERROR }, (token_parse_step (at_ cl0
          (psl HE (block_state M_ANY 0 hs).1 hs.length (block_state M_ANY 0 hs).2)
          (0 + seg.length) {} false) c).2) := Prod.ext e1 rfl
    have h := token_parse_n_head_run _ _ _ _ _ _ _ _ r cl0 _ _ c _ _ false rfl hb hl
      (by rw [ebs]; rfl) hstep (by simp)
    rw [hcount, hat, h, elen]
    exact ⟨_, rfl, by rw [e2]⟩

/-- Witness of C14: `M = 2`, the request `GET / HTTP/1.1` with the headers
`A: b` and `B: d`, and the same request with a third header `C: e`. -/
theorem c14_header_count_witness :
    (∃ tk X, token_parse_n (2 * 2 + 4) (client_holding two_header_server
            (request_bytes (str "GET") (str "/") (str "HTTP/1.1")
              [(str "A", str "b"), (str "B", str "d")]))
          = some (head_tokens (str "GET") (str "/") (str "HTTP/1.1")
              [(str "A", str "b"), (str "B", str "d")] ++ [tk], X)
        ∧ (tk.type = HS_TOK_NONE ∨ tk.type = HS_TOK_BODY ∨ tk.type = HS_TOK_BODY_STREAM)
        ∧ ∀ x ∈ head_tokens (str "GET") (str "/") (str "HTTP/1.1")
              [(str "A", str "b"), (str "B", str "d")], x.type ≠ HS_TOK_ERROR)
    ∧ (∃ X, token_parse_n (2 * 2 + 4)
            (client_holding two_header_server
              (request_bytes (str "GET") (str "/") (str "HTTP/1.1")
                ([(str "A", str "b"), (str "B", str "d")] ++ [(str "C", str "e")]) ++ []))
          = some (head_tokens (str "GET") (str "/") (str "HTTP/1.1")
              [(str "A", str "b"), (str "B", str "d")] ++ [{ type := HS_TOK_ERROR }], X)
        ∧ X.stream.index
          = (((str "GET" ++ 32 :: (str "/" ++ 32 :: (str "HTTP/1.1" ++ [13, 10]))).length
              + (header_block [(str "A", str "b"), (str "B", str "d")]).length : Nat) : Int) + 1) :=
  c14_header_count two_header_server 2 (str "GET") (str "/") (str "HTTP/1.1")
    [(str "A", str "b"), (str "B", str "d")] (str "C", str "e") []
    (by decide) (by decide) (by decide) (by decide) (by decide) (by decide) (by decide)
    (by decide) (by decide) (by decide) (by decide) (by decide)

theorem transition_hk_chk (p : parser) (c : Nat) (h : p.meta = M_CHK) :
    (_transition_hk p c).meta = M_CHK := by
  have e : (_transition_hk p c).meta = (MATCH (str "content-length") HS_META_NOT_CONTENT_LEN c
      (MATCH (str "transfer-encoding") HS_META_NOT_TRANSFER_ENC c (0, p))).2.meta := rfl
  rw [e]
  have h1 := MATCH_meta (str "transfer-encoding") HS_META_NOT_TRANSFER_ENC c (0, p)
  have h2 := MATCH_meta (str "content-length") HS_META_NOT_CONTENT_LEN c
    (MATCH (str "transfer-encoding") HS_META_NOT_TRANSFER_ENC c (0, p))
  generalize MATCH (str "transfer-encoding") HS_META_NOT_TRANSFER_ENC c (0, p) = x at h1 h2 ⊢
  generalize MATCH (str "content-length") HS_META_NOT_CONTENT_LEN c x = y at h2 ⊢
  simp only at h1 h2 ⊢
  rw [h] at h1
  rcases h1 with h1 | h1 <;> rw [h1] at h2 <;> rcases h2 with h2 | h2 <;> rw [h2] <;> rfl

theorem key_meta_chk (key : List Nat) : key_meta M_CHK key = M_CHK := by
  have hs : ∀ (l : List Nat) (q : parser), q.meta = M_CHK →
      (l.foldl _transition_hk q).meta = M_CHK := by
    intro l
    induction l with
    | nil => intro q hq; simpa using hq
    | cons a l ih => intro q hq; simpa using ih _ (transition_hk_chk q a hq)
  unfold key_meta
  rw [hs key _ rfl]
  rfl

theorem transition_hv_other (p : parser) (c : Nat) (h1 : p.meta ≠ M_MCK) (h2 : p.meta ≠ M_CLV) :
    _transition_hv p c = p := by
  unfold _transition_hv
  rw [if_neg h1, if_neg h2]

theorem foldl_hv_other (seg : List Nat) (p : parser) (h1 : p.meta ≠ M_MCK) (h2 : p.meta ≠ M_CLV) :
    seg.foldl _transition_hv p = p := by
  induction seg with
  | nil => rfl
  | cons a l ih => simp only [List.foldl_cons, transition_hv_other p a h1 h2, ih]

/-- The value of a header line read in a meta state other than `M_MCK` and
`M_CLV` changes neither the meta state (before the CR) nor the content
length. -/
theorem value_other (m : meta_state_e) (N : Int) (w : List Nat) (h1 : m ≠ M_MCK)
    (h2 : m ≠ M_CLV) :
    value_meta m w = meta_transitions_at m HS_META_END_VALUE ∧ value_length m N w = N := by
  unfold value_meta value_length
  rw [foldl_hv_other w _ h1 h2, foldl_hv_other w _ h1 h2]
  exact ⟨rfl, rfl⟩

theorem transition_hv_mck (p : parser) (c : Nat) (h : p.meta = M_MCK ∨ p.meta = M_WFK) :
    ((_transition_hv p c).meta = M_MCK ∨ (_transition_hv p c).meta = M_WFK)
    ∧ (_transition_hv p c).content_length = p.content_length := by
  rcases h with h | h
  · unfold _transition_hv
    rw [if_pos h]
    have h1 := MATCH_meta (str "chunked") HS_META_NOT_CHUNKED c (0, p)
    have f1 := MATCH_fields (str "chunked") HS_META_NOT_CHUNKED c (0, p)
    simp only at h1 f1 ⊢
    refine ⟨?_, f1.2.2.1⟩
    rcases h1 with h1 | h1 <;> rw [h1, h]
    · left; rfl
    · right; rfl
  · rw [transition_hv_other p c (by rw [h]; simp) (by rw [h]; simp)]
    exact ⟨Or.inr h, rfl⟩

/-- The value of a header the meta FSM took for Transfer-Encoding leaves the
content length as it is. -/
theorem value_length_mck (N : Int) (w : List Nat) : value_length M_MCK N w = N := by
  have hs : ∀ (l : List Nat) (q : parser), (q.meta = M_MCK ∨ q.meta = M_WFK) →
      (l.foldl _transition_hv q).content_length = q.content_length := by
    intro l
    induction l with
    | nil => intro q _; rfl
    | cons a l ih =>
      intro q hq
      obtain ⟨a1, a2⟩ := transition_hv_mck q a hq
      simp only [List.foldl_cons]
      rw [ih _ a1, a2]
  unfold value_length
  rw [hs w _ (Or.inl rfl)]

theorem block_state_append (hs1 : List (List Nat × List Nat)) :
    ∀ (m : meta_state_e) (N : Int) (hs2 : List (List Nat × List Nat)),
      block_state m N (hs1 ++ hs2)
        = block_state (block_state m N hs1).1 (block_state m N hs1).2 hs2 := by
  induction hs1 with
  | nil => intro m N hs2; rfl
  | cons h hs1 ih => intro m N hs2; exact ih _ _ _

/-- Header lines that the meta FSM takes for neither of its two headers leave
it in `M_ANY` and leave the content length as it is. -/
theorem block_state_any (spec : iwn_http_server_spec) (N : Int) :
    ∀ (hs : List (List Nat × List Nat)), (∀ h ∈ hs, line_ok spec M_ANY h) →
      block_state M_ANY N hs = (M_ANY, N) := by
  intro hs
  induction hs with
  | nil => intro _; rfl
  | cons h hs ih =>
    intro hok
    have h1 : key_meta M_ANY h.1 = M_WFK := (hok h (by simp)).2.2.2.2 rfl
    obtain ⟨a1, a2⟩ := value_other M_WFK N h.2 (by simp) (by simp)
    have e1 : line_meta M_ANY h = M_ANY := by
      unfold line_meta; rw [h1, a1]; rfl
    have e2 : line_length M_ANY N h = N := by
      unfold line_length; rw [h1, a2]
    simp only [block_state, e1, e2]
    exact ih (fun x hx => hok x (by simp [hx]))

/-- After a header the meta FSM took for `Transfer-Encoding: chunked`, no
header line changes the meta state `M_CHK` or the content length. -/
theorem block_state_chk (N : Int) : ∀ (hs : List (List Nat × List Nat)),
    block_state M_CHK N hs = (M_CHK, N) := by
  intro hs
  induction hs with
  | nil => rfl
  | cons h hs ih =>
    obtain ⟨a1, a2⟩ := value_other M_CHK N h.2 (by simp) (by simp)
    have e1 : line_meta M_CHK h = M_CHK := by
      unfold line_meta; rw [key_meta_chk, a1]; rfl
    have e2 : line_length M_CHK N h = N := by
      unfold line_length; rw [key_meta_chk, a2]
    simp only [block_state, e1, e2]
    exact ih

/-- The first byte after the blank line of a chunked request is read as a
chunk size. -/
theorem step_HN_chunk_size (cl0 : client) (p : parser) (n : Nat) (c : Nat)
    (hs : p.state = HN) (hm : p.meta = M_ZER) :
    (token_parse_step (at_ cl0 p n {} false) c).2.parser.state = CS
    ∧ (token_parse_step (at_ cl0 p n {} false) c).2.parser.content_length
        = chunk_size_digit p.content_length c
    ∧ (token_parse_step (at_ cl0 p n {} false) c).1.type = HS_TOK_NONE := by
  have ht := transitions_HN c
  simp only [token_parse_step, at_, hs, hm, ht]
  simp [_transition, _transition_enter, _transition_switch, _stream_consume,
    _token_start_states, _meta_trigger, _stream_anchor]
  split_ifs <;> simp

/-- Counterexample to C11 as stated: for a request with the header
`Content-Length: 5` before the header `Transfer-Encoding: chunked`, no
BODY_STREAM is emitted; the token after the headers is a BODY of 5 bytes,
which are the first 5 bytes of the chunk framing, `5`, CR, LF, `he`. -/
theorem c11_length_first_counterexample :
    (token_parse_n 8 (client_holding {} length_then_chunked_request)).map
        (fun r => r.1.map (fun tok => (tok.type, token_bytes (some length_then_chunked_request) tok)))
      = some [(HS_TOK_METHOD, str "POST"), (HS_TOK_TARGET, str "/large"),
          (HS_TOK_VERSION, str "HTTP/1.1"), (HS_TOK_HEADER_KEY, str "Content-Length"),
          (HS_TOK_HEADER_VAL, str "5"), (HS_TOK_HEADER_KEY, str "Transfer-Encoding"),
          (HS_TOK_HEADER_VAL, str "chunked"), (HS_TOK_BODY, str "5\r\nhe")] := by
  decide

/-- C11 (amended).  Take a request whose header lines before the header
`Transfer-Encoding: chunked` are taken by the meta FSM neither for
Content-Length nor for Transfer-Encoding, whatever header lines follow it
(a Content-Length header among them); the name of the header is one the meta
FSM takes for Transfer-Encoding and its value one it takes for `chunked`.
Then the calls of `_token_parse` on a buffer that holds the request and any
further bytes return the tokens of the head and then BODY_STREAM; the meta FSM
is in `M_ZER` with the content length 0 and the cursor is on the first byte
after the blank line; and that byte, whatever it is, is read as a chunk size
(state `CS`), with no token. -/
theorem c11_chunked_latched (srv : server) (m t v : List Nat)
    (hs1 : List (List Nat × List Nat)) (te : List Nat × List Nat)
    (hs2 : List (List Nat × List Nat)) (rest : List Nat)
    (hm : token_ok state_e.ST MT m) (ht : token_ok MS TR t) (hv : token_ok TS VN v)
    (lm : (m.length : Int) ≤ srv.spec.request_token_max_len)
    (lt : (t.length : Int) ≤ srv.spec.request_token_max_len)
    (lv : (v.length : Int) ≤ srv.spec.request_token_max_len)
    (h1 : ∀ h ∈ hs1, line_ok srv.spec M_ANY h)
    (hte : line_valid srv.spec te)
    (hcls : header_class te.1 = M_MCK) (hval : value_meta M_MCK te.2 = M_CHK)
    (h2 : ∀ h ∈ hs2, line_valid srv.spec h)
    (hmax : ((hs1 ++ te :: hs2).length : Int) ≤ srv.spec.request_max_header_count)
    (h16 : ((hs1 ++ te :: hs2).length : Int) ≤ 32767) :
    ∃ X, token_parse_n (2 * (hs1 ++ te :: hs2).length + 4)
          (client_holding srv (request_bytes m t v (hs1 ++ te :: hs2) ++ rest))
        = some (head_tokens m t v (hs1 ++ te :: hs2) ++ [{ type := HS_TOK_BODY_STREAM }], X)
      ∧ X.parser.state = HN ∧ X.parser.meta = M_ZER ∧ X.parser.content_length = 0
      ∧ X.stream.index = ((request_bytes m t v (hs1 ++ te :: hs2)).length : Nat)
      ∧ ∀ c, (token_parse_step
                { X with stream := { X.stream with consumed := false } } c).2.parser.state = CS
          ∧ (token_parse_step
                { X with stream := { X.stream with consumed := false } } c).2.parser.content_length
              = chunk_size_digit 0 c
          ∧ (token_parse_step
                { X with stream := { X.stream with consumed := false } } c).1.type
              = HS_TOK_NONE := by
  have hvalid : ∀ h ∈ hs1 ++ te :: hs2, line_valid srv.spec h := by
    intro h hh
    rw [List.mem_append, List.mem_cons] at hh
    rcases hh with hh | hh | hh
    · obtain ⟨a, b, c, d, -⟩ := h1 h hh
      exact ⟨a, b, c, d⟩
    · rw [hh]; exact hte
    · exact h2 h hh
  have hne : hs1 ++ te :: hs2 ≠ [] := by simp
  have r := head_run_head srv.spec m t v (hs1 ++ te :: hs2) hm ht hv lm lt lv hvalid hne hmax h16
  have hbs : block_state M_ANY 0 (hs1 ++ te :: hs2) = (M_CHK, 0) := by
    rw [block_state_append, block_state_any srv.spec 0 hs1 h1]
    have e1 : line_meta M_ANY te = M_CHK := by
      unfold line_meta
      have : key_meta M_ANY te.1 = M_MCK := hcls
      rw [this, hval]
    have e2 : line_length M_ANY 0 te = 0 := by
      unfold line_length
      have : key_meta M_ANY te.1 = M_MCK := hcls
      rw [this, value_length_mck]
    simp only [block_state, e1, e2]
    exact block_state_chk 0 hs2
  rw [hbs] at r
  obtain ⟨seg, hseg⟩ : ∃ seg, seg = m ++ 32 :: (t ++ 32 :: (v ++ 13 :: 10 ::
      (header_block (hs1 ++ te :: hs2) ++ [13]))) := ⟨_, rfl⟩
  rw [← hseg] at r
  have ebs : request_bytes m t v (hs1 ++ te :: hs2) = seg ++ [10] := by
    rw [hseg]; simp [request_bytes]
  obtain ⟨L, hL⟩ : ∃ L : Int, L = ((hs1 ++ te :: hs2).length : Nat) := ⟨_, rfl⟩
  rw [← hL] at r
  set cl0 := client_holding srv (request_bytes m t v (hs1 ++ te :: hs2) ++ rest) with hcl0
  have hb : cl0.stream.buf = some (request_bytes m t v (hs1 ++ te :: hs2) ++ rest) := rfl
  have hl : cl0.stream.length = (request_bytes m t v (hs1 ++ te :: hs2) ++ rest).length := rfl
  have hat : cl0 = at_ cl0 (psl state_e.ST M_WFK 0 0) 0 {} false := rfl
  have hstep := step_HN_any cl0 (psl ER M_CHK L 0) (0 + seg.length) 10 rfl (by decide)
  have hend : end_headers cl0.server.spec (0 + seg.length) (psl ER M_CHK L 0)
      = ({ type := HS_TOK_BODY_STREAM }, psl HN M_ZER L 0) := by
    simp [end_headers, psl, _meta_trigger, meta_transitions_at, _meta_transitions,
      meta_state_e.toNat, HS_META_TYPE_LEN, HS_META_END_HEADERS]
  rw [hend] at hstep
  have h := token_parse_n_head_run _ _ _ _ _ _ _ _ r cl0 _ rest 10 _ _ false rfl hb hl
    (by rw [ebs]; simp) hstep (by simp)
  have hcount : 2 * (hs1 ++ te :: hs2).length + 4
      = (head_tokens m t v (hs1 ++ te :: hs2)).length + 1 := by
    rw [head_tokens_length]
  rw [hcount, hat, h]
  refine ⟨_, rfl, rfl, rfl, rfl, ?_, ?_⟩
  · show ((0 + seg.length + 1 : Nat) : Int) = _
    rw [ebs]; simp
  · intro c
    exact step_HN_chunk_size cl0 (psl HN M_ZER L 0) (0 + seg.length + 1) c rfl rfl

/-- Witness of C11 (amended): the header `transfer-encoding: chunked` after
`Host: x` and before `Content-Length: 5`. -/
theorem c11_chunked_latched_witness :
    ∃ X, token_parse_n (2 * ([(str "Host", str "x")] ++ (str "transfer-encoding", str "chunked")
            :: [(str "Content-Length", str "5")]).length + 4)
          (client_holding {} (request_bytes (str "POST") (str "/large") (str "HTTP/1.1")
            ([(str "Host", str "x")] ++ (str "transfer-encoding", str "chunked")
              :: [(str "Content-Length", str "5")]) ++ str "5\r\nhello\r\n0\r\n\r\n"))
        = some (head_tokens (str "POST") (str "/large") (str "HTTP/1.1")
            ([(str "Host", str "x")] ++ (str "transfer-encoding", str "chunked")
              :: [(str "Content-Length", str "5")]) ++ [{ type := HS_TOK_BODY_STREAM }], X)
      ∧ X.parser.state = HN ∧ X.parser.meta = M_ZER ∧ X.parser.content_length = 0
      ∧ X.stream.index = ((request_bytes (str "POST") (str "/large") (str "HTTP/1.1")
            ([(str "Host", str "x")] ++ (str "transfer-encoding", str "chunked")
              :: [(str "Content-Length", str "5")])).length : Nat)
      ∧ ∀ c, (token_parse_step
                { X with stream := { X.stream with consumed := false } } c).2.parser.state = CS
          ∧ (token_parse_step
                { X with stream := { X.stream with consumed := false } } c).2.parser.content_length
              = chunk_size_digit 0 c
          ∧ (token_parse_step
                { X with stream := { X.stream with consumed := false } } c).1.type
              = HS_TOK_NONE :=
  c11_chunked_latched {} (str "POST") (str "/large") (str "HTTP/1.1") [(str "Host", str "x")]
    (str "transfer-encoding", str "chunked") [(str "Content-Length", str "5")]
    (str "5\r\nhello\r\n0\r\n\r\n")
    (by decide) (by decide) (by decide) (by decide) (by decide) (by decide) (by decide)
    (by decide) (by decide) (by decide) (by decide) (by decide) (by decide)

/-- C12 (code defect).  For the header `Content: 5` the content length is 5
after the value has been read and the 5 bytes after the blank line are
delivered as a BODY token: the header is treated as Content-Length.  The same
happens for the header `content-lengthing: 5`.  For the header `T: c` the
request is put in chunked mode: BODY_STREAM is emitted and the bytes after the
blank line are read as chunk framing. -/
theorem c12_name_prefix_matches :
    (token_parse_n 5 (client_holding {} prefix_name_request)).map
        (fun r => (r.1.map (fun tok => (tok.type, token_bytes (some prefix_name_request) tok)),
          r.2.parser.content_length, r.2.parser.meta))
      = some ([(HS_TOK_METHOD, str "POST"), (HS_TOK_TARGET, str "/echo"),
          (HS_TOK_VERSION, str "HTTP/1.1"), (HS_TOK_HEADER_KEY, str "Content"),
          (HS_TOK_HEADER_VAL, str "5")], 5, M_SML)
    ∧ (token_parse_n 7 (client_holding {} prefix_name_request)).map
        (fun r => r.1.map (fun tok => (tok.type, token_bytes (some prefix_name_request) tok)))
      = some [(HS_TOK_METHOD, str "POST"), (HS_TOK_TARGET, str "/echo"),
          (HS_TOK_VERSION, str "HTTP/1.1"), (HS_TOK_HEADER_KEY, str "Content"),
          (HS_TOK_HEADER_VAL, str "5"), (HS_TOK_BODY, str "hello"), (HS_TOK_REQ_END, [])]
    ∧ (token_parse_n 7 (client_holding {} extended_name_request)).map
        (fun r => r.1.map (fun tok => (tok.type, token_bytes (some extended_name_request) tok)))
      = some [(HS_TOK_METHOD, str "POST"), (HS_TOK_TARGET, str "/echo"),
          (HS_TOK_VERSION, str "HTTP/1.1"), (HS_TOK_HEADER_KEY, str "content-lengthing"),
          (HS_TOK_HEADER_VAL, str "5"), (HS_TOK_BODY, str "hello"), (HS_TOK_REQ_END, [])]
    ∧ (token_parse_n 7 (client_holding {} prefix_chunked_request)).map
        (fun r => r.1.map (fun tok => (tok.type, token_bytes (some prefix_chunked_request) tok)))
      = some [(HS_TOK_METHOD, str "POST"), (HS_TOK_TARGET, str "/echo"),
          (HS_TOK_VERSION, str "HTTP/1.1"), (HS_TOK_HEADER_KEY, str "T"),
          (HS_TOK_HEADER_VAL, str "c"), (HS_TOK_BODY_STREAM, []),
          (HS_TOK_CHUNK_BODY, str "hello")] := by
  refine ⟨?_, ?_, ?_, ?_⟩ <;> decide

theorem ctype_tolower (c : Nat) : ctype_of (tolower c) = ctype_of c := by
  unfold tolower
  by_cases h : 65 ≤ c ∧ c ≤ 90
  · rw [if_pos h]
    obtain ⟨h1, h2⟩ := h
    interval_cases c <;> rfl
  · rw [if_neg h]

theorem MATCH_tolower (s : List Nat) (e c : Nat) (mp : Nat × parser) :
    MATCH s e (tolower c) mp = MATCH s e c mp := by
  have h : (if 65 ≤ tolower c ∧ tolower c ≤ 90 then tolower c + 32 else tolower c)
      = (if 65 ≤ c ∧ c ≤ 90 then c + 32 else c) := by
    have := tolower_idem c
    unfold tolower at this ⊢
    exact this
  simp only [MATCH, h]

theorem transition_hk_tolower (p : parser) (c : Nat) :
    _transition_hk p (tolower c) = _transition_hk p c := by
  unfold _transition_hk
  simp only [MATCH_tolower]

theorem foldl_hk_tolower (key : List Nat) : ∀ (p : parser),
    (key.map tolower).foldl _transition_hk p = key.foldl _transition_hk p := by
  induction key with
  | nil => intro p; rfl
  | cons a l ih => intro p; simp only [List.map_cons, List.foldl_cons, transition_hk_tolower, ih]

theorem key_meta_tolower (m : meta_state_e) (key : List Nat) :
    key_meta m (key.map tolower) = key_meta m key := by
  unfold key_meta
  rw [foldl_hk_tolower]

theorem accepts_tolower (S0 S : state_e) (c : Nat) : accepts S0 S (tolower c) ↔ accepts S0 S c := by
  unfold accepts
  rw [ctype_tolower]

theorem token_ok_tolower (S0 S : state_e) (key : List Nat) :
    token_ok S0 S (key.map tolower) ↔ token_ok S0 S key := by
  cases key with
  | nil => simp [token_ok]
  | cons a l =>
    simp only [List.map_cons, token_ok, accepts_tolower, List.mem_map]
    constructor
    · rintro ⟨h1, h2⟩
      exact ⟨h1, fun d hd => (accepts_tolower S S d).1 (h2 _ ⟨d, hd, rfl⟩)⟩
    · rintro ⟨h1, h2⟩
      refine ⟨h1, ?_⟩
      rintro d ⟨x, hx, rfl⟩
      exact (accepts_tolower S S x).2 (h2 x hx)

theorem line_valid_lower (spec : iwn_http_server_spec) (h : List Nat × List Nat) :
    line_valid spec (line_lower h) ↔ line_valid spec h := by
  unfold line_valid line_lower
  simp only [token_ok_tolower, List.length_map]

theorem line_meta_lower (m : meta_state_e) (h : List Nat × List Nat) :
    line_meta m (line_lower h) = line_meta m h := by
  unfold line_meta line_lower
  simp only [key_meta_tolower]

theorem line_length_lower (m : meta_state_e) (N : Int) (h : List Nat × List Nat) :
    line_length m N (line_lower h) = line_length m N h := by
  unfold line_length line_lower
  simp only [key_meta_tolower]

theorem block_state_lower (hs : List (List Nat × List Nat)) : ∀ (m : meta_state_e) (N : Int),
    block_state m N (hs.map line_lower) = block_state m N hs := by
  induction hs with
  | nil => intro m N; rfl
  | cons h hs ih =>
    intro m N
    simp only [List.map_cons, block_state, line_meta_lower, line_length_lower, ih]

theorem header_line_length_lower (h : List Nat × List Nat) :
    (header_line (line_lower h)).length = (header_line h).length := by
  simp [header_line, line_lower]

theorem header_tokens_lower (hs : List (List Nat × List Nat)) : ∀ (n : Nat),
    header_tokens n (hs.map line_lower) = header_tokens n hs := by
  induction hs with
  | nil => intro n; rfl
  | cons h hs ih =>
    intro n
    simp only [List.map_cons, header_tokens, header_line_length_lower, ih]
    simp [line_lower]

theorem header_block_length_lower (hs : List (List Nat × List Nat)) :
    (header_block (hs.map line_lower)).length = (header_block hs).length := by
  induction hs with
  | nil => rfl
  | cons h hs ih =>
    simp only [List.map_cons, header_block, List.length_append, header_line_length_lower, ih]

theorem head_tokens_lower (m t v : List Nat) (hs : List (List Nat × List Nat)) :
    head_tokens m t v (hs.map line_lower) = head_tokens m t v hs := by
  simp only [head_tokens, header_tokens_lower]

set_option maxHeartbeats 1000000 in
theorem enter_with_buf (cl : client) (b : Option (List Nat)) (frm to_ : state_e) :
    _transition_enter (with_buf cl b) frm to_
      = ((_transition_enter cl frm to_).1, with_buf (_transition_enter cl frm to_).2 b) := by
  by_cases h1 : frm = HN
  · by_cases h2 : frm ≠ to_
    · cases to_ <;>
        simp only [_transition_enter, with_buf, h1, h2, if_true, if_false, _token_start_states,
          _stream_anchor, _stream_begin_token, _stream_emit, _meta_trigger, ne_eq,
          not_true_eq_false, not_false_eq_true, reduceCtorEq] <;>
        (try split_ifs) <;> rfl
    · have h4 : frm = to_ := not_not.1 h2
      subst h4
      subst h1
      simp only [_transition_enter, with_buf, if_true, if_false, _stream_anchor, ne_eq,
        not_true_eq_false]
  · by_cases h2 : frm ≠ to_
    · by_cases h3 : frm = CS
      · cases to_ <;>
          simp only [_transition_enter, with_buf, h1, h2, h3, if_true, if_false,
            _token_start_states, _stream_anchor, _stream_begin_token, _stream_emit,
            _meta_trigger, ne_eq, not_true_eq_false, not_false_eq_true, reduceCtorEq] <;>
          (try split_ifs) <;> rfl
      · cases to_ <;>
          simp only [_transition_enter, with_buf, h1, h2, h3, if_true, if_false,
            _token_start_states, _stream_anchor, _stream_begin_token, _stream_emit,
            _meta_trigger, ne_eq, not_true_eq_false, not_false_eq_true, reduceCtorEq] <;>
          (try split_ifs) <;> rfl
    · have h4 : frm = to_ := not_not.1 h2
      subst h4
      simp only [_transition_enter, with_buf, h1, if_false, ne_eq, not_true_eq_false]

set_option maxHeartbeats 1000000 in
theorem body_with_buf (em : token) (cl : client) (b : Option (List Nat)) (to_ : state_e) :
    _transition_body em (with_buf cl b) to_
      = ((_transition_body em cl to_).1, with_buf (_transition_body em cl to_).2 b) := by
  by_cases hM : cl.parser.meta = M_STR <;>
  by_cases hJ : cl.stream.index + toInt32 (cl.parser.content_length - cl.parser.body_consumed)
      > cl.stream.length <;>
  by_cases hC : to_ = CB <;>
  simp only [_transition_body, with_buf, hM, hJ, hC, if_true, if_false, _stream_begin_token,
    _stream_emit, _meta_trigger, _stream_jump, _stream_jumpall, _stream_shift,
    Bool.false_eq_true, gt_iff_lt] <;>
  (try split_ifs) <;> (try rfl) <;> simp_all

set_option maxHeartbeats 1000000 in
theorem switch_with_buf (em : token) (cl : client) (b : Option (List Nat)) (c : Nat)
    (to_ : state_e) :
    _transition_switch em (with_buf cl b) c to_
      = ((_transition_switch em cl c to_).1, with_buf (_transition_switch em cl c to_).2 b) := by
  cases to_
  case BD => exact body_with_buf em cl b BD
  case CB => exact body_with_buf em cl b CB
  case HN =>
    by_cases h1 : cl.parser.meta = M_SML
        ∧ ¬ (cl.server.spec.request_buf_max_size - cl.stream.index + 1 ≥ cl.parser.content_length)
    · simp only [_transition_switch, with_buf, _stream_can_contain, h1, decide_eq_true_eq,
        not_false_eq_true, and_self, if_true, _meta_trigger]
      split_ifs <;> rfl
    · simp only [_transition_switch, with_buf, _stream_can_contain, h1, decide_eq_true_eq,
        if_false, _meta_trigger]
      split_ifs <;> rfl
  case CS =>
    simp only [_transition_switch, with_buf, _meta_trigger]
    split_ifs <;> rfl
  all_goals
    simp only [_transition_switch, with_buf, _stream_emit, _meta_trigger]
    try rfl

theorem consume_with_buf (X : client) (b : Option (List Nat)) :
    ({ with_buf X b with stream := _stream_consume (with_buf X b).stream } : client)
      = with_buf { X with stream := _stream_consume X.stream } b := by
  simp only [with_buf, _stream_consume]
  split_ifs <;> rfl

theorem transition_with_buf (cl : client) (b : Option (List Nat)) (c : Nat) (frm to_ : state_e) :
    _transition (with_buf cl b) c frm to_
      = ((_transition cl c frm to_).1, with_buf (_transition cl c frm to_).2 b) := by
  unfold _transition
  simp only [enter_with_buf, switch_with_buf]

/-- One turn of the loop of `_token_parse` does not read the buffer: with
another buffer it returns the same token and the same client, with that
buffer. -/
theorem step_with_buf (cl : client) (b : Option (List Nat)) (c : Nat) :
    token_parse_step (with_buf cl b) c
      = ((token_parse_step cl c).1, with_buf (token_parse_step cl c).2 b) := by
  unfold token_parse_step
  have e : ∀ p : parser, ({ with_buf cl b with parser := p } : client)
      = with_buf { cl with parser := p } b := fun _ => rfl
  have e1 : (with_buf cl b).parser = cl.parser := rfl
  simp only [e1, e, transition_with_buf, consume_with_buf]

theorem next_state_body (p : parser) (c : Nat) (h : body_state (next_state p c)) :
    p.state = HN ∨ body_state p.state := by
  unfold next_state at h
  split_ifs at h with h1
  · exact Or.inl h1.2.1
  · generalize ctype_of c = t at h
    generalize p.state = s at h ⊢
    cases s <;> cases t <;> first | (left; rfl) | (right; decide) | (exact absurd h (by decide))

set_option maxHeartbeats 1000000 in
theorem enter_facts (cl : client) (frm to_ : state_e) :
    (_transition_enter cl frm to_).2.stream.index = cl.stream.index
    ∧ (_transition_enter cl frm to_).2.stream.length = cl.stream.length
    ∧ (_transition_enter cl frm to_).2.stream.consumed = cl.stream.consumed
    ∧ (_transition_enter cl frm to_).2.stream.anchor
        = (if frm = HN then cl.stream.index else cl.stream.anchor)
    ∧ (_transition_enter cl frm to_).2.parser.state = cl.parser.state
    ∧ (_transition_enter cl frm to_).2.server = cl.server
    ∧ (((_transition_enter cl frm to_).2.stream.token = cl.stream.token
          ∧ (frm = to_ ∨ _token_start_states to_ = HS_TOK_NONE))
      ∨ ((_transition_enter cl frm to_).2.stream.token
            = { cl.stream.token with type := _token_start_states to_, index := cl.stream.index }
          ∧ frm ≠ to_ ∧ _token_start_states to_ ≠ HS_TOK_NONE)
      ∨ (_transition_enter cl frm to_).2.stream.token = {}) := by
  by_cases h1 : frm = HN
  · by_cases h2 : frm ≠ to_
    · cases to_ <;>
        simp only [_transition_enter, h1, h2, if_true, if_false, _token_start_states,
          _stream_anchor, _stream_begin_token, _stream_emit, _meta_trigger, ne_eq,
          not_true_eq_false, not_false_eq_true, reduceCtorEq] <;>
        (try split_ifs) <;> simp_all
    · have h4 : frm = to_ := not_not.1 h2
      subst h4
      subst h1
      simp [_transition_enter, _stream_anchor]
  · by_cases h2 : frm ≠ to_
    · by_cases h3 : frm = CS
      · cases to_ <;>
          simp only [_transition_enter, h1, h2, h3, if_true, if_false,
            _token_start_states, _stream_anchor, _stream_begin_token, _stream_emit,
            _meta_trigger, ne_eq, not_true_eq_false, not_false_eq_true, reduceCtorEq] <;>
          (try split_ifs) <;> simp_all
      · cases to_ <;>
          simp only [_transition_enter, h1, h2, h3, if_true, if_false,
            _token_start_states, _stream_anchor, _stream_begin_token, _stream_emit,
            _meta_trigger, ne_eq, not_true_eq_false, not_false_eq_true, reduceCtorEq] <;>
          (try split_ifs) <;> simp_all
    · have h4 : frm = to_ := not_not.1 h2
      subst h4
      simp [_transition_enter, h1]

set_option maxHeartbeats 1000000 in
theorem body_facts (em : token) (cl : client) (to_ : state_e) :
    (_transition_body em cl to_).2.stream.consumed = true
    ∧ (_transition_body em cl to_).2.stream.anchor = cl.stream.anchor
    ∧ (_transition_body em cl to_).2.server = cl.server
    ∧ (((_transition_body em cl to_).2.stream.token = {}
          ∧ (_transition_body em cl to_).2.stream.index = cl.stream.index
          ∧ ((_transition_body em cl to_).2.parser.state = cl.parser.state
              ∨ (_transition_body em cl to_).2.parser.state = CD))
      ∨ ((_transition_body em cl to_).2.stream.token = {}
          ∧ (_transition_body em cl to_).2.stream.index = cl.stream.length
          ∧ (_transition_body em cl to_).2.parser.state = cl.parser.state)
      ∨ ((_transition_body em cl to_).2.stream.token = { index := cl.stream.anchor }
          ∧ (_transition_body em cl to_).2.stream.index = cl.stream.anchor
          ∧ (_transition_body em cl to_).2.parser.state = cl.parser.state)
      ∨ ((_transition_body em cl to_).2.stream.token
            = { cl.stream.token with
                len := if cl.stream.token.type ≠ HS_TOK_NONE
                  then cl.stream.token.len + (cl.stream.length - cl.stream.index) else 0 }
          ∧ (_transition_body em cl to_).2.stream.index = cl.stream.length
          ∧ (_transition_body em cl to_).2.parser.state = cl.parser.state)) := by
  by_cases hM : cl.parser.meta = M_STR <;>
  by_cases hJ : cl.stream.index + toInt32 (cl.parser.content_length - cl.parser.body_consumed)
      > cl.stream.length <;>
  by_cases hC : to_ = CB <;>
  simp only [_transition_body, hM, hJ, hC, if_true, if_false, _stream_begin_token,
    _stream_emit, _meta_trigger, _stream_jump, _stream_jumpall, _stream_shift,
    Bool.false_eq_true, gt_iff_lt] <;>
  (try split_ifs) <;> simp_all

set_option maxHeartbeats 1000000 in
theorem switch_facts (em : token) (cl : client) (c : Nat) (to_ : state_e)
    (h1 : to_ ≠ BD) (h2 : to_ ≠ CB) :
    (_transition_switch em cl c to_).2.stream.consumed = cl.stream.consumed
    ∧ (_transition_switch em cl c to_).2.stream.anchor = cl.stream.anchor
    ∧ (_transition_switch em cl c to_).2.stream.index = cl.stream.index
    ∧ (_transition_switch em cl c to_).2.stream.length = cl.stream.length
    ∧ (_transition_switch em cl c to_).2.parser.state = cl.parser.state
    ∧ (_transition_switch em cl c to_).2.server = cl.server
    ∧ ((_transition_switch em cl c to_).2.stream.token = cl.stream.token
        ∨ (_transition_switch em cl c to_).2.stream.token = {}) := by
  cases to_
  case BD => exact absurd rfl h1
  case CB => exact absurd rfl h2
  case HN =>
    simp only [_transition_switch, _meta_trigger]
    split_ifs <;> simp
  case CS =>
    simp only [_transition_switch, _meta_trigger]
    split_ifs <;> simp
  case HK =>
    simp only [_transition_switch]
    have := transition_hk_fields cl.parser c
    simp [this]
  case HV =>
    simp only [_transition_switch]
    have := transition_hv_fields cl.parser c
    simp [this]
  all_goals
    simp [_transition_switch, _stream_emit, _meta_trigger]

theorem token_parse_step_eq (cl : client) (c : Nat) :
    token_parse_step cl c
      = ((_transition_switch
            (_transition_enter { cl with parser := { cl.parser with state := next_state cl.parser c } }
              cl.parser.state (next_state cl.parser c)).1
            (_transition_enter { cl with parser := { cl.parser with state := next_state cl.parser c } }
              cl.parser.state (next_state cl.parser c)).2 c (next_state cl.parser c)).1,
         { (_transition_switch
            (_transition_enter { cl with parser := { cl.parser with state := next_state cl.parser c } }
              cl.parser.state (next_state cl.parser c)).1
            (_transition_enter { cl with parser := { cl.parser with state := next_state cl.parser c } }
              cl.parser.state (next_state cl.parser c)).2 c (next_state cl.parser c)).2 with
           stream := _stream_consume (_transition_switch
            (_transition_enter { cl with parser := { cl.parser with state := next_state cl.parser c } }
              cl.parser.state (next_state cl.parser c)).1
            (_transition_enter { cl with parser := { cl.parser with state := next_state cl.parser c } }
              cl.parser.state (next_state cl.parser c)).2 c (next_state cl.parser c)).2.stream }) :=
  rfl

theorem switch_body (em : token) (cl : client) (c : Nat) (to_ : state_e)
    (h : to_ = BD ∨ to_ = CB) :
    _transition_switch em cl c to_ = _transition_body em cl to_ := by
  rcases h with rfl | rfl <;> rfl

/-- One turn of the loop of `_token_parse` keeps the frame condition. -/
theorem step_frame_inv (a : Nat) (cl : client) (c : Nat) (hinv : frame_inv a cl)
    (hc : cl.stream.consumed = false) (hlt : cl.stream.index < cl.stream.length) :
    frame_inv a (token_parse_step cl c).2 ∧ (token_parse_step cl c).2.server = cl.server := by
  obtain ⟨i1, i2, i3, i4, i5⟩ := hinv
  have htab := next_state_body cl.parser c
  rw [token_parse_step_eq]
  generalize next_state cl.parser c = to_ at htab ⊢
  obtain ⟨e1, e2, e3, e4, e5, e6, e7⟩ := enter_facts
    { cl with parser := { cl.parser with state := to_ } } cl.parser.state to_
  simp only at e1 e2 e3 e4 e5 e6 e7
  generalize _transition_enter { cl with parser := { cl.parser with state := to_ } }
    cl.parser.state to_ = E at e1 e2 e3 e4 e5 e6 e7 ⊢
  have hanchor : body_state to_ → (a : Int) ≤ E.2.stream.anchor := by
    intro hb
    rw [e4]
    split_ifs with hf
    · exact i1
    · rcases htab hb with h | h
      · exact absurd h hf
      · exact i2 h
  have hlen : 0 ≤ E.2.stream.token.len := by
    rcases e7 with ⟨h, -⟩ | ⟨h, -, -⟩ | h <;> rw [h] <;> simp [i4]
  have hnone : E.2.stream.token.type = HS_TOK_NONE → E.2.stream.token.len = 0 := by
    rcases e7 with ⟨h, -⟩ | ⟨h, -, hh⟩ | h <;> rw [h]
    · exact i5
    · intro h1; exact absurd h1 hh
    · intro _; rfl
  by_cases hb : to_ = BD ∨ to_ = CB
  · rw [switch_body _ _ _ _ hb]
    obtain ⟨b1, b2, b3, b4⟩ := body_facts E.1 E.2 to_
    have hbody : body_state to_ := by
      rcases hb with rfl | rfl <;> decide
    have ha := hanchor hbody
    generalize _transition_body E.1 E.2 to_ = B at b1 b2 b3 b4 ⊢
    have hcons : _stream_consume B.2.stream = B.2.stream := by
      unfold _stream_consume; rw [b1]; rfl
    simp only [hcons]
    refine ⟨⟨?_, ?_, ?_, ?_, ?_⟩, by rw [b3, e6]⟩
    · rcases b4 with ⟨-, h, -⟩ | ⟨-, h, -⟩ | ⟨-, h, -⟩ | ⟨-, h, -⟩ <;> rw [h]
      · rw [e1]; exact i1
      · rw [e2]; omega
      · exact ha
      · rw [e2]; omega
    · intro _; show (a : Int) ≤ B.2.stream.anchor; rw [b2]; exact ha
    · intro hs ht
      rcases b4 with ⟨h, -, -⟩ | ⟨h, -, -⟩ | ⟨h, -, -⟩ | ⟨h, -, hst⟩
      · exact absurd (by show B.2.stream.token.type = _; rw [h]) ht
      · exact absurd (by show B.2.stream.token.type = _; rw [h]) ht
      · exact absurd (by show B.2.stream.token.type = _; rw [h]) ht
      · have hs1 : B.2.parser.state = CB := hs
        rw [hst, e5] at hs1
        have hs2 : to_ = CB := hs1
        have ht1 : B.2.stream.token.type ≠ HS_TOK_NONE := ht
        show (a : Int) ≤ B.2.stream.token.index
        rw [h] at ht1 ⊢
        simp only at ht1 ⊢
        rcases e7 with ⟨h7, hf | hf⟩ | ⟨h7, -, -⟩ | h7
        · rw [h7] at ht1 ⊢
          exact i3 (by rw [hf, hs2]) ht1
        · rw [hs2] at hf; exact absurd hf (by decide)
        · rw [h7]; exact i1
        · rw [h7] at ht1; exact absurd rfl ht1
    · show 0 ≤ B.2.stream.token.len
      rcases b4 with ⟨h, -, -⟩ | ⟨h, -, -⟩ | ⟨h, -, -⟩ | ⟨h, -, -⟩
      · rw [h]
      · rw [h]
      · rw [h]
      · rw [h]
        show 0 ≤ (if E.2.stream.token.type ≠ HS_TOK_NONE
          then E.2.stream.token.len + (E.2.stream.length - E.2.stream.index) else 0)
        split_ifs
        · rw [e2, e1]; omega
        · exact le_refl _
    · show B.2.stream.token.type = HS_TOK_NONE → B.2.stream.token.len = 0
      rcases b4 with ⟨h, -, -⟩ | ⟨h, -, -⟩ | ⟨h, -, -⟩ | ⟨h, -, -⟩
      · rw [h]; intro _; rfl
      · rw [h]; intro _; rfl
      · rw [h]; intro _; rfl
      · rw [h]
        intro h1
        have h2 : E.2.stream.token.type = HS_TOK_NONE := h1
        show (if E.2.stream.token.type ≠ HS_TOK_NONE
          then E.2.stream.token.len + (E.2.stream.length - E.2.stream.index) else 0) = 0
        rw [if_neg (by simpa using h2)]
  · have h1 : to_ ≠ BD := fun h => hb (Or.inl h)
    have h2 : to_ ≠ CB := fun h => hb (Or.inr h)
    obtain ⟨s1, s2, s3, s4, s5, s6, s7⟩ := switch_facts E.1 E.2 c to_ h1 h2
    generalize _transition_switch E.1 E.2 c to_ = S at s1 s2 s3 s4 s5 s6 s7 ⊢
    have hcf : S.2.stream.consumed = false := by rw [s1, e3]; exact hc
    have hSlen : 0 ≤ S.2.stream.token.len := by
      rcases s7 with h | h
      · rw [h]; exact hlen
      · rw [h]
    have hcons : _stream_consume S.2.stream
        = { S.2.stream with
            consumed := true
            index := S.2.stream.index + 1
            token := { S.2.stream.token with
              len := if S.2.stream.token.type ≠ HS_TOK_NONE
                then S.2.stream.token.len + 1 else 0 } } := by
      unfold _stream_consume; rw [hcf]; rfl
    simp only [hcons]
    refine ⟨⟨?_, ?_, ?_, ?_, ?_⟩, by rw [s6, e6]⟩
    · show (a : Int) ≤ S.2.stream.index + 1
      rw [s3, e1]; omega
    · intro hbs
      have hbs1 : body_state S.2.parser.state := hbs
      rw [s5, e5] at hbs1
      show (a : Int) ≤ S.2.stream.anchor
      rw [s2]
      exact hanchor hbs1
    · intro hs
      have hs1 : S.2.parser.state = CB := hs
      rw [s5, e5] at hs1
      exact absurd hs1 h2
    · show 0 ≤ (if S.2.stream.token.type ≠ HS_TOK_NONE then S.2.stream.token.len + 1 else 0)
      split_ifs
      · omega
      · exact le_refl _
    · show S.2.stream.token.type = HS_TOK_NONE →
        (if S.2.stream.token.type ≠ HS_TOK_NONE then S.2.stream.token.len + 1 else 0) = 0
      intro h
      rw [if_neg (by simpa using h)]

/-- C21.  `iwn_http_response_code_set` refuses a code (the value `none`, which
stands for `IW_ERROR_INVALID_ARGS`; nothing of the client has been written
then) exactly when the code is negative or above 599.  A code from 1 to 599 is
stored as it is and the code 0 is stored as 200, nothing else of the client
changes, and `iwn_http_response_code_get` returns the stored code afterwards.
Whatever code a successful call stored, and also the code 0 of a response
whose code was never set, the code with which
`_client_response_headers_write_http` writes the status line of a response
lies in 1..599, inside the table `_status_text` of 600 entries, and is the
stored code (200 for 0). -/
theorem c21_code_set (cl : client) (code : Int) :
    (iwn_http_response_code_set cl code = none ↔ (code < 0 ∨ code > 599))
    ∧ ((1 ≤ code ∧ code ≤ 599) →
        iwn_http_response_code_set cl code
          = some { cl with response := { cl.response with code := code } })
    ∧ (code = 0 →
        iwn_http_response_code_set cl code
          = some { cl with response := { cl.response with code := 200 } })
    ∧ (∀ cl1, iwn_http_response_code_set cl code = some cl1 →
        iwn_http_response_code_get cl1 = (if code = 0 then 200 else code)
        ∧ 1 ≤ iwn_http_response_code_get cl1 ∧ iwn_http_response_code_get cl1 ≤ 599
        ∧ ∀ e : env,
            (_client_response_headers_write_http e cl1).1.response.code
              = iwn_http_response_code_get cl1
            ∧ ∃ rest, response_end_text e cl1
                = str "HTTP/1.1 " ++ fmt_d (iwn_http_response_code_get cl1) ++ str " "
                    ++ _status_text (iwn_http_response_code_get cl1) ++ str "\r\n" ++ rest)
    ∧ (∀ e : env, 0 ≤ cl.response.code → cl.response.code ≤ 599 →
        1 ≤ (_client_response_headers_write_http e cl).1.response.code
        ∧ (_client_response_headers_write_http e cl).1.response.code ≤ 599) := by
  refine ⟨?_, ?_, ?_, ?_, ?_⟩
  · unfold iwn_http_response_code_set
    by_cases h : code < 0 ∨ code > 599
    · simp [h]
    · simp [h]
  · intro h
    unfold iwn_http_response_code_set
    rw [if_neg (by omega)]
    simp only
    rw [if_neg (by omega)]
  · intro h
    unfold iwn_http_response_code_set
    rw [if_neg (by omega)]
    simp only
    rw [if_pos h]
  · intro cl1 h
    unfold iwn_http_response_code_set at h
    by_cases hr : code < 0 ∨ code > 599
    · rw [if_pos hr] at h; exact absurd h (by simp)
    · rw [if_neg hr] at h
      have h1 : cl1 = { cl with response :=
          { cl.response with code := if code = 0 then 200 else code } } :=
        (Option.some.inj h).symm
      have hg : iwn_http_response_code_get cl1 = (if code = 0 then 200 else code) := by
        rw [h1]; rfl
      have hlo : 1 ≤ iwn_http_response_code_get cl1 := by
        rw [hg]; split_ifs <;> omega
      have hhi : iwn_http_response_code_get cl1 ≤ 599 := by
        rw [hg]; split_ifs <;> omega
      refine ⟨hg, hlo, hhi, ?_⟩
      intro e
      have hw := (headers_write_http_code e cl1).1
      have ht := response_end_text_status e cl1
      have hne : ¬ cl1.response.code = 0 := by
        have : cl1.response.code = iwn_http_response_code_get cl1 := rfl
        omega
      rw [if_neg hne] at hw ht
      exact ⟨hw, ht⟩
  · intro e h0 h1
    rw [(headers_write_http_code e cl).1]
    split_ifs <;> omega

/-- Witness of C21: the codes 404 and 0 on a fresh client, and the codes 600
and -1, which are refused. -/
theorem c21_code_set_witness :
    (iwn_http_response_code_set {} 404).map iwn_http_response_code_get = some 404
    ∧ (iwn_http_response_code_set {} 0).map iwn_http_response_code_get = some 200
    ∧ iwn_http_response_code_set {} 600 = none
    ∧ iwn_http_response_code_set {} (-1) = none := by
  refine ⟨?_, ?_, ?_, ?_⟩
  · rw [(c21_code_set {} 404).2.1 (by decide)]; rfl
  · rw [(c21_code_set {} 0).2.2.1 rfl]; rfl
  · exact (c21_code_set {} 600).1.mpr (by decide)
  · exact (c21_code_set {} (-1)).1.mpr (by decide)

theorem spec_ite_eq (c : Prop) [Decidable c] (a b : iwn_http_server_spec) :
    (if c then a else b)
      = { request_buf_size := if c then a.request_buf_size else b.request_buf_size
          request_buf_max_size := if c then a.request_buf_max_size else b.request_buf_max_size
          request_timeout_sec := if c then a.request_timeout_sec else b.request_timeout_sec
          request_timeout_keepalive_sec :=
            if c then a.request_timeout_keepalive_sec else b.request_timeout_keepalive_sec
          request_token_max_len := if c then a.request_token_max_len else b.request_token_max_len
          request_max_header_count :=
            if c then a.request_max_header_count else b.request_max_header_count
          response_buf_size := if c then a.response_buf_size else b.response_buf_size
          http_socket_queue_size := if c then a.http_socket_queue_size else b.http_socket_queue_size
          request_handler := if c then a.request_handler else b.request_handler
          poller := if c then a.poller else b.poller
          listen := if c then a.listen else b.listen
          port := if c then a.port else b.port
          certs_data := if c then a.certs_data else b.certs_data
          certs_data_len := if c then a.certs_data_len else b.certs_data_len
          private_key := if c then a.private_key else b.private_key
          private_key_len := if c then a.private_key_len else b.private_key_len } := by
  split_ifs <;> rfl

/-- The configuration `iwn_http_server_create` leaves, field by field. -/
theorem server_create_eq (spec : iwn_http_server_spec) :
    iwn_http_server_create spec
      = { http_socket_queue_size :=
            if spec.http_socket_queue_size < 1 then 64 else spec.http_socket_queue_size
          request_buf_size := if spec.request_buf_size < 1024 then 1024 else spec.request_buf_size
          request_timeout_sec := if spec.request_timeout_sec = 0 then 20 else spec.request_timeout_sec
          request_timeout_keepalive_sec :=
            if spec.request_timeout_keepalive_sec = 0 then 120
            else spec.request_timeout_keepalive_sec
          request_token_max_len :=
            if spec.request_token_max_len < 8192 then 8192 else spec.request_token_max_len
          request_max_header_count :=
            if spec.request_max_header_count < 1 then 127 else spec.request_max_header_count
          request_buf_max_size :=
            if spec.request_buf_max_size < 1024 * 1024 then 8 * 1024 * 1024
            else spec.request_buf_max_size
          response_buf_size := if spec.response_buf_size < 1 then 1024 else spec.response_buf_size
          request_handler := spec.request_handler
          poller := spec.poller
          listen := if spec.listen.isNone then some (str "localhost") else spec.listen
          port := if spec.port = 0 then (if server_https spec then 8443 else 8080) else spec.port
          certs_data :=
            if server_https spec then iwpool_strndup spec.certs_data spec.certs_data_len
            else spec.certs_data
          certs_data_len := spec.certs_data_len
          private_key :=
            if server_https spec then iwpool_strndup spec.private_key spec.private_key_len
            else spec.private_key
          private_key_len := spec.private_key_len } := by
  unfold iwn_http_server_create
  simp only [spec_ite_eq, server_https, ite_self]

theorem server_https_create (spec : iwn_http_server_spec) :
    server_https (iwn_http_server_create spec) = server_https spec := by
  rw [server_create_eq]
  by_cases h : server_https spec = true
  · simp only [h, if_true]
    unfold server_https at h ⊢
    simp only [iwpool_strndup, Option.isSome_map']
    exact h
  · simp only [h, if_false, Bool.false_eq_true]
    unfold server_https at h ⊢
    simp only at h ⊢
    simpa using h

theorem strndup_idem (s : Option (List Nat)) (len : Int) :
    iwpool_strndup (iwpool_strndup s len) len = iwpool_strndup s len := by
  cases s <;> simp [iwpool_strndup, List.take_take]

theorem server_create_idem (spec : iwn_http_server_spec) :
    iwn_http_server_create (iwn_http_server_create spec) = iwn_http_server_create spec := by
  have hh := server_https_create spec
  rw [server_create_eq (iwn_http_server_create spec), hh]
  rw [server_create_eq spec]
  simp only [iwn_http_server_spec.mk.injEq]
  refine ⟨?_, ?_, ?_, ?_, ?_, ?_, ?_, ?_, ?_, ?_, ?_, ?_, ?_, ?_, ?_, ?_⟩
  all_goals first
    | trivial
    | rfl
    | (split_ifs <;> first | rfl | omega | exact strndup_idem _ _)

/-- Counterexample to C28 as stated: in the configuration `no_listen_spec` the
handler and the poller are present, none of the numeric fields is below its
limit and the port is not 0, yet the configuration the server uses is not the
given one: its address is `localhost`. -/
theorem c28_listen_counterexample :
    iwn_http_server_create_rc no_listen_spec ≠ some no_listen_spec
    ∧ (iwn_http_server_create_rc no_listen_spec).map (fun s => s.listen)
        = some (some (str "localhost"))
    ∧ no_listen_spec.request_handler = true ∧ no_listen_spec.poller = true
    ∧ ¬ no_listen_spec.http_socket_queue_size < 1 ∧ ¬ no_listen_spec.request_buf_size < 1024
    ∧ no_listen_spec.request_timeout_sec ≠ 0 ∧ no_listen_spec.request_timeout_keepalive_sec ≠ 0
    ∧ ¬ no_listen_spec.request_token_max_len < 8192
    ∧ ¬ no_listen_spec.request_max_header_count < 1
    ∧ ¬ no_listen_spec.request_buf_max_size < 1048576
    ∧ ¬ no_listen_spec.response_buf_size < 1 ∧ no_listen_spec.port ≠ 0 := by
  decide

/-- C28 (amended).  `iwn_http_server_create` fails with
`IW_ERROR_INVALID_ARGS` (the value `none`, returned before any socket is
made) exactly when the handler or the poller is missing.  Otherwise the
configuration the server uses is the given one except that
`http_socket_queue_size < 1` becomes 64, `request_buf_size < 1024` becomes
1024, `request_timeout_sec = 0` becomes 20, `request_timeout_keepalive_sec = 0`
becomes 120, `request_token_max_len < 8192` becomes 8192,
`request_max_header_count < 1` becomes 127, `request_buf_max_size < 1 MiB`
becomes 8 MiB, `response_buf_size < 1` becomes 1024, the port 0 becomes 8443
when the certificate and the private key are both given with lengths other
than 0 and 8080 otherwise, a missing address to listen on becomes `localhost`,
and the certificate and the key, when both are given, are kept as copies of
their first `certs_data_len` and `private_key_len` bytes.  Applying the
normalisation twice gives the same as applying it once. -/
theorem c28_server_create (spec : iwn_http_server_spec) :
    (iwn_http_server_create_rc spec = none
      ↔ (spec.request_handler = false ∨ spec.poller = false))
    ∧ (spec.request_handler = true → spec.poller = true →
        iwn_http_server_create_rc spec = some (iwn_http_server_create spec))
    ∧ iwn_http_server_create spec
      = { http_socket_queue_size :=
            if spec.http_socket_queue_size < 1 then 64 else spec.http_socket_queue_size
          request_buf_size := if spec.request_buf_size < 1024 then 1024 else spec.request_buf_size
          request_timeout_sec := if spec.request_timeout_sec = 0 then 20 else spec.request_timeout_sec
          request_timeout_keepalive_sec :=
            if spec.request_timeout_keepalive_sec = 0 then 120
            else spec.request_timeout_keepalive_sec
          request_token_max_len :=
            if spec.request_token_max_len < 8192 then 8192 else spec.request_token_max_len
          request_max_header_count :=
            if spec.request_max_header_count < 1 then 127 else spec.request_max_header_count
          request_buf_max_size :=
            if spec.request_buf_max_size < 1024 * 1024 then 8 * 1024 * 1024
            else spec.request_buf_max_size
          response_buf_size := if spec.response_buf_size < 1 then 1024 else spec.response_buf_size
          request_handler := spec.request_handler
          poller := spec.poller
          listen := if spec.listen.isNone then some (str "localhost") else spec.listen
          port := if spec.port = 0 then (if server_https spec then 8443 else 8080) else spec.port
          certs_data :=
            if server_https spec then iwpool_strndup spec.certs_data spec.certs_data_len
            else spec.certs_data
          certs_data_len := spec.certs_data_len
          private_key :=
            if server_https spec then iwpool_strndup spec.private_key spec.private_key_len
            else spec.private_key
          private_key_len := spec.private_key_len }
    ∧ iwn_http_server_create (iwn_http_server_create spec) = iwn_http_server_create spec
    ∧ (iwn_http_server_create_rc spec).bind iwn_http_server_create_rc
        = iwn_http_server_create_rc spec := by
  refine ⟨?_, ?_, server_create_eq spec, server_create_idem spec, ?_⟩
  · unfold iwn_http_server_create_rc
    cases spec.request_handler <;> cases spec.poller <;> simp
  · intro h1 h2
    unfold iwn_http_server_create_rc
    simp [h1, h2]
  · have e1 : (iwn_http_server_create spec).request_handler = spec.request_handler := by
      rw [server_create_eq]
    have e2 : (iwn_http_server_create spec).poller = spec.poller := by
      rw [server_create_eq]
    unfold iwn_http_server_create_rc
    cases h1 : spec.request_handler <;> cases h2 : spec.poller <;>
      simp [h1, h2, e1, e2, server_create_idem]

/-- Witness of C28 (amended): the configuration `tls_spec` is accepted and
gets the port 8443 and the queue size 64; its negative timeout stays. -/
theorem c28_server_create_witness :
    (iwn_http_server_create_rc tls_spec).map
        (fun s => (s.port, s.http_socket_queue_size, s.request_timeout_sec))
      = some (8443, 64, -1) := by
  rw [(c28_server_create tls_spec).2.1 rfl rfl]
  decide

theorem body_set_flags (cl : client) (b : Option (List Nat)) (len : Int) (f : Option Nat) :
    (iwn_http_response_body_set cl b len f).flags = cl.flags := by
  unfold iwn_http_response_body_set iwn_http_response_body_clear
  cases b with
  | none => rfl
  | some b =>
    rcases hb : cl.response.body with _ | old <;> rcases hf : cl.response.body_free with _ | g <;>
      by_cases hl : len = 0 <;> simp [hb, hf, hl]

/-- C22: fails in the code.  `iwn_http_response_chunk_write` never sets
`HTTP_CHUNKED_RESPONSE`: the flag is after the call what it was before.  So
for the request `empty_request` the first call, with the body `hello`, queues
the status line and a header block that holds `transfer-encoding: chunked` and
also `content-length: 0`, followed by the frame; once these bytes are written
the session is reset for another request (state INIT) and the chunk callback
is not called: nothing but the first call has been sent.  A second call, with
the body ` world`, queues the status line and the header block once more,
now with `content-length: 5`, before its frame. -/
theorem c22_chunk_write_headers_again :
    (∀ (e : env) (cl : client) (b : Option (List Nat)) (len : Int) (f c : Option Nat),
      (chunk_write_text e cl b len f c).1.flags.HTTP_CHUNKED_RESPONSE
        = cl.flags.HTTP_CHUNKED_RESPONSE)
    ∧ (chunk_write_text example_env (client_at_handler empty_request) (some (str "hello")) 5
          none (some 1)).2
        = str "HTTP/1.1 200 OK\r\nDate: Thu, 01 Jan 1970 00:00:01 GMT\r\nconnection: keep-alive\r\ntransfer-encoding: chunked\r\ncontent-length: 0\r\n\r\n5\r\nhello\r\n"
    ∧ first_chunk_client.pa.sent
        = str "HTTP/1.1 200 OK\r\nDate: Thu, 01 Jan 1970 00:00:01 GMT\r\nconnection: keep-alive\r\ntransfer-encoding: chunked\r\ncontent-length: 0\r\n\r\n5\r\nhello\r\n"
    ∧ first_chunk_client.state = HTTP_SESSION_INIT
    ∧ first_chunk_client.flags.HTTP_CHUNKED_RESPONSE = false
    ∧ (chunk_write_text example_env_later first_chunk_client (some (str " world")) 6
          none none).2
        = str "HTTP/1.1 200 OK\r\nDate: Thu, 01 Jan 1970 00:00:02 GMT\r\nconnection: keep-alive\r\ntransfer-encoding: chunked\r\ncontent-length: 5\r\n\r\n6\r\n world\r\n" := by
  refine ⟨?_, ?_, ?_, ?_, ?_, ?_⟩
  · intro e cl b len f c
    unfold chunk_write_text
    simp only
    rw [body_set_flags]
    split_ifs with h
    · rfl
    · rw [(headers_write_http_fields e _).2.1]
      rfl
  all_goals decide

/-- C23: fails in the code.  The text `iwn_http_response_chunk_end` queues is
`0` CRLF, then what `_client_response_headers_write` writes, which ends with a
CRLF of its own, then one more CRLF.  With no header set and
`HTTP_CHUNKED_RESPONSE` set the bytes queued and sent are the 7 bytes `0`
CRLF CRLF CRLF; after a call of `iwn_http_response_chunk_write`, which leaves
the flag clear, they are `0` CRLF `content-length: 5` CRLF CRLF CRLF. -/
theorem c23_chunk_end_extra_crlf :
    (∀ cl : client, chunk_end_text cl
        = str "0\r\n"
          ++ (cl.response.headers.map
                (fun h => h.name ++ str ": " ++ h.value ++ str "\r\n")).flatten
          ++ (if cl.flags.HTTP_CHUNKED_RESPONSE = true then []
              else str "content-length: " ++ fmt_d (toInt32 cl.response.body_len) ++ str "\r\n")
          ++ str "\r\n\r\n")
    ∧ chunk_end_text { flags := { HTTP_CHUNKED_RESPONSE := true } } = str "0\r\n\r\n\r\n"
    ∧ (iwn_http_response_chunk_end no_callbacks
          { flags := { HTTP_CHUNKED_RESPONSE := true } }).pa.sent = str "0\r\n\r\n\r\n"
    ∧ (str "0\r\n\r\n\r\n").length = 7
    ∧ chunk_end_text first_chunk_client = str "0\r\ncontent-length: 5\r\n\r\n\r\n"
    ∧ (iwn_http_response_chunk_end no_callbacks
          { first_chunk_client with pa := {} }).pa.sent
        = str "0\r\ncontent-length: 5\r\n\r\n\r\n" := by
  refine ⟨?_, ?_, ?_, ?_, ?_, ?_⟩
  · intro cl
    unfold chunk_end_text _client_response_headers_write
    have e1 : str "\r\n\r\n" = str "\r\n" ++ str "\r\n" := rfl
    rw [e1]
    cases cl.flags.HTTP_CHUNKED_RESPONSE <;> simp
  all_goals decide

/-- C24: fails in the code.  `_server_time` fills the date buffer only when
the second differs from the cached one; the buffer is a local array of
`_client_response_headers_write_http` that is not initialised.  A peer sends
the request `empty_request` twice within second 1 on one connection: the
first response carries `Date: Thu, 01 Jan 1970 00:00:01 GMT`, the second
carries as its date the bytes the buffer held on entry, here `junk`. -/
theorem c24_date_same_second :
    (∀ (srv : server) (e : env) (buf : List Nat),
      _server_time srv e buf
        = if srv.stime ≠ e.now then ({ srv with stime := e.now }, e.date_text e.now)
          else (srv, buf))
    ∧ (on_event junk_callbacks junk_env (client_accepted {} { input := twice_input })).map
        (fun c => (c.pa.sent, c.state))
      = some (str "HTTP/1.1 200 OK\r\nDate: Thu, 01 Jan 1970 00:00:01 GMT\r\nconnection: keep-alive\r\ncontent-length: 0\r\n\r\n",
          HTTP_SESSION_INIT)
    ∧ ((on_event junk_callbacks junk_env (client_accepted {} { input := twice_input })).bind
          (on_event junk_callbacks junk_env)).map (fun c => c.pa.sent)
      = some (str "HTTP/1.1 200 OK\r\nDate: Thu, 01 Jan 1970 00:00:01 GMT\r\nconnection: keep-alive\r\ncontent-length: 0\r\n\r\nHTTP/1.1 200 OK\r\nDate: junk\r\nconnection: keep-alive\r\ncontent-length: 0\r\n\r\n") := by
  refine ⟨fun _ _ _ => rfl, ?_, ?_⟩ <;> decide

/-- C25: fails in the code.  For the request `GET / HTTP/1.1` CRLF CRLF the
row `RN` of the table `_transitions` sends the CR of the blank line to the
error state: the calls of `_token_parse` return METHOD, TARGET, VERSION and
then ERROR, no BODY and no REQ_END, and the session driver answers
`400 Bad Request`. -/
theorem c25_no_header_error :
    transitions_at RN HS_CR = BR ∧ transitions_at HE HS_CR = ER
    ∧ (token_parse_n 4 (client_holding {} no_header_request)).map (fun r => r.1)
      = some [{ index := 0, len := 3, type := HS_TOK_METHOD },
              { index := 4, len := 1, type := HS_TOK_TARGET },
              { index := 6, len := 8, type := HS_TOK_VERSION },
              { index := 0, len := 0, type := HS_TOK_ERROR }]
    ∧ (on_event server1_callbacks example_env
        (client_accepted {} { input := [io_result.bytes no_header_request] })).map
        (fun c => c.pa.sent)
      = some (str "HTTP/1.1 400 Bad Request\r\nDate: Thu, 01 Jan 1970 00:00:01 GMT\r\nconnection: keep-alive\r\ncontent-type: text/plain\r\ncontent-length: 11\r\n\r\nBad request") := by
  refine ⟨?_, ?_, ?_, ?_⟩ <;> decide

/-- The digit `0` right after the blank line of a chunked request: the chunk
size stays 0 and the meta FSM stays in `M_ZER`. -/
theorem step_CS_zero (cl0 : client) (L : Int) (n : Nat) :
    token_parse_step (at_ cl0 (psl HN M_ZER L 0) n {} false) 48 =
      ({}, at_ (anch cl0 n) (psl CS M_ZER L 0) (n + 1) {} true) := by
  simp [token_parse_step, at_, anch, psl, _transition, _transition_enter, _transition_switch,
    _stream_consume, _stream_anchor, _token_start_states, _meta_trigger, transitions_at,
    _transitions, ctype_of, _ctype, state_e.toNat, char_type_e.toNat, HS_CHAR_TYPE_LEN,
    chunk_size_digit]

/-- The CR after the chunk size 0: the meta FSM passes to `M_LST`. -/
theorem step_CS_cr (cl0 : client) (L : Int) (n : Nat) :
    token_parse_step (at_ cl0 (psl CS M_ZER L 0) n {} false) 13 =
      ({}, at_ cl0 (psl state_e.CR M_LST L 0) (n + 1) {} true) := by
  simp [token_parse_step, at_, psl, _transition, _transition_enter, _transition_switch,
    _stream_consume, _stream_anchor, _token_start_states, _meta_trigger, transitions_at,
    _transitions, ctype_of, _ctype, state_e.toNat, char_type_e.toNat, HS_CHAR_TYPE_LEN,
    meta_transitions_at, _meta_transitions, meta_state_e.toNat, HS_META_TYPE_LEN,
    HS_META_END_CHK_SIZE]

/-- The LF after the chunk size. -/
theorem step_CR_lf (cl0 : client) (L : Int) (n : Nat) :
    token_parse_step (at_ cl0 (psl state_e.CR M_LST L 0) n {} false) 10 =
      ({}, at_ cl0 (psl CN M_LST L 0) (n + 1) {} true) := by
  simp [token_parse_step, at_, psl, _transition, _transition_enter, _transition_switch,
    _stream_consume, _stream_anchor, _token_start_states, _meta_trigger, transitions_at,
    _transitions, ctype_of, _ctype, state_e.toNat, char_type_e.toNat, HS_CHAR_TYPE_LEN]

/-- The first byte after the line of the chunk size 0: a CHUNK_BODY token of
length 0 is emitted and the byte is not consumed. -/
theorem step_CN_last (cl0 : client) (L : Int) (n : Nat) (c : Nat)
    (hfit : (n : Int) ≤ cl0.stream.length) :
    token_parse_step (at_ cl0 (psl CN M_LST L 0) n {} false) c =
      ({ index := n, len := 0, type := HS_TOK_CHUNK_BODY },
        at_ cl0 (psl CD M_LST L 0) n {} true) := by
  have ht : transitions_at CN (ctype_of c) = CB := by
    generalize ctype_of c = t
    cases t <;> rfl
  have hfit1 : ¬ (cl0.stream.length < (n : Int)) := by omega
  simp [token_parse_step, at_, psl, _transition, _transition_enter, _transition_switch,
    _transition_body, _stream_jump, _stream_emit, _stream_begin_token,
    _stream_consume, _stream_anchor, _token_start_states, _meta_trigger, ht, toInt32,
    meta_transitions_at, _meta_transitions, meta_state_e.toNat, HS_META_TYPE_LEN,
    HS_META_NEXT, hfit1]

/-- The CR of the blank line that ends a chunked body. -/
theorem step_CD_cr (cl0 : client) (L : Int) (n : Nat) :
    token_parse_step (at_ cl0 (psl CD M_LST L 0) n {} false) 13 =
      ({}, at_ cl0 (psl C1 M_LST L 0) (n + 1) {} true) := by
  simp [token_parse_step, at_, psl, _transition, _transition_enter, _transition_switch,
    _stream_consume, _stream_anchor, _token_start_states, _meta_trigger, transitions_at,
    _transitions, ctype_of, _ctype, state_e.toNat, char_type_e.toNat, HS_CHAR_TYPE_LEN]

/-- The LF of the blank line that ends a chunked body: the meta FSM passes to
`M_END`. -/
theorem step_C1_lf (cl0 : client) (L : Int) (n : Nat) :
    token_parse_step (at_ cl0 (psl C1 M_LST L 0) n {} false) 10 =
      ({}, at_ cl0 (psl C2 M_END L 0) (n + 1) {} true) := by
  simp [token_parse_step, at_, psl, _transition, _transition_enter, _transition_switch,
    _stream_consume, _stream_anchor, _token_start_states, _meta_trigger, transitions_at,
    _transitions, ctype_of, _ctype, state_e.toNat, char_type_e.toNat, HS_CHAR_TYPE_LEN,
    meta_transitions_at, _meta_transitions, meta_state_e.toNat, HS_META_TYPE_LEN,
    HS_META_END_CHUNK]

/-- The two calls of `_token_parse` on the body `0` CRLF CRLF of a chunked
request, from the client left by the BODY_STREAM token: a CHUNK_BODY token of
length 0, then REQ_END with the parser zeroed. -/
theorem token_parse_last_chunk (cl0 : client) (bs : List Nat) (L : Int) (n : Nat) (b : Bool)
    (hb : cl0.stream.buf = some bs) (hl : cl0.stream.length = bs.length)
    (hd : bs.drop n = [48, 13, 10, 13, 10])
    (h0 : 0 ≤ cl0.server.spec.request_token_max_len) :
    _token_parse (at_ cl0 (psl HN M_ZER L 0) n {} b)
      = some ({ index := ((n + 3 : Nat) : Int), len := 0, type := HS_TOK_CHUNK_BODY },
          at_ (anch cl0 n) (psl CD M_LST L 0) (n + 3) {} true)
    ∧ _token_parse (at_ (anch cl0 n) (psl CD M_LST L 0) (n + 3) {} true)
      = some ({ type := HS_TOK_REQ_END }, at_ (anch cl0 n) {} (n + 5) {} false) := by
  have hb1 : (anch cl0 n).stream.buf = some bs := hb
  have hl1 : (anch cl0 n).stream.length = bs.length := hl
  have hlen : bs.length = n + 5 := by
    have h1 := congrArg List.length hd
    simp at h1
    have h2 : n ≤ bs.length := by
      by_contra hc
      rw [List.drop_eq_nil_of_le (by omega)] at hd
      simp at hd
    omega
  have d0 := hd
  have d1 : bs.drop (n + 1) = [13, 10, 13, 10] := (drop_cons_getD d0).2.2
  have d2 : bs.drop (n + 1 + 1) = [10, 13, 10] := (drop_cons_getD d1).2.2
  have d3 : bs.drop (n + 1 + 1 + 1) = [13, 10] := (drop_cons_getD d2).2.2
  have d4 : bs.drop (n + 1 + 1 + 1 + 1) = [10] := (drop_cons_getD d3).2.2
  constructor
  · refine token_parse_of_loop cl0 _ n {} b 4 _ _ (by show M_ZER ≠ M_SEN; decide)
      (by show M_ZER ≠ M_END; decide) ?_ ?_
    · rw [hl, hlen]; push_cast; omega
    · rw [token_parse_loop_succ 3 cl0 _ n {} b bs _ _ hb hl d0, step_CS_zero]
      simp only [ne_eq, not_true_eq_false, if_false]
      rw [token_parse_loop_succ 2 (anch cl0 n) _ (n + 1) {} true bs _ _ hb1 hl1 d1, step_CS_cr]
      simp only [ne_eq, not_true_eq_false, if_false]
      rw [token_parse_loop_succ 1 (anch cl0 n) _ (n + 1 + 1) {} true bs _ _ hb1 hl1 d2,
        step_CR_lf]
      simp only [ne_eq, not_true_eq_false, if_false]
      rw [token_parse_loop_succ 0 (anch cl0 n) _ (n + 1 + 1 + 1) {} true bs _ _ hb1 hl1 d3,
        step_CN_last _ _ _ _ (by rw [hl1, hlen]; push_cast; omega)]
      simp
      omega
  · have hloop : token_parse_loop 3 (at_ (anch cl0 n) (psl CD M_LST L 0) (n + 3) {} true)
        = some (none, at_ (anch cl0 n) (psl C2 M_END L 0) (n + 5) {} false) := by
      rw [token_parse_loop_succ 2 (anch cl0 n) _ (n + 3) {} true bs _ _ hb1 hl1 d3, step_CD_cr]
      simp only [ne_eq, not_true_eq_false, if_false]
      rw [token_parse_loop_succ 1 (anch cl0 n) _ (n + 3 + 1) {} true bs _ _ hb1 hl1 d4,
        step_C1_lf]
      simp only [ne_eq, not_true_eq_false, if_false]
      exact token_parse_loop_end 0 (anch cl0 n) _ (n + 3 + 1 + 1) {} true
        (by rw [hl1, hlen])
    have e3 : (at_ (anch cl0 n) (psl CD M_LST L 0) (n + 3) {} true).stream.length
        = (bs.length : Int) := hl
    have e4 : (at_ (anch cl0 n) (psl CD M_LST L 0) (n + 3) {} true).stream.index
        = ((n + 3 : Nat) : Int) := rfl
    have h6 := token_parse_loop_mono 3 _ _ hloop
      (2 * ((bs.length : Int) - ((n + 3 : Nat) : Int)).toNat + 2)
      (by rw [hlen]; push_cast; omega)
    have he : _meta_emit_token (psl CD M_LST L 0) = ({}, psl CD M_LST L 0) :=
      meta_emit_quiet _ (by show M_LST ≠ M_SEN; decide) (by show M_LST ≠ M_END; decide)
    have e1 : (at_ (anch cl0 n) (psl CD M_LST L 0) (n + 3) {} true).parser = psl CD M_LST L 0 :=
      rfl
    have e2 : ({ at_ (anch cl0 n) (psl CD M_LST L 0) (n + 3) {} true with
        parser := psl CD M_LST L 0 } : client)
        = at_ (anch cl0 n) (psl CD M_LST L 0) (n + 3) {} true := rfl
    have h1 : 0 ≤ (anch cl0 n).server.spec.request_token_max_len := h0
    unfold _token_parse
    simp only [e1, he, e2, e3, e4, ne_eq, not_true_eq_false, if_false, h6]
    simp [token_parse_finish, at_, psl, _meta_emit_token, h1]

/-- The calls of `_token_parse` compose: `j` calls followed by `k` calls are
`j + k` calls. -/
theorem token_parse_n_append : ∀ (j k : Nat) (cl X Y : client) (ts ts2 : List token),
    token_parse_n j cl = some (ts, X) → token_parse_n k X = some (ts2, Y) →
    token_parse_n (j + k) cl = some (ts ++ ts2, Y) := by
  intro j
  induction j with
  | zero =>
    intro k cl X Y ts ts2 h1 h2
    simp only [token_parse_n, Option.some.injEq, Prod.mk.injEq] at h1
    obtain ⟨rfl, rfl⟩ := h1
    simpa using h2
  | succ j ih =>
    intro k cl X Y ts ts2 h1 h2
    have e : j + 1 + k = (j + k) + 1 := by omega
    rw [e]
    unfold token_parse_n at h1 ⊢
    cases hp : _token_parse cl with
    | none => rw [hp] at h1; simp at h1
    | some r =>
      obtain ⟨t, cl1⟩ := r
      rw [hp] at h1
      simp only at h1 ⊢
      cases hn : token_parse_n j cl1 with
      | none => rw [hn] at h1; simp at h1
      | some r1 =>
        obtain ⟨ts1, X1⟩ := r1
        rw [hn] at h1
        simp only [Option.some.injEq, Prod.mk.injEq] at h1
        obtain ⟨rfl, rfl⟩ := h1
        rw [ih k cl1 X1 Y ts1 ts2 hn h2]
        rfl

/-- The head of a chunked request: the tokens of the head, then BODY_STREAM,
and the client the calls leave. -/
theorem chunked_head_tokens (srv : server) (m t v : List Nat)
    (hs1 : List (List Nat × List Nat)) (te : List Nat × List Nat)
    (hs2 : List (List Nat × List Nat)) (rest : List Nat)
    (hm : token_ok state_e.ST MT m) (ht : token_ok MS TR t) (hv : token_ok TS VN v)
    (lm : (m.length : Int) ≤ srv.spec.request_token_max_len)
    (lt : (t.length : Int) ≤ srv.spec.request_token_max_len)
    (lv : (v.length : Int) ≤ srv.spec.request_token_max_len)
    (h1 : ∀ h ∈ hs1, line_ok srv.spec M_ANY h)
    (hte : line_valid srv.spec te)
    (hcls : header_class te.1 = M_MCK) (hval : value_meta M_MCK te.2 = M_CHK)
    (h2 : ∀ h ∈ hs2, line_valid srv.spec h)
    (hmax : ((hs1 ++ te :: hs2).length : Int) ≤ srv.spec.request_max_header_count)
    (h16 : ((hs1 ++ te :: hs2).length : Int) ≤ 32767) :
    token_parse_n (2 * (hs1 ++ te :: hs2).length + 4)
        (client_holding srv (request_bytes m t v (hs1 ++ te :: hs2) ++ rest))
      = some (head_tokens m t v (hs1 ++ te :: hs2) ++ [{ type := HS_TOK_BODY_STREAM }],
          at_ (client_holding srv (request_bytes m t v (hs1 ++ te :: hs2) ++ rest))
            (psl HN M_ZER ((hs1 ++ te :: hs2).length : Nat) 0)
            (request_bytes m t v (hs1 ++ te :: hs2)).length {} true)
    ∧ ∀ x ∈ head_tokens m t v (hs1 ++ te :: hs2), x.type ≠ HS_TOK_ERROR := by
  have hvalid : ∀ h ∈ hs1 ++ te :: hs2, line_valid srv.spec h := by
    intro h hh
    rw [List.mem_append, List.mem_cons] at hh
    rcases hh with hh | hh | hh
    · obtain ⟨a, b, c, d, -⟩ := h1 h hh
      exact ⟨a, b, c, d⟩
    · rw [hh]; exact hte
    · exact h2 h hh
  have hne : hs1 ++ te :: hs2 ≠ [] := by simp
  have r := head_run_head srv.spec m t v (hs1 ++ te :: hs2) hm ht hv lm lt lv hvalid hne hmax h16
  have hplain := head_run_plain _ _ _ _ _ _ _ _ r
  have hnoerr : ∀ x ∈ head_tokens m t v (hs1 ++ te :: hs2), x.type ≠ HS_TOK_ERROR := by
    intro x hx1
    have := hplain x hx1
    rcases this with h | h | h | h | h | h <;> rw [h] <;> simp
  refine ⟨?_, hnoerr⟩
  have hbs : block_state M_ANY 0 (hs1 ++ te :: hs2) = (M_CHK, 0) := by
    rw [block_state_append, block_state_any srv.spec 0 hs1 h1]
    have e1 : line_meta M_ANY te = M_CHK := by
      unfold line_meta
      have : key_meta M_ANY te.1 = M_MCK := hcls
      rw [this, hval]
    have e2 : line_length M_ANY 0 te = 0 := by
      unfold line_length
      have : key_meta M_ANY te.1 = M_MCK := hcls
      rw [this, value_length_mck]
    simp only [block_state, e1, e2]
    exact block_state_chk 0 hs2
  rw [hbs] at r
  obtain ⟨seg, hseg⟩ : ∃ seg, seg = m ++ 32 :: (t ++ 32 :: (v ++ 13 :: 10 ::
      (header_block (hs1 ++ te :: hs2) ++ [13]))) := ⟨_, rfl⟩
  rw [← hseg] at r
  have ebs : request_bytes m t v (hs1 ++ te :: hs2) = seg ++ [10] := by
    rw [hseg]; simp [request_bytes]
  obtain ⟨L, hL⟩ : ∃ L : Int, L = ((hs1 ++ te :: hs2).length : Nat) := ⟨_, rfl⟩
  rw [← hL] at r ⊢
  set cl0 := client_holding srv (request_bytes m t v (hs1 ++ te :: hs2) ++ rest) with hcl0
  have hb : cl0.stream.buf = some (request_bytes m t v (hs1 ++ te :: hs2) ++ rest) := rfl
  have hl : cl0.stream.length = (request_bytes m t v (hs1 ++ te :: hs2) ++ rest).length := rfl
  have hat : cl0 = at_ cl0 (psl state_e.ST M_WFK 0 0) 0 {} false := rfl
  have hstep := step_HN_any cl0 (psl ER M_CHK L 0) (0 + seg.length) 10 rfl (by decide)
  have hend : end_headers cl0.server.spec (0 + seg.length) (psl ER M_CHK L 0)
      = ({ type := HS_TOK_BODY_STREAM }, psl HN M_ZER L 0) := by
    simp [end_headers, psl, _meta_trigger, meta_transitions_at, _meta_transitions,
      meta_state_e.toNat, HS_META_TYPE_LEN, HS_META_END_HEADERS]
  rw [hend] at hstep
  have h := token_parse_n_head_run _ _ _ _ _ _ _ _ r cl0 _ rest 10 _ _ false rfl hb hl
    (by rw [ebs]; simp) hstep (by simp)
  have hcount : 2 * (hs1 ++ te :: hs2).length + 4
      = (head_tokens m t v (hs1 ++ te :: hs2)).length + 1 := by
    rw [head_tokens_length]
  have hn : (request_bytes m t v (hs1 ++ te :: hs2)).length = 0 + seg.length + 1 := by
    rw [ebs]; simp
  rw [hcount, hn]
  conv_lhs => rw [hat]
  exact h

/-- C26.  Take a chunked request: a request line and header lines accepted by
the transition table, one of them a header the meta FSM takes for
`Transfer-Encoding: chunked` with no header before it that it takes for
Content-Length or Transfer-Encoding, at most `request_max_header_count`
headers; the body is just `0` CRLF CRLF.  With the whole request in the buffer
of a freshly initialised parser, the calls of `_token_parse` return the tokens
of the head, then BODY_STREAM, then a CHUNK_BODY token of length 0 (placed on
the blank line that follows the chunk-size line), then REQ_END; none of the
tokens is ERROR; and after REQ_END the parser is in its initial state, every
field zero. -/
theorem c26_zero_chunk (srv : server) (m t v : List Nat)
    (hs1 : List (List Nat × List Nat)) (te : List Nat × List Nat)
    (hs2 : List (List Nat × List Nat))
    (hm : token_ok state_e.ST MT m) (ht : token_ok MS TR t) (hv : token_ok TS VN v)
    (lm : (m.length : Int) ≤ srv.spec.request_token_max_len)
    (lt : (t.length : Int) ≤ srv.spec.request_token_max_len)
    (lv : (v.length : Int) ≤ srv.spec.request_token_max_len)
    (h1 : ∀ h ∈ hs1, line_ok srv.spec M_ANY h)
    (hte : line_valid srv.spec te)
    (hcls : header_class te.1 = M_MCK) (hval : value_meta M_MCK te.2 = M_CHK)
    (h2 : ∀ h ∈ hs2, line_valid srv.spec h)
    (hmax : ((hs1 ++ te :: hs2).length : Int) ≤ srv.spec.request_max_header_count)
    (h16 : ((hs1 ++ te :: hs2).length : Int) ≤ 32767) :
    ∃ Y, token_parse_n (2 * (hs1 ++ te :: hs2).length + 6)
          (client_holding srv (request_bytes m t v (hs1 ++ te :: hs2) ++ str "0\r\n\r\n"))
        = some (head_tokens m t v (hs1 ++ te :: hs2)
            ++ [{ type := HS_TOK_BODY_STREAM },
                { index := (((request_bytes m t v (hs1 ++ te :: hs2)).length + 3 : Nat) : Int),
                  len := 0, type := HS_TOK_CHUNK_BODY },
                { type := HS_TOK_REQ_END }], Y)
      ∧ Y.parser = {}
      ∧ Y.parser = (client_holding srv []).parser
      ∧ ∀ x ∈ head_tokens m t v (hs1 ++ te :: hs2), x.type ≠ HS_TOK_ERROR := by
  obtain ⟨hhead, hnoerr⟩ := chunked_head_tokens srv m t v hs1 te hs2 (str "0\r\n\r\n")
    hm ht hv lm lt lv h1 hte hcls hval h2 hmax h16
  set req := request_bytes m t v (hs1 ++ te :: hs2) with hreq
  set cl0 := client_holding srv (req ++ str "0\r\n\r\n") with hcl0
  have hb : cl0.stream.buf = some (req ++ str "0\r\n\r\n") := rfl
  have hl : cl0.stream.length = (req ++ str "0\r\n\r\n").length := rfl
  have hd : (req ++ str "0\r\n\r\n").drop req.length = [48, 13, 10, 13, 10] := by
    rw [List.drop_left]; rfl
  have h0 : 0 ≤ cl0.server.spec.request_token_max_len := by
    have : (0 : Int) ≤ m.length := Int.natCast_nonneg _
    have e : cl0.server.spec = srv.spec := rfl
    rw [e]; omega
  obtain ⟨t1, t2⟩ := token_parse_last_chunk cl0 _ ((hs1 ++ te :: hs2).length : Nat) req.length
    true hb hl hd h0
  have htail : token_parse_n 2 (at_ cl0 (psl HN M_ZER ((hs1 ++ te :: hs2).length : Nat) 0)
        req.length {} true)
      = some ([{ index := ((req.length + 3 : Nat) : Int), len := 0, type := HS_TOK_CHUNK_BODY },
               { type := HS_TOK_REQ_END }],
          at_ (anch cl0 req.length) {} (req.length + 5) {} false) := by
    simp only [token_parse_n, t1, t2]
  have hall := token_parse_n_append _ _ _ _ _ _ _ hhead htail
  have e6 : 2 * (hs1 ++ te :: hs2).length + 6 = 2 * (hs1 ++ te :: hs2).length + 4 + 2 := by
    omega
  refine ⟨at_ (anch cl0 req.length) {} (req.length + 5) {} false, ?_, rfl, rfl, hnoerr⟩
  rw [e6, hall, List.append_assoc]
  rfl

/-- Witness of C26: the request `POST /large HTTP/1.1` with the headers
`Host: x` and `transfer-encoding: chunked` and the body `0` CRLF CRLF. -/
theorem c26_zero_chunk_witness :
    ∃ Y, token_parse_n (2 * ([(str "Host", str "x")]
            ++ (str "transfer-encoding", str "chunked") :: []).length + 6)
          (client_holding {} (request_bytes (str "POST") (str "/large") (str "HTTP/1.1")
            ([(str "Host", str "x")] ++ (str "transfer-encoding", str "chunked") :: [])
            ++ str "0\r\n\r\n"))
        = some (head_tokens (str "POST") (str "/large") (str "HTTP/1.1")
              ([(str "Host", str "x")] ++ (str "transfer-encoding", str "chunked") :: [])
            ++ [{ type := HS_TOK_BODY_STREAM },
                { index := (((request_bytes (str "POST") (str "/large") (str "HTTP/1.1")
                    ([(str "Host", str "x")]
                      ++ (str "transfer-encoding", str "chunked") :: [])).length + 3 : Nat) : Int),
                  len := 0, type := HS_TOK_CHUNK_BODY },
                { type := HS_TOK_REQ_END }], Y)
      ∧ Y.parser = {}
      ∧ Y.parser = (client_holding {} []).parser
      ∧ ∀ x ∈ head_tokens (str "POST") (str "/large") (str "HTTP/1.1")
            ([(str "Host", str "x")] ++ (str "transfer-encoding", str "chunked") :: []),
          x.type ≠ HS_TOK_ERROR :=
  c26_zero_chunk {} (str "POST") (str "/large") (str "HTTP/1.1") [(str "Host", str "x")]
    (str "transfer-encoding", str "chunked") []
    (by decide) (by decide) (by decide) (by decide) (by decide) (by decide) (by decide)
    (by decide) (by decide) (by decide) (by decide) (by decide) (by decide)

theorem same_session_refl (cl : client) : same_session cl cl := rfl

theorem next_state_gap (p : parser) (c : Nat)
    (h : next_state p c = HE ∨ next_state p c = ER ∨ next_state p c = HN) :
    gap_state p.state := by
  unfold next_state at h
  split_ifs at h with h1
  · rcases h with h | h | h <;> exact absurd h (by decide)
  · generalize ctype_of c = t at h
    generalize p.state = s at h ⊢
    cases s <;> cases t <;> first | decide | (exfalso; revert h; decide)

set_option maxHeartbeats 1000000 in
theorem enter_capacity (cl : client) (frm to_ : state_e) :
    (_transition_enter cl frm to_).2.stream.capacity = cl.stream.capacity := by
  by_cases h1 : frm = HN
  · by_cases h2 : frm ≠ to_
    · cases to_ <;>
        simp only [_transition_enter, h1, h2, if_true, if_false, _token_start_states,
          _stream_anchor, _stream_begin_token, _stream_emit, _meta_trigger, ne_eq,
          not_true_eq_false, not_false_eq_true, reduceCtorEq] <;>
        (try split_ifs) <;> rfl
    · have h4 : frm = to_ := not_not.1 h2
      subst h4
      subst h1
      simp [_transition_enter, _stream_anchor]
  · by_cases h2 : frm ≠ to_
    · by_cases h3 : frm = CS
      · cases to_ <;>
          simp only [_transition_enter, h1, h2, h3, if_true, if_false,
            _token_start_states, _stream_anchor, _stream_begin_token, _stream_emit,
            _meta_trigger, ne_eq, not_true_eq_false, not_false_eq_true, reduceCtorEq] <;>
          (try split_ifs) <;> rfl
      · cases to_ <;>
          simp only [_transition_enter, h1, h2, h3, if_true, if_false,
            _token_start_states, _stream_anchor, _stream_begin_token, _stream_emit,
            _meta_trigger, ne_eq, not_true_eq_false, not_false_eq_true, reduceCtorEq] <;>
          (try split_ifs) <;> rfl
    · have h4 : frm = to_ := not_not.1 h2
      subst h4
      simp [_transition_enter, h1]

set_option maxHeartbeats 1000000 in
theorem switch_capacity (em : token) (cl : client) (c : Nat) (to_ : state_e)
    (h1 : to_ ≠ BD) (h2 : to_ ≠ CB) :
    (_transition_switch em cl c to_).2.stream.capacity = cl.stream.capacity
    ∧ (to_ = HR → (_transition_switch em cl c to_).2.stream.token = {}) := by
  cases to_
  case BD => exact absurd rfl h1
  case CB => exact absurd rfl h2
  case HN =>
    simp only [_transition_switch, _meta_trigger]
    split_ifs <;> simp
  case CS =>
    simp only [_transition_switch, _meta_trigger]
    split_ifs <;> simp
  all_goals
    simp [_transition_switch, _stream_emit, _meta_trigger]

set_option maxHeartbeats 1000000 in
theorem body_length_facts (em : token) (cl : client) (to_ : state_e) :
    (_transition_body em cl to_).2.stream.capacity = cl.stream.capacity
    ∧ ((_transition_body em cl to_).2.stream.length = cl.stream.length
      ∨ ((_transition_body em cl to_).2.stream.length = cl.stream.anchor
          ∧ (_transition_body em cl to_).2.stream.index = cl.stream.anchor
          ∧ (_transition_body em cl to_).2.stream.token = { index := cl.stream.anchor })) := by
  by_cases hM : cl.parser.meta = M_STR <;>
  by_cases hJ : cl.stream.index + toInt32 (cl.parser.content_length - cl.parser.body_consumed)
      > cl.stream.length <;>
  by_cases hC : to_ = CB <;>
  simp only [_transition_body, hM, hJ, hC, if_true, if_false, _stream_begin_token,
    _stream_emit, _meta_trigger, _stream_jump, _stream_jumpall, _stream_shift,
    Bool.false_eq_true, gt_iff_lt] <;>
  (try split_ifs) <;> simp_all

/-- One turn of the loop of `_token_parse`, for a byte that `_stream_next`
has found, keeps the condition `stream_inv`. -/
theorem step_stream_inv (cl : client) (c : Nat) (hinv : stream_inv cl)
    (hc : cl.stream.consumed = false) (hlt : cl.stream.index < cl.stream.length) :
    stream_inv (token_parse_step cl c).2 := by
  obtain ⟨v1, v2, v3, v4, v5, v6, v7, v8, v9, v10⟩ := hinv
  have htab := next_state_body cl.parser c
  have hgap := next_state_gap cl.parser c
  rw [token_parse_step_eq]
  generalize next_state cl.parser c = to_ at htab hgap ⊢
  obtain ⟨e1, e2, e3, e4, e5, e6, e7⟩ := enter_facts
    { cl with parser := { cl.parser with state := to_ } } cl.parser.state to_
  have e8 := enter_capacity { cl with parser := { cl.parser with state := to_ } }
    cl.parser.state to_
  simp only at e1 e2 e3 e4 e5 e6 e7 e8
  generalize _transition_enter { cl with parser := { cl.parser with state := to_ } }
    cl.parser.state to_ = E at e1 e2 e3 e4 e5 e6 e7 e8 ⊢
  -- the anchor after the first part
  have ha0 : 0 ≤ E.2.stream.anchor := by
    rw [e4]; split_ifs <;> omega
  have ha1 : E.2.stream.anchor ≤ cl.stream.index := by
    rw [e4]; split_ifs <;> omega
  -- the token after the first part
  have htok : (E.2.stream.token.index = cl.stream.token.index
        ∧ E.2.stream.token.len = cl.stream.token.len
        ∧ E.2.stream.token.type = cl.stream.token.type)
      ∨ (E.2.stream.token.index = cl.stream.index
        ∧ E.2.stream.token.len = cl.stream.token.len
        ∧ E.2.stream.token.type ≠ HS_TOK_NONE
        ∧ E.2.stream.token.type = _token_start_states to_)
      ∨ (E.2.stream.token.index = 0 ∧ E.2.stream.token.len = 0
        ∧ E.2.stream.token.type = HS_TOK_NONE) := by
    rcases e7 with ⟨h, -⟩ | ⟨h, -, hh⟩ | h
    · exact Or.inl ⟨by rw [h], by rw [h], by rw [h]⟩
    · exact Or.inr (Or.inl ⟨by rw [h], by rw [h], by rw [h]; exact hh, by rw [h]⟩)
    · exact Or.inr (Or.inr ⟨by rw [h], by rw [h], by rw [h]⟩)
  have hlen : 0 ≤ E.2.stream.token.len := by
    rcases htok with ⟨-, h, -⟩ | ⟨-, h, -, -⟩ | ⟨-, h, -⟩ <;> omega
  have hnone : E.2.stream.token.type = HS_TOK_NONE → E.2.stream.token.len = 0 := by
    intro hn
    rcases htok with ⟨-, h, ht⟩ | ⟨-, h, ht, -⟩ | ⟨-, h, -⟩
    · rw [h]; exact v6 (by rw [← ht]; exact hn)
    · exact absurd hn ht
    · exact h
  have hidx : E.2.stream.token.index ≤ cl.stream.index := by
    rcases htok with ⟨h, -, -⟩ | ⟨h, -, -, -⟩ | ⟨h, -, -⟩ <;> omega
  have hanc : E.2.stream.token.type ≠ HS_TOK_NONE →
      E.2.stream.anchor ≤ E.2.stream.token.index := by
    intro hn
    rcases htok with ⟨h, -, ht⟩ | ⟨h, -, -, -⟩ | ⟨-, -, ht⟩
    · rw [h, e4]
      split_ifs with hf
      · exact absurd (by rw [ht]; exact v9 (Or.inr (Or.inr (Or.inr hf)))) hn
      · exact v8 (by rw [← ht]; exact hn)
    · omega
    · exact absurd ht hn
  -- the length of the token after the first part, in a body state
  have hbody : body_state to_ → E.2.stream.anchor + E.2.stream.token.len ≤ cl.stream.index := by
    intro hb
    have hl : E.2.stream.token.len = cl.stream.token.len ∨ E.2.stream.token.len = 0 := by
      rcases htok with ⟨-, h, -⟩ | ⟨-, h, -, -⟩ | ⟨-, h, -⟩
      · exact Or.inl h
      · exact Or.inl h
      · exact Or.inr h
    rw [e4]
    split_ifs with hf
    · have h0 : cl.stream.token.len = 0 := v6 (v9 (Or.inr (Or.inr (Or.inr hf))))
      rcases hl with h | h <;> omega
    · rcases htab hb with h | h
      · exact absurd h hf
      · have := v10 h
        rcases hl with h | h <;> omega
  have hgapE : (to_ = HE ∨ to_ = ER ∨ to_ = HN) → E.2.stream.token.type = HS_TOK_NONE := by
    intro hg
    have hg1 := v9 (hgap hg)
    rcases htok with ⟨-, -, ht⟩ | ⟨-, -, hn, ht⟩ | ⟨-, -, ht⟩
    · rw [ht]; exact hg1
    · rw [ht] at hn
      rcases hg with rfl | rfl | rfl <;> exact absurd rfl hn
    · exact ht
  by_cases hb : to_ = BD ∨ to_ = CB
  · rw [switch_body _ _ _ _ hb]
    obtain ⟨b1, b2, b3, b4⟩ := body_facts E.1 E.2 to_
    obtain ⟨b5, b6⟩ := body_length_facts E.1 E.2 to_
    have hbs : body_state to_ := by
      rcases hb with rfl | rfl <;> decide
    have hbl := hbody hbs
    have hst : (_transition_body E.1 E.2 to_).2.parser.state = to_
        ∨ (_transition_body E.1 E.2 to_).2.parser.state = CD := by
      rcases b4 with ⟨-, -, h | h⟩ | ⟨-, -, h⟩ | ⟨-, -, h⟩ | ⟨-, -, h⟩
      · left; rw [h, e5]
      · right; exact h
      · left; rw [h, e5]
      · left; rw [h, e5]
      · left; rw [h, e5]
    have hngap : ¬ gap_state (_transition_body E.1 E.2 to_).2.parser.state := by
      rcases hst with h | h <;> rw [h]
      · rcases hb with rfl | rfl <;> decide
      · decide
    generalize _transition_body E.1 E.2 to_ = B at b1 b2 b3 b4 b5 b6 hngap ⊢
    have hcons : _stream_consume B.2.stream = B.2.stream := by
      unfold _stream_consume; rw [b1]; rfl
    simp only [hcons]
    -- the length after the body part
    have hlen2 : B.2.stream.length = cl.stream.length
        ∨ (B.2.stream.length = E.2.stream.anchor ∧ B.2.stream.index = E.2.stream.anchor) := by
      rcases b6 with h | ⟨h, h5, -⟩
      · left; rw [h, e2]
      · right; exact ⟨h, h5⟩
    -- the token after the body part
    have hB : (B.2.stream.token.index = 0 ∧ B.2.stream.token.len = 0
          ∧ B.2.stream.token.type = HS_TOK_NONE
          ∧ (B.2.stream.index = cl.stream.index ∨ B.2.stream.index = cl.stream.length))
        ∨ (B.2.stream.token.index = E.2.stream.anchor ∧ B.2.stream.token.len = 0
          ∧ B.2.stream.token.type = HS_TOK_NONE ∧ B.2.stream.index = E.2.stream.anchor)
        ∨ (B.2.stream.token.index = E.2.stream.token.index
          ∧ B.2.stream.token.type = E.2.stream.token.type
          ∧ B.2.stream.token.len = (if E.2.stream.token.type ≠ HS_TOK_NONE
              then E.2.stream.token.len + (cl.stream.length - cl.stream.index) else 0)
          ∧ B.2.stream.index = cl.stream.length) := by
      rcases b4 with ⟨ht, hi, -⟩ | ⟨ht, hi, -⟩ | ⟨ht, hi, -⟩ | ⟨ht, hi, -⟩
      · exact Or.inl ⟨by rw [ht], by rw [ht], by rw [ht], Or.inl (by rw [hi, e1])⟩
      · exact Or.inl ⟨by rw [ht], by rw [ht], by rw [ht], Or.inr (by rw [hi, e2])⟩
      · exact Or.inr (Or.inl ⟨by rw [ht], by rw [ht], by rw [ht], hi⟩)
      · exact Or.inr (Or.inr ⟨by rw [ht], by rw [ht], by rw [ht, e2, e1], by rw [hi, e2]⟩)
    show stream_inv B.2
    unfold stream_inv
    rw [b2, b5, e8]
    rcases hB with ⟨t1, t2, t3, t4⟩ | ⟨t1, t2, t3, t4⟩ | ⟨t1, t2, t3, t4⟩
    · refine ⟨ha0, ?_, ?_, ?_, by omega, fun _ => t2, ?_, fun h => absurd t3 h, fun _ => t3, ?_⟩
      · rcases t4 with h | h <;> omega
      · rcases hlen2 with h | ⟨h, h5⟩ <;> rcases t4 with h6 | h6 <;> omega
      · rcases hlen2 with h | ⟨h, h5⟩ <;> omega
      · rcases t4 with h | h <;> omega
      · intro _; rcases t4 with h | h <;> omega
    · refine ⟨ha0, by omega, ?_, ?_, by omega, fun _ => t2, by omega, fun h => absurd t3 h,
        fun _ => t3, fun _ => by omega⟩
      · rcases hlen2 with h | ⟨h, h5⟩ <;> omega
      · rcases hlen2 with h | ⟨h, h5⟩ <;> omega
    · have hl3 : 0 ≤ B.2.stream.token.len
          ∧ E.2.stream.anchor + B.2.stream.token.len ≤ cl.stream.length := by
        rw [t3]
        split_ifs <;> constructor <;> omega
      refine ⟨ha0, by omega, ?_, ?_, hl3.1, ?_, by omega, ?_, fun h => absurd h hngap,
        fun _ => by omega⟩
      · rcases hlen2 with h | ⟨h, h5⟩ <;> omega
      · rcases hlen2 with h | ⟨h, h5⟩ <;> omega
      · intro h1
        rw [t3, if_neg (by rw [← t2]; simpa using h1)]
      · intro h1
        rw [t1]
        exact hanc (by rw [← t2]; exact h1)
  · have h1 : to_ ≠ BD := fun h => hb (Or.inl h)
    have h2 : to_ ≠ CB := fun h => hb (Or.inr h)
    obtain ⟨s1, s2, s3, s4, s5, s6, s7⟩ := switch_facts E.1 E.2 c to_ h1 h2
    obtain ⟨s8, s9⟩ := switch_capacity E.1 E.2 c to_ h1 h2
    generalize _transition_switch E.1 E.2 c to_ = S at s1 s2 s3 s4 s5 s6 s7 s8 s9 ⊢
    have hcf : S.2.stream.consumed = false := by rw [s1, e3]; exact hc
    have hS : (S.2.stream.token.index = E.2.stream.token.index
          ∧ S.2.stream.token.len = E.2.stream.token.len
          ∧ S.2.stream.token.type = E.2.stream.token.type)
        ∨ (S.2.stream.token.index = 0 ∧ S.2.stream.token.len = 0
          ∧ S.2.stream.token.type = HS_TOK_NONE) := by
      rcases s7 with h | h
      · exact Or.inl ⟨by rw [h], by rw [h], by rw [h]⟩
      · exact Or.inr ⟨by rw [h], by rw [h], by rw [h]⟩
    have hSlen : 0 ≤ S.2.stream.token.len ∧ S.2.stream.token.len ≤ E.2.stream.token.len := by
      rcases hS with ⟨-, h, -⟩ | ⟨-, h, -⟩ <;> constructor <;> omega
    have hSidx : S.2.stream.token.index ≤ cl.stream.index := by
      rcases hS with ⟨h, -, -⟩ | ⟨h, -, -⟩ <;> omega
    have hSanc : S.2.stream.token.type ≠ HS_TOK_NONE →
        E.2.stream.anchor ≤ S.2.stream.token.index := by
      intro hn
      rcases hS with ⟨h, -, ht⟩ | ⟨-, -, ht⟩
      · rw [h]; exact hanc (by rw [← ht]; exact hn)
      · exact absurd ht hn
    have hSgap : gap_state to_ → S.2.stream.token.type = HS_TOK_NONE := by
      intro hg
      rcases hg with hg | hg
      · rw [s9 hg]
      · rcases hS with ⟨-, -, ht⟩ | ⟨-, -, ht⟩
        · rw [ht]; exact hgapE hg
        · exact ht
    have hcons : _stream_consume S.2.stream
        = { S.2.stream with
            consumed := true
            index := S.2.stream.index + 1
            token := { S.2.stream.token with
              len := if S.2.stream.token.type ≠ HS_TOK_NONE
                then S.2.stream.token.len + 1 else 0 } } := by
      unfold _stream_consume; rw [hcf]; rfl
    simp only [hcons]
    unfold stream_inv
    simp only
    rw [s2, s3, s4, s5, s8, e1, e2, e5, e8]
    refine ⟨ha0, by omega, by omega, v4, ?_, ?_, by omega, hSanc, hSgap, ?_⟩
    · split_ifs
      · omega
      · exact le_refl _
    · intro h
      rw [if_neg (by simpa using h)]
    · intro hbs
      have := hbody hbs
      split_ifs <;> omega

theorem loop_stream_inv : ∀ (fuel : Nat) (cl : client) (r : Option token × client),
    stream_inv cl → token_parse_loop fuel cl = some r → stream_inv r.2 := by
  intro fuel
  induction fuel with
  | zero => intro cl r _ h; simp [token_parse_loop] at h
  | succ f ih =>
    intro cl r hinv h
    unfold token_parse_loop at h
    unfold _stream_next at h
    have h0 : stream_inv { cl with stream := { cl.stream with consumed := false } } := hinv
    by_cases hi : cl.stream.index ≥ cl.stream.length
    · simp only [hi, if_true, Option.some.injEq] at h
      rw [← h]
      exact h0
    · simp only [hi, if_false] at h
      have hs := step_stream_inv { cl with stream := { cl.stream with consumed := false } }
        (buf_at cl.stream.buf cl.stream.index) h0 rfl (by
          show cl.stream.index < cl.stream.length
          omega)
      split_ifs at h with ht
      · simp only [Option.some.injEq] at h
        rw [← h]
        exact hs
      · exact ih _ _ hs h

theorem meta_emit_state (p : parser) :
    (_meta_emit_token p).2.state = p.state ∨ (_meta_emit_token p).2.state = state_e.ST := by
  unfold _meta_emit_token
  split
  · left; rfl
  · right; rfl
  · left; rfl

theorem stream_inv_congr (cl : client) (p : parser)
    (hp : p.state = cl.parser.state ∨ p.state = state_e.ST) (h : stream_inv cl) :
    stream_inv { cl with parser := p } := by
  obtain ⟨v1, v2, v3, v4, v5, v6, v7, v8, v9, v10⟩ := h
  refine ⟨v1, v2, v3, v4, v5, v6, v7, v8, ?_, ?_⟩
  · intro hg
    have hg1 : gap_state p.state := hg
    rcases hp with h | h
    · rw [h] at hg1; exact v9 hg1
    · rw [h] at hg1; exact absurd hg1 (by decide)
  · intro hb
    have hb1 : body_state p.state := hb
    rcases hp with h | h
    · rw [h] at hb1; exact v10 hb1
    · rw [h] at hb1; exact absurd hb1 (by decide)

theorem shift_stream_inv (cl : client) (hs : cl.parser.state = CB) (h : stream_inv cl) :
    stream_inv { cl with stream := _stream_shift cl.stream } := by
  obtain ⟨v1, v2, v3, v4, v5, v6, v7, v8, v9, v10⟩ := h
  have hb : body_state cl.parser.state := by rw [hs]; decide
  have hg : ¬ gap_state cl.parser.state := by rw [hs]; decide
  have h10 := v10 hb
  unfold _stream_shift
  by_cases he : cl.stream.token.index = cl.stream.anchor
  · rw [if_pos he]
    exact ⟨v1, v2, v3, v4, v5, v6, v7, v8, v9, v10⟩
  · rw [if_neg he]
    refine ⟨v1, ?_, ?_, ?_, v5, v6, ?_, ?_, fun h => absurd h hg, ?_⟩
    · show cl.stream.anchor ≤ cl.stream.anchor + cl.stream.token.len
      omega
    · show cl.stream.anchor + cl.stream.token.len ≤ cl.stream.anchor + cl.stream.token.len
      omega
    · show cl.stream.anchor + cl.stream.token.len ≤ cl.stream.capacity
      omega
    · show cl.stream.anchor ≤ cl.stream.anchor + cl.stream.token.len
      omega
    · intro _
      show cl.stream.anchor ≤ cl.stream.anchor
      omega
    · intro _
      show cl.stream.anchor + cl.stream.token.len ≤ cl.stream.anchor + cl.stream.token.len
      omega

theorem finish_stream_inv (cl : client) (h : stream_inv cl) :
    stream_inv (token_parse_finish cl).2 := by
  unfold token_parse_finish
  simp only
  by_cases hs : cl.parser.state = CB
  · rw [if_pos hs]
    exact stream_inv_congr _ _ (meta_emit_state _) (shift_stream_inv cl hs h)
  · rw [if_neg hs]
    exact stream_inv_congr _ _ (meta_emit_state _) h

/-- `_token_parse` keeps the condition `stream_inv`. -/
theorem token_parse_stream_inv (cl cl1 : client) (t : token) (hinv : stream_inv cl)
    (h : _token_parse cl = some (t, cl1)) : stream_inv cl1 := by
  unfold _token_parse at h
  simp only at h
  have h0 := stream_inv_congr cl _ (meta_emit_state cl.parser) hinv
  split_ifs at h with he
  · simp only [Option.some.injEq, Prod.mk.injEq] at h
    rw [← h.2]
    exact h0
  · cases hl : token_parse_loop
        (2 * (cl.stream.length - cl.stream.index).toNat + 2)
        { cl with parser := (_meta_emit_token cl.parser).2 } with
    | none => rw [hl] at h; simp at h
    | some r =>
      rw [hl] at h
      have h1 := loop_stream_inv _ _ _ h0 hl
      obtain ⟨o, c2⟩ := r
      cases o with
      | none =>
        simp only [Option.some.injEq] at h
        have h2 := finish_stream_inv c2 h1
        rw [h] at h2
        exact h2
      | some em =>
        simp only [Option.some.injEq, Prod.mk.injEq] at h
        rw [← h.2]
        exact h1

theorem token_parse_n_stream_inv : ∀ (n : Nat) (cl X : client) (ts : List token),
    stream_inv cl → token_parse_n n cl = some (ts, X) → stream_inv X := by
  intro n
  induction n with
  | zero =>
    intro cl X ts hinv h
    simp only [token_parse_n, Option.some.injEq, Prod.mk.injEq] at h
    rw [← h.2]; exact hinv
  | succ n ih =>
    intro cl X ts hinv h
    unfold token_parse_n at h
    cases hp : _token_parse cl with
    | none => rw [hp] at h; simp at h
    | some r =>
      obtain ⟨t, cl1⟩ := r
      rw [hp] at h
      simp only at h
      cases hn : token_parse_n n cl1 with
      | none => rw [hn] at h; simp at h
      | some r1 =>
        obtain ⟨ts1, X1⟩ := r1
        rw [hn] at h
        simp only [Option.some.injEq, Prod.mk.injEq] at h
        rw [← h.2]
        exact ih cl1 X1 ts1 (token_parse_stream_inv cl cl1 t hinv hp) hn

theorem client_holding_stream_inv (srv : server) (req : List Nat) :
    stream_inv (client_holding srv req) := by
  unfold stream_inv client_holding
  simp

theorem client_feed_stream_inv (cl : client) (d : List Nat) (hinv : stream_inv cl)
    (hroom : cl.stream.length + d.length ≤ cl.stream.capacity) :
    stream_inv (client_feed cl d) := by
  obtain ⟨v1, v2, v3, v4, v5, v6, v7, v8, v9, v10⟩ := hinv
  refine ⟨v1, v2, ?_, hroom, v5, v6, v7, v8, v9, v10⟩
  show cl.stream.index ≤ cl.stream.length + d.length
  have : (0 : Int) ≤ d.length := Int.natCast_nonneg _
  omega

/-- Counterexample to C30 as stated: for the request `echo_request` (a POST
with a body of 5 bytes) the 8th call of `_token_parse` returns the BODY token
and leaves the anchor at 51, the first byte of the body, while the current
token has been zeroed by `_stream_emit`: its index is 0, so
`anchor <= token.index` does not hold; `index <= length <= capacity` holds. -/
theorem c30_anchor_after_emit_counterexample :
    (token_parse_n 8 (client_holding {} echo_request)).map
        (fun r => (r.1.map (fun t => t.type), r.2.stream.anchor, r.2.stream.token.index,
          r.2.stream.index, r.2.stream.length, r.2.stream.capacity))
      = some ([HS_TOK_METHOD, HS_TOK_TARGET, HS_TOK_VERSION, HS_TOK_HEADER_KEY,
          HS_TOK_HEADER_VAL, HS_TOK_HEADER_KEY, HS_TOK_HEADER_VAL, HS_TOK_BODY],
          51, 0, 51, 56, 56)
    ∧ ¬ ((51 : Int) ≤ 0) := by
  constructor <;> decide

/-- C30 (amended).  The condition `stream_inv` holds for a freshly initialised
client that holds a request, it is kept by every turn of the loop of
`_token_parse` that consumes a byte, by every call of `_token_parse` and by
every read that stores bytes within the capacity; so after each byte consumed
and after each token emitted the stream satisfies
`0 <= anchor <= index <= length <= capacity` and `token.index <= index`, and
`anchor <= token.index` whenever a token is in progress (its type is set). -/
theorem c30_stream_invariant :
    (∀ (srv : server) (req : List Nat), stream_inv (client_holding srv req))
    ∧ (∀ (cl : client) (c : Nat), stream_inv cl → cl.stream.consumed = false →
        cl.stream.index < cl.stream.length → stream_inv (token_parse_step cl c).2)
    ∧ (∀ (cl cl1 : client) (t : token), stream_inv cl → _token_parse cl = some (t, cl1) →
        stream_inv cl1)
    ∧ (∀ (cl : client) (d : List Nat), stream_inv cl →
        cl.stream.length + d.length ≤ cl.stream.capacity → stream_inv (client_feed cl d))
    ∧ (∀ (srv : server) (req : List Nat) (n : Nat) (ts : List token) (X : client),
        token_parse_n n (client_holding srv req) = some (ts, X) → stream_inv X)
    ∧ (∀ cl : client, stream_inv cl →
        0 ≤ cl.stream.anchor ∧ cl.stream.anchor ≤ cl.stream.index
        ∧ cl.stream.index ≤ cl.stream.length ∧ cl.stream.length ≤ cl.stream.capacity
        ∧ cl.stream.token.index ≤ cl.stream.index
        ∧ (cl.stream.token.type ≠ HS_TOK_NONE → cl.stream.anchor ≤ cl.stream.token.index)) := by
  refine ⟨client_holding_stream_inv, fun cl c h1 h2 h3 => step_stream_inv cl c h1 h2 h3,
    fun cl cl1 t h1 h2 => token_parse_stream_inv cl cl1 t h1 h2,
    fun cl d h1 h2 => client_feed_stream_inv cl d h1 h2,
    fun srv req n ts X h =>
      token_parse_n_stream_inv n _ X ts (client_holding_stream_inv srv req) h, ?_⟩
  intro cl h
  obtain ⟨v1, v2, v3, v4, v5, v6, v7, v8, v9, v10⟩ := h
  exact ⟨v1, v2, v3, v4, v7, v8⟩

/-- Witness of C30 (amended): the condition holds after the 8 calls of
`_token_parse` that end with the BODY token of the request `echo_request`,
where the anchor is 51, the cursor 51 and the length and the capacity 56. -/
theorem c30_stream_invariant_witness :
    ∃ X ts, token_parse_n 8 (client_holding {} echo_request) = some (ts, X)
      ∧ stream_inv X ∧ X.stream.anchor = 51 ∧ X.stream.index = 51 ∧ X.stream.length = 56 := by
  have h : ∃ r, token_parse_n 8 (client_holding {} echo_request) = some r
      ∧ r.2.stream.anchor = 51 ∧ r.2.stream.index = 51 ∧ r.2.stream.length = 56 := by
    have hd : (token_parse_n 8 (client_holding {} echo_request)).map
        (fun r => (r.2.stream.anchor, r.2.stream.index, r.2.stream.length))
        = some (51, 51, 56) := by decide
    cases hr : token_parse_n 8 (client_holding {} echo_request) with
    | none => rw [hr] at hd; simp at hd
    | some r =>
      rw [hr] at hd
      have hd2 : (r.2.stream.anchor, r.2.stream.index, r.2.stream.length) = (51, 51, 56) :=
        Option.some.inj hd
      obtain ⟨a1, a2⟩ := Prod.mk.inj hd2
      obtain ⟨a3, a4⟩ := Prod.mk.inj a2
      exact ⟨r, rfl, a1, a3, a4⟩
  obtain ⟨⟨ts, X⟩, hr, h1, h2, h3⟩ := h
  exact ⟨X, ts, hr, c30_stream_invariant.2.2.2.2.1 {} echo_request 8 ts X hr, h1, h2, h3⟩

theorem be_bytes_length (c n : Nat) : (be_bytes c n).length = c := by
  simp [be_bytes]

theorem br_sha1_length (msg : List Nat) : (br_sha1 msg).length = 20 := by
  simp [br_sha1, be_bytes_length]

theorem base64_text_length (l : List Nat) :
    (base64_text l).length = 4 * ((l.length + 2) / 3) := by
  induction l using base64_text.induct with
  | case1 => simp [base64_text]
  | case2 a => simp [base64_text]
  | case3 a b => simp [base64_text]
  | case4 a b c rest ih =>
    simp only [base64_text, List.length_cons, ih]
    omega

theorem base64_encode_sha1 (msg : List Nat) :
    iwn_base64_encode (20 * 2) (br_sha1 msg) = some (base64_text (br_sha1 msg)) := by
  simp [iwn_base64_encode, base64_text_length, br_sha1_length]

theorem ws_header_get_cases (hreq : ws_http_req) (name : List Nat) (n : Nat) :
    ws_request_header_get hreq name n = {}
      ∨ ∃ v, ws_request_header_get hreq name n = { len := v.length, buf := some v } := by
  unfold ws_request_header_get
  cases hreq.request_headers.find?
      (fun h => h.1.length == n && strncasecmp_eq h.1 name n) with
  | none => exact Or.inl rfl
  | some h => exact Or.inr ⟨h.2, rfl⟩

theorem ws_header_get_set (hreq : ws_http_req) (a b : List Nat) (l : Nat) (name : List Nat)
    (n : Nat) :
    ws_request_header_get (ws_response_header_set hreq a b l) name n
      = ws_request_header_get hreq name n := rfl

theorem strncmp_13 (v : List Nat) (h : v.length = 2) :
    strncmp_eq v (str "13") 2 = true ↔ v = str "13" := by
  match v, h with
  | [a, b], _ =>
    have e : str "13" = [49, 51] := by decide
    rw [e]
    simp only [strncmp_eq, List.headD_cons, List.tail_cons]
    by_cases ha : a = 49
    · subst ha
      by_cases hb : b = 51
      · subst hb; simp
      · simp [hb]
    · simp [ha]

theorem strncasecmp_websocket (u : List Nat) (h : u.length = 9) :
    strncasecmp_eq u (str "websocket") 9 = true ↔ u.map tolower = str "websocket" := by
  have e : ((str "websocket").take 9).map tolower = str "websocket" := by decide
  have e2 : u.take 9 = u := by rw [← h]; exact List.take_length u
  simp [strncasecmp_eq, e, e2]

/-- C29: a request whose `upgrade` header is `websocket` up to the case of letters, whose
`sec-websocket-version` header is `13` and whose `sec-websocket-key` header is a non-empty `k` is
answered by `_route_handler` with the result 1, the status code 101, the upgrade mark, and the
response headers `upgrade: websocket`, the echoed `sec-websocket-protocol` if the request has one,
and `sec-websocket-accept` with the base64 text of the SHA-1 digest of `k` followed by
`258EAFA5-E914-47DA-95CA-C5AB0DC85B11`; for the key `dGhlIHNhbXBsZSBub25jZQ==` that text is
`s3pPLMBiTxaQ9kYGzzhZRbK+xOo=`; and when one of the three conditions fails the handler returns -1
and leaves the request as it was: no response header, no upgrade, no response. -/
theorem c29_ws_upgrade (hreq : ws_http_req) :
    (∀ u k : List Nat,
      ws_request_header_get hreq (str "upgrade") 7 = { len := u.length, buf := some u } →
      u.map tolower = str "websocket" →
      ws_request_header_get hreq (str "sec-websocket-version") 21
        = { len := 2, buf := some (str "13") } →
      ws_request_header_get hreq (str "sec-websocket-key") 17
        = { len := k.length, buf := some k } →
      k ≠ [] →
      _route_handler hreq
        = (1, { hreq with
            response_headers :=
              hreq.response_headers ++ [(str "upgrade", str "websocket")]
                ++ (match (ws_request_header_get hreq (str "sec-websocket-protocol") 22).buf with
                    | some p => if p = [] then [] else [(str "sec-websocket-protocol", p)]
                    | none => [])
                ++ [(str "sec-websocket-accept",
                      base64_text (br_sha1 (k ++ str "258EAFA5-E914-47DA-95CA-C5AB0DC85B11")))]
            upgrade := true
            response_code := some 101
            _ws_data := true }))
    ∧ base64_text (br_sha1 (str "dGhlIHNhbXBsZSBub25jZQ=="
          ++ str "258EAFA5-E914-47DA-95CA-C5AB0DC85B11")) = str "s3pPLMBiTxaQ9kYGzzhZRbK+xOo="
    ∧ (((∀ u, ws_request_header_get hreq (str "upgrade") 7 = { len := u.length, buf := some u } →
            u.map tolower ≠ str "websocket")
          ∨ ws_request_header_get hreq (str "sec-websocket-version") 21
              ≠ { len := 2, buf := some (str "13") }
          ∨ (ws_request_header_get hreq (str "sec-websocket-key") 17).len = 0) →
        _route_handler hreq = (-1, hreq)) := by
  have l7 : (str "upgrade").length = 7 := by decide
  have l9 : (str "websocket").length = 9 := by decide
  have l21 : (str "sec-websocket-version").length = 21 := by decide
  have l2 : (str "13").length = 2 := by decide
  have l17 : (str "sec-websocket-key").length = 17 := by decide
  have l22 : (str "sec-websocket-protocol").length = 22 := by decide
  refine ⟨?_, by decide, ?_⟩
  · intro u k hu hu2 hv hk hk0
    have hul : u.length = 9 := by
      have := congrArg List.length hu2
      rw [List.length_map, l9] at this
      exact this
    have hkl : k.length ≠ 0 := fun h => hk0 (List.length_eq_zero.mp h)
    have hcase := (strncasecmp_websocket u hul).mpr hu2
    have h13 := (strncmp_13 (str "13") l2).mpr rfl
    unfold _route_handler
    simp only [l7, l9, l21, l2, l17, l22, hu, hv, hk, hul, hcase, h13, hkl, ws_header_get_set,
      Option.getD_some, ne_eq, not_true_eq_false, or_self, if_false, List.take_length,
      WS_MAGIC13, base64_encode_sha1, iwn_http_response_write, iwn_http_connection_set_upgrade,
      if_true, Bool.not_eq_true, Bool.true_eq_false, not_false_eq_true]
    rcases ws_header_get_cases hreq (str "sec-websocket-protocol") 22 with hp | ⟨p, hp⟩
    · rw [hp]
      simp [ws_response_header_set, l9]
    · rw [hp]
      by_cases hp0 : p = []
      · subst hp0
        simp [ws_response_header_set, l9]
      · have : p.length ≠ 0 := fun h => hp0 (List.length_eq_zero.mp h)
        simp [ws_response_header_set, this, hp0, l9]
  · intro h
    unfold _route_handler
    rcases ws_header_get_cases hreq (str "upgrade") 7 with hu | ⟨u, hu⟩
    · simp [l7, l9, hu]
    · by_cases hul : u.length = 9
      · by_cases hcase : strncasecmp_eq u (str "websocket") 9 = true
        · have hu2 := (strncasecmp_websocket u hul).mp hcase
          rcases ws_header_get_cases hreq (str "sec-websocket-version") 21 with hv | ⟨v, hv⟩
          · simp [l7, l9, l21, l2, hu, hul, hcase, hv]
          · by_cases hvl : v.length = 2
            · by_cases hcmp : strncmp_eq v (str "13") 2 = true
              · have hv2 := (strncmp_13 v hvl).mp hcmp
                subst hv2
                rcases h with h | h | h
                · exact absurd hu2 (h u hu)
                · exact absurd (by rw [hv, l2]) h
                · simp [l7, l9, l21, l2, l17, hu, hul, hcase, hv, hcmp, h]
              · simp [l7, l9, l21, l2, hu, hul, hcase, hv, hvl, hcmp]
            · simp [l7, l9, l21, l2, hu, hul, hcase, hv, hvl]
        · simp [l7, l9, hu, hul, hcase]
      · simp [l7, l9, hu, hul]

/-- C29: the handshake request of RFC 6455 is upgraded with the accept text
`s3pPLMBiTxaQ9kYGzzhZRbK+xOo=`. -/
theorem c29_ws_upgrade_witness :
    _route_handler sample_ws_req
      = (1, { sample_ws_req with
          response_headers :=
            [(str "upgrade", str "websocket"),
             (str "sec-websocket-accept", str "s3pPLMBiTxaQ9kYGzzhZRbK+xOo=")]
          upgrade := true
          response_code := some 101
          _ws_data := true }) := by
  have h := (c29_ws_upgrade sample_ws_req).1 (str "WebSocket") (str "dGhlIHNhbXBsZSBub25jZQ==")
    (by decide) (by decide) (by decide) (by decide) (by decide)
  have e := (c29_ws_upgrade sample_ws_req).2.1
  rw [h, e]
  decide

theorem drop_agree (a k : Nat) (l l2 : List Nat) (h : l.drop a = l2.drop a) (hk : a ≤ k) :
    l.drop k = l2.drop k := by
  have e : k = a + (k - a) := by omega
  rw [e, ← List.drop_drop, ← List.drop_drop, h]

theorem getD_drop_head (l : List Nat) (k : Nat) : l.getD k 0 = (l.drop k).headD 0 := by
  rw [List.getD_eq_getElem?_getD]
  cases hd : l.drop k with
  | nil =>
    have : l.length ≤ k := List.drop_eq_nil_iff.mp hd
    rw [List.getElem?_eq_none this]; rfl
  | cons x xs =>
    have h0 : (l.drop k)[0]? = some x := by rw [hd]; exact List.getElem?_cons_zero
    rw [List.getElem?_drop] at h0
    simp only [add_zero] at h0
    rw [h0]; rfl

theorem getD_agree (a k : Nat) (l l2 : List Nat) (h : l.drop a = l2.drop a) (hk : a ≤ k) :
    l.getD k 0 = l2.getD k 0 := by
  rw [getD_drop_head, getD_drop_head, drop_agree a k l l2 h hk]

theorem buf_at_agree (a : Nat) (b b2 : Option (List Nat)) (i : Int)
    (h : buf_agree a b b2) (hi : (a : Int) ≤ i) : buf_at b i = buf_at b2 i := by
  unfold buf_at
  exact getD_agree a i.toNat _ _ h.2 (by omega)

theorem buf_copy_agree (a : Nat) (l l2 : List Nat) (dst src n : Int)
    (hl : l.length = l2.length) (h : l.drop a = l2.drop a)
    (hd : (a : Int) ≤ dst) (hs : (a : Int) ≤ src) :
    (buf_copy l dst src n).length = (buf_copy l2 dst src n).length
      ∧ (buf_copy l dst src n).drop a = (buf_copy l2 dst src n).drop a := by
  have e1 : l.drop src.toNat = l2.drop src.toNat := drop_agree a _ l l2 h (by omega)
  have hda : a ≤ dst.toNat := by omega
  unfold buf_copy
  simp only [e1]
  generalize (l2.drop src.toNat).take n.toNat = piece
  have e2 : l.drop (dst.toNat + piece.length) = l2.drop (dst.toNat + piece.length) :=
    drop_agree a _ l l2 h (by omega)
  have e3 : (l.take dst.toNat).length = (l2.take dst.toNat).length := by
    rw [List.length_take, List.length_take, hl]
  have e4 : (l.take dst.toNat).drop a = (l2.take dst.toNat).drop a := by
    rw [List.drop_take, List.drop_take, h]
  rw [e2]
  constructor
  · simp only [List.length_append, e3]
  · rw [List.append_assoc, List.append_assoc]
    generalize piece ++ l2.drop (dst.toNat + piece.length) = tl
    rw [List.drop_append_eq_append_drop, List.drop_append_eq_append_drop, e3, e4]

theorem with_buf_self (cl : client) : with_buf cl cl.stream.buf = cl := rfl

theorem with_buf_with_buf (cl : client) (b b2 : Option (List Nat)) :
    with_buf (with_buf cl b) b2 = with_buf cl b2 := rfl

theorem step_buf (cl : client) (c : Nat) :
    (token_parse_step cl c).2.stream.buf = cl.stream.buf := by
  have h := step_with_buf cl cl.stream.buf c
  rw [with_buf_self] at h
  have h2 := congrArg (fun r => r.2.stream.buf) h
  exact h2

theorem case_variant_length : ∀ (l l2 : List Nat) (s : state_e),
    case_variant s l l2 → l.length = l2.length := by
  intro l
  induction l with
  | nil =>
    intro l2 s h
    cases l2 with
    | nil => rfl
    | cons _ _ => exact absurd h (by simp [case_variant])
  | cons c cs ih =>
    intro l2 s h
    cases l2 with
    | nil => exact absurd h (by simp [case_variant])
    | cons c2 cs2 =>
      simp only [case_variant] at h
      simp [ih cs2 _ h.2]

theorem transitions_HK (s : state_e) (t : char_type_e) (h : transitions_at s t = HK) :
    s = RN ∨ s = HK ∨ s = HE := by
  revert h
  cases s <;> cases t <;> decide

theorem transitions_late (s : state_e) (t : char_type_e) (h : s = HN ∨ s = BD) :
    transitions_at s t = BD := by
  rcases h with rfl | rfl <;> cases t <;> rfl

theorem case_variant_late : ∀ (l l2 : List Nat) (s : state_e), s = HN ∨ s = BD →
    case_variant s l l2 → l = l2 := by
  intro l
  induction l with
  | nil =>
    intro l2 s _ h
    cases l2 with
    | nil => rfl
    | cons _ _ => exact absurd h (by simp [case_variant])
  | cons c cs ih =>
    intro l2 s hs h
    cases l2 with
    | nil => exact absurd h (by simp [case_variant])
    | cons c2 cs2 =>
      simp only [case_variant] at h
      have hT := transitions_late s (ctype_of c) hs
      rw [hT] at h
      have e := ih cs2 BD (Or.inr rfl) h.2
      rcases h.1 with h1 | ⟨_, h1⟩
      · rw [h1, e]
      · exact absurd h1 (by decide)

theorem transitions_early (s : state_e) (t : char_type_e) (h : early_state s) :
    early_state (transitions_at s t) ∨ transitions_at s t = HN := by
  revert h
  cases s <;> cases t <;> decide

/-- In a state in which the name of a header is read, the two cases of a
letter give the same turn of the loop. -/
theorem step_case_HK (cl : client) (c c2 : Nat) (h : tolower c = tolower c2)
    (hT : transitions_at cl.parser.state (ctype_of c) = HK) :
    token_parse_step cl c2 = token_parse_step cl c := by
  have ec : ctype_of c2 = ctype_of c := by
    rw [← ctype_tolower c2, ← ctype_tolower c, h]
  have ek : ∀ p : parser, _transition_hk p c2 = _transition_hk p c := by
    intro p
    rw [← transition_hk_tolower p c2, ← transition_hk_tolower p c, h]
  unfold token_parse_step
  simp only [ec, hT]
  have e0 : (if cl.parser.meta = M_ZER ∧ cl.parser.state = HN ∧ HK = BD then CS else HK) = HK := by
    rw [if_neg]; rintro ⟨-, -, h3⟩; exact absurd h3 (by decide)
  simp only [e0, _transition, _transition_switch, ek]

theorem next_state_early (p : parser) (c : Nat) (h : early_state p.state) :
    next_state p c = transitions_at p.state (ctype_of c) := by
  unfold next_state
  rw [if_neg]
  rintro ⟨-, h2, -⟩
  exact h (Or.inl h2)

set_option maxHeartbeats 1000000 in
theorem enter_head_meta (cl : client) (frm to_ : state_e) (hf : frm ≠ CS)
    (h : head_meta cl.parser.meta) :
    head_meta (_transition_enter cl frm to_).2.parser.meta := by
  have h2 := head_meta_step cl.parser.meta HS_META_END_KEY (by decide) h
  by_cases h1 : frm = HN <;> by_cases h3 : frm ≠ to_
  all_goals
    first
    | (have h4 : frm = to_ := not_not.1 h3
       subst h4
       simp [_transition_enter, _stream_anchor, h1, h])
    | (cases to_ <;>
        simp only [_transition_enter, h1, h3, hf, if_true, if_false, _token_start_states,
          _stream_anchor, _stream_begin_token, _stream_emit, _meta_trigger, ne_eq,
          not_true_eq_false, not_false_eq_true, reduceCtorEq] <;>
        (try split_ifs) <;> simp_all)

set_option maxHeartbeats 1000000 in
theorem switch_head_meta (em : token) (cl : client) (c : Nat) (to_ : state_e)
    (he : early_state to_) (h : head_meta cl.parser.meta) :
    head_meta (_transition_switch em cl c to_).2.parser.meta := by
  have h3 := head_meta_step cl.parser.meta HS_META_END_VALUE (by decide) h
  have hk := transition_hk_head cl.parser c h
  have hv := transition_hv_head cl.parser c h
  cases to_ <;> first
    | exact absurd he (by decide)
    | (simp only [_transition_switch, _stream_emit, _meta_trigger]; assumption)

/-- A turn of the loop in a state of the head: the parser passes to the state
of the table, the cursor moves by one byte, and the meta FSM stays in a state
of the head as long as the character FSM does. -/
theorem step_early (cl : client) (c : Nat) (hs : early_state cl.parser.state)
    (hm : head_meta cl.parser.meta) (hc : cl.stream.consumed = false) :
    (token_parse_step cl c).2.parser.state = transitions_at cl.parser.state (ctype_of c)
    ∧ (token_parse_step cl c).2.stream.index = cl.stream.index + 1
    ∧ (early_state (transitions_at cl.parser.state (ctype_of c)) →
        head_meta (token_parse_step cl c).2.parser.meta) := by
  have hne : transitions_at cl.parser.state (ctype_of c) ≠ BD
      ∧ transitions_at cl.parser.state (ctype_of c) ≠ CB := by
    rcases transitions_early cl.parser.state (ctype_of c) hs with h | h
    · constructor <;> intro h2 <;> rw [h2] at h <;> exact absurd h (by decide)
    · rw [h]; constructor <;> decide
  have hcs : cl.parser.state ≠ CS := by
    intro h; rw [h] at hs; exact absurd hs (by decide)
  rw [token_parse_step_eq, next_state_early cl.parser c hs]
  generalize transitions_at cl.parser.state (ctype_of c) = to_ at hne ⊢
  obtain ⟨e1, e2, e3, e4, e5, e6, e7⟩ := enter_facts
    { cl with parser := { cl.parser with state := to_ } } cl.parser.state to_
  have em := enter_head_meta { cl with parser := { cl.parser with state := to_ } }
    cl.parser.state to_ hcs hm
  simp only at e1 e2 e3 e4 e5 e6 e7
  generalize _transition_enter { cl with parser := { cl.parser with state := to_ } }
    cl.parser.state to_ = E at e1 e2 e3 e4 e5 e6 e7 em ⊢
  obtain ⟨s1, s2, s3, s4, s5, s6, s7⟩ := switch_facts E.1 E.2 c to_ hne.1 hne.2
  have sm := fun he => switch_head_meta E.1 E.2 c to_ he em
  generalize _transition_switch E.1 E.2 c to_ = S at s1 s2 s3 s4 s5 s6 s7 sm ⊢
  have hcons : S.2.stream.consumed = false := by rw [s1, e3, hc]
  refine ⟨?_, ?_, ?_⟩
  · show S.2.parser.state = to_
    rw [s5, e5]
  · show (_stream_consume S.2.stream).index = cl.stream.index + 1
    unfold _stream_consume
    rw [hcons]
    simp [s3, e1]
  · exact sm

theorem frame_inv_consumed (a : Nat) (cl : client) (b : Bool) (h : frame_inv a cl) :
    frame_inv a { cl with stream := { cl.stream with consumed := b } } := h

/-- One turn of the loop of `_token_parse` on two buffers in the relation
`case_rel`: the byte of the second buffer gives the same turn as the byte of
the first, and the relation holds again after the turn. -/
theorem case_rel_step (cl : client) (B2 : Option (List Nat)) (h : case_rel cl B2)
    (hc : cl.stream.consumed = false) (hlt : cl.stream.index < cl.stream.length) :
    token_parse_step cl (buf_at B2 cl.stream.index)
        = token_parse_step cl (buf_at cl.stream.buf cl.stream.index)
      ∧ case_rel (token_parse_step cl (buf_at cl.stream.buf cl.stream.index)).2 B2 := by
  obtain ⟨hlen, hrel⟩ := h
  have hbuf := step_buf cl (buf_at cl.stream.buf cl.stream.index)
  rcases hrel with ⟨hinv, hs, hm, hcv⟩ | ⟨a, hinv, hag⟩
  · have hi0 : (0 : Int) ≤ cl.stream.index := by simpa using hinv.1
    have hstep := step_early cl (buf_at cl.stream.buf cl.stream.index) hs hm hc
    have hinv1 := (step_frame_inv 0 cl (buf_at cl.stream.buf cl.stream.index) hinv hc hlt).1
    have key : ∀ (c c2 : Nat) (cs cs2 : List Nat),
        buf_at cl.stream.buf cl.stream.index = c → buf_at B2 cl.stream.index = c2 →
        (cl.stream.buf.getD []).drop (cl.stream.index.toNat + 1) = cs →
        (B2.getD []).drop (cl.stream.index.toNat + 1) = cs2 →
        (c = c2 ∨ (tolower c = tolower c2 ∧ transitions_at cl.parser.state (ctype_of c) = HK)) →
        case_variant (transitions_at cl.parser.state (ctype_of c)) cs cs2 →
        token_parse_step cl (buf_at B2 cl.stream.index)
            = token_parse_step cl (buf_at cl.stream.buf cl.stream.index)
          ∧ case_rel (token_parse_step cl (buf_at cl.stream.buf cl.stream.index)).2 B2 := by
      intro c c2 cs cs2 e1 e2 e3 e4 hcase hrest
      rw [e1] at hstep hinv1 hbuf ⊢
      rw [e2]
      have hidx : (token_parse_step cl c).2.stream.index.toNat = cl.stream.index.toNat + 1 := by
        rw [hstep.2.1]; omega
      refine ⟨?_, ?_, ?_⟩
      · rcases hcase with h | ⟨h1, h2⟩
        · rw [h]
        · exact step_case_HK cl c c2 h1 h2
      · rw [hbuf]; exact hlen
      · rcases transitions_early cl.parser.state (ctype_of c) hs with he | he
        · left
          refine ⟨hinv1, ?_, hstep.2.2 he, ?_⟩
          · rw [hstep.1]; exact he
          · rw [hstep.1, hbuf, hidx, e3, e4]; exact hrest
        · right
          refine ⟨cl.stream.index.toNat + 1, ⟨?_, ?_, ?_, hinv1.2.2.2.1, hinv1.2.2.2.2⟩, ?_, ?_⟩
          · rw [hstep.2.1]; push_cast; omega
          · intro hb; rw [hstep.1, he] at hb; exact absurd hb (by decide)
          · intro hb; rw [hstep.1, he] at hb; exact absurd hb (by decide)
          · rw [hbuf]; exact hlen
          · rw [hbuf, e3, e4]
            rw [he] at hrest
            exact case_variant_late cs cs2 HN (Or.inl rfl) hrest
    have hb1 : buf_at cl.stream.buf cl.stream.index
        = ((cl.stream.buf.getD []).drop cl.stream.index.toNat).headD 0 := by
      unfold buf_at; exact getD_drop_head _ _
    have hb2 : buf_at B2 cl.stream.index
        = ((B2.getD []).drop cl.stream.index.toNat).headD 0 := by
      unfold buf_at; exact getD_drop_head _ _
    cases hd1 : (cl.stream.buf.getD []).drop cl.stream.index.toNat with
    | nil =>
      cases hd2 : (B2.getD []).drop cl.stream.index.toNat with
      | nil =>
        rw [hd1] at hb1; rw [hd2] at hb2
        have g1 : (cl.stream.buf.getD []).drop (cl.stream.index.toNat + 1) = [] := by
          rw [List.drop_eq_nil_iff] at hd1 ⊢; omega
        have g2 : (B2.getD []).drop (cl.stream.index.toNat + 1) = [] := by
          rw [List.drop_eq_nil_iff] at hd2 ⊢; omega
        exact key 0 0 [] [] hb1 hb2 g1 g2 (Or.inl rfl) (by simp [case_variant])
      | cons c2 cs2 =>
        rw [hd1, hd2] at hcv
        exact absurd hcv (by simp [case_variant])
    | cons c cs =>
      cases hd2 : (B2.getD []).drop cl.stream.index.toNat with
      | nil =>
        rw [hd1, hd2] at hcv
        exact absurd hcv (by simp [case_variant])
      | cons c2 cs2 =>
        rw [hd1, hd2] at hcv
        rw [hd1] at hb1; rw [hd2] at hb2
        simp only [case_variant] at hcv
        exact key c c2 cs cs2 hb1 hb2 (drop_cons_getD hd1).2.2 (drop_cons_getD hd2).2.2
          hcv.1 hcv.2
  · have e : buf_at B2 cl.stream.index = buf_at cl.stream.buf cl.stream.index :=
      (buf_at_agree a _ _ _ hag hinv.1).symm
    rw [e]
    refine ⟨rfl, ?_, Or.inr ⟨a, (step_frame_inv a cl _ hinv hc hlt).1, ?_⟩⟩
    · rw [hbuf]; exact hlen
    · rw [hbuf]; exact hag

theorem case_rel_consumed (cl : client) (B2 : Option (List Nat)) (b : Bool)
    (h : case_rel cl B2) :
    case_rel { cl with stream := { cl.stream with consumed := b } } B2 := h

/-- The loop of `_token_parse` on the second buffer does what it does on the
first, and the relation `case_rel` holds when it ends. -/
theorem case_rel_loop : ∀ (fuel : Nat) (cl : client) (B2 : Option (List Nat)),
    case_rel cl B2 →
    token_parse_loop fuel (with_buf cl B2)
        = (token_parse_loop fuel cl).map (fun r => (r.1, with_buf r.2 B2))
      ∧ ∀ r, token_parse_loop fuel cl = some r → case_rel r.2 B2 := by
  intro fuel
  induction fuel with
  | zero =>
    intro cl B2 _
    exact ⟨rfl, fun r hr => by simp [token_parse_loop] at hr⟩
  | succ f ih =>
    intro cl B2 h
    by_cases hge : cl.stream.index ≥ cl.stream.length
    · have e1 : token_parse_loop (f + 1) cl
          = some (none, { cl with stream := { cl.stream with consumed := false } }) := by
        simp [token_parse_loop, _stream_next, hge]
      have e2 : token_parse_loop (f + 1) (with_buf cl B2)
          = some (none, with_buf { cl with stream := { cl.stream with consumed := false } } B2) := by
        simp [token_parse_loop, _stream_next, with_buf, hge]
      rw [e1, e2]
      refine ⟨rfl, ?_⟩
      intro r hr
      have := Option.some.inj hr
      rw [← this]
      exact case_rel_consumed cl B2 false h
    · have hlt : cl.stream.index < cl.stream.length := by omega
      obtain ⟨A, hA⟩ : ∃ A : client,
          A = { cl with stream := { cl.stream with consumed := false } } := ⟨_, rfl⟩
      have hrelA : case_rel A B2 := by rw [hA]; exact case_rel_consumed cl B2 false h
      have hcA : A.stream.consumed = false := by rw [hA]
      have hltA : A.stream.index < A.stream.length := by rw [hA]; exact hlt
      obtain ⟨hs1, hs2⟩ := case_rel_step A B2 hrelA hcA hltA
      have hw := step_with_buf A B2 (buf_at B2 A.stream.index)
      rw [hs1] at hw
      have e1 : token_parse_loop (f + 1) cl
          = (if (token_parse_step A (buf_at A.stream.buf A.stream.index)).1.type ≠ HS_TOK_NONE
              then some (some (token_parse_step A (buf_at A.stream.buf A.stream.index)).1,
                (token_parse_step A (buf_at A.stream.buf A.stream.index)).2)
              else token_parse_loop f
                (token_parse_step A (buf_at A.stream.buf A.stream.index)).2) := by
        rw [hA]
        simp [token_parse_loop, _stream_next, hge]
      have e2 : token_parse_loop (f + 1) (with_buf cl B2)
          = (if (token_parse_step (with_buf A B2) (buf_at B2 A.stream.index)).1.type ≠ HS_TOK_NONE
              then some (some (token_parse_step (with_buf A B2) (buf_at B2 A.stream.index)).1,
                (token_parse_step (with_buf A B2) (buf_at B2 A.stream.index)).2)
              else token_parse_loop f
                (token_parse_step (with_buf A B2) (buf_at B2 A.stream.index)).2) := by
        rw [hA]
        simp [token_parse_loop, _stream_next, with_buf, hge]
      rw [e1, e2, hw]
      generalize token_parse_step A (buf_at A.stream.buf A.stream.index) = R at hs2 ⊢
      by_cases ht : R.1.type ≠ HS_TOK_NONE
      · simp only [if_pos ht]
        refine ⟨rfl, ?_⟩
        intro r hr
        have := Option.some.inj hr
        rw [← this]
        exact hs2
      · simp only [if_neg ht]
        exact ih R.2 B2 hs2

/-- The relation `case_rel` after `_meta_emit_token`. -/
theorem case_rel_meta_emit (cl : client) (B2 : Option (List Nat)) (h : case_rel cl B2) :
    case_rel { cl with parser := (_meta_emit_token cl.parser).2 } B2 := by
  obtain ⟨hlen, hrel⟩ := h
  refine ⟨hlen, ?_⟩
  rcases hrel with ⟨hinv, hs, hm, hcv⟩ | ⟨a, hinv, hag⟩
  · left
    have hq := head_meta_quiet _ hm
    have e := meta_emit_quiet cl.parser hq.1 hq.2
    rw [e]
    exact ⟨hinv, hs, hm, hcv⟩
  · right
    refine ⟨a, ?_, hag⟩
    obtain ⟨i1, i2, i3, i4, i5⟩ := hinv
    have hst := meta_emit_state cl.parser
    refine ⟨i1, ?_, ?_, i4, i5⟩
    · intro hb
      have hb1 : body_state (_meta_emit_token cl.parser).2.state := hb
      rcases hst with e | e
      · rw [e] at hb1; exact i2 hb1
      · rw [e] at hb1; exact absurd hb1 (by decide)
    · intro hb
      have hb1 : (_meta_emit_token cl.parser).2.state = CB := hb
      rcases hst with e | e
      · rw [e] at hb1; exact i3 hb1
      · rw [e] at hb1; exact absurd hb1 (by decide)

theorem buf_copy_getD (o : Option (List Nat)) (d s n : Int) :
    (o.map (fun b => buf_copy b d s n)).getD [] = buf_copy (o.getD []) d s n := by
  cases o with
  | none => simp [buf_copy]
  | some b => rfl

theorem shift_with_buf (cl : client) (B2 : Option (List Nat)) :
    ({ with_buf cl B2 with stream := _stream_shift (with_buf cl B2).stream } : client)
      = with_buf { cl with stream := _stream_shift cl.stream }
          (_stream_shift (with_buf cl B2).stream).buf := by
  unfold _stream_shift with_buf
  simp only
  split_ifs <;> rfl

/-- The relation `case_rel` after the `_stream_shift` of state `CB`. -/
theorem case_rel_shift (cl : client) (B2 : Option (List Nat)) (h : case_rel cl B2)
    (hs : cl.parser.state = CB) :
    case_rel { cl with stream := _stream_shift cl.stream }
      (_stream_shift (with_buf cl B2).stream).buf := by
  obtain ⟨hlen, hrel⟩ := h
  rcases hrel with ⟨-, he, -, -⟩ | ⟨a, hinv, hag⟩
  · rw [hs] at he; exact absurd he (by decide)
  · obtain ⟨i1, i2, i3, i4, i5⟩ := hinv
    have ha : (a : Int) ≤ cl.stream.anchor := i2 (by rw [hs]; decide)
    by_cases h0 : cl.stream.token.index = cl.stream.anchor
    · have e1 : _stream_shift cl.stream = cl.stream := by
        unfold _stream_shift; rw [if_pos h0]
      have e2 : (_stream_shift (with_buf cl B2).stream).buf = B2 := by
        unfold _stream_shift with_buf; simp only; rw [if_pos h0]
      rw [e1, e2]
      exact ⟨hlen, Or.inr ⟨a, ⟨i1, i2, i3, i4, i5⟩, hag⟩⟩
    · by_cases hl : cl.stream.token.len > 0
      · have ht : cl.stream.token.type ≠ HS_TOK_NONE := by
          intro h1; have := i5 h1; omega
        have hti : (a : Int) ≤ cl.stream.token.index := i3 hs ht
        have hcopy := buf_copy_agree a (cl.stream.buf.getD []) (B2.getD []) cl.stream.anchor
          cl.stream.token.index (cl.stream.length - cl.stream.token.index) hlen hag.2 ha hti
        have e1 : (_stream_shift cl.stream).buf
            = cl.stream.buf.map (fun b => buf_copy b cl.stream.anchor cl.stream.token.index
                (cl.stream.length - cl.stream.token.index)) := by
          unfold _stream_shift; rw [if_neg h0]; simp only [hl, if_true]
        have e2 : (_stream_shift (with_buf cl B2).stream).buf
            = B2.map (fun b => buf_copy b cl.stream.anchor cl.stream.token.index
                (cl.stream.length - cl.stream.token.index)) := by
          unfold _stream_shift with_buf; simp only; rw [if_neg h0]; simp only [hl, if_true]
        have e3 : (_stream_shift cl.stream).index = cl.stream.anchor + cl.stream.token.len := by
          unfold _stream_shift; rw [if_neg h0]
        have e4 : (_stream_shift cl.stream).anchor = cl.stream.anchor := by
          unfold _stream_shift; rw [if_neg h0]
        have e5 : (_stream_shift cl.stream).token
            = { cl.stream.token with index := cl.stream.anchor } := by
          unfold _stream_shift; rw [if_neg h0]
        refine ⟨?_, Or.inr ⟨a, ⟨?_, ?_, ?_, ?_, ?_⟩, ?_, ?_⟩⟩
        · show ((_stream_shift cl.stream).buf.getD []).length = _
          rw [e1, e2, buf_copy_getD, buf_copy_getD]; exact hcopy.1
        · show (a : Int) ≤ (_stream_shift cl.stream).index
          rw [e3]; omega
        · intro _; show (a : Int) ≤ (_stream_shift cl.stream).anchor
          rw [e4]; exact ha
        · intro _ _; show (a : Int) ≤ (_stream_shift cl.stream).token.index
          rw [e5]; exact ha
        · show 0 ≤ (_stream_shift cl.stream).token.len
          rw [e5]; exact i4
        · show (_stream_shift cl.stream).token.type = HS_TOK_NONE →
            (_stream_shift cl.stream).token.len = 0
          rw [e5]; exact i5
        · show ((_stream_shift cl.stream).buf.getD []).length = _
          rw [e1, e2, buf_copy_getD, buf_copy_getD]; exact hcopy.1
        · show ((_stream_shift cl.stream).buf.getD []).drop a = _
          rw [e1, e2, buf_copy_getD, buf_copy_getD]; exact hcopy.2
      · have e1 : (_stream_shift cl.stream).buf = cl.stream.buf := by
          unfold _stream_shift; rw [if_neg h0]; simp only [hl, if_false]
        have e2 : (_stream_shift (with_buf cl B2).stream).buf = B2 := by
          unfold _stream_shift with_buf; simp only; rw [if_neg h0]; simp only [hl, if_false]
        have e3 : (_stream_shift cl.stream).index = cl.stream.anchor + cl.stream.token.len := by
          unfold _stream_shift; rw [if_neg h0]
        have e4 : (_stream_shift cl.stream).anchor = cl.stream.anchor := by
          unfold _stream_shift; rw [if_neg h0]
        have e5 : (_stream_shift cl.stream).token
            = { cl.stream.token with index := cl.stream.anchor } := by
          unfold _stream_shift; rw [if_neg h0]
        refine ⟨?_, Or.inr ⟨a, ⟨?_, ?_, ?_, ?_, ?_⟩, ?_, ?_⟩⟩
        · show ((_stream_shift cl.stream).buf.getD []).length = _
          rw [e1, e2]; exact hlen
        · show (a : Int) ≤ (_stream_shift cl.stream).index
          rw [e3]; omega
        · intro _; show (a : Int) ≤ (_stream_shift cl.stream).anchor
          rw [e4]; exact ha
        · intro _ _; show (a : Int) ≤ (_stream_shift cl.stream).token.index
          rw [e5]; exact ha
        · show 0 ≤ (_stream_shift cl.stream).token.len
          rw [e5]; exact i4
        · show (_stream_shift cl.stream).token.type = HS_TOK_NONE →
            (_stream_shift cl.stream).token.len = 0
          rw [e5]; exact i5
        · show ((_stream_shift cl.stream).buf.getD []).length = _
          rw [e1, e2]; exact hlen
        · show ((_stream_shift cl.stream).buf.getD []).drop a = _
          rw [e1, e2]; exact hag.2

theorem shift_buf_eq (s : stream) (B2 : Option (List Nat)) :
    _stream_shift { s with buf := B2 }
      = { _stream_shift s with buf := (_stream_shift { s with buf := B2 }).buf } := by
  unfold _stream_shift
  simp only
  split_ifs <;> rfl

/-- The code of `_token_parse` after its loop on the second buffer. -/
theorem case_rel_finish (cl : client) (B2 : Option (List Nat)) (h : case_rel cl B2) :
    ∃ B3, token_parse_finish (with_buf cl B2)
        = ((token_parse_finish cl).1, with_buf (token_parse_finish cl).2 B3)
      ∧ case_rel (token_parse_finish cl).2 B3 := by
  by_cases hs : cl.parser.state = CB
  · obtain ⟨B3, hB3⟩ : ∃ B3, _stream_shift (with_buf cl B2).stream
        = { _stream_shift cl.stream with buf := B3 } := ⟨_, shift_buf_eq cl.stream B2⟩
    have hb : (_stream_shift (with_buf cl B2).stream).buf = B3 := by rw [hB3]
    refine ⟨B3, ?_, ?_⟩
    · have hs2 : (with_buf cl B2).parser.state = CB := hs
      unfold token_parse_finish
      simp only [hs, hs2, if_true, hB3]
      rfl
    · have h1 := case_rel_meta_emit _ _ (case_rel_shift cl B2 h hs)
      rw [hb] at h1
      unfold token_parse_finish
      simp only [hs, if_true]
      exact h1
  · refine ⟨B2, ?_, ?_⟩
    · have hs2 : ¬ (with_buf cl B2).parser.state = CB := hs
      unfold token_parse_finish
      simp only [hs, hs2, if_false]
      rfl
    · have h1 := case_rel_meta_emit _ _ h
      unfold token_parse_finish
      simp only [hs, if_false]
      exact h1

/-- One call of `_token_parse` on the second buffer returns what the call on
the first returns, and the relation `case_rel` holds again. -/
theorem case_rel_parse (cl : client) (B2 : Option (List Nat)) (h : case_rel cl B2) :
    (_token_parse cl = none ∧ _token_parse (with_buf cl B2) = none)
      ∨ ∃ t X B3, _token_parse cl = some (t, X)
          ∧ _token_parse (with_buf cl B2) = some (t, with_buf X B3) ∧ case_rel X B3 := by
  have h1 := case_rel_meta_emit cl B2 h
  obtain ⟨A, hA⟩ : ∃ A : client, A = { cl with parser := (_meta_emit_token cl.parser).2 } :=
    ⟨_, rfl⟩
  rw [← hA] at h1
  have u1 : _token_parse cl
      = if (_meta_emit_token cl.parser).1.type ≠ HS_TOK_NONE
        then some ((_meta_emit_token cl.parser).1, A)
        else match token_parse_loop (2 * (cl.stream.length - cl.stream.index).toNat + 2) A with
          | none => none
          | some (some emitted, c) => some (emitted, c)
          | some (none, c) => some (token_parse_finish c) := by
    rw [hA]; rfl
  have u2 : _token_parse (with_buf cl B2)
      = if (_meta_emit_token cl.parser).1.type ≠ HS_TOK_NONE
        then some ((_meta_emit_token cl.parser).1, with_buf A B2)
        else match token_parse_loop (2 * (cl.stream.length - cl.stream.index).toNat + 2)
            (with_buf A B2) with
          | none => none
          | some (some emitted, c) => some (emitted, c)
          | some (none, c) => some (token_parse_finish c) := by
    rw [hA]; rfl
  rw [u1, u2]
  by_cases he : (_meta_emit_token cl.parser).1.type ≠ HS_TOK_NONE
  · right
    rw [if_pos he, if_pos he]
    exact ⟨_, _, B2, rfl, rfl, h1⟩
  · rw [if_neg he, if_neg he]
    obtain ⟨l1, l2⟩ := case_rel_loop (2 * (cl.stream.length - cl.stream.index).toNat + 2) A B2 h1
    rw [l1]
    cases hl : token_parse_loop (2 * (cl.stream.length - cl.stream.index).toNat + 2) A with
    | none => left; exact ⟨rfl, rfl⟩
    | some r =>
      right
      have hr := l2 r hl
      obtain ⟨o, Y⟩ := r
      cases o with
      | some t => exact ⟨t, Y, B2, rfl, rfl, hr⟩
      | none =>
        obtain ⟨B3, f1, f2⟩ := case_rel_finish Y B2 hr
        refine ⟨(token_parse_finish Y).1, (token_parse_finish Y).2, B3, rfl, ?_, f2⟩
        show some (token_parse_finish (with_buf Y B2)) = _
        rw [f1]

/-- The calls of `_token_parse` on the second buffer return the tokens of the
calls on the first, and leave the same client up to the bytes of the buffer. -/
theorem case_rel_n : ∀ (n : Nat) (cl : client) (B2 : Option (List Nat)), case_rel cl B2 →
    (token_parse_n n cl = none ∧ token_parse_n n (with_buf cl B2) = none)
      ∨ ∃ ts X B3, token_parse_n n cl = some (ts, X)
          ∧ token_parse_n n (with_buf cl B2) = some (ts, with_buf X B3) ∧ case_rel X B3 := by
  intro n
  induction n with
  | zero =>
    intro cl B2 h
    exact Or.inr ⟨[], cl, B2, rfl, rfl, h⟩
  | succ n ih =>
    intro cl B2 h
    rcases case_rel_parse cl B2 h with ⟨p1, p2⟩ | ⟨t, X, B3, p1, p2, p3⟩
    · left
      simp [token_parse_n, p1, p2]
    · rcases ih X B3 p3 with ⟨q1, q2⟩ | ⟨ts, Y, B4, q1, q2, q3⟩
      · left
        simp [token_parse_n, p1, p2, q1, q2]
      · right
        exact ⟨t :: ts, Y, B4, by simp [token_parse_n, p1, q1],
          by simp [token_parse_n, p2, q2], q3⟩

theorem case_variant_same : ∀ (a : List Nat) (s : state_e) (l l2 : List Nat),
    case_variant (a.foldl (fun s c => transitions_at s (ctype_of c)) s) l l2 →
    case_variant s (a ++ l) (a ++ l2) := by
  intro a
  induction a with
  | nil => intro s l l2 h; exact h
  | cons c cs ih =>
    intro s l l2 h
    show case_variant s (c :: (cs ++ l)) (c :: (cs ++ l2))
    exact ⟨Or.inl rfl, ih _ l l2 h⟩

theorem stay_foldl (S : state_e) : ∀ (w : List Nat), (∀ d ∈ w, accepts S S d) →
    w.foldl (fun s c => transitions_at s (ctype_of c)) S = S := by
  intro w
  induction w with
  | nil => intro _; rfl
  | cons c cs ih =>
    intro h
    have h1 : transitions_at S (ctype_of c) = S := h c (by simp)
    simp only [List.foldl_cons, h1]
    exact ih (fun d hd => h d (by simp [hd]))

theorem token_ok_foldl (S0 S : state_e) (w : List Nat) (h : token_ok S0 S w) :
    w.foldl (fun s c => transitions_at s (ctype_of c)) S0 = S := by
  cases w with
  | nil => exact absurd h (by simp [token_ok])
  | cons c cs =>
    obtain ⟨h1, h2⟩ := h
    have e : transitions_at S0 (ctype_of c) = S := h1
    simp only [List.foldl_cons, e]
    exact stay_foldl S cs h2

theorem case_variant_name_tail : ∀ (key key2 : List Nat) (l l2 : List Nat),
    (∀ d ∈ key, accepts HK HK d) → key2.map tolower = key.map tolower →
    case_variant HK l l2 → case_variant HK (key ++ l) (key2 ++ l2) := by
  intro key
  induction key with
  | nil =>
    intro key2 l l2 _ hk h
    have : key2 = [] := by simpa using hk
    rw [this]; exact h
  | cons c cs ih =>
    intro key2 l l2 hok hk h
    cases key2 with
    | nil => simp at hk
    | cons c2 cs2 =>
      simp only [List.map_cons, List.cons.injEq] at hk
      have h1 : transitions_at HK (ctype_of c) = HK := hok c (by simp)
      simp only [List.cons_append, case_variant, h1]
      exact ⟨Or.inr ⟨hk.1.symm, trivial⟩,
        ih cs2 l l2 (fun d hd => hok d (by simp [hd])) hk.2 h⟩

theorem case_variant_name (S0 : state_e) (hS : S0 = RN ∨ S0 = HE) (key key2 : List Nat)
    (l l2 : List Nat) (hok : token_ok RN HK key) (hk : key2.map tolower = key.map tolower)
    (h : case_variant HK l l2) : case_variant S0 (key ++ l) (key2 ++ l2) := by
  cases key with
  | nil => exact absurd hok (by simp [token_ok])
  | cons c cs =>
    cases key2 with
    | nil => simp at hk
    | cons c2 cs2 =>
      obtain ⟨h1, h2⟩ := hok
      simp only [List.map_cons, List.cons.injEq] at hk
      have h3 : transitions_at S0 (ctype_of c) = HK := by
        rcases hS with rfl | rfl
        · exact h1
        · exact accepts_HE_of_RN c h1
      simp only [List.cons_append, case_variant, h3]
      exact ⟨Or.inr ⟨hk.1.symm, trivial⟩, case_variant_name_tail cs cs2 l l2 h2 hk.2 h⟩

theorem case_variant_line (S0 : state_e) (hS : S0 = RN ∨ S0 = HE)
    (h h2 : List Nat × List Nat) (l l2 : List Nat)
    (hk : token_ok RN HK h.1) (hv : token_ok HS HV h.2)
    (he : line_lower h2 = line_lower h) (hrest : case_variant HE l l2) :
    case_variant S0 (header_line h ++ l) (header_line h2 ++ l2) := by
  obtain ⟨k, v⟩ := h
  obtain ⟨k2, v2⟩ := h2
  simp only [line_lower, Prod.mk.injEq] at he
  obtain ⟨he1, he2⟩ := he
  subst he2
  have e1 : header_line (k, v2) ++ l = k ++ ([58, 32] ++ v2 ++ [13, 10] ++ l) := by
    simp [header_line]
  have e2 : header_line (k2, v2) ++ l2 = k2 ++ ([58, 32] ++ v2 ++ [13, 10] ++ l2) := by
    simp [header_line]
  rw [e1, e2]
  apply case_variant_name S0 hS k k2 _ _ hk he1
  apply case_variant_same
  have hf : ([58, 32] ++ v2 ++ [13, 10]).foldl (fun s c => transitions_at s (ctype_of c)) HK
      = HE := by
    rw [List.foldl_append, List.foldl_append]
    have a1 : ([58, 32] : List Nat).foldl (fun s c => transitions_at s (ctype_of c)) HK = HS := by
      decide
    rw [a1, token_ok_foldl HS HV v2 hv]
    decide
  rw [hf]
  exact hrest

theorem case_variant_block : ∀ (hs hs2 : List (List Nat × List Nat)) (S0 : state_e)
    (l l2 : List Nat), (S0 = RN ∨ S0 = HE) →
    (∀ h ∈ hs, token_ok RN HK h.1 ∧ token_ok HS HV h.2) →
    hs2.map line_lower = hs.map line_lower →
    (∀ S, S = RN ∨ S = HE → case_variant S l l2) →
    case_variant S0 (header_block hs ++ l) (header_block hs2 ++ l2) := by
  intro hs
  induction hs with
  | nil =>
    intro hs2 S0 l l2 hS _ he hrest
    have : hs2 = [] := by simpa using he
    rw [this]
    exact hrest S0 hS
  | cons h hs ih =>
    intro hs2 S0 l l2 hS hok he hrest
    cases hs2 with
    | nil => simp at he
    | cons h2 hs2 =>
      simp only [List.map_cons, List.cons.injEq] at he
      simp only [header_block, List.append_assoc]
      exact case_variant_line S0 hS h h2 _ _ (hok h (by simp)).1 (hok h (by simp)).2 he.1
        (ih hs2 HE l l2 (Or.inr rfl) (fun x hx => hok x (by simp [hx])) he.2 hrest)

theorem case_variant_refl : ∀ (l : List Nat) (s : state_e), case_variant s l l := by
  intro l
  induction l with
  | nil => intro _; trivial
  | cons c cs ih => intro s; exact ⟨Or.inl rfl, ih _⟩

theorem case_variant_request (m t v : List Nat) (hs hs2 : List (List Nat × List Nat))
    (rest : List Nat)
    (hm : token_ok state_e.ST MT m) (ht : token_ok MS TR t) (hv : token_ok TS VN v)
    (hok : ∀ h ∈ hs, token_ok RN HK h.1 ∧ token_ok HS HV h.2)
    (he : hs2.map line_lower = hs.map line_lower) :
    case_variant state_e.ST (request_bytes m t v hs ++ rest)
      (request_bytes m t v hs2 ++ rest) := by
  have e : ∀ x : List (List Nat × List Nat), request_bytes m t v x ++ rest
      = (m ++ [32] ++ t ++ [32] ++ v ++ [13, 10]) ++ (header_block x ++ ([13, 10] ++ rest)) := by
    intro x; simp [request_bytes]
  rw [e hs, e hs2]
  apply case_variant_same
  have hf : (m ++ [32] ++ t ++ [32] ++ v ++ [13, 10]).foldl
      (fun s c => transitions_at s (ctype_of c)) state_e.ST = RN := by
    simp only [List.foldl_append, token_ok_foldl state_e.ST MT m hm]
    have a1 : ([32] : List Nat).foldl (fun s c => transitions_at s (ctype_of c)) MT = MS := by
      decide
    rw [a1, token_ok_foldl MS TR t ht]
    have a2 : ([32] : List Nat).foldl (fun s c => transitions_at s (ctype_of c)) TR = TS := by
      decide
    rw [a2, token_ok_foldl TS VN v hv]
    decide
  rw [hf]
  exact case_variant_block hs hs2 RN _ _ (Or.inl rfl) hok he (fun S _ => case_variant_refl _ S)

theorem client_holding_with_buf (srv : server) (b b2 : List Nat) (h : b.length = b2.length) :
    client_holding srv b2 = with_buf (client_holding srv b) (some b2) := by
  simp [client_holding, with_buf, h]

theorem client_holding_case_rel (srv : server) (b b2 : List Nat)
    (h : case_variant state_e.ST b b2) : case_rel (client_holding srv b) (some b2) := by
  refine ⟨case_variant_length b b2 _ h, Or.inl ⟨?_, ?_, ?_, ?_⟩⟩
  · simp [frame_inv, client_holding]
  · show early_state state_e.ST
    decide
  · show head_meta M_WFK
    decide
  · simpa [client_holding] using h

/-- C17: two byte strings that differ only in the case of letters inside
header names (`case_variant`: where they differ, the bytes are the same letter
up to case and the character FSM reads the byte into the state `HK` of a header
name) give, from a freshly initialised parser and for every number `K` of
calls of `_token_parse`, the same tokens (types, indices and lengths) and the
same client but for the bytes of the read buffer: the same parser, so the same
`content_length` and the same meta state, which classifies the body, and the
same cursor; one parse returns if and only if the other does. Requests with
an accepted request line and accepted header lines whose names differ in case
only are such byte strings, whatever bytes follow the blank line. -/
theorem c17_header_name_case (srv : server) (K : Nat) :
    (∀ b b2 : List Nat, case_variant state_e.ST b b2 →
      (token_parse_n K (client_holding srv b2)).map (fun r => (r.1, with_buf r.2 none))
          = (token_parse_n K (client_holding srv b)).map (fun r => (r.1, with_buf r.2 none))
        ∧ (token_parse_n K (client_holding srv b2)).map
            (fun r => (r.1, r.2.parser.content_length, r.2.parser.meta))
          = (token_parse_n K (client_holding srv b)).map
            (fun r => (r.1, r.2.parser.content_length, r.2.parser.meta)))
    ∧ (∀ (m t v : List Nat) (hs hs2 : List (List Nat × List Nat)) (rest : List Nat),
        token_ok state_e.ST MT m → token_ok MS TR t → token_ok TS VN v →
        (∀ h ∈ hs, token_ok RN HK h.1 ∧ token_ok HS HV h.2) →
        hs2.map line_lower = hs.map line_lower →
        case_variant state_e.ST (request_bytes m t v hs ++ rest)
          (request_bytes m t v hs2 ++ rest)) := by
  refine ⟨?_, fun m t v hs hs2 rest hm ht hv hok he =>
    case_variant_request m t v hs hs2 rest hm ht hv hok he⟩
  intro b b2 h
  have hrel := client_holding_case_rel srv b b2 h
  have e := client_holding_with_buf srv b b2 (case_variant_length b b2 _ h)
  rw [e]
  rcases case_rel_n K (client_holding srv b) (some b2) hrel with ⟨p1, p2⟩ | ⟨ts, X, B3, p1, p2, -⟩
  · rw [p1, p2]
    exact ⟨rfl, rfl⟩
  · rw [p1, p2]
    exact ⟨rfl, rfl⟩

/-- C17: the request of scenario 2 with the header names `HOST` and
`Content-Length` is parsed into the tokens of the request with the names
`Host` and `content-length`. -/
theorem c17_header_name_case_witness :
    ((token_parse_n 8 (client_holding {} echo_request_upper)).map
          (fun r => (r.1, with_buf r.2 none))
        = (token_parse_n 8 (client_holding {} echo_request)).map
          (fun r => (r.1, with_buf r.2 none))
      ∧ (token_parse_n 8 (client_holding {} echo_request_upper)).map
          (fun r => (r.1, r.2.parser.content_length, r.2.parser.meta))
        = (token_parse_n 8 (client_holding {} echo_request)).map
          (fun r => (r.1, r.2.parser.content_length, r.2.parser.meta)))
    ∧ case_variant state_e.ST
        (request_bytes (str "POST") (str "/echo") (str "HTTP/1.1")
          [(str "Host", str "x"), (str "content-length", str "5")] ++ str "hello")
        (request_bytes (str "POST") (str "/echo") (str "HTTP/1.1")
          [(str "HOST", str "x"), (str "Content-Length", str "5")] ++ str "hello") :=
  ⟨(c17_header_name_case {} 8).1 echo_request echo_request_upper (by decide),
    (c17_header_name_case {} 8).2 (str "POST") (str "/echo") (str "HTTP/1.1")
      [(str "Host", str "x"), (str "content-length", str "5")]
      [(str "HOST", str "x"), (str "Content-Length", str "5")] (str "hello")
      (by decide) (by decide) (by decide) (by decide) (by decide)⟩

/-- C32: for the Content-Length value `!` the parser holds the content
length -15 after the header line and emits a BODY token of length -15. -/
theorem c32_negative_content_length :
    (token_parse_n 5 (client_holding {} bang_length_request)).map
        (fun r => r.2.parser.content_length) = some (-15)
    ∧ (token_parse_n 6 (client_holding {} bang_length_request)).map Prod.fst
        = some [{ index := 0, len := 4, type := HS_TOK_METHOD },
                { index := 5, len := 5, type := HS_TOK_TARGET },
                { index := 11, len := 8, type := HS_TOK_VERSION },
                { index := 21, len := 14, type := HS_TOK_HEADER_KEY },
                { index := 37, len := 1, type := HS_TOK_HEADER_VAL },
                { index := 42, len := -15, type := HS_TOK_BODY }] := by
  constructor <;> decide

/-- C34: the table `_ctype` gives the class TCHAR to the comma (byte 44), which
is not a tchar of RFC 7230: the bytes of class TCHAR are the fifteen tchar
punctuation bytes and the comma, so a comma is accepted as the first and as a
further byte of a header name; every byte from 128 on has the class ETC. -/
theorem c34_comma_is_tchar :
    ctype_of 44 = HS_TCHAR
    ∧ (∀ c < 256, ctype_of c = HS_TCHAR
        ↔ c ∈ [33, 35, 36, 37, 38, 39, 42, 43, 44, 45, 46, 94, 95, 96, 124, 126])
    ∧ accepts RN HK 44 ∧ accepts HK HK 44
    ∧ (token_parse_n 4 (client_holding {} (str "GET / HTTP/1.1\r\na,b: c\r\n\r\n"))).map Prod.fst
        = some [{ index := 0, len := 3, type := HS_TOK_METHOD },
                { index := 4, len := 1, type := HS_TOK_TARGET },
                { index := 6, len := 8, type := HS_TOK_VERSION },
                { index := 16, len := 3, type := HS_TOK_HEADER_KEY }]
    ∧ (∀ c, 128 ≤ c → ctype_of c = HS_ETC) := by
  refine ⟨by decide, by decide, by decide, by decide, by decide, ?_⟩
  intro c hc
  unfold ctype_of
  exact List.getD_eq_default _ _ (by simpa [_ctype] using hc)

/-- C36: on the turn of the loop that detects a malformed byte the parser
passes to the state `BR`, and `_transition` reads `_token_start_states[BR]`,
index 24 of a table of 24 entries; for the first byte CR of a request the turn
returns ERROR after that read. -/
theorem c36_token_start_past_table :
    token_start_index (client_holding {} [13]).parser 13 = some 24
    ∧ ¬ 24 < token_start_states_len
    ∧ BR.toNat = 24
    ∧ (token_parse_n 1 (client_holding {} [13])).map Prod.fst = some [{ type := HS_TOK_ERROR }] := by
  refine ⟨by decide, by decide, by decide, by decide⟩

/-- C37: with `Content-Length: 4294967296` and three body bytes in the buffer
the parser reports the body complete: the offset handed to `_stream_jump` is
the content length converted to `int`, which is 0, so the jump succeeds at
once and the tokens are BODY_STREAM, a CHUNK_BODY of length 0, the CHUNK_BODY
of the end of the stream and REQ_END. -/
theorem c37_int_offset :
    toInt32 4294967296 = 0
    ∧ (token_parse_n 9 (client_holding {} huge_length_request)).map Prod.fst
        = some [{ index := 0, len := 4, type := HS_TOK_METHOD },
                { index := 5, len := 5, type := HS_TOK_TARGET },
                { index := 11, len := 8, type := HS_TOK_VERSION },
                { index := 21, len := 14, type := HS_TOK_HEADER_KEY },
                { index := 37, len := 10, type := HS_TOK_HEADER_VAL },
                { type := HS_TOK_BODY_STREAM },
                { index := 51, len := 0, type := HS_TOK_CHUNK_BODY },
                { type := HS_TOK_CHUNK_BODY },
                { type := HS_TOK_REQ_END }]
    ∧ (token_parse_n 5 (client_holding {} huge_length_request)).map
        (fun r => r.2.parser.content_length) = some 4294967296 := by
  refine ⟨by decide, by decide, by decide⟩

/-- C38: the state `HS` stays in `HS` on SP, TAB, CR and LF, so for the header
block `A:` CRLF `B: c` CRLF CRLF the parser emits HEADER_KEY `A` and then
HEADER_VAL `B: c`, no HEADER_KEY for `B`, and has counted one header when the
headers end. -/
theorem c38_empty_value_line :
    (accepts HS HS 32 ∧ accepts HS HS 9 ∧ accepts HS HS 13 ∧ accepts HS HS 10)
    ∧ (token_parse_n 7 (client_holding {} empty_value_request)).map Prod.fst
        = some [{ index := 0, len := 3, type := HS_TOK_METHOD },
                { index := 4, len := 1, type := HS_TOK_TARGET },
                { index := 6, len := 8, type := HS_TOK_VERSION },
                { index := 16, len := 1, type := HS_TOK_HEADER_KEY },
                { index := 20, len := 4, type := HS_TOK_HEADER_VAL },
                { type := HS_TOK_BODY },
                { type := HS_TOK_REQ_END }]
    ∧ token_bytes (some empty_value_request) { index := 16, len := 1, type := HS_TOK_HEADER_KEY }
        = str "A"
    ∧ token_bytes (some empty_value_request) { index := 20, len := 4, type := HS_TOK_HEADER_VAL }
        = str "B: c"
    ∧ (token_parse_n 6 (client_holding {} empty_value_request)).map
        (fun r => r.2.parser.header_count) = some 1 := by
  refine ⟨by decide, by decide, by decide, by decide, by decide⟩

/-- C39: the request `spaced_body_request` (a SMALL body `a b c`) held whole
in one buffer gives, after REQ_END, a METHOD and a TARGET token; read in two
reads, the second beginning at the third byte of the body, it gives after
REQ_END one METHOD token at another offset: `_stream_jump` leaves the cursor
where the last read began, and the bytes of the body behind the cursor are
parsed again. -/
theorem c39_split_changes_tokens :
    (parse_reads 16 (client_holding {} []) [spaced_body_request]).map Prod.fst
        = some [{ index := 0, len := 4, type := HS_TOK_METHOD },
                { index := 5, len := 5, type := HS_TOK_TARGET },
                { index := 11, len := 8, type := HS_TOK_VERSION },
                { index := 21, len := 4, type := HS_TOK_HEADER_KEY },
                { index := 27, len := 1, type := HS_TOK_HEADER_VAL },
                { index := 30, len := 14, type := HS_TOK_HEADER_KEY },
                { index := 46, len := 1, type := HS_TOK_HEADER_VAL },
                { index := 51, len := 5, type := HS_TOK_BODY },
                { type := HS_TOK_REQ_END },
                { index := 51, len := 1, type := HS_TOK_METHOD },
                { index := 53, len := 1, type := HS_TOK_TARGET }]
    ∧ (parse_reads 16 (client_holding {} [])
          [spaced_body_request.take 53, spaced_body_request.drop 53]).map Prod.fst
        = some [{ index := 0, len := 4, type := HS_TOK_METHOD },
                { index := 5, len := 5, type := HS_TOK_TARGET },
                { index := 11, len := 8, type := HS_TOK_VERSION },
                { index := 21, len := 4, type := HS_TOK_HEADER_KEY },
                { index := 27, len := 1, type := HS_TOK_HEADER_VAL },
                { index := 30, len := 14, type := HS_TOK_HEADER_KEY },
                { index := 46, len := 1, type := HS_TOK_HEADER_VAL },
                { index := 51, len := 5, type := HS_TOK_BODY },
                { type := HS_TOK_REQ_END },
                { index := 53, len := 1, type := HS_TOK_METHOD }] := by
  constructor <;> decide

/-- C35: with no message or one message pending a received text message is
linked at the tail, and two pending messages are passed to `msg_handler` in
their order; with two messages pending the loop that looks for the tail sets
its pointer to `m->next`, which is null, and reads `mm->next` through it: the
third message is not queued, for every bound on the turns of the loop that
lets the loop run. -/
theorem c35_third_message_null_deref :
    two_pending = Except.ok
        { heap := [{ buf := str "a", next := some 1 }, { buf := str "b", next := none }],
          messages := some 0, msg_handler := true }
    ∧ ws_deliver (fun _ => true) 8
          [{ buf := str "a", next := some 1 }, { buf := str "b", next := none }] (some 0) 1
        = Except.ok ([str "a", str "b"], 1)
    ∧ (∀ fuel, 2 ≤ fuel →
        _wslay_msg_recv_callback fuel
            { heap := [{ buf := str "a", next := some 1 }, { buf := str "b", next := none }],
              messages := some 0, msg_handler := true } 1 (str "c")
          = Except.error ws_fault.null_deref) := by
  refine ⟨rfl, rfl, ?_⟩
  intro fuel hf
  obtain ⟨k, rfl⟩ : ∃ k, fuel = k + 2 := ⟨fuel - 2, by omega⟩
  rfl

theorem pa_write_le (pa : iwn_poller_adapter) (data : List Nat) :
    (pa_write pa data).1 ≤ data.length := by
  unfold pa_write
  split
  · simp
  · simp only
    push_cast
    omega
  · simp only
    omega

theorem buf_slice_length (buf : Option (List Nat)) (a b : Int) :
    ((buf_slice buf a b).length : Int) ≤ max 0 (b - a) := by
  unfold buf_slice
  rw [List.length_take]
  omega

/-- C31: a call of `_client_write` on a session whose stream has
`bytes_total <= length` and whose flag `HTTP_END_SESSION` is clear, when
`errno` is not `EPIPE` after the write. The number `n` of bytes written is the
result of the write if it is positive and 0 otherwise, and it is at most
`length - bytes_total`. After the write `bytes_total` is advanced by `n` and
does not exceed `length`. If bytes remain, the session is the one before the
call with the adapter after the write, the new `bytes_total` and the state
Write. If no byte remains and the response is not chunked: with
`HTTP_KEEP_ALIVE` the session has the state Init, an empty stream and an empty
token array, the keep-alive timeout is given to the poller if it is positive,
`HTTP_END_SESSION` is clear, and the event callback that made the call returns
0; without `HTTP_KEEP_ALIVE` only `HTTP_END_SESSION` is set besides the adapter
and `bytes_total`, and the event callback returns -1. -/
theorem c31_client_write (cb : callbacks) (e : env) (fuel : Nat) (cl : client)
    (h0 : cl.stream.bytes_total ≤ cl.stream.length)
    (herr : (pa_write cl.pa
      (buf_slice cl.stream.buf cl.stream.bytes_total cl.stream.length)).2.errno ≠ EPIPE)
    (hend : cl.flags.HTTP_END_SESSION = false) :
    ∃ (n : Int) (pa1 : iwn_poller_adapter),
      pa1 = (pa_write cl.pa
        (buf_slice cl.stream.buf cl.stream.bytes_total cl.stream.length)).2
      ∧ n = max 0 (pa_write cl.pa
        (buf_slice cl.stream.buf cl.stream.bytes_total cl.stream.length)).1
      ∧ n ≤ cl.stream.length - cl.stream.bytes_total
      ∧ (_client_write_bytes cl).2.stream.bytes_total = cl.stream.bytes_total + n
      ∧ (_client_write_bytes cl).2.stream.bytes_total ≤ (_client_write_bytes cl).2.stream.length
      ∧ (cl.stream.bytes_total + n ≠ cl.stream.length →
          _client_write cb cl
            = { cl with
                pa := pa1
                stream := { cl.stream with bytes_total := cl.stream.bytes_total + n }
                state := HTTP_SESSION_WRITE })
      ∧ (cl.stream.bytes_total + n = cl.stream.length →
          cl.flags.HTTP_CHUNKED_RESPONSE = false → cl.flags.HTTP_KEEP_ALIVE = true →
          _client_write cb cl
              = { cl with
                  pa := if cl.server.spec.request_timeout_keepalive_sec > 0
                    then { pa1 with timeout := some cl.server.spec.request_timeout_keepalive_sec }
                    else pa1
                  stream := {}
                  tokens := {}
                  state := HTTP_SESSION_INIT }
            ∧ (_client_write cb cl).flags.HTTP_END_SESSION = false
            ∧ (cl.state = HTTP_SESSION_WRITE →
                _client_on_poller_adapter_event cb e fuel cl = some (0, _client_write cb cl)))
      ∧ (cl.stream.bytes_total + n = cl.stream.length →
          cl.flags.HTTP_CHUNKED_RESPONSE = false → cl.flags.HTTP_KEEP_ALIVE = false →
          _client_write cb cl
              = { cl with
                  pa := pa1
                  stream := { cl.stream with bytes_total := cl.stream.bytes_total + n }
                  flags := { cl.flags with HTTP_END_SESSION := true } }
            ∧ (cl.state = HTTP_SESSION_WRITE →
                _client_on_poller_adapter_event cb e fuel cl
                  = some (-1, _client_write cb cl))) := by
  obtain ⟨w, hw⟩ : ∃ w, w = pa_write cl.pa
      (buf_slice cl.stream.buf cl.stream.bytes_total cl.stream.length) := ⟨_, rfl⟩
  rw [← hw] at herr
  have hle : w.1 ≤ cl.stream.length - cl.stream.bytes_total := by
    have h1 := pa_write_le cl.pa (buf_slice cl.stream.buf cl.stream.bytes_total cl.stream.length)
    have h2 := buf_slice_length cl.stream.buf cl.stream.bytes_total cl.stream.length
    rw [← hw] at h1
    omega
  have hwb : _client_write_bytes cl
      = (true, { cl with
                  pa := w.2
                  stream := { cl.stream with bytes_total := cl.stream.bytes_total + max 0 w.1 } }) := by
    unfold _client_write_bytes
    simp only [← hw, herr, ne_eq, not_false_eq_true, decide_True]
    by_cases hpos : w.1 > 0
    · have : max 0 w.1 = w.1 := by omega
      simp [hpos, this]
    · have : max 0 w.1 = 0 := by omega
      simp [hpos, this]
  have hstate : ∀ X : client, cl.state = HTTP_SESSION_WRITE →
      _client_write cb cl = X →
      _client_on_poller_adapter_event cb e fuel cl
        = some ((if X.flags.HTTP_END_SESSION then -1 else 0), X) := by
    intro X hs hX
    unfold _client_on_poller_adapter_event
    simp [hs, hX, HTTP_SESSION_WRITE, HTTP_SESSION_INIT, HTTP_SESSION_READ]
  refine ⟨max 0 w.1, w.2, by rw [hw], by rw [hw], by omega, ?_, ?_, ?_, ?_, ?_⟩
  · rw [hwb]
  · rw [hwb]
    show cl.stream.bytes_total + max 0 w.1 ≤ cl.stream.length
    omega
  · intro hne
    unfold _client_write
    simp only [hwb, not_true_eq_false, if_false, ne_eq, hne, not_false_eq_true, if_true]
  · intro heq hch hka
    have e1 : _client_write cb cl
        = { cl with
            pa := if cl.server.spec.request_timeout_keepalive_sec > 0
              then { w.2 with timeout := some cl.server.spec.request_timeout_keepalive_sec }
              else w.2
            stream := {}
            tokens := {}
            state := HTTP_SESSION_INIT } := by
      unfold _client_write
      simp only [hwb, not_true_eq_false, if_false, ne_eq, heq, hch, hka, if_true,
        Bool.false_eq_true, _client_reset, set_timeout, _stream_free_buffer, _tokens_free_buffer]
      split_ifs <;> rfl
    refine ⟨e1, ?_, ?_⟩
    · rw [e1]; exact hend
    · intro hs
      have := hstate _ hs rfl
      rw [this]
      have hf : (_client_write cb cl).flags.HTTP_END_SESSION = false := by rw [e1]; exact hend
      simp [hf]
  · intro heq hch hka
    have e1 : _client_write cb cl
        = { cl with
            pa := w.2
            stream := { cl.stream with bytes_total := cl.stream.bytes_total + max 0 w.1 }
            flags := { cl.flags with HTTP_END_SESSION := true } } := by
      unfold _client_write
      simp only [hwb, not_true_eq_false, if_false, ne_eq, heq, hch, hka, if_true,
        Bool.false_eq_true]
    refine ⟨e1, ?_⟩
    intro hs
    have := hstate _ hs rfl
    rw [this]
    have hf : (_client_write cb cl).flags.HTTP_END_SESSION = true := by rw [e1]
    simp [hf]

/-- C31: the session `partial_write_client` sends two of its five bytes and
stays in the Write state; the session `full_write_client` sends its five bytes
and is reset for the next request, and the event callback returns 0; the
session `last_write_client`, without keep-alive, sends its five bytes and the
event callback returns -1. -/
theorem c31_client_write_witness :
    _client_write no_callbacks partial_write_client
      = { partial_write_client with
          pa := { output := [], sent := str "he" }
          stream := { partial_write_client.stream with bytes_total := 2 }
          state := HTTP_SESSION_WRITE }
    ∧ _client_on_poller_adapter_event no_callbacks example_env 8 full_write_client
      = some (0, { full_write_client with
          pa := { sent := str "hello", timeout := some 120 }
          stream := {}
          tokens := {}
          state := HTTP_SESSION_INIT })
    ∧ _client_on_poller_adapter_event no_callbacks example_env 8 last_write_client
      = some (-1, { last_write_client with
          pa := { sent := str "hello" }
          stream := { last_write_client.stream with bytes_total := 5 }
          flags := { HTTP_END_SESSION := true } }) := by
  refine ⟨?_, ?_, ?_⟩
  · obtain ⟨n, pa1, h1, h2, -, -, -, h6, -, -⟩ :=
      c31_client_write no_callbacks example_env 8 partial_write_client
        (by decide) (by decide) (by decide)
    have e1 : pa1 = { output := [], sent := str "he" } := by rw [h1]; decide
    have e2 : n = 2 := by rw [h2]; decide
    subst e1 e2
    exact h6 (by decide)
  · obtain ⟨n, pa1, h1, h2, -, -, -, -, h7, -⟩ :=
      c31_client_write no_callbacks example_env 8 full_write_client
        (by decide) (by decide) (by decide)
    have e1 : pa1 = { sent := str "hello" } := by rw [h1]; decide
    have e2 : n = 5 := by rw [h2]; decide
    subst e1 e2
    obtain ⟨a1, -, a3⟩ := h7 (by decide) (by decide) (by decide)
    rw [a3 (by decide), a1]
    decide
  · obtain ⟨n, pa1, h1, h2, -, -, -, -, -, h8⟩ :=
      c31_client_write no_callbacks example_env 8 last_write_client
        (by decide) (by decide) (by decide)
    have e1 : pa1 = { sent := str "hello" } := by rw [h1]; decide
    have e2 : n = 5 := by rw [h2]; decide
    subst e1 e2
    obtain ⟨a1, a3⟩ := h8 (by decide) (by decide) (by decide)
    rw [a3 (by decide), a1]
    decide

/-- A HEADER_KEY token is returned by one call of `_token_parse` from any
parser at the beginning of a header line, whatever its length. -/
theorem token_parse_key_free (S0 : state_e) (hS : S0 = RN ∨ S0 = HE)
    (cl0 : client) (bs : List Nat) (p : parser) (n : Nat)
    (key : List Nat) (rest : List Nat) (b : Bool)
    (hb : cl0.stream.buf = some bs) (hl : cl0.stream.length = bs.length)
    (hd : bs.drop n = key ++ 58 :: rest)
    (hs : p.state = S0) (hm : head_meta p.meta)
    (hw : token_ok RN HK key)
    (hq : toInt16 (p.header_count + 1) ≤ cl0.server.spec.request_max_header_count) :
    ∃ P1 : parser, P1.state = HS ∧ head_meta P1.meta
      ∧ _token_parse (at_ cl0 p n {} b) =
        some ({ index := n, len := key.length, type := HS_TOK_HEADER_KEY },
          at_ cl0 P1 (n + key.length + 1) {} true) := by
  cases key with
  | nil => exact absurd hw (by simp [token_ok])
  | cons first seg =>
    obtain ⟨h1, h2⟩ := hw
    have hd2 : bs.drop n = first :: (seg ++ 58 :: rest) := by simpa using hd
    have hfirst : accepts S0 HK first := by
      rcases hS with rfl | rfl
      · exact h1
      · exact accepts_HE_of_RN first h1
    have key := run_token S0 HK HS HS_TOK_HEADER_KEY (by simp)
      (fun cl0 p => toInt16 (p.header_count + 1) ≤ cl0.server.spec.request_max_header_count)
      (fun p c => _transition_hk
        { p with state := HK, header_count := toInt16 (p.header_count + 1), match_index := 0 } c)
      _transition_hk
      (fun p => { p with state := HS, match_index := 0,
                         meta := meta_transitions_at p.meta HS_META_END_KEY })
      (fun p c => by rw [(transition_hk_fields _ c).1])
      (fun p c h => by rw [(transition_hk_fields p c).1]; exact h)
      (fun cl0 p n c hs hc hq => step_HK_begin S0 hS cl0 p n c hs hc hq)
      (fun cl0 p n tok c hs hc ht => step_HK_stay cl0 p n tok c hs hc ht)
      (fun cl0 p n tok c hs hc _ => step_HK_HS cl0 p n tok c hs hc)
      cl0 bs p n 0 first seg 58 rest b hb hl hd2 hs hq hfirst h2 (by decide)
    have hq0 := head_meta_quiet _ hm
    obtain ⟨Q, hQ⟩ : ∃ Q : parser, Q = seg.foldl _transition_hk (_transition_hk
        { p with state := HK, header_count := toInt16 (p.header_count + 1), match_index := 0 }
        first) := ⟨_, rfl⟩
    simp only [← hQ] at key
    refine ⟨{ Q with state := HS, match_index := 0, meta := meta_transitions_at Q.meta 2 },
      rfl, ?_, ?_⟩
    · show head_meta (meta_transitions_at _ HS_META_END_KEY)
      apply head_meta_step _ _ (by decide)
      rw [hQ]
      apply foldl_hk_head
      apply transition_hk_head
      exact hm
    · have e1 : n + (first :: seg).length + 1 = n + seg.length + 2 := by simp; omega
      have e2 : (((first :: seg).length : Nat) : Int) = (seg.length : Int) + 1 := by simp
      rw [e1, e2]
      refine token_parse_of_loop cl0 p n {} b (0 + (seg.length + 2)) _ _ hq0.1 hq0.2 ?_ key
      exact fuel_ok cl0 bs n _ _ hl hd2 (by simp) (by simp)

/-- A HEADER_VAL token is returned by one call of `_token_parse` from any
parser behind the colon of a header line, whatever its length: the separator
is skipped and the token ends before the CR. -/
theorem token_parse_value_free
    (cl0 : client) (bs : List Nat) (p : parser) (n : Nat)
    (w : List Nat) (sp term : Nat) (rest : List Nat) (b : Bool)
    (hb : cl0.stream.buf = some bs) (hl : cl0.stream.length = bs.length)
    (hd : bs.drop n = sp :: (w ++ term :: rest))
    (hs : p.state = HS) (hm : head_meta p.meta)
    (hsp : accepts HS HS sp) (hw : token_ok HS HV w) (ht : accepts HV HR term) :
    ∃ P1 : parser, _token_parse (at_ cl0 p n {} b) =
      some ({ index := (n : Int) + 1, len := w.length, type := HS_TOK_HEADER_VAL },
        at_ cl0 P1 (n + w.length + 2) {} true) := by
  cases w with
  | nil => exact absurd hw (by simp [token_ok])
  | cons first seg =>
    obtain ⟨h1, h2⟩ := hw
    obtain ⟨-, -, hd1⟩ := drop_cons_getD hd
    have hd2 : bs.drop (n + 1) = first :: (seg ++ term :: rest) := by simpa using hd1
    have key := run_token HS HV HR HS_TOK_HEADER_VAL (by simp) (fun _ _ => True)
      (fun p c => _transition_hv { p with state := HV, match_index := 0 } c) _transition_hv
      (fun p => { p with state := HR, match_index := 0,
                         meta := meta_transitions_at p.meta HS_META_END_VALUE })
      (fun p c => by rw [transition_hv_state])
      (fun p c h => by rw [transition_hv_state]; exact h)
      (fun cl0 p n c hs hc _ => step_HV_begin cl0 p n c hs hc)
      (fun cl0 p n tok c hs hc ht => step_HV_stay cl0 p n tok c hs hc ht)
      (fun cl0 p n tok c hs hc _ => step_emit_cr HV HR (by simp) cl0 p n tok c hs hc)
      cl0 bs p (n + 1) 0 first seg term rest true hb hl hd2 hs trivial h1 h2 ht
    have hq0 := head_meta_quiet _ hm
    have e1 : n + (first :: seg).length + 2 = n + 1 + seg.length + 2 := by simp; omega
    have e2 : (((first :: seg).length : Nat) : Int) = (seg.length : Int) + 1 := by simp
    rw [e1, e2]
    obtain ⟨Q, hQ⟩ : ∃ Q : parser, Q = seg.foldl _transition_hv
        (_transition_hv { p with state := HV, match_index := 0 } first) := ⟨_, rfl⟩
    simp only [← hQ] at key
    refine ⟨{ Q with state := HR, match_index := 0, meta := meta_transitions_at Q.meta 3 }, ?_⟩
    refine token_parse_of_loop cl0 p n {} b (0 + (seg.length + 2) + 1) _ _ hq0.1 hq0.2 ?_ ?_
    · exact fuel_ok cl0 bs n _ _ hl hd (by simp) (by simp)
    · rw [token_parse_loop_succ _ cl0 _ n {} b bs sp _ hb hl hd,
        step_HS_stay cl0 _ n sp hs hsp]
      simp only [ne_eq, not_true_eq_false, if_false]
      have e3 : ((n + 1 : Nat) : Int) = (n : Int) + 1 := by push_cast; rfl
      rw [e3] at key
      exact key

theorem value_first_ok (c : Nat)
    (h : ctype_of c ≠ HS_SPC ∧ ctype_of c ≠ HS_TAB ∧ ctype_of c ≠ HS_NL ∧ ctype_of c ≠ HS_CR
      ∧ ctype_of c ≠ HS_ETC) : accepts HS HV c := by
  unfold accepts
  generalize ctype_of c = t at h
  revert h
  cases t <;> decide

theorem value_next_ok (c : Nat)
    (h : ctype_of c ≠ HS_NL ∧ ctype_of c ≠ HS_CR ∧ ctype_of c ≠ HS_ETC) : accepts HV HV c := by
  unfold accepts
  generalize ctype_of c = t at h
  revert h
  cases t <;> decide

theorem token_bytes_at (bs : List Nat) (n : Nat) (w rest : List Nat) (T : token_e)
    (hd : bs.drop n = w ++ rest) :
    token_bytes (some bs) { index := (n : Int), len := w.length, type := T } = w := by
  simp [token_bytes, hd]

/-- C33: a header line made of a name, a colon, one SP or TAB, a value and
CR LF, read by a parser at the beginning of a header line (state `RN` or `HE`,
the meta FSM in a state of the head, the header count below its limit). The
first byte of the value is of no class SPC, TAB, NL, CR or ETC, its further
bytes are of no class NL, CR or ETC, so they may be SP and TAB. Two calls of
`_token_parse` return the HEADER_KEY token of the name and a HEADER_VAL token
that starts at the first byte of the value, behind the separator, and has the
length of the value: its bytes are the value, with every SP and TAB in it. -/
theorem c33_header_value (cl0 : client) (bs : List Nat) (p : parser) (n : Nat)
    (name value : List Nat) (sep : Nat) (rest : List Nat) (b : Bool)
    (hb : cl0.stream.buf = some bs) (hl : cl0.stream.length = bs.length)
    (hd : bs.drop n = name ++ 58 :: sep :: (value ++ 13 :: 10 :: rest))
    (hs : p.state = RN ∨ p.state = HE) (hm : head_meta p.meta)
    (hq : toInt16 (p.header_count + 1) ≤ cl0.server.spec.request_max_header_count)
    (hname : token_ok RN HK name)
    (hsep : sep = 32 ∨ sep = 9)
    (hne : value ≠ [])
    (hfirst : ∀ c ∈ value.head?, ctype_of c ≠ HS_SPC ∧ ctype_of c ≠ HS_TAB ∧ ctype_of c ≠ HS_NL
      ∧ ctype_of c ≠ HS_CR ∧ ctype_of c ≠ HS_ETC)
    (hnext : ∀ d ∈ value.tail, ctype_of d ≠ HS_NL ∧ ctype_of d ≠ HS_CR ∧ ctype_of d ≠ HS_ETC) :
    (token_parse_n 2 (at_ cl0 p n {} b)).map Prod.fst
        = some [{ index := n, len := name.length, type := HS_TOK_HEADER_KEY },
                { index := ((n + name.length + 2 : Nat) : Int), len := value.length,
                  type := HS_TOK_HEADER_VAL }]
    ∧ token_bytes (some bs)
        { index := ((n + name.length + 2 : Nat) : Int), len := value.length,
          type := HS_TOK_HEADER_VAL } = value := by
  have hw : token_ok HS HV value := by
    cases value with
    | nil => exact absurd rfl hne
    | cons c cs =>
      exact ⟨value_first_ok c (hfirst c (by simp)), fun d hd => value_next_ok d (hnext d hd)⟩
  have hsp : accepts HS HS sep := by
    rcases hsep with rfl | rfl <;> decide
  obtain ⟨P1, hP1, hP2, hkey⟩ := token_parse_key_free p.state hs cl0 bs p n name
    (sep :: (value ++ 13 :: 10 :: rest)) b hb hl hd rfl hm hname hq
  have hd1 : bs.drop (n + name.length + 1) = sep :: (value ++ 13 :: 10 :: rest) :=
    drop_token hd
  obtain ⟨P2, hval⟩ := token_parse_value_free cl0 bs P1 (n + name.length + 1) value sep 13
    (10 :: rest) true hb hl hd1 hP1 hP2 hsp hw (by decide)
  have hd2 : bs.drop (n + name.length + 2) = value ++ 13 :: 10 :: rest := by
    have := (drop_cons_getD hd1).2.2
    simpa using this
  refine ⟨?_, token_bytes_at bs _ value _ _ hd2⟩
  have e : ((n + name.length + 1 : Nat) : Int) + 1 = ((n + name.length + 2 : Nat) : Int) := by
    push_cast; ring
  rw [e] at hval
  simp [token_parse_n, hkey, hval]

/-- C33: the header line `A:` TAB `b c` TAB `d` of `tab_value_request` gives
the value token `b c` TAB `d`. -/
theorem c33_header_value_witness :
    (token_parse_n 2 (at_ (client_holding {} tab_value_request) (psl RN M_ANY 0 0) 16 {} false)).map
        Prod.fst
        = some [{ index := ((16 : Nat) : Int), len := (str "A").length, type := HS_TOK_HEADER_KEY },
                { index := ((16 + (str "A").length + 2 : Nat) : Int),
                  len := (str "b c\td").length, type := HS_TOK_HEADER_VAL }]
    ∧ token_bytes (some tab_value_request)
        { index := ((16 + (str "A").length + 2 : Nat) : Int), len := (str "b c\td").length,
          type := HS_TOK_HEADER_VAL } = str "b c\td" :=
  c33_header_value (client_holding {} tab_value_request) tab_value_request (psl RN M_ANY 0 0) 16
    (str "A") (str "b c\td") 9 (str "\r\n") false rfl rfl (by decide) (by decide) (by decide)
    (by decide) (by decide) (by decide) (by decide) (by decide) (by decide)

/-- C40: two requests that arrive in one read leave the connection as one
request does: the handler answers the first, the response is written, the
session is reset with an empty stream, and the bytes of the second request are
gone; the next event finds nothing to read and no second response is sent. -/
theorem c40_pipelined_discarded_counterexample :
    on_event (end_callbacks example_env) example_env pipelined_client
        = on_event (end_callbacks example_env) example_env single_client
    ∧ (on_event (end_callbacks example_env) example_env pipelined_client).map
          (fun c => (c.state, c.stream, c.pa.input)) = some (HTTP_SESSION_INIT, {}, [])
    ∧ (on_event (end_callbacks example_env) example_env pipelined_client).map
          (fun c => c.pa.sent)
        = some (str "HTTP/1.1 200 OK\r\nDate: Thu, 01 Jan 1970 00:00:01 GMT\r\nconnection: keep-alive\r\ncontent-length: 0\r\n\r\n")
    ∧ ((on_event (end_callbacks example_env) example_env pipelined_client).bind
          (on_event (end_callbacks example_env) example_env)).map (fun c => c.pa.sent)
        = some (str "HTTP/1.1 200 OK\r\nDate: Thu, 01 Jan 1970 00:00:01 GMT\r\nconnection: keep-alive\r\ncontent-length: 0\r\n\r\n") := by
  refine ⟨by decide!, by decide!, by decide!, by decide!⟩

/-- C40 (amended): the bytes in the read buffer are discarded when the response
is written. `_client_response_write` does not depend on the stream of the
client: it releases the buffer and uses the stream for the text of the
response. When the text is fully sent on a keep-alive connection (the response
not chunked, `errno` not `EPIPE`), `_client_write` leaves an empty stream and
the state Init. The event that follows in the state Init does not depend on
the stream either: the next request is parsed from the bytes read after the
reset only. -/
theorem c40_buffer_discarded (cb : callbacks) (e : env) (fuel : Nat) (cl : client)
    (xstr : List Nat) (s : stream) :
    _client_response_write cb { cl with stream := s } xstr = _client_response_write cb cl xstr
    ∧ ((_client_write_bytes cl).1 = true →
        (_client_write_bytes cl).2.stream.bytes_total = (_client_write_bytes cl).2.stream.length →
        cl.flags.HTTP_CHUNKED_RESPONSE = false → cl.flags.HTTP_KEEP_ALIVE = true →
        (_client_write cb cl).stream = {} ∧ (_client_write cb cl).state = HTTP_SESSION_INIT)
    ∧ (cl.state = HTTP_SESSION_INIT →
        _client_on_poller_adapter_event cb e fuel { cl with stream := s }
          = _client_on_poller_adapter_event cb e fuel cl) := by
  refine ⟨rfl, ?_, ?_⟩
  · intro h1 h2 h3 h4
    have hf : (_client_write_bytes cl).2.flags = cl.flags := rfl
    unfold _client_write
    simp only [h1, h2, hf, h3, h4, not_true_eq_false, if_false, ne_eq, if_true,
      Bool.false_eq_true, _client_reset, set_timeout, _stream_free_buffer, _tokens_free_buffer]
    exact ⟨trivial, trivial⟩
  · intro hs
    have hs2 : ({ cl with stream := s } : client).state = HTTP_SESSION_INIT := hs
    have hinit : _client_init { cl with stream := s } = _client_init cl := by
      unfold _client_init set_timeout _stream_free_buffer _tokens_free_buffer
      rfl
    have e1 : ∀ X : client, X.state = HTTP_SESSION_INIT →
        _client_on_poller_adapter_event cb e fuel X
          = (_client_read cb e fuel { _client_init X with state := HTTP_SESSION_READ }).map
              (fun c => (if c.flags.HTTP_END_SESSION then -1 else 0, c)) := by
      intro X hX
      unfold _client_on_poller_adapter_event
      simp only [hX, if_true]
    rw [e1 _ hs2, e1 _ hs, hinit]

/-- C40 (amended): the session `full_write_client`, whose response is sent at
once, is left with an empty stream in the state Init. -/
theorem c40_buffer_discarded_witness :
    ((_client_write no_callbacks full_write_client).stream = {}
      ∧ (_client_write no_callbacks full_write_client).state = HTTP_SESSION_INIT)
    ∧ _client_on_poller_adapter_event (end_callbacks example_env) example_env 8
          { single_client with stream := { buf := some empty_request, length := 27 } }
        = _client_on_poller_adapter_event (end_callbacks example_env) example_env 8
          single_client :=
  ⟨(c40_buffer_discarded no_callbacks example_env 8 full_write_client [] {}).2.1
      (by decide) (by decide) (by decide) (by decide),
    (c40_buffer_discarded (end_callbacks example_env) example_env 8 single_client []
      { buf := some empty_request, length := 27 }).2.2 (by decide)⟩

theorem step_STR_first_more (cl0 : client) (p : parser) (a : Nat) (A L ti : Int) (c : Nat)
    (hs : p.state = HN) (hm : p.meta = M_STR) (ha : 0 < a)
    (hmore : L < (a : Int) + toInt32 (p.content_length - p.body_consumed)) :
    token_parse_step (str_at cl0 p a A L ti false) c =
      ({ index := a, len := L - (a : Int), type := HS_TOK_CHUNK_BODY },
        str_at cl0 { p with state := BD, match_index := 0,
                            body_consumed := p.body_consumed + (L - (a : Int)) }
          a a a a true) := by
  have ha1 : ¬ ((0 : Int) = (a : Int)) := by omega
  simp [token_parse_step, str_at, _transition, _transition_enter, _transition_switch,
    _transition_body, _stream_jump, _stream_jumpall, _stream_emit, _stream_begin_token,
    _stream_anchor, _stream_shift, _stream_consume, _token_start_states, _meta_trigger, hs, hm,
    transitions_HN, hmore, ha1]

theorem step_STR_next_more (cl0 : client) (p : parser) (a : Nat) (L ti : Int) (c : Nat)
    (hs : p.state = BD) (hm : p.meta = M_STR) (ha : 0 < a)
    (hmore : L < (a : Int) + toInt32 (p.content_length - p.body_consumed)) :
    token_parse_step (str_at cl0 p a a L ti false) c =
      ({ index := a, len := L - (a : Int), type := HS_TOK_CHUNK_BODY },
        str_at cl0 { p with body_consumed := p.body_consumed + (L - (a : Int)) }
          a a a a true) := by
  have ha1 : ¬ ((0 : Int) = (a : Int)) := by omega
  conv_rhs => rw [← parser_state_eta p BD hs]
  simp [token_parse_step, str_at, _transition, _transition_enter, _transition_switch,
    _transition_body, _stream_jump, _stream_jumpall, _stream_emit, _stream_begin_token,
    _stream_anchor, _stream_shift, _stream_consume, _token_start_states, _meta_trigger, hs, hm,
    transitions_BD, hmore, ha1]

theorem step_STR_first_done (cl0 : client) (p : parser) (a : Nat) (A L ti : Int) (c : Nat)
    (hs : p.state = HN) (hm : p.meta = M_STR)
    (hfit : (a : Int) + toInt32 (p.content_length - p.body_consumed) ≤ L) :
    token_parse_step (str_at cl0 p a A L ti false) c =
      ({ index := a, len := toInt32 (p.content_length - p.body_consumed),
         type := HS_TOK_CHUNK_BODY },
        str_at cl0 { p with state := BD, match_index := 0, meta := M_SEN, content_length := 0,
                            body_consumed := 0 } a a L 0 true) := by
  have hfit1 : ¬ (L < (a : Int) + toInt32 (p.content_length - p.body_consumed)) := by omega
  simp [token_parse_step, str_at, _transition, _transition_enter, _transition_switch,
    _transition_body, _stream_jump, _stream_emit, _stream_begin_token, _stream_anchor,
    _stream_consume, _token_start_states, _meta_trigger, hs, hm, transitions_HN,
    meta_transitions_at, _meta_transitions, meta_state_e.toNat, HS_META_TYPE_LEN,
    HS_META_NEXT, hfit1]

theorem step_STR_next_done (cl0 : client) (p : parser) (a : Nat) (L ti : Int) (c : Nat)
    (hs : p.state = BD) (hm : p.meta = M_STR)
    (hfit : (a : Int) + toInt32 (p.content_length - p.body_consumed) ≤ L) :
    token_parse_step (str_at cl0 p a a L ti false) c =
      ({ index := a, len := toInt32 (p.content_length - p.body_consumed),
         type := HS_TOK_CHUNK_BODY },
        str_at cl0 { p with meta := M_SEN, content_length := 0, body_consumed := 0 }
          a a L 0 true) := by
  have hfit1 : ¬ (L < (a : Int) + toInt32 (p.content_length - p.body_consumed)) := by omega
  conv_rhs => rw [← parser_state_eta p BD hs]
  simp [token_parse_step, str_at, _transition, _transition_enter, _transition_switch,
    _transition_body, _stream_jump, _stream_emit, _stream_begin_token, _stream_anchor,
    _stream_consume, _token_start_states, _meta_trigger, hs, hm, transitions_BD,
    meta_transitions_at, _meta_transitions, meta_state_e.toNat, HS_META_TYPE_LEN,
    HS_META_NEXT, hfit1]

/-- A call of `_token_parse` in the streaming state with unread bytes whose
first turn of the byte loop emits a token. -/
theorem token_parse_str (cl0 X : client) (p : parser) (a : Nat) (A L ti : Int) (b : Bool)
    (t : token) (hm : p.meta = M_STR) (hL : (a : Int) < L)
    (hstep : token_parse_step (str_at cl0 p a A L ti false) (buf_at cl0.stream.buf a) = (t, X))
    (ht : t.type ≠ HS_TOK_NONE) :
    _token_parse (str_at cl0 p a A L ti b) = some (t, X) := by
  have he := meta_emit_quiet p (by rw [hm]; decide) (by rw [hm]; decide)
  have e1 : (str_at cl0 p a A L ti b).parser = p := rfl
  have e2 : ({ str_at cl0 p a A L ti b with parser := p } : client) = str_at cl0 p a A L ti b :=
    rfl
  unfold _token_parse
  simp only [e1, he, e2, ne_eq, not_true_eq_false, if_false]
  obtain ⟨k, hk⟩ : ∃ k, 2 * ((str_at cl0 p a A L ti b).stream.length
      - (str_at cl0 p a A L ti b).stream.index).toNat + 2 = k + 1 := ⟨_, rfl⟩
  rw [hk]
  have hn : _stream_next (str_at cl0 p a A L ti b).stream
      = (some (buf_at cl0.stream.buf a), (str_at cl0 p a A L ti false).stream) := by
    have : ¬ (L ≤ (a : Int)) := by omega
    simp [_stream_next, str_at, this]
  have e3 : ({ str_at cl0 p a A L ti b with stream := (str_at cl0 p a A L ti false).stream }
      : client) = str_at cl0 p a A L ti false := rfl
  simp only [token_parse_loop, hn, e3, hstep]
  simp [ht]

theorem token_parse_sen (cl : client) (h : cl.parser.meta = M_SEN) :
    _token_parse cl = some ({ type := HS_TOK_CHUNK_BODY },
      { cl with parser := { cl.parser with meta := M_END } }) := by
  simp [_token_parse, _meta_emit_token, h, _meta_trigger, meta_transitions_at,
    _meta_transitions, meta_state_e.toNat, HS_META_TYPE_LEN, HS_META_NEXT]

theorem token_parse_end (cl : client) (h : cl.parser.meta = M_END) :
    _token_parse cl = some ({ type := HS_TOK_REQ_END }, { cl with parser := {} }) := by
  simp [_token_parse, _meta_emit_token, h]

theorem token_bytes_store (B d : List Nat) (a : Nat) (T : token_e) :
    token_bytes (some (buf_store B (a : Int) d))
      { index := (a : Int), len := (d.length : Int), type := T } = d := by
  obtain ⟨pre, hpre⟩ : ∃ pre, pre = (B ++ List.replicate (a - B.length) 0).take a := ⟨_, rfl⟩
  have hl : pre.length = a := by
    rw [hpre, List.length_take, List.length_append, List.length_replicate]
    omega
  have e : buf_store B (a : Int) d = pre ++ (d ++ B.drop (a + d.length)) := by
    simp [buf_store, hpre]
  exact token_bytes_eq _ pre d _ _ _ T e (by rw [hl]) rfl

theorem client_feed_str (cl0 : client) (p : parser) (a : Nat) (A L ti : Int) (b : Bool)
    (d : List Nat) :
    ∃ cl1, client_feed (str_at cl0 p a A L ti b) d
        = str_at cl1 p a A (L + (d.length : Int)) ti b
      ∧ cl1.stream.buf = cl0.stream.buf.map (fun B => buf_store B L d)
      ∧ cl1.server = cl0.server :=
  ⟨{ cl0 with
      state := HTTP_SESSION_READ
      stream := { cl0.stream with
        buf := cl0.stream.buf.map (fun B => buf_store B L d)
        bytes_total := cl0.stream.bytes_total + (d.length : Int) } }, rfl, rfl, rfl⟩

/-- One call of `_token_parse` in the streaming state with `L - a` unread
body bytes, fewer than what is left of the body: CHUNK_BODY for these bytes;
the buffer is cut back to the anchor. -/
theorem pull_more (cl0 : client) (p : parser) (a : Nat) (A L ti : Int) (b : Bool)
    (hst : p.state = HN ∨ (p.state = BD ∧ A = a)) (hm : p.meta = M_STR) (ha : 0 < a)
    (hL : (a : Int) < L) (hhi : p.content_length - p.body_consumed < 2147483648)
    (hmore : L - (a : Int) < p.content_length - p.body_consumed) :
    ∃ p1, _token_parse (str_at cl0 p a A L ti b)
        = some ({ index := a, len := L - (a : Int), type := HS_TOK_CHUNK_BODY },
            str_at cl0 p1 a a a a true)
      ∧ p1.state = BD ∧ p1.meta = M_STR ∧ p1.content_length = p.content_length
      ∧ p1.body_consumed = p.body_consumed + (L - (a : Int)) := by
  have e32 := toInt32_id (p.content_length - p.body_consumed) (by omega) hhi
  rcases hst with hs | ⟨hs, rfl⟩
  · have hstep := step_STR_first_more cl0 p a A L ti (buf_at cl0.stream.buf a) hs hm ha
      (by rw [e32]; omega)
    exact ⟨_, token_parse_str cl0 _ p a A L ti b _ hm hL hstep (by simp), rfl, hm, rfl, rfl⟩
  · have hstep := step_STR_next_more cl0 p a L ti (buf_at cl0.stream.buf a) hs hm ha
      (by rw [e32]; omega)
    exact ⟨_, token_parse_str cl0 _ p a a L ti b _ hm hL hstep (by simp), hs, hm, rfl, rfl⟩

/-- One call of `_token_parse` in the streaming state when the unread bytes
hold all that is left of the body: CHUNK_BODY for what is left, and the meta
FSM passes to `M_SEN`. -/
theorem pull_done (cl0 : client) (p : parser) (a : Nat) (A L ti : Int) (b : Bool)
    (hst : p.state = HN ∨ (p.state = BD ∧ A = a)) (hm : p.meta = M_STR)
    (hlo : 0 < p.content_length - p.body_consumed)
    (hhi : p.content_length - p.body_consumed < 2147483648)
    (hfit : p.content_length - p.body_consumed ≤ L - (a : Int)) :
    ∃ p1, _token_parse (str_at cl0 p a A L ti b)
        = some ({ index := a, len := p.content_length - p.body_consumed,
                  type := HS_TOK_CHUNK_BODY },
            str_at cl0 p1 a a L 0 true)
      ∧ p1.meta = M_SEN := by
  have e32 := toInt32_id (p.content_length - p.body_consumed) (by omega) hhi
  have hL : (a : Int) < L := by omega
  rcases hst with hs | ⟨hs, rfl⟩
  · have hstep := step_STR_first_done cl0 p a A L ti (buf_at cl0.stream.buf a) hs hm
      (by rw [e32]; omega)
    rw [e32] at hstep
    exact ⟨_, token_parse_str cl0 _ p a A L ti b _ hm hL hstep (by simp), rfl⟩
  · have hstep := step_STR_next_done cl0 p a L ti (buf_at cl0.stream.buf a) hs hm
      (by rw [e32]; omega)
    rw [e32] at hstep
    exact ⟨_, token_parse_str cl0 _ p a a L ti b _ hm hL hstep (by simp), rfl⟩

theorem flatten_length_pos : ∀ (ds : List (List Nat)), ds ≠ [] → (∀ d ∈ ds, d ≠ []) →
    0 < ds.flatten.length := by
  intro ds hne hd
  cases ds with
  | nil => exact absurd rfl hne
  | cons d ds =>
    have : d ≠ [] := hd d (by simp)
    have : 0 < d.length := List.length_pos.mpr this
    simp only [List.flatten_cons, List.length_append]
    omega

/-- The pulls of a streamed body for the pieces `ds` that make up what is
left of the body: one CHUNK_BODY per piece, covering the piece; the last pull
leaves the meta FSM in `M_SEN`. -/
theorem stream_pulls_run (a : Nat) (ha : 0 < a) : ∀ (ds : List (List Nat)) (cl0 : client)
    (p : parser) (A ti : Int) (b : Bool) (B : List Nat),
    (p.state = HN ∨ (p.state = BD ∧ A = a)) → p.meta = M_STR → cl0.stream.buf = some B →
    (∀ d ∈ ds, d ≠ []) → ds ≠ [] →
    p.content_length - p.body_consumed = (ds.flatten.length : Int) →
    (ds.flatten.length : Int) < 2147483648 →
    ∃ Xf, stream_pulls (str_at cl0 p a A a ti b) ds = some (ds.map (chunk_of a), Xf)
      ∧ Xf.parser.meta = M_SEN := by
  intro ds
  induction ds with
  | nil => intro _ _ _ _ _ _ _ _ _ _ h; exact absurd rfl h
  | cons d ds ih =>
    intro cl0 p A ti b B hst hm hB hne _ hlen hhi
    have hd : d ≠ [] := hne d (by simp)
    have hdl : 0 < d.length := List.length_pos.mpr hd
    obtain ⟨cl1, hfeed, hbuf, -⟩ := client_feed_str cl0 p a A a ti b d
    rw [hB] at hbuf
    simp only [Option.map_some'] at hbuf
    have hfl : ((d :: ds).flatten.length : Int) = (d.length : Int) + (ds.flatten.length : Int) := by
      simp
    rw [hfl] at hlen hhi
    by_cases hds : ds = []
    · subst hds
      simp only [List.flatten_nil, List.length_nil, Nat.cast_zero, add_zero] at hlen hhi
      obtain ⟨p1, hp, hm1⟩ := pull_done cl1 p a A ((a : Int) + (d.length : Int)) ti b hst hm
        (by omega) (by omega) (by omega)
      rw [hlen] at hp
      refine ⟨str_at cl1 p1 a a ((a : Int) + (d.length : Int)) 0 true, ?_, hm1⟩
      have hb1 : (str_at cl1 p1 a a ((a : Int) + (d.length : Int)) 0 true).stream.buf
          = some (buf_store B (a : Int) d) := hbuf
      simp only [stream_pulls, hfeed, hp, hb1, token_bytes_store, List.map_cons, List.map_nil,
        chunk_of]
    · have hpos := flatten_length_pos ds hds (fun x hx => hne x (by simp [hx]))
      obtain ⟨p1, hp, hs1, hm1, hc1, hj1⟩ := pull_more cl1 p a A ((a : Int) + (d.length : Int))
        ti b hst hm ha (by omega) (by omega) (by omega)
      have hb1 : (str_at cl1 p1 a a a a true).stream.buf = some (buf_store B (a : Int) d) := hbuf
      have hb2 : cl1.stream.buf = some (buf_store B (a : Int) d) := hbuf
      obtain ⟨Xf, hX, hmf⟩ := ih cl1 p1 a a true _ (Or.inr ⟨hs1, rfl⟩) hm1 hb2
        (fun x hx => hne x (by simp [hx])) hds (by rw [hc1, hj1]; omega) (by omega)
      refine ⟨Xf, ?_, hmf⟩
      have e : (a : Int) + (d.length : Int) - (a : Int) = (d.length : Int) := by omega
      rw [e] at hp
      simp only [stream_pulls, hfeed, hp, hX, hb1, token_bytes_store, List.map_cons, chunk_of]

theorem chunk_of_lens (a : Nat) (l : List (List Nat)) :
    ((l.map (chunk_of a)).map (fun r => r.1.len)).sum = (l.flatten.length : Int) := by
  induction l with
  | nil => rfl
  | cons d l ih =>
    simp only [List.map_cons, List.sum_cons, ih, chunk_of, List.flatten_cons, List.length_append,
      Nat.cast_add]

theorem chunk_of_bytes (a : Nat) (l : List (List Nat)) :
    ((l.map (chunk_of a)).map Prod.snd).flatten = l.flatten := by
  induction l with
  | nil => rfl
  | cons d l ih =>
    simp only [List.map_cons, List.flatten_cons, ih, chunk_of]

/-- The two calls of `_token_parse` after the last byte of a streamed body:
the CHUNK_BODY token of length 0 that ends the stream of chunks, then REQ_END,
which leaves the parser zeroed. -/
theorem token_parse_n_sen (X : client) (h : X.parser.meta = M_SEN) :
    token_parse_n 2 X = some ([{ type := HS_TOK_CHUNK_BODY }, { type := HS_TOK_REQ_END }],
      { X with parser := {} }) := by
  have h1 := token_parse_sen X h
  have h2 := token_parse_end { X with parser := { X.parser with meta := M_END } } rfl
  simp only [token_parse_n, h1, h2]

/-- C4.  Take a request line and header lines accepted by the transition
table, with tokens of at most `request_token_max_len` bytes and at most
`request_max_header_count` headers, one of them a header the meta FSM takes
for Content-Length, with the value `N`, `1 ≤ N < 2^31`, and let the test of
`_stream_can_contain` fail for `N` at the LF of the blank line (LARGE).  Let
the `N` body bytes arrive in any way: a first part `d0`, possibly empty, in
the read that brings the end of the headers, and the rest in nonempty pieces
`ds`, one per pull.  Then the calls of `_token_parse` return the tokens of the
head and BODY_STREAM; each pull returns one CHUNK_BODY token that starts at
the first byte after the head and covers exactly the bytes available at that
pull; the two calls after the last body byte return a CHUNK_BODY token of
length 0 and REQ_END.  No token is ERROR, the lengths of the CHUNK_BODY tokens
sum to `N`, and their bytes, concatenated in order, are the body. -/
theorem c4_large_body (srv : server) (m t v : List Nat)
    (hs1 : List (List Nat × List Nat)) (cl : List Nat × List Nat)
    (hs2 : List (List Nat × List Nat)) (body d0 : List Nat) (ds : List (List Nat))
    (hm : token_ok state_e.ST MT m) (ht : token_ok MS TR t) (hv : token_ok TS VN v)
    (lm : (m.length : Int) ≤ srv.spec.request_token_max_len)
    (lt : (t.length : Int) ≤ srv.spec.request_token_max_len)
    (lv : (v.length : Int) ≤ srv.spec.request_token_max_len)
    (h1 : ∀ h ∈ hs1, line_ok srv.spec M_ANY h)
    (hk : token_ok RN HK cl.1) (hd : token_ok HS HV cl.2)
    (lk : (cl.1.length : Int) ≤ srv.spec.request_token_max_len)
    (ld : (cl.2.length : Int) ≤ srv.spec.request_token_max_len)
    (hcls : header_class cl.1 = M_CLV)
    (h2 : ∀ h ∈ hs2, line_ok srv.spec M_SML h)
    (hmax : ((hs1 ++ cl :: hs2).length : Int) ≤ srv.spec.request_max_header_count)
    (hlen : decimal_value cl.2 = body.length) (hB1 : 1 ≤ body.length)
    (hB : (body.length : Int) < 2147483648)
    (hbig : srv.spec.request_buf_max_size
      - ((request_bytes m t v (hs1 ++ cl :: hs2)).length : Int) + 2 < (body.length : Int))
    (hne : ∀ d ∈ ds, d ≠ [])
    (hflat : d0 ++ ds.flatten = body) :
    ∃ X0 Xf Xe,
      token_parse_n ((head_tokens m t v (hs1 ++ cl :: hs2)).length + 1)
          (client_holding srv (request_bytes m t v (hs1 ++ cl :: hs2) ++ d0))
        = some (head_tokens m t v (hs1 ++ cl :: hs2) ++ [{ type := HS_TOK_BODY_STREAM }], X0)
      ∧ body_pulls X0 d0 ds
        = some ((if d0 = [] then ds else d0 :: ds).map
            (chunk_of (request_bytes m t v (hs1 ++ cl :: hs2)).length), Xf)
      ∧ token_parse_n 2 Xf
        = some ([{ type := HS_TOK_CHUNK_BODY }, { type := HS_TOK_REQ_END }], Xe)
      ∧ Xe.parser = {}
      ∧ (((if d0 = [] then ds else d0 :: ds).map
            (chunk_of (request_bytes m t v (hs1 ++ cl :: hs2)).length)).map
              (fun r => r.1.len)).sum = (body.length : Int)
      ∧ (((if d0 = [] then ds else d0 :: ds).map
            (chunk_of (request_bytes m t v (hs1 ++ cl :: hs2)).length)).map
              Prod.snd).flatten = body := by
  obtain ⟨hc, r⟩ := head_run_to_blank srv.spec m t v hs1 cl hs2 hm ht hv lm lt lv h1 hk hd lk ld
    hcls h2 hmax
  rw [hlen] at r
  obtain ⟨seg, hseg⟩ : ∃ seg, seg = m ++ 32 :: (t ++ 32 :: (v ++ 13 :: 10 ::
      (header_block (hs1 ++ cl :: hs2) ++ [13]))) := ⟨_, rfl⟩
  rw [← hseg] at r
  have ebs : request_bytes m t v (hs1 ++ cl :: hs2) = seg ++ [10] := by
    rw [hseg]; simp [request_bytes]
  obtain ⟨rb, hrb⟩ : ∃ rb, rb = request_bytes m t v (hs1 ++ cl :: hs2) := ⟨_, rfl⟩
  rw [← hrb] at ebs hbig ⊢
  obtain ⟨ts, hts⟩ : ∃ ts, ts = head_tokens m t v (hs1 ++ cl :: hs2) := ⟨_, rfl⟩
  rw [← hts] at r ⊢
  have hrl : rb.length = 0 + seg.length + 1 := by rw [ebs]; simp
  have hfl : (if d0 = [] then ds else d0 :: ds).flatten = body := by
    by_cases h : d0 = []
    · rw [if_pos h]; rw [h] at hflat; simpa using hflat
    · rw [if_neg h]; simpa using hflat
  obtain ⟨cl0, hcl0⟩ : ∃ cl0, cl0 = client_holding srv (rb ++ d0) := ⟨_, rfl⟩
  have hb : cl0.stream.buf = some (rb ++ d0) := by rw [hcl0]; rfl
  have hl : cl0.stream.length = ((rb ++ d0).length : Nat) := by rw [hcl0]; rfl
  have hA : cl0.stream.anchor = 0 := by rw [hcl0]; rfl
  have hsp : cl0.server.spec = srv.spec := by rw [hcl0]; rfl
  have hat : cl0 = at_ cl0 (psl state_e.ST M_WFK 0 0) 0 {} false := by rw [hcl0]; rfl
  have hstep := step_HN_large cl0 (psl ER M_SML hc (body.length : Int)) (0 + seg.length) 10 rfl
    rfl (by decide) (by
      rw [hsp]
      show srv.spec.request_buf_max_size - ((0 + seg.length : Nat) : Int) + 1 < (body.length : Int)
      have : ((rb.length : Nat) : Int) = ((0 + seg.length : Nat) : Int) + 1 := by
        rw [hrl]; push_cast; ring
      omega)
  have h := token_parse_n_head_run _ _ _ _ _ _ _ _ r cl0 _ d0 10 _ _ false hsp hb hl
    (by rw [ebs]; simp) hstep (by simp)
  rw [← hat, ← hrl] at h
  obtain ⟨P, hP⟩ : ∃ P : parser, P = { psl ER M_SML hc (body.length : Int) with
      state := HN, match_index := 0, meta := M_STR } := ⟨_, rfl⟩
  rw [← hP] at h
  have hPs : P.state = HN := by rw [hP]
  have hPm : P.meta = M_STR := by rw [hP]
  have hPc : P.content_length = (body.length : Int) := by rw [hP]; rfl
  have hPj : P.body_consumed = 0 := by rw [hP]; rfl
  have hX0 : at_ cl0 P rb.length {} true
      = str_at cl0 P rb.length 0 ((rb.length : Int) + (d0.length : Int)) 0 true := by
    have e : cl0.stream.length = (rb.length : Int) + (d0.length : Int) := by rw [hl]; simp
    simp only [at_, str_at, ← e, ← hA]
  have ha : 0 < rb.length := by omega
  have hbl : (body.length : Int) = (d0.length : Int) + (ds.flatten.length : Int) := by
    rw [← hflat]; simp
  have hdrop : (rb ++ d0).drop rb.length = d0 ++ [] := by simp
  have key : ∃ Xf, body_pulls (at_ cl0 P rb.length {} true) d0 ds
        = some ((if d0 = [] then ds else d0 :: ds).map (chunk_of rb.length), Xf)
      ∧ Xf.parser.meta = M_SEN := by
    rw [hX0]
    by_cases h0 : d0 = []
    · subst h0
      have hds : ds ≠ [] := by
        rintro rfl
        rw [← hflat] at hB1
        simp at hB1
      simp only [List.length_nil, Nat.cast_zero, add_zero] at hbl ⊢
      simp only [body_pulls, if_true]
      exact stream_pulls_run rb.length ha ds cl0 P 0 0 true _ (Or.inl hPs) hPm hb hne hds
        (by rw [hPc, hPj]; omega) (by omega)
    · have hd0 : 0 < d0.length := List.length_pos.mpr h0
      simp only [body_pulls, if_neg h0]
      by_cases hds : ds = []
      · subst hds
        simp only [List.flatten_nil, List.length_nil, Nat.cast_zero, add_zero] at hbl
        obtain ⟨p1, hp, hm1⟩ := pull_done cl0 P rb.length 0
          ((rb.length : Int) + (d0.length : Int)) 0 true (Or.inl hPs) hPm
          (by rw [hPc, hPj]; omega) (by rw [hPc, hPj]; omega) (by rw [hPc, hPj]; omega)
        rw [hPc, hPj, hbl, sub_zero] at hp
        have hb1 : (str_at cl0 p1 rb.length rb.length
            ((rb.length : Int) + (d0.length : Int)) 0 true).stream.buf = some (rb ++ d0) := hb
        refine ⟨str_at cl0 p1 rb.length rb.length ((rb.length : Int) + (d0.length : Int)) 0 true,
          ?_, hm1⟩
        simp only [hp, stream_pulls, hb1, token_bytes_at _ _ _ _ _ hdrop, List.map_cons,
          List.map_nil, chunk_of]
      · have hpos := flatten_length_pos ds hds hne
        obtain ⟨p1, hp, hs1, hm1, hc1, hj1⟩ := pull_more cl0 P rb.length 0
          ((rb.length : Int) + (d0.length : Int)) 0 true (Or.inl hPs) hPm ha (by omega)
          (by rw [hPc, hPj]; omega) (by rw [hPc, hPj]; omega)
        have e : (rb.length : Int) + (d0.length : Int) - (rb.length : Int) = (d0.length : Int) := by
          omega
        rw [e] at hp hj1
        have hb1 : (str_at cl0 p1 rb.length rb.length rb.length rb.length true).stream.buf
            = some (rb ++ d0) := hb
        obtain ⟨Xf, hX, hmf⟩ := stream_pulls_run rb.length ha ds cl0 p1 rb.length rb.length true
          _ (Or.inr ⟨hs1, rfl⟩) hm1 hb hne hds (by rw [hc1, hj1, hPc, hPj]; omega) (by omega)
        refine ⟨Xf, ?_, hmf⟩
        simp only [hp, hX, hb1, token_bytes_at _ _ _ _ _ hdrop, List.map_cons, chunk_of]
  obtain ⟨Xf, hpull, hmf⟩ := key
  rw [← hcl0]
  exact ⟨_, Xf, { Xf with parser := {} }, h, hpull, token_parse_n_sen Xf hmf, rfl,
    by rw [chunk_of_lens, hfl], by rw [chunk_of_bytes, hfl]⟩

theorem large_body_length : large_body_bytes.length = 9000000 := by
  unfold large_body_bytes large_piece0 large_pieces
  rw [List.length_append, List.flatten_cons, List.flatten_cons, List.flatten_nil,
    List.length_append, List.append_nil, List.length_replicate, List.length_replicate,
    List.length_replicate]

/-- Witness of C4: the request `POST /large HTTP/1.1` with the header
`content-length: 9000000` on a server with the default limits; 1000 body bytes
arrive with the head, the others in two pieces. -/
theorem c4_large_body_witness :
    ∃ X0 Xf Xe,
      token_parse_n ((head_tokens (str "POST") (str "/large") (str "HTTP/1.1")
            ([] ++ (str "content-length", str "9000000") :: [])).length + 1)
          (client_holding {} (request_bytes (str "POST") (str "/large") (str "HTTP/1.1")
            ([] ++ (str "content-length", str "9000000") :: []) ++ large_piece0))
        = some (head_tokens (str "POST") (str "/large") (str "HTTP/1.1")
            ([] ++ (str "content-length", str "9000000") :: [])
              ++ [{ type := HS_TOK_BODY_STREAM }], X0)
      ∧ body_pulls X0 large_piece0 large_pieces
        = some ((if large_piece0 = [] then large_pieces else large_piece0 :: large_pieces).map
            (chunk_of (request_bytes (str "POST") (str "/large") (str "HTTP/1.1")
              ([] ++ (str "content-length", str "9000000") :: [])).length), Xf)
      ∧ token_parse_n 2 Xf
        = some ([{ type := HS_TOK_CHUNK_BODY }, { type := HS_TOK_REQ_END }], Xe)
      ∧ Xe.parser = {}
      ∧ (((if large_piece0 = [] then large_pieces else large_piece0 :: large_pieces).map
            (chunk_of (request_bytes (str "POST") (str "/large") (str "HTTP/1.1")
              ([] ++ (str "content-length", str "9000000") :: [])).length)).map
              (fun r => r.1.len)).sum = (large_body_bytes.length : Int)
      ∧ (((if large_piece0 = [] then large_pieces else large_piece0 :: large_pieces).map
            (chunk_of (request_bytes (str "POST") (str "/large") (str "HTTP/1.1")
              ([] ++ (str "content-length", str "9000000") :: [])).length)).map
              Prod.snd).flatten = large_body_bytes :=
  c4_large_body {} (str "POST") (str "/large") (str "HTTP/1.1") []
    (str "content-length", str "9000000") [] large_body_bytes large_piece0 large_pieces
    (by decide) (by decide) (by decide) (by decide) (by decide) (by decide) (by decide)
    (by decide) (by decide) (by decide) (by decide) (by decide) (by decide) (by decide)
    (by rw [large_body_length]; decide) (by rw [large_body_length]; decide)
    (by rw [large_body_length]; decide) (by rw [large_body_length]; decide)
    (by
      intro d hd
      simp only [large_pieces, List.mem_cons, List.mem_singleton, List.not_mem_nil, or_false] at hd
      rcases hd with rfl | rfl <;>
        exact List.ne_nil_of_length_pos (by rw [List.length_replicate]; decide))
    rfl

theorem set_timeout_eq (cl : client) (sec : Int) :
    set_timeout cl sec
      = { cl with pa := { cl.pa with timeout := if sec > 0 then some sec else cl.pa.timeout } } := by
  unfold set_timeout
  split_ifs <;> rfl

/-- A turn of the loop of `_client_read_bytes` in which the read would block:
the loop ends with -1. -/
theorem read_loop_fail (fuel : Nat) (cl : client) (e0 : Int) (rest : List io_result)
    (hin : cl.pa.input = io_result.fail e0 :: rest)
    (hcap : cl.stream.length < cl.stream.capacity) :
    client_read_bytes_loop (fuel + 1) cl
      = some (-1, { cl with pa := { cl.pa with input := rest, errno := e0 } }) := by
  have h1 : ¬ (cl.stream.capacity - cl.stream.length ≤ 0) := by omega
  have h2 : ¬ (cl.stream.length = cl.stream.capacity) := by omega
  have hr : pa_read cl.pa (cl.stream.capacity - cl.stream.length)
      = (-1, [], { cl.pa with input := rest, errno := e0 }) := by
    simp [pa_read, h1, hin]
  unfold client_read_bytes_loop
  simp only [hr]
  simp [h2]

/-- A turn of the loop of `_client_read_bytes` in which the read stores the
bytes `data`. -/
theorem read_loop_turn (fuel : Nat) (cl : client) (bs data : List Nat)
    (pa1 : iwn_poller_adapter)
    (hb : cl.stream.buf = some bs) (hl : cl.stream.length = (bs.length : Int))
    (hd : data ≠ [])
    (hr : pa_read cl.pa (cl.stream.capacity - cl.stream.length)
      = ((data.length : Int), data, pa1)) :
    client_read_bytes_loop (fuel + 1) cl
      = if ((bs ++ data).length : Int) = cl.stream.capacity then
          if cl.stream.capacity ≠ cl.server.spec.request_buf_max_size then
            client_read_bytes_loop fuel
              (after_read cl pa1 (bs ++ data) (cl.stream.bytes_total + (data.length : Int))
                (if cl.stream.capacity * 2 > cl.server.spec.request_buf_max_size
                  then cl.server.spec.request_buf_max_size else cl.stream.capacity * 2))
          else some ((data.length : Int),
            after_read cl pa1 (bs ++ data) (cl.stream.bytes_total + (data.length : Int))
              cl.stream.capacity)
        else client_read_bytes_loop fuel
          (after_read cl pa1 (bs ++ data) (cl.stream.bytes_total + (data.length : Int))
            cl.stream.capacity) := by
  have hpos : (0 : Int) < (data.length : Int) := by
    have := List.length_pos.mpr hd
    omega
  have e1 : ((bs ++ data).length : Int) = (bs.length : Int) + (data.length : Int) := by simp
  rw [hl] at hr
  conv_lhs => unfold client_read_bytes_loop
  simp only [hl, hr, hpos, if_true, hb, Option.map_some', buf_store_end, gt_iff_lt]
  rw [← e1]
  rfl

/-- The loop of `_client_read_bytes` when the adapter holds the bytes `d`,
after which a read would block, and the buffer can take them: the bytes are
behind the bytes `bs` the buffer held, whatever number of reads and of
doublings of the buffer it takes. -/
theorem read_loop_piece (e0 : Int) (rest : List io_result) :
    ∀ (k : Nat) (d : List Nat) (cl : client) (bs : List Nat) (fuel : Nat),
      d.length ≤ k → d ≠ [] → cl.stream.buf = some bs → cl.stream.length = (bs.length : Int) →
      (bs.length : Int) < cl.stream.capacity →
      (bs.length : Int) + (d.length : Int) ≤ cl.server.spec.request_buf_max_size →
      cl.pa.input = io_result.bytes d :: io_result.fail e0 :: rest → d.length + 2 ≤ fuel →
      ∃ (r : Int) (pa1 : iwn_poller_adapter) (cap1 : Int),
        client_read_bytes_loop fuel cl
          = some (r, after_read cl pa1 (bs ++ d) (cl.stream.bytes_total + (d.length : Int)) cap1)
        ∧ r ≠ 0
        ∧ ((bs.length : Int) + (d.length : Int) < cap1
            ∨ (bs.length : Int) + (d.length : Int) = cl.server.spec.request_buf_max_size)
        ∧ (pa1.input = rest
            ∨ ((bs.length : Int) + (d.length : Int) = cl.server.spec.request_buf_max_size
                ∧ pa1.input = io_result.fail e0 :: rest)) := by
  intro k
  induction k with
  | zero =>
    intro d cl bs fuel hk hd
    exact absurd (List.length_eq_zero.mp (by omega)) hd
  | succ k ih =>
    intro d cl bs fuel hk hd hb hl hcap hfit hin hfuel
    obtain ⟨f, rfl⟩ : ∃ f, fuel = f + 1 := ⟨fuel - 1, by omega⟩
    have hdl : 0 < d.length := List.length_pos.mpr hd
    have hroom : ¬ (cl.stream.capacity - cl.stream.length ≤ 0) := by omega
    have e1 : ∀ x : List Nat, ((bs ++ x).length : Int) = (bs.length : Int) + (x.length : Int) := by
      intro x; simp
    by_cases hall : d.length ≤ (cl.stream.capacity - cl.stream.length).toNat
    · -- one read takes the whole piece
      have hr : pa_read cl.pa (cl.stream.capacity - cl.stream.length)
          = ((d.length : Int), d, { cl.pa with input := io_result.fail e0 :: rest }) := by
        simp [pa_read, hroom, hin, hall]
      have hle : (bs.length : Int) + (d.length : Int) ≤ cl.stream.capacity := by omega
      rw [read_loop_turn f cl bs d _ hb hl hd hr, e1]
      obtain ⟨g, rfl⟩ : ∃ g, f = g + 1 := ⟨f - 1, by omega⟩
      by_cases hfull : (bs.length : Int) + (d.length : Int) = cl.stream.capacity
      · rw [if_pos hfull]
        by_cases hmax : cl.stream.capacity = cl.server.spec.request_buf_max_size
        · rw [if_neg (by simpa using hmax)]
          exact ⟨_, _, _, rfl, by omega, Or.inr (by omega), Or.inr ⟨by omega, rfl⟩⟩
        · rw [if_pos hmax]
          obtain ⟨nc, hnc⟩ : ∃ nc, nc = (if cl.stream.capacity * 2
              > cl.server.spec.request_buf_max_size
              then cl.server.spec.request_buf_max_size else cl.stream.capacity * 2) := ⟨_, rfl⟩
          rw [← hnc]
          have hlt : (bs.length : Int) + (d.length : Int) < nc := by
            rw [hnc]
            split_ifs <;> omega
          have h2 := read_loop_fail g
            (after_read cl { cl.pa with input := io_result.fail e0 :: rest } (bs ++ d)
              (cl.stream.bytes_total + (d.length : Int)) nc) e0 rest rfl
            (by show ((bs ++ d).length : Int) < nc; rw [e1]; exact hlt)
          rw [h2]
          exact ⟨-1, _, nc, rfl, by omega, Or.inl hlt, Or.inl rfl⟩
      · rw [if_neg hfull]
        have h2 := read_loop_fail g
          (after_read cl { cl.pa with input := io_result.fail e0 :: rest } (bs ++ d)
            (cl.stream.bytes_total + (d.length : Int)) cl.stream.capacity) e0 rest rfl
          (by show ((bs ++ d).length : Int) < cl.stream.capacity; rw [e1]; omega)
        rw [h2]
        exact ⟨-1, _, cl.stream.capacity, rfl, by omega, Or.inl (by omega), Or.inl rfl⟩
    · -- the read fills the buffer, which is enlarged
      obtain ⟨n, hn⟩ : ∃ n, n = (cl.stream.capacity - cl.stream.length).toNat := ⟨_, rfl⟩
      have hn1 : (n : Int) = cl.stream.capacity - cl.stream.length := by rw [hn]; omega
      have hnd : n < d.length := by omega
      have hn0 : 0 < n := by omega
      have htl : (d.take n).length = n := by rw [List.length_take]; omega
      have hdr : (d.drop n).length = d.length - n := List.length_drop n d
      have hr : pa_read cl.pa (cl.stream.capacity - cl.stream.length)
          = (((d.take n).length : Int), d.take n,
              { cl.pa with input := io_result.bytes (d.drop n) :: io_result.fail e0 :: rest }) := by
        rw [htl]
        simp [pa_read, hroom, hin, hall, ← hn, hn1, hnd]
      rw [read_loop_turn f cl bs (d.take n) _ hb hl
        (by intro h; rw [h] at htl; simp at htl; omega) hr, e1, htl]
      have hfull : (bs.length : Int) + (n : Int) = cl.stream.capacity := by omega
      have hmax : cl.stream.capacity ≠ cl.server.spec.request_buf_max_size := by omega
      rw [if_pos hfull, if_pos hmax]
      obtain ⟨nc, hnc⟩ : ∃ nc, nc = (if cl.stream.capacity * 2
          > cl.server.spec.request_buf_max_size
          then cl.server.spec.request_buf_max_size else cl.stream.capacity * 2) := ⟨_, rfl⟩
      rw [← hnc]
      have hlt : (bs.length : Int) + (n : Int) < nc := by
        rw [hnc]
        split_ifs <;> omega
      obtain ⟨r, pa1, cap1, h1, h2, h3, h4⟩ := ih (d.drop n)
        (after_read cl { cl.pa with input := io_result.bytes (d.drop n) :: io_result.fail e0 :: rest }
          (bs ++ d.take n) (cl.stream.bytes_total + (n : Int)) nc) (bs ++ d.take n) f
        (by omega) (by intro h; rw [h] at hdr; simp at hdr; omega) rfl rfl
        (by show ((bs ++ d.take n).length : Int) < nc; rw [e1, htl]; exact hlt)
        (by show ((bs ++ d.take n).length : Int) + ((d.drop n).length : Int)
              ≤ cl.server.spec.request_buf_max_size
            rw [e1, htl, hdr]; omega)
        rfl (by omega)
      rw [h1]
      have ea : bs ++ d.take n ++ d.drop n = bs ++ d := by
        rw [List.append_assoc, List.take_append_drop]
      have eb : cl.stream.bytes_total + (n : Int) + ((d.drop n).length : Int)
          = cl.stream.bytes_total + (d.length : Int) := by rw [hdr]; omega
      have ec : ((bs ++ d.take n).length : Int) + ((d.drop n).length : Int)
          = (bs.length : Int) + (d.length : Int) := by rw [e1, htl, hdr]; omega
      refine ⟨r, pa1, cap1, ?_, h2, ?_, ?_⟩
      · show some (r, after_read cl pa1 (bs ++ d.take n ++ d.drop n)
            (cl.stream.bytes_total + (n : Int) + ((d.drop n).length : Int)) cap1) = _
        rw [ea, eb]
      · rw [ec] at h3; exact h3
      · rw [ec] at h4; exact h4

theorem flatten_cons_length (d : List Nat) (ds : List (List Nat)) :
    (((d :: ds).flatten.length : Nat) : Int) = (d.length : Int) + (ds.flatten.length : Int) := by
  simp

/-- One readiness event on a connection that reads its request, when the
adapter holds the piece `d`: `_client_read_bytes` stores the piece behind the
bytes of the buffer and the loop of `_client_read` runs on the result. -/
theorem event_piece (cb : callbacks) (e : env) (fuel : Nat) (cl0 : client) (p : parser)
    (tok : token) (b : Bool) (bs d : List Nat) (ds : List (List Nat))
    (hr : ready cl0 bs (d :: ds)) (hd : d ≠ []) (hds : ∀ x ∈ ds, x ≠ []) :
    ∃ cl1, _client_on_poller_adapter_event cb e fuel (at_ cl0 p bs.length tok b)
        = (client_read_loop cb e fuel (at_ cl1 p bs.length tok b)).map
            (fun c => ((if c.flags.HTTP_END_SESSION then -1 else 0 : Int), c))
      ∧ ready cl1 (bs ++ d) ds ∧ cl1.server = cl0.server ∧ cl1.tokens = cl0.tokens := by
  obtain ⟨hb, hl, hst, hfl, hfit, hin⟩ := hr
  obtain ⟨hin, hcap⟩ := hin (by simp)
  rw [flatten_cons_length] at hfit
  obtain ⟨cz, hcz⟩ : ∃ cz : client, cz = set_timeout { cl0 with state := HTTP_SESSION_READ }
      cl0.server.spec.request_timeout_sec := ⟨_, rfl⟩
  rw [set_timeout_eq] at hcz
  have hzb : (at_ cz p bs.length tok b).stream.buf = some bs := by rw [hcz]; exact hb
  have hzl : (at_ cz p bs.length tok b).stream.length = (bs.length : Int) := by rw [hcz]; exact hl
  have hzc : (bs.length : Int) < (at_ cz p bs.length tok b).stream.capacity := by
    rw [hcz]; exact hcap
  have hzf : (bs.length : Int) + (d.length : Int)
      ≤ (at_ cz p bs.length tok b).server.spec.request_buf_max_size := by
    rw [hcz]; show _ ≤ cl0.server.spec.request_buf_max_size; omega
  have hzi : (at_ cz p bs.length tok b).pa.input
      = io_result.bytes d :: io_result.fail EAGAIN :: read_script ds := by
    rw [hcz]; exact hin
  have hfu : d.length + 2 ≤ input_size (at_ cz p bs.length tok b).pa + 2 := by
    simp only [input_size, hzi, List.map_cons, List.sum_cons]
    omega
  obtain ⟨r, pa1, cap1, h1, h2, h3, h4⟩ := read_loop_piece EAGAIN (read_script ds) d.length d
    (at_ cz p bs.length tok b) bs _ (Nat.le_refl _) hd hzb hzl hzc hzf hzi hfu
  have hrb : _client_read_bytes (at_ cz p bs.length tok b)
      = some (true, after_read (at_ cz p bs.length tok b) pa1 (bs ++ d)
          ((at_ cz p bs.length tok b).stream.bytes_total + (d.length : Int)) cap1) := by
    have hi : ¬ ((at_ cz p bs.length tok b).stream.index
        < (at_ cz p bs.length tok b).stream.length) := by
      rw [hzl]; show ¬ ((bs.length : Int) < (bs.length : Int)); omega
    unfold _client_read_bytes
    simp only [hi, if_false, hzb, h1, h2, ne_eq, not_false_eq_true, decide_True]
  have hev : _client_on_poller_adapter_event cb e fuel (at_ cl0 p bs.length tok b)
      = (match _client_read_bytes (at_ cz p bs.length tok b) with
          | none => (none : Option client)
          | some (false, c) =>
            some ({ c with flags := { c.flags with HTTP_END_SESSION := true } } : client)
          | some (true, c) => client_read_loop cb e fuel c).map
        (fun c : client => ((if c.flags.HTTP_END_SESSION then -1 else 0 : Int), c)) := by
    have s1 : (at_ cl0 p bs.length tok b).state = HTTP_SESSION_READ := hst
    unfold _client_on_poller_adapter_event _client_read
    simp only [s1, set_timeout_eq]
    rw [hcz]
    rfl
  rw [hev, hrb]
  have hfl1 : (bs.length : Int) + (d.length : Int) + (ds.flatten.length : Int)
      ≤ cl0.server.spec.request_buf_max_size := by omega
  refine ⟨after_read cz pa1 (bs ++ d) (cl0.stream.bytes_total + (d.length : Int)) cap1, ?_,
    ⟨rfl, rfl, by rw [hcz]; rfl, by rw [hcz]; exact hfl, ?_, ?_⟩, by rw [hcz]; rfl,
    by rw [hcz]; rfl⟩
  · rw [hcz]; rfl
  · show ((bs ++ d).length : Int) + (ds.flatten.length : Int) ≤ cz.server.spec.request_buf_max_size
    rw [hcz]
    show ((bs ++ d).length : Int) + (ds.flatten.length : Int)
      ≤ cl0.server.spec.request_buf_max_size
    simp only [List.length_append, Nat.cast_add]
    omega
  · intro hne
    have hpos := flatten_length_pos ds hne hds
    have hlt : (bs.length : Int) + (d.length : Int)
        < (at_ cz p bs.length tok b).server.spec.request_buf_max_size := by
      rw [hcz]; show _ < cl0.server.spec.request_buf_max_size; omega
    constructor
    · rcases h4 with h | ⟨h, -⟩
      · exact h
      · omega
    · show ((bs ++ d).length : Int) < cap1
      simp only [List.length_append, Nat.cast_add]
      rcases h3 with h | h
      · exact h
      · omega

theorem events_lead_cons (cb : callbacks) (e : env) (fuel : Nat) (R F : client → Prop)
    (cl cl1 : client) (n : Nat) (hR : R cl)
    (h1 : _client_on_poller_adapter_event cb e fuel cl = some (0, cl1))
    (h2 : events_lead cb e fuel R F cl1 n) :
    events_lead cb e fuel R F cl (n + 1) := by
  obtain ⟨⟨clf, a1, a2⟩, a3⟩ := h2
  refine ⟨⟨clf, by simp [run_events, h1, a1], a2⟩, ?_⟩
  intro k hk
  cases k with
  | zero => exact ⟨cl, rfl, hR⟩
  | succ k =>
    obtain ⟨c, b1, b2⟩ := a3 k (by omega)
    exact ⟨c, by simp [run_events, h1, b1], b2⟩

theorem events_lead_last (cb : callbacks) (e : env) (fuel : Nat) (R F : client → Prop)
    (cl clf : client) (hR : R cl)
    (h1 : _client_on_poller_adapter_event cb e fuel cl = some (0, clf)) (h2 : F clf) :
    events_lead cb e fuel R F cl 1 := by
  refine ⟨⟨clf, by simp [run_events, h1], h2⟩, ?_⟩
  intro k hk
  have : k = 0 := by omega
  subst this
  exact ⟨cl, rfl, hR⟩

theorem events_lead_mono (cb : callbacks) (e : env) (fuel : Nat) (R F G : client → Prop)
    (cl : client) (n : Nat) (hFG : ∀ c, F c → G c) (h : events_lead cb e fuel R F cl n) :
    events_lead cb e fuel R G cl n := by
  obtain ⟨⟨clf, a1, a2⟩, a3⟩ := h
  exact ⟨⟨clf, a1, hFG clf a2⟩, a3⟩

/-- The value of an event whose loop of `_client_read` returns the client `X`
with the session not ended. -/
theorem event_of_loop (cb : callbacks) (e : env) (fuel : Nat) (cl Y X : client)
    (hev : _client_on_poller_adapter_event cb e fuel cl
      = (client_read_loop cb e fuel Y).map
          (fun c => ((if c.flags.HTTP_END_SESSION then -1 else 0 : Int), c)))
    (hX : client_read_loop cb e fuel Y = some X) (hf : X.flags.HTTP_END_SESSION = false) :
    _client_on_poller_adapter_event cb e fuel cl = some (0, X) := by
  rw [hev, hX]
  simp [hf]

/-- The body bytes of a request that fits the buffer, arriving in pieces, one
per readiness event: no token is emitted before the last piece, and on the
last piece the BODY token is stored with the index of the first body byte and
the length of the body, and the request handler is called. -/
theorem events_body (e : env) (fuel : Nat) (T0 : tokens_buf) (tsAll : List token) (a : Nat)
    (hc : Int) (B : Nat) (hB : (B : Int) < 2147483648)
    (hplain : ∀ t ∈ tsAll, plain_token t.type) :
    ∀ (ds : List (List Nat)) (cl0 : client) (bs : List Nat) (j : Nat),
      ready cl0 bs ds → bs.length = a + j →
      cl0.tokens = tsAll.foldl tokens_push T0 →
      (∀ d ∈ ds, d ≠ []) → j + ds.flatten.length = B → j < B →
      ds.flatten.length + 2 ≤ fuel →
      events_lead no_callbacks e fuel (still_reading T0)
        (fun clf => clf.state = HTTP_SESSION_NOP
          ∧ clf.tokens = (tsAll ++ [(token.mk a B HS_TOK_BODY)]).foldl
              tokens_push T0
          ∧ clf.stream.buf = some (bs ++ ds.flatten) ∧ clf.parser.meta = M_END
          ∧ clf.flags.HTTP_END_SESSION = false)
        (at_ cl0
          { state := BD, meta := M_BDY, header_count := hc, content_length := B,
            body_consumed := j }
          bs.length { index := a, len := j, type := HS_TOK_BODY } false) ds.length := by
  intro ds
  induction ds with
  | nil =>
    intro cl0 bs j _ _ _ _ hlen hj _
    simp at hlen
    omega
  | cons d ds ih =>
    intro cl0 bs j hr hbl htok hne hlen hj hfuel
    have hd : d ≠ [] := hne d (by simp)
    have hds : ∀ x ∈ ds, x ≠ [] := fun x hx => hne x (by simp [hx])
    have hst : cl0.state = HTTP_SESSION_READ := hr.2.2.1
    obtain ⟨cl1, hev, hr1, -, htk⟩ := event_piece no_callbacks e fuel cl0
      { state := BD, meta := M_BDY, header_count := hc, content_length := B,
        body_consumed := j } { index := a, len := j, type := HS_TOK_BODY } false bs d ds hr hd hds
    obtain ⟨c, rest, rfl⟩ : ∃ c rest, d = c :: rest := by
      cases d with
      | nil => exact absurd rfl hd
      | cons c rest => exact ⟨c, rest, rfl⟩
    obtain ⟨f1, f2, f3, f4, -, -⟩ := id hr1
    have hR : still_reading T0 (at_ cl0
        { state := BD, meta := M_BDY, header_count := hc, content_length := B,
          body_consumed := j } bs.length { index := a, len := j, type := HS_TOK_BODY } false) :=
      ⟨hst, tsAll, htok, hplain⟩
    have hdrop : (bs ++ c :: rest).drop bs.length = c :: rest := by simp
    obtain ⟨g, hg⟩ : ∃ g, fuel = g + 1 := ⟨fuel - 1, by omega⟩
    simp only [List.flatten_cons, List.length_append, List.length_cons] at hlen
    by_cases hlast : j + (rest.length + 1) = B
    · -- the last piece
      have hds0 : ds = [] := flatten_nil_of_nonempty ds hds (by omega)
      subst hds0
      have hstep := step_BD_next_done cl1
        { state := BD, meta := M_BDY, header_count := hc, content_length := B,
          body_consumed := j } bs.length { index := a, len := j, type := HS_TOK_BODY } c rfl rfl rfl
        (by
          rw [f2]
          simp only
          rw [toInt32_id _ (by omega) (by omega)]
          simp [hbl]
          omega)
      have hparse := token_parse_emit_any _ _ (bs ++ c :: rest) _ bs.length _ _ c rest false f1 f2
        hdrop (by simp) (by simp) hstep (by simp)
      have h1 := crl_body no_callbacks e g _ _ _ hparse rfl
        (by simp [no_callbacks, HTTP_SESSION_NOP, HTTP_SESSION_READ])
      rw [← hg] at h1
      have h2 := event_of_loop no_callbacks e fuel _ _ _ hev h1 f4
      refine events_lead_last no_callbacks e fuel _ _ _ _ hR h2 ?_
      refine ⟨rfl, ?_, ?_, rfl, f4⟩
      · show tokens_push cl1.tokens _ = _
        rw [htk, htok, List.foldl_append]
        simp only [List.foldl_cons, List.foldl_nil]
        congr 1
        simp only [token.mk.injEq, and_true, true_and]
        rw [toInt32_id _ (by omega) (by omega)]
        omega
      · show cl1.stream.buf = _
        rw [f1]; simp
    · -- more of the body is to come
      have hstep := step_BD_next_more cl1
        { state := BD, meta := M_BDY, header_count := hc, content_length := B,
          body_consumed := j } bs.length (bs ++ c :: rest).length
        { index := a, len := j, type := HS_TOK_BODY } c rfl rfl rfl f2
        (by
          simp only
          rw [toInt32_id _ (by omega) (by omega)]
          simp [hbl]
          omega)
      have e2 : (j : Int) + (((bs ++ c :: rest).length : Nat) - ((bs.length : Nat) : Int))
          = ((j + (rest.length + 1) : Nat) : Int) := by
        simp only [List.length_append, List.length_cons]; push_cast; omega
      rw [e2] at hstep
      have hparse := token_parse_jumpall _ _ (bs ++ c :: rest) _ _ bs.length _ _ _ c rest false
        f1 f2 hdrop (by simp) (by simp) hstep f2
        ⟨by simp, by simp, by simp, Or.inr (Or.inl rfl)⟩
      have h1 := crl_none no_callbacks e g _ _ hparse
      rw [← hg] at h1
      have h2 := event_of_loop no_callbacks e fuel _ _ _ hev h1 f4
      refine events_lead_cons no_callbacks e fuel _ _ _ _ ds.length hR h2 ?_
      have := ih cl1 (bs ++ c :: rest) (j + (rest.length + 1)) hr1
        (by simp only [List.length_append, List.length_cons]; omega) (by rw [htk, htok]) hds
        (by omega) (by omega)
        (by simp only [List.flatten_cons, List.length_append] at hfuel; omega)
      simpa using this

/-- The bytes of a request that fits the buffer, arriving in pieces divided
anywhere, one per readiness event: while the head runs, its tokens are stored
as the bytes arrive; no BODY token is stored before the last piece; on the
last piece the BODY token is stored with the index of the first body byte and
the length of the body, and the request handler is called. -/
theorem events_head (e : env) (fuel : Nat) (spec : iwn_http_server_spec) (T0 : tokens_buf)
    (hc : Int) (B : Nat) (hB1 : 1 ≤ B) (hB : (B : Int) < 2147483648) (body : List Nat)
    (hbody : body.length = B) :
    ∀ (ds : List (List Nat)) (cl0 : client) (bs seg : List Nat) (p : parser) (tok : token)
      (ts ta : List token),
      head_run spec p bs.length tok seg ts (psl HN M_BDY hc B) {} →
      cl0.server.spec = spec → ready cl0 bs ds →
      cl0.tokens = ta.foldl tokens_push T0 →
      (∀ t ∈ ta, plain_token t.type) → (∀ d ∈ ds, d ≠ []) → ds.flatten = seg ++ body →
      ds.flatten.length + 2 ≤ fuel →
      events_lead no_callbacks e fuel (still_reading T0)
        (fun clf => clf.state = HTTP_SESSION_NOP
          ∧ clf.tokens = ((ta ++ ts)
              ++ [token.mk ((bs.length + seg.length : Nat) : Int) B HS_TOK_BODY]).foldl
              tokens_push T0
          ∧ clf.stream.buf = some (bs ++ ds.flatten) ∧ clf.parser.meta = M_END
          ∧ clf.flags.HTTP_END_SESSION = false)
        (at_ cl0 p bs.length tok false) ds.length := by
  intro ds
  induction ds with
  | nil =>
    intro cl0 bs seg p tok ts ta _ _ _ _ _ _ hflat _
    have := congrArg List.length hflat
    simp at this
    omega
  | cons d ds ih =>
    intro cl0 bs seg p tok ts ta hrun hspec hr htok hta hne hflat hfuel
    have hd : d ≠ [] := hne d (by simp)
    have hds : ∀ x ∈ ds, x ≠ [] := fun x hx => hne x (by simp [hx])
    have hst : cl0.state = HTTP_SESSION_READ := hr.2.2.1
    have hR : still_reading T0 (at_ cl0 p bs.length tok false) := ⟨hst, ta, htok, hta⟩
    obtain ⟨cl1, hev, hr1, hsrv, htk⟩ := event_piece no_callbacks e fuel cl0 p tok false bs d ds
      hr hd hds
    obtain ⟨f1, f2, f3, f4, -, -⟩ := id hr1
    have hsp1 : cl1.server.spec = spec := by rw [hsrv]; exact hspec
    have hflat1 : d ++ ds.flatten = seg ++ body := by simpa using hflat
    have hfl : (d :: ds).flatten.length = d.length + ds.flatten.length := by simp
    rw [hfl] at hfuel
    by_cases hlen : d.length ≤ seg.length
    · -- the piece lies inside the head
      obtain ⟨s1, hs1, hx⟩ := append_split_left d ds.flatten seg body hflat1 hlen
      subst hs1
      obtain ⟨p1, tok1, td, ts1, r1, r2, ets⟩ := head_run_split spec d p bs.length tok s1 ts _ _
        hrun
      have h1 := crl_head_run_end no_callbacks e spec p bs.length tok d td p1 tok1 r1
        cl1 (bs ++ d) fuel false hsp1 f1 f2 (by simp) (by simp) f3 (by omega)
      have e1 : bs.length + d.length = (bs ++ d).length := by simp
      rw [e1] at h1 r2
      have h2 := ih { cl1 with tokens := td.foldl tokens_push cl1.tokens }
        (bs ++ d) s1 p1 tok1 ts1 (ta ++ td) r2 hsp1 hr1
        (by show td.foldl tokens_push cl1.tokens = _
            rw [htk, htok, List.foldl_append])
        (by
          intro t ht
          rcases List.mem_append.mp ht with h | h
          · exact hta t h
          · exact head_run_plain _ _ _ _ _ _ _ _ r1 t h)
        hds hx (by omega)
      have h3 := event_of_loop no_callbacks e fuel _ _ _ hev h1 f4
      refine events_lead_cons no_callbacks e fuel _ _ _ _ ds.length hR h3 ?_
      refine events_lead_mono no_callbacks e fuel _ _ _ _ _ ?_ h2
      rintro c ⟨c1, c2, c3, c4, c5⟩
      refine ⟨c1, ?_, ?_, c4, c5⟩
      · rw [c2, ets]
        simp [Nat.add_assoc]
      · rw [c3]; simp
    · -- the piece ends the head and brings bytes of the body
      obtain ⟨b1, hd1, hb1, hy⟩ := append_split_right d ds.flatten seg body hflat1 (by omega)
      subst hd1
      obtain ⟨c, r, rfl⟩ : ∃ c r, b1 = c :: r := by
        cases b1 with
        | nil => exact absurd rfl hb1
        | cons c r => exact ⟨c, r, rfl⟩
      have hbl : (c :: r).length + ds.flatten.length = B := by
        have := congrArg List.length hy
        simp only [List.length_append] at this
        omega
      have g1 : ({ cl1 with tokens := ts.foldl tokens_push cl1.tokens } : client).stream.buf
          = some (bs ++ (seg ++ c :: r)) := f1
      have g2 : ({ cl1 with tokens := ts.foldl tokens_push cl1.tokens } : client).stream.length
          = ((bs ++ (seg ++ c :: r)).length : Nat) := f2
      have hdrop : (bs ++ (seg ++ c :: r)).drop (bs.length + seg.length) = c :: r := by
        rw [← List.append_assoc, show bs.length + seg.length = (bs ++ seg).length by simp]
        simp
      have hdrop0 : (bs ++ (seg ++ c :: r)).drop bs.length = seg ++ c :: r := by simp
      have hcount := head_run_count _ _ _ _ _ _ _ _ hrun
      have hLen : ((bs ++ (seg ++ c :: r)).length : Nat)
          = bs.length + seg.length + (r.length + 1) := by simp; omega
      simp only [List.length_cons] at hbl
      simp only [List.length_append, List.length_cons] at hfuel
      obtain ⟨g, hg⟩ : ∃ g, fuel = (g + 1) + ts.length := ⟨fuel - 1 - ts.length, by omega⟩
      by_cases hlast : r.length + 1 = B
      · -- the whole body has arrived
        have hds0 : ds = [] := flatten_nil_of_nonempty ds hds (by omega)
        subst hds0
        have hstep := step_BD_first_done
          { cl1 with tokens := ts.foldl tokens_push cl1.tokens }
          (psl HN M_BDY hc B) (bs.length + seg.length) c rfl rfl rfl
          (by
            rw [g2, hLen]
            show ((bs.length + seg.length : Nat) : Int) + toInt32 (B : Int) ≤ _
            rw [toInt32_id _ (by omega) hB]
            push_cast
            omega)
        have hparse := token_parse_emit_any _ _ (bs ++ (seg ++ c :: r)) _
          (bs.length + seg.length) _ _ c r false g1 g2 hdrop (by simp [psl]) (by simp [psl])
          hstep (by simp)
        have h1 := crl_body no_callbacks e g _ _ _ hparse rfl
          (by simp [no_callbacks, HTTP_SESSION_NOP, HTTP_SESSION_READ])
        have h2 := crl_head_run no_callbacks e spec p bs.length tok seg ts _ _ hrun
          cl1 (bs ++ (seg ++ c :: r)) (c :: r) _ (g + 1) false hsp1 f1 f2 hdrop0 f3 h1
        rw [← hg] at h2
        have h3 := event_of_loop no_callbacks e fuel _ _ _ hev h2 f4
        refine events_lead_last no_callbacks e fuel _ _ _ _ hR h3 ?_
        refine ⟨rfl, ?_, ?_, rfl, f4⟩
        · show tokens_push (ts.foldl tokens_push cl1.tokens) _ = _
          rw [htk, htok, List.foldl_append, List.foldl_append]
          simp only [List.foldl_cons, List.foldl_nil]
          have e4 : toInt32 (psl HN M_BDY hc (B : Int)).content_length = (B : Int) :=
            toInt32_id _ (Int.natCast_nonneg _) hB
          rw [e4]
        · show cl1.stream.buf = _
          rw [f1]; simp
      · -- more of the body is to come
        have hstep := step_BD_first_more
          { cl1 with tokens := ts.foldl tokens_push cl1.tokens }
          (psl HN M_BDY hc B) (bs.length + seg.length) (bs ++ (seg ++ c :: r)).length c
          rfl rfl rfl g2
          (by
            rw [hLen]
            show _ < ((bs.length + seg.length : Nat) : Int) + toInt32 (B : Int)
            rw [toInt32_id _ (by omega) hB]
            push_cast
            omega)
        have e2 : (((bs ++ (seg ++ c :: r)).length : Nat) : Int) - ((bs.length + seg.length : Nat) : Int)
            = ((r.length + 1 : Nat) : Int) := by
          rw [hLen]; push_cast; omega
        rw [e2] at hstep
        have hparse := token_parse_jumpall _ _ (bs ++ (seg ++ c :: r)) _ _
          (bs.length + seg.length) _ _ _ c r false g1 g2 hdrop (by simp [psl]) (by simp [psl])
          hstep g2 ⟨by simp [psl], by simp [psl], by simp [psl], Or.inr (Or.inl rfl)⟩
        have h1 := crl_none no_callbacks e g _ _ hparse
        have h2 := crl_head_run no_callbacks e spec p bs.length tok seg ts _ _ hrun
          cl1 (bs ++ (seg ++ c :: r)) (c :: r) _ (g + 1) false hsp1 f1 f2 hdrop0 f3 h1
        rw [← hg] at h2
        have h3 := event_of_loop no_callbacks e fuel _ _ _ hev h2 f4
        have hbody := events_body e fuel T0 (ta ++ ts) (bs.length + seg.length) hc B hB
          (by
            intro t ht
            rcases List.mem_append.mp ht with h | h
            · exact hta t h
            · exact head_run_plain _ _ _ _ _ _ _ _ hrun t h)
          ds (anch { cl1 with tokens := ts.foldl tokens_push cl1.tokens } (bs.length + seg.length))
          (bs ++ (seg ++ c :: r)) (r.length + 1) hr1 hLen
          (by show ts.foldl tokens_push cl1.tokens = _
              rw [htk, htok, List.foldl_append])
          hds (by omega) (by omega) (by omega)
        refine events_lead_cons no_callbacks e fuel _ _ _ _ ds.length hR h3 ?_
        refine events_lead_mono no_callbacks e fuel _ _ _ _ _ ?_ hbody
        rintro x ⟨c1, c2, c3, c4, c5⟩
        refine ⟨c1, c2, ?_, c4, c5⟩
        rw [c3]; simp

/-- The first event on a new connection does what an event does on the client
whose read buffer is already allocated. -/
theorem first_event (cb : callbacks) (e : env) (fuel : Nat) (srv : server)
    (pa : iwn_poller_adapter) :
    _client_on_poller_adapter_event cb e fuel (client_accepted srv pa)
      = _client_on_poller_adapter_event cb e fuel (client_first_read srv pa) := by
  have s1 : (client_accepted srv pa).state = HTTP_SESSION_INIT := rfl
  have s2 : (client_first_read srv pa).state = HTTP_SESSION_READ := rfl
  have s3 : ¬ (HTTP_SESSION_READ = HTTP_SESSION_INIT) := by decide
  have hrb : _client_read_bytes (set_timeout
        { _client_init (client_accepted srv pa) with state := HTTP_SESSION_READ }
        (_client_init (client_accepted srv pa)).server.spec.request_timeout_sec)
      = _client_read_bytes (set_timeout
        { client_first_read srv pa with state := HTTP_SESSION_READ }
        (client_first_read srv pa).server.spec.request_timeout_sec) := by
    simp only [set_timeout_eq]
    unfold _client_read_bytes
    simp only [_client_init, client_first_read, client_accepted, _tokens_free_buffer,
      _stream_free_buffer, set_timeout_eq]
    rfl
  unfold _client_on_poller_adapter_event _client_read
  simp only [s1, s2, s3, if_true, if_false, hrb]

theorem run_events_first (cb : callbacks) (e : env) (fuel : Nat) (srv : server)
    (pa : iwn_poller_adapter) (k : Nat) :
    run_events cb e fuel (k + 1) (client_accepted srv pa)
      = run_events cb e fuel (k + 1) (client_first_read srv pa) := by
  simp only [run_events, first_event]

theorem client_first_read_facts (srv : server) (pa : iwn_poller_adapter) :
    (client_first_read srv pa).server = srv
    ∧ (client_first_read srv pa).tokens = { buf := some [], capacity := 32, size := 0 }
    ∧ (client_first_read srv pa).flags = { HTTP_AUTOMATIC := true }
    ∧ (client_first_read srv pa).parser = {}
    ∧ (client_first_read srv pa).pa.input = pa.input := by
  simp only [client_first_read, _client_init, set_timeout_eq]
  refine ⟨?_, ?_, ?_, ?_, ?_⟩ <;> trivial

/-- C2 (amended).  Take a request with a request line, header lines that are
neither Content-Length nor Transfer-Encoding, a header line whose name the
meta FSM takes for Content-Length with the value `B` (`1 <= B < 2^31`),
further header lines, the blank line and `B` body bytes; let every token of
the head be at most `request_token_max_len` bytes long, the header lines be
at most `request_max_header_count`, and let the whole request, head and body,
be at most `request_buf_max_size` bytes long, so that the read buffer can
hold it (such a `B` passes the test of `_stream_can_contain`: SMALL).  The
request arrives on a new connection of a server with a positive
`request_buf_size`, divided in any way into nonempty pieces, one per
readiness event: at each event the reads of `_client_read_bytes` find the
piece and then would block.  Then the events return with the session going
on; before the last piece has arrived no BODY token is stored and the handler
has not been called; with the last piece the token array is the tokens of the
head followed by exactly one BODY token whose index is the offset of the first
body byte and whose len is `B`, the request handler is called,
`iwn_http_request_body` is a view of exactly the body bytes, and the next call
of `_token_parse` returns REQ_END. -/
theorem c2_body_in_buffer (srv : server) (e : env) (m t v : List Nat)
    (hs1 : List (List Nat × List Nat)) (cl : List Nat × List Nat)
    (hs2 : List (List Nat × List Nat)) (body : List Nat) (ds : List (List Nat)) (fuel : Nat)
    (hm : token_ok state_e.ST MT m) (ht : token_ok MS TR t) (hv : token_ok TS VN v)
    (lm : (m.length : Int) ≤ srv.spec.request_token_max_len)
    (lt : (t.length : Int) ≤ srv.spec.request_token_max_len)
    (lv : (v.length : Int) ≤ srv.spec.request_token_max_len)
    (h1 : ∀ h ∈ hs1, line_ok srv.spec M_ANY h)
    (hk : token_ok RN HK cl.1) (hd : token_ok HS HV cl.2)
    (lk : (cl.1.length : Int) ≤ srv.spec.request_token_max_len)
    (ld : (cl.2.length : Int) ≤ srv.spec.request_token_max_len)
    (hcls : header_class cl.1 = M_CLV)
    (h2 : ∀ h ∈ hs2, line_ok srv.spec M_SML h)
    (hmax : ((hs1 ++ cl :: hs2).length : Int) ≤ srv.spec.request_max_header_count)
    (hlen : decimal_value cl.2 = body.length) (hB1 : 1 ≤ body.length)
    (hB : (body.length : Int) < 2147483648)
    (hbuf : 0 < srv.spec.request_buf_size)
    (hfit : ((request_bytes m t v (hs1 ++ cl :: hs2)).length : Int) + (body.length : Int)
      ≤ srv.spec.request_buf_max_size)
    (hne : ∀ d ∈ ds, d ≠ [])
    (hflat : ds.flatten = request_bytes m t v (hs1 ++ cl :: hs2) ++ body)
    (hfuel : ds.flatten.length + 2 ≤ fuel) :
    (∃ clf, run_events no_callbacks e fuel ds.length
          (client_accepted srv { input := read_script ds }) = some clf
        ∧ clf.state = HTTP_SESSION_NOP
        ∧ clf.flags.HTTP_END_SESSION = false
        ∧ clf.tokens.buf = some (head_tokens m t v (hs1 ++ cl :: hs2)
            ++ [token.mk ((request_bytes m t v (hs1 ++ cl :: hs2)).length : Nat) body.length
                  HS_TOK_BODY])
        ∧ (iwn_http_request_body clf).bytes = body
        ∧ (_token_parse clf).map Prod.fst = some { type := HS_TOK_REQ_END })
    ∧ (∀ k, k < ds.length →
        ∃ cl1, run_events no_callbacks e fuel k
            (client_accepted srv { input := read_script ds }) = some cl1
          ∧ cl1.state = (if k = 0 then HTTP_SESSION_INIT else HTTP_SESSION_READ)
          ∧ ∀ tok ∈ cl1.tokens.buf.getD [], tok.type ≠ HS_TOK_BODY) := by
  obtain ⟨hc, r⟩ := head_run_small srv.spec m t v hs1 cl hs2 hm ht hv lm lt lv h1 hk hd lk ld hcls
    h2 hmax (by rw [hlen]; omega) (by rw [hlen]; omega)
  rw [hlen] at r
  have hplain := head_run_plain _ _ _ _ _ _ _ _ r
  obtain ⟨pa, hpa⟩ : ∃ pa : iwn_poller_adapter, pa = { input := read_script ds } := ⟨_, rfl⟩
  rw [← hpa]
  obtain ⟨T0, hT0⟩ : ∃ T0 : tokens_buf, T0 = { buf := some [], capacity := 32, size := 0 } :=
    ⟨_, rfl⟩
  have hfl : (ds.flatten.length : Int)
      = ((request_bytes m t v (hs1 ++ cl :: hs2)).length : Int) + (body.length : Int) := by
    rw [hflat]; simp
  obtain ⟨q1, q2, q3, q4, q5⟩ := client_first_read_facts srv pa
  have hready : ready (client_first_read srv pa) [] ds := by
    refine ⟨rfl, rfl, rfl, by rw [q3], ?_, ?_⟩
    · rw [q1]
      simp only [List.length_nil, Nat.cast_zero, zero_add]
      omega
    · intro _
      refine ⟨?_, hbuf⟩
      rw [q5, hpa]
  have key := events_head e fuel srv.spec T0 hc body.length hB1 hB
    body rfl ds (client_first_read srv pa) [] (request_bytes m t v (hs1 ++ cl :: hs2))
    (psl state_e.ST M_WFK 0 0) {} (head_tokens m t v (hs1 ++ cl :: hs2)) [] r (by rw [q1]) hready
    (by rw [hT0, q2]; rfl) (by simp) hne hflat hfuel
  have hat : at_ (client_first_read srv pa) (psl state_e.ST M_WFK 0 0) ([] : List Nat).length {}
      false = client_first_read srv pa := by
    have e0 : psl state_e.ST M_WFK 0 0 = (client_first_read srv pa).parser := by rw [q4]; rfl
    rw [e0]
    rfl
  rw [hat] at key
  obtain ⟨⟨clf, a1, a2, a3, a4, a5, a7⟩, a6⟩ := key
  have hT0b : T0.buf = some [] := by rw [hT0]
  have hT0s : T0.size = (([] : List token).length : Nat) := by rw [hT0]; rfl
  obtain ⟨n, hn⟩ : ∃ n, ds.length = n + 1 := by
    cases ds with
    | nil => simp at hfl; omega
    | cons d ds => exact ⟨ds.length, rfl⟩
  refine ⟨⟨clf, ?_, a2, a7, ?_, ?_, ?_⟩, ?_⟩
  · rw [hn, run_events_first, ← hn]; exact a1
  · rw [a3]
    have := (tokens_foldl_buf (([] ++ head_tokens m t v (hs1 ++ cl :: hs2))
      ++ [token.mk (([] : List Nat).length + (request_bytes m t v (hs1 ++ cl :: hs2)).length : Nat)
            body.length HS_TOK_BODY]) _ [] hT0b hT0s).1
    simpa using this
  · obtain ⟨b1, b2⟩ := tokens_foldl_buf (([] ++ head_tokens m t v (hs1 ++ cl :: hs2))
      ++ [token.mk (([] : List Nat).length + (request_bytes m t v (hs1 ++ cl :: hs2)).length : Nat)
            body.length HS_TOK_BODY]) _ [] hT0b hT0s
    rw [← a3] at b1 b2
    have hg := token_get_string_first clf HS_TOK_BODY (head_tokens m t v (hs1 ++ cl :: hs2)) []
      (token.mk (([] : List Nat).length + (request_bytes m t v (hs1 ++ cl :: hs2)).length : Nat)
        body.length HS_TOK_BODY)
      (by rw [b1]; simp) (by rw [b2]; simp)
      (fun x hx => plain_not_body _ (hplain x hx)) rfl
    unfold iwn_http_request_body
    rw [hg]
    simp [iwn_http_val.bytes, stream_ptr, a4, hflat]
  · rw [token_parse_req_end clf a5]
    rfl
  · intro k hk
    cases k with
    | zero =>
      refine ⟨_, rfl, rfl, ?_⟩
      intro tok htok
      simp [client_accepted] at htok
    | succ k =>
      obtain ⟨cl1, c1, c2, ta, c3, c4⟩ := a6 (k + 1) hk
      refine ⟨cl1, by rw [run_events_first]; exact c1, by simpa using c2, ?_⟩
      have := (tokens_foldl_buf ta _ [] hT0b hT0s).1
      rw [c3, this]
      intro tok htok
      exact plain_not_body _ (c4 tok (by simpa using htok))

/-- Witness of C2 (amended): the request `POST /echo HTTP/1.1` with the
headers `Host: x` and `content-length: 5` and the body `hello`, arriving in
the four pieces `echo_pieces` on a new connection of a server with the default
configuration. -/
theorem c2_body_in_buffer_witness :
    (∃ clf, run_events no_callbacks example_env 64 echo_pieces.length
          (client_accepted {} { input := read_script echo_pieces }) = some clf
        ∧ clf.state = HTTP_SESSION_NOP
        ∧ clf.flags.HTTP_END_SESSION = false
        ∧ clf.tokens.buf = some (head_tokens (str "POST") (str "/echo") (str "HTTP/1.1")
              ([(str "Host", str "x")] ++ (str "content-length", str "5") :: [])
            ++ [token.mk ((request_bytes (str "POST") (str "/echo") (str "HTTP/1.1")
                  ([(str "Host", str "x")] ++ (str "content-length", str "5") :: [])).length : Nat)
                  (str "hello").length HS_TOK_BODY])
        ∧ (iwn_http_request_body clf).bytes = str "hello"
        ∧ (_token_parse clf).map Prod.fst = some { type := HS_TOK_REQ_END })
    ∧ (∀ k, k < echo_pieces.length →
        ∃ cl1, run_events no_callbacks example_env 64 k
            (client_accepted {} { input := read_script echo_pieces }) = some cl1
          ∧ cl1.state = (if k = 0 then HTTP_SESSION_INIT else HTTP_SESSION_READ)
          ∧ ∀ tok ∈ cl1.tokens.buf.getD [], tok.type ≠ HS_TOK_BODY) :=
  c2_body_in_buffer {} example_env (str "POST") (str "/echo") (str "HTTP/1.1")
    [(str "Host", str "x")] (str "content-length", str "5") [] (str "hello") echo_pieces 64
    (by decide) (by decide) (by decide) (by decide) (by decide) (by decide) (by decide)
    (by decide) (by decide) (by decide) (by decide) (by decide) (by decide) (by decide)
    (by decide) (by decide) (by decide) (by decide) (by decide) (by decide) (by decide)
    (by decide)

end Iwnet
